import Mathlib

/-!
# Storage reorganizer (`main.go`): shallow embedding and verified properties

The Go program rewrites the storage of a contract (a map from 32-byte slot keys to
32-byte slot values) under a list of reorganization directives and a type dictionary.

Modelling decisions

* A slot *value* (`common.Hash` used as map value) is a vector of 32 bytes, index 0 first,
  exactly as the Go array `[32]byte`.
* A slot *key* (`common.Hash` used as map key, or as `ReorgInfo.PrevSlot`) is represented by
  the natural number `key.Big()`.  `common.BytesToHash (x.Bytes())` and `common.BigToHash x`
  keep the low 32 bytes of a non-negative integer `x`, which is `x % 2 ^ 256`.
* `uint64` values are naturals; sums that can wrap are reduced `% 2 ^ 64`.
* `crypto.Keccak256` is an external function and is a parameter `keccak : Nat → Nat` on keys.
* Go maps are association lists without duplicate keys (`AList`).
* The methods of `StorageReorganizer` read `dataTypes` and `commitedStorage` (parameters `D`
  and `c`) and write only `modifiedStorage`, which is threaded as explicit state.
* That reading is justified against a second embedding of the same methods over the whole
  program state, `StorageReorganizer`, in which maps are held by reference in a `Heap` and
  two fields may name one map: the two embeddings agree when `modifiedStorage` is a map of
  its own (`Reorganize_sim`).
* The recursion between `ReorganizeInplace` and `ReorganizeDynamicArray`, and the two loops
  that walk a base chain, need not terminate in Go; they take a budget `fuel`.
* The laws on whole images (identity transform, round trip) are stated over `Layout`, the
  relation between a directive and the byte moves it stands for; the rewriters are shown to
  make exactly these moves (`Layout_sound`).
-/

namespace StorageReorg

deriving instance DecidableEq for Except

/-- One byte of a slot value. -/
abbrev Byte := Fin 256

/-- A slot value, `common.Hash` as `[32]byte`. -/
abbrev Hash := Mathlib.Vector Byte 32

/-- Number of slot keys, `2 ^ 256`. -/
abbrev slotModulus : Nat := 2 ^ 256

/-- Number of `uint64` values. -/
abbrev u64 : Nat := 2 ^ 64

/-- The all-zero value `common.Hash{}`. -/
def zeroHash : Hash := Mathlib.Vector.replicate 32 0

/-- The method `Hash.Big`: the big-endian integer held by the 32 bytes. -/
def Hash.Big (h : Hash) : Nat :=
  h.toList.foldl (fun acc b => acc * 256 + b.val) 0

/-- The function `common.BigToHash` on a non-negative integer: its low 32 bytes, big-endian. -/
def BigToHash (n : Nat) : Hash :=
  Mathlib.Vector.ofFn (fun i : Fin 32 => ⟨(n / 256 ^ (31 - i.val)) % 256, Nat.mod_lt _ (by decide)⟩)

/-- A Go `map[common.Hash]common.Hash`. -/
abbrev StorageMap := AList (fun _ : Nat => Hash)

/-- Two maps are equal when their entry lists are; this instance evaluates. -/
instance instDecidableEqStorageMap : DecidableEq StorageMap := fun a b =>
  decidable_of_iff (a.entries = b.entries) ⟨AList.ext, fun h => congrArg AList.entries h⟩

/-- Map read `m[key]` with the presence flag. -/
def StorageMap.get? (m : StorageMap) (key : Nat) : Option Hash :=
  AList.lookup key m

/-- Map write `m[key] = val`. -/
def StorageMap.set (m : StorageMap) (key : Nat) (val : Hash) : StorageMap :=
  AList.insert key val m

/-- Map removal `delete(m, key)`. -/
def StorageMap.delete (m : StorageMap) (key : Nat) : StorageMap :=
  AList.erase key m

/-- Build a map from a list of entries, the first entry of a key winning. -/
def StorageMap.ofList (l : List (Nat × Hash)) : StorageMap :=
  List.toAList (l.map (fun p => (⟨p.1, p.2⟩ : Sigma (fun _ : Nat => Hash))))

/-- The struct `ReorgInfo`. -/
structure ReorgInfo where
  /-- the Go field `Type` -/
  TypeName : String
  PrevSlot : Nat
  NewSlot : Nat
  PrevOffset : Nat
  NewOffset : Nat
deriving DecidableEq, Repr

/-- The struct `Member`. -/
structure Member where
  PrevOffset : Nat
  NewOffset : Nat
  PrevSlot : Nat
  NewSlot : Nat
  /-- the Go field `Type` -/
  TypeName : String
deriving DecidableEq, Repr

/-- The struct `DataType`. -/
structure DataType where
  /-- the Go field `Type` -/
  TypeName : String
  Base : String
  Encoding : String
  PrevNumberOfBytes : Nat
  NewNumberOfBytes : Nat
  Members : List Member
deriving DecidableEq, Repr

/-- The zero value of `DataType`, what a Go map read of an absent key gives. -/
def DataType.zero : DataType := ⟨"", "", "", 0, 0, []⟩

/-- The field `dataTypes map[string]DataType`; only ever read by key. -/
abbrev Dict := String → Option DataType

/-- The loop of `Init`: `s.dataTypes[dataType.Type] = dataType` for each descriptor in order. -/
def Init (dataTypes : List DataType) : Dict :=
  dataTypes.foldl (fun D d => fun t => if t = d.TypeName then some d else D t) (fun _ => none)

/-- Outcome of a method that returns `error` and mutates state of type `σ`. -/
inductive Res (σ : Type) where
  /-- returned `nil` -/
  | ok (s : σ)
  /-- returned `errors.New msg`; `s` is the state at that moment -/
  | err (msg : String) (s : σ)
  /-- run-time panic: index out of range or integer division by zero -/
  | panic
  /-- the budget ran out: the Go code had not returned within it -/
  | outOfFuel
deriving DecidableEq

/-- The property `P` holds of the state a method left when it returned, with `nil` or with
an error; nothing is said of a panic or of an exhausted budget. -/
def Res.whenReturned {σ : Type} (r : Res σ) (P : σ → Prop) : Prop :=
  match r with
  | .ok s => P s
  | .err _ s => P s
  | .panic => True
  | .outOfFuel => True

/-- Decide `Res.whenReturned` by cases on the outcome. -/
instance Res.decidableWhenReturned {σ : Type} (r : Res σ) (P : σ → Prop) [DecidablePred P] :
    Decidable (r.whenReturned P) :=
  match r with
  | .ok s => inferInstanceAs (Decidable (P s))
  | .err _ s => inferInstanceAs (Decidable (P s))
  | .panic => isTrue trivial
  | .outOfFuel => isTrue trivial

/-- The method `DummyStateDB.SetState`. -/
def SetState (st : StorageMap) (key : Nat) (val : Hash) : StorageMap :=
  if val = zeroHash then st.delete key else st.set key val

/-- The method `DummyStateDB.DeleteKeysFromStorage`. -/
def DeleteKeysFromStorage (st : StorageMap) (keys : List Nat) : StorageMap :=
  keys.foldl (fun acc key => SetState acc key zeroHash) st

/-- The method `GetCommitedState`. -/
def GetCommitedState (c : StorageMap) (key : Nat) : Hash :=
  match c.get? key with
  | none => zeroHash
  | some v => v

/-- The method `GetModifiedState`. -/
def GetModifiedState (m : StorageMap) (key : Nat) : Hash :=
  match m.get? key with
  | none => zeroHash
  | some v => v

/-- The method `SetModifiedState`. -/
def SetModifiedState (m : StorageMap) (key : Nat) (val : Hash) : StorageMap :=
  m.set key val

/-- The method `IsStruct`. -/
def IsStruct (D : Dict) (dataType : String) : Except String Bool :=
  match D dataType with
  | some d => if d.Members.length = 0 then .ok false else .ok true
  | none => .error "Type not found"

/-- The method `IsNested`. -/
def IsNested (D : Dict) (dataType : String) : Except String Bool :=
  match D dataType with
  | some d =>
    if d.Base = "" then
      (if d.Members.length = 0 then .ok false else .ok true)
    else .ok true
  | none => .error "Type not found"

/-- The method `IsFlat`. -/
def IsFlat (D : Dict) (dataType : String) : Except String Bool :=
  match D dataType with
  | some d => if d.Base = "" then .ok true else .ok false
  | none => .error "Type not found"

/-- The method `IsEncodingInplace`. -/
def IsEncodingInplace (D : Dict) (dataType : String) : Except String Bool :=
  match D dataType with
  | some d => if d.Encoding = "inplace" then .ok true else .ok false
  | none => .error "Type not found"

/-- The method `IsEncodingDynamicArray`. -/
def IsEncodingDynamicArray (D : Dict) (dataType : String) : Except String Bool :=
  match D dataType with
  | some d => if d.Encoding = "dynamic_array" then .ok true else .ok false
  | none => .error "Type not found"

/-- The method `IsEncodingBytes`. -/
def IsEncodingBytes (D : Dict) (dataType : String) : Except String Bool :=
  match D dataType with
  | some d => if d.Encoding = "bytes" then .ok true else .ok false
  | none => .error "Type not found"

/-- The method `GetNumberOfBytes`. -/
def GetNumberOfBytes (D : Dict) (typeName : String) : Except String (Nat × Nat) :=
  match D typeName with
  | some d => .ok (d.PrevNumberOfBytes, d.NewNumberOfBytes)
  | none => .error "Type not found"

/-- The method `ExtractUntilInplace`: `none` when the walk has not returned within `fuel`
steps, otherwise the Go result `(type, encoding, found)` or the error. -/
def ExtractUntilInplace (D : Dict) : Nat → String → Option (Except String (String × String × Bool))
  | 0, _ => none
  | fuel + 1, curType =>
    match D curType with
    | some d =>
      if d.Base = "" then some (.ok (d.TypeName, d.Encoding, false))
      else if d.Encoding ≠ "inplace" then some (.ok (d.TypeName, d.Encoding, true))
      else ExtractUntilInplace D fuel d.Base
    | none => some (.error "Type not found")

/-- The method `ContainsStruct`: `none` when the walk has not returned within `fuel` steps,
otherwise the Go result `(found, type)` or the error. -/
def ContainsStruct (D : Dict) : Nat → String → Option (Except String (Bool × String))
  | 0, _ => none
  | fuel + 1, curType =>
    match D curType with
    | some d =>
      if d.Members.length ≠ 0 then some (.ok (true, curType))
      else if d.Base = "" then some (.ok (false, ""))
      else ContainsStruct D fuel d.Base
    | none => some (.error "Type not found")

/-- The conversion `int(x)` of a `uint64` on a 64-bit platform. -/
def toInt64 (x : Nat) : Int :=
  if x % u64 < 2 ^ 63 then ((x % u64 : Nat) : Int) else ((x % u64 : Nat) : Int) - (u64 : Int)

/-- Wrap an integer into the `int64` range (two's complement). -/
def wrapInt64 (x : Int) : Int :=
  ((x + 2 ^ 63) % (2 ^ 64)) - 2 ^ 63

/-- A counted loop `for i := start; ...; i++ { if err := body(i); err != nil { return err } }`
that runs `n` more times and leaves at the first outcome other than `nil`. -/
def forLoop {σ : Type} (body : Nat → σ → Res σ) : Nat → Nat → σ → Res σ
  | 0, _, s => .ok s
  | n + 1, i, s =>
    match body i s with
    | .ok s' => forLoop body n (i + 1) s'
    | r => r

/-- The head copy `for i := 0; i < n; i++ { newSlot[i] = prevSlot[i] }` with `count`
iterations left at index `i`; `none` is the index-out-of-range panic. -/
def copyHeadLoop (prevSlot : Hash) : Nat → Nat → Hash → Option Hash
  | 0, _, newSlot => some newSlot
  | count + 1, i, newSlot =>
    if h : i < 32 then copyHeadLoop prevSlot count (i + 1) (newSlot.set ⟨i, h⟩ (prevSlot.get ⟨i, h⟩))
    else none

/-- The head copy for a width `n : uint64`: the bound is `int(n)`, so a width of `2 ^ 63` or
more gives a negative bound and no iteration. -/
def copyHead (n : Nat) (prevSlot newSlot : Hash) : Option Hash :=
  copyHeadLoop prevSlot (toInt64 n).toNat 0 newSlot

/-- Byte position `31 - (offset % 32)` inside a slot. -/
def bytePos (offset : Nat) : Fin 32 :=
  ⟨31 - offset % 32, by omega⟩

/-- Key of the slot that holds byte `offset` of a region rooted at slot `slot`:
`slot + offset / 32`, reduced as `common.BytesToHash` does. -/
def slotAt (slot offset : Nat) : Nat :=
  (offset / 32 + slot) % slotModulus

/-- Byte `k` of the region rooted at (`slot`, `offset`) in the store read by `read`: the byte
at position `31 - (offset + k) % 32` of slot `slot + (offset + k) / 32`. -/
def regionByte (read : Nat → Hash) (slot offset k : Nat) : Byte :=
  (read (slotAt slot (offset + k))).get (bytePos (offset + k))

/-- Big-endian integer of the packed field of width `w` at byte offset `offset` of one slot:
byte `k` of the field, at position `31 - (offset + k) % 32`, has weight `256 ^ k`. -/
def fieldValue (h : Hash) (offset w : Nat) : Nat :=
  ((List.range w).map (fun k => (h.get (bytePos (offset + k))).val * 256 ^ k)).sum

/-- The body of the primitive copy loop of `ReorganizeInplace` (lines 622-631) iterated
`count` times from the counters `prevOffset`, `newOffset`, which advance as `uint64`. -/
def copyLoop (c : StorageMap) (prevSlotNumber newSlotNumber : Nat) :
    Nat → Nat → Nat → StorageMap → StorageMap
  | 0, _, _, m => m
  | count + 1, prevOffset, newOffset, m =>
    let curOldSlotNumber := prevOffset / 32 + prevSlotNumber
    let curNewSlotNumber := newOffset / 32 + newSlotNumber
    let prevSlot := GetCommitedState c (curOldSlotNumber % slotModulus)
    let newSlot := GetModifiedState m (curNewSlotNumber % slotModulus)
    let newSlot' := newSlot.set (bytePos newOffset) (prevSlot.get (bytePos prevOffset))
    copyLoop c prevSlotNumber newSlotNumber count ((prevOffset + 1) % u64) ((newOffset + 1) % u64)
      (SetModifiedState m (curNewSlotNumber % slotModulus) newSlot')

/-- The primitive copy of `ReorganizeInplace` (lines 618-634).  The loop condition is
`prevOffset < prevNumberOfBytes + PrevOffset` in `uint64`; `prevOffset` starts at `PrevOffset`
and grows by one, so the loop runs `bound - PrevOffset` times, none when the sum wraps. -/
def copyPrimitive (c : StorageMap) (prevNumberOfBytes : Nat) (msg : ReorgInfo) (m : StorageMap) :
    StorageMap :=
  let bound := (prevNumberOfBytes + msg.PrevOffset) % u64
  copyLoop c msg.PrevSlot msg.NewSlot (bound - msg.PrevOffset) msg.PrevOffset msg.NewOffset m

/-- Turn a lookup error into an outcome that leaves the state as it is. -/
def liftErr {α σ : Type} (e : Except String α) (s : σ) (k : α → Res σ) : Res σ :=
  match e with
  | .ok a => k a
  | .error msg => .err msg s

/-- A loop `for _, x := range xs { if err := body(x); err != nil { return err } }` over a
slice, leaving at the first outcome other than `nil`. -/
def forEach {α σ : Type} (body : α → σ → Res σ) : List α → σ → Res σ
  | [], s => .ok s
  | a :: rest, s =>
    match body a s with
    | .ok s' => forEach body rest s'
    | r => r

/-- The slot count of a long byte string (lines 840-848 of `ReorganizeBytes`):
`numberOfElements = (head - 1) / 2` and `numberOfSlots = numberOfElements / 32`, plus one
when the remainder is positive, in `big.Int` arithmetic (Euclidean division). -/
def bytesNumberOfSlots (prevSlot : Hash) : Int :=
  let numberOfElements : Int := ((prevSlot.Big : Int) - 1) / 2
  numberOfElements / 32 + (if numberOfElements % 32 > 0 then 1 else 0)

/-- The method `ReorganizeBytes`. -/
def ReorganizeBytes (D : Dict) (c : StorageMap) (keccak : Nat → Nat) (msg : ReorgInfo)
    (m : StorageMap) : Res StorageMap :=
  liftErr (GetNumberOfBytes D msg.TypeName) m fun sizes =>
  let numberOfBytes := sizes.1
  let prevSlot := GetCommitedState c msg.PrevSlot
  let newSlot := GetModifiedState m msg.NewSlot
  match copyHead numberOfBytes prevSlot newSlot with
  | none => .panic
  | some newSlot' =>
    let m1 := SetModifiedState m msg.NewSlot newSlot'
    let prevDataSlot := keccak msg.PrevSlot
    let newDataSlot := keccak msg.NewSlot
    if (prevSlot.get 31).val &&& 1 ≠ 0 then
      let numberOfSlots : Int := bytesNumberOfSlots prevSlot
      forLoop (fun i m' =>
        let slotToBeCopiedFrom := (prevDataSlot + i) % slotModulus
        let slotToBeCopiedTo := (newDataSlot + i) % slotModulus
        let curPrevSlot := GetCommitedState c slotToBeCopiedFrom
        let curNewSlot := GetModifiedState m' slotToBeCopiedTo
        match copyHeadLoop curPrevSlot 32 0 curNewSlot with
        | none => .panic
        | some curNewSlot' => .ok (SetModifiedState m' slotToBeCopiedTo curNewSlot'))
        numberOfSlots.toNat 0 m1
    else .ok m1

/-- Lines 659-809 of `ReorganizeDynamicArray`, what follows the store of the head slot:
the element loop chosen by the base type.  `prevSlot` is the committed head slot read at
line 649, `m1` the modified buffer after line 657, and `inplace` the method
`ReorganizeInplace` that is called for the elements.  These lines reach the buffer only
through `inplace`, so the state type is left open. -/
def dynamicArrayElements {σ : Type} (D : Dict) (keccak : Nat → Nat)
    (inplace : ReorgInfo → σ → Res σ) (msg : ReorgInfo) (prevSlot : Hash)
    (m1 : σ) : Res σ :=
    let prevDataSlot := keccak msg.PrevSlot
    let newDataSlot := keccak msg.NewSlot
    let dataType := (D msg.TypeName).getD DataType.zero
    let numberOfElements := prevSlot.Big
    if numberOfElements = 0 then .ok m1
    else
      liftErr (IsEncodingInplace D dataType.Base) m1 fun isInplace =>
      if isInplace then
        liftErr (IsNested D dataType.Base) m1 fun isNested =>
        if isNested then
          liftErr (GetNumberOfBytes D dataType.Base) m1 fun sz =>
          let numberOfSlotsPerPrevElement := sz.1 / 32
          let numberOfSlotsPerNewElement := sz.2 / 32
          forLoop (fun i m' =>
            inplace
              { PrevSlot := (prevDataSlot + numberOfSlotsPerPrevElement * i) % slotModulus
                NewSlot := (newDataSlot + numberOfSlotsPerNewElement * i) % slotModulus
                PrevOffset := 0
                NewOffset := 0
                TypeName := dataType.Base } m')
            numberOfElements 0 m1
        else
          liftErr (IsFlat D dataType.Base) m1 fun isFlat =>
          if isFlat then
            liftErr (GetNumberOfBytes D dataType.Base) m1 fun sz =>
            let sizeOfElement := sz.1
            if sizeOfElement = 0 then .panic
            else
              let numberOfElementsPerSlot := 32 / sizeOfElement
              if numberOfElementsPerSlot = 0 then .panic
              else
                let numberOfSlots := numberOfElements / numberOfElementsPerSlot +
                  (if numberOfElements % numberOfElementsPerSlot > 0 then 1 else 0)
                forLoop (fun i m' =>
                  forLoop (fun j m'' =>
                    inplace
                      { PrevSlot := (prevDataSlot + i) % slotModulus
                        NewSlot := (newDataSlot + i) % slotModulus
                        PrevOffset := j * sizeOfElement
                        NewOffset := j * sizeOfElement
                        TypeName := dataType.Base } m'')
                    (32 / sizeOfElement) 0 m')
                  numberOfSlots 0 m1
          else .err "Not Implemented Yet...." m1
      else
        liftErr (IsEncodingDynamicArray D dataType.Base) m1 fun isDynamicArray =>
        if isDynamicArray then
          forLoop (fun i m' =>
            inplace
              { PrevSlot := (prevDataSlot + i) % slotModulus
                NewSlot := (newDataSlot + i) % slotModulus
                PrevOffset := 0
                NewOffset := 0
                TypeName := dataType.Base } m')
            numberOfElements 0 m1
        else
          liftErr (IsEncodingBytes D dataType.Base) m1 fun isBytes =>
          if isBytes then
            forLoop (fun i m' =>
              inplace
                { PrevSlot := (prevDataSlot + i) % slotModulus
                  NewSlot := (newDataSlot + i) % slotModulus
                  PrevOffset := 0
                  NewOffset := 0
                  TypeName := dataType.Base } m')
              numberOfElements 0 m1
          else .err "Not Implemented Yet...." m1

/-- The body of the method `ReorganizeDynamicArray`, with the method it calls for the
elements, `ReorganizeInplace`, passed as `inplace`: the head copy of lines 641-657 followed
by `dynamicArrayElements`. -/
def ReorganizeDynamicArrayWith (D : Dict) (c : StorageMap) (keccak : Nat → Nat)
    (inplace : ReorgInfo → StorageMap → Res StorageMap) (msg : ReorgInfo) (m : StorageMap) :
    Res StorageMap :=
  liftErr (GetNumberOfBytes D msg.TypeName) m fun sizes =>
  let prevNumberOfBytes := sizes.1
  let prevSlot := GetCommitedState c msg.PrevSlot
  let newSlot := GetModifiedState m msg.NewSlot
  match copyHead prevNumberOfBytes prevSlot newSlot with
  | none => .panic
  | some newSlot' =>
    dynamicArrayElements D keccak inplace msg prevSlot (SetModifiedState m msg.NewSlot newSlot')

/-- The `ReorgInfo` literal that the struct branch of `ReorganizeInplace` builds for a
member (lines 562-568, 577-583, 592-598), from the running heads `curPrevSlot`,
`curNewSlot` and the name of the member's type. -/
def memberDirective (curPrevSlot curNewSlot : Nat) (member : Member) (typeName : String) :
    ReorgInfo :=
  { PrevSlot := (curPrevSlot + member.PrevSlot) % slotModulus
    NewSlot := (curNewSlot + member.NewSlot) % slotModulus
    PrevOffset := member.PrevOffset
    NewOffset := member.NewOffset
    TypeName := typeName }

/-- The method `ReorganizeInplace`.  `fuel` bounds the depth of nested calls of the method
and the length of the two base-chain walks; `Res.outOfFuel` means the budget was too small.
In the struct branch the running heads `curPrevSlot`, `curNewSlot` of repetition `i` are
written in closed form, `PrevSlot + i * (prevStructSize / 32)` and
`NewSlot + i * (newStructSize / 32)`. -/
def ReorganizeInplace (D : Dict) (c : StorageMap) (keccak : Nat → Nat) :
    Nat → ReorgInfo → StorageMap → Res StorageMap
  | 0, _, _ => .outOfFuel
  | fuel + 1, msg, m =>
    liftErr (GetNumberOfBytes D msg.TypeName) m fun sizes =>
    let prevNumberOfBytes := sizes.1
    let prevSlotNumber := msg.PrevSlot
    let newSlotNumber := msg.NewSlot
    match ExtractUntilInplace D (fuel + 1) msg.TypeName with
    | none => .outOfFuel
    | some (.error e) => .err e m
    | some (.ok (typeName, encoding, found)) =>
      match ContainsStruct D (fuel + 1) msg.TypeName with
      | none => .outOfFuel
      | some (.error e) => .err e m
      | some (.ok (structFound, structTypeName)) =>
        if found then
          if encoding = "dynamic_array" then
            forLoop (fun i m' =>
              ReorganizeDynamicArrayWith D c keccak (ReorganizeInplace D c keccak fuel)
                { TypeName := typeName
                  PrevSlot := (i + prevSlotNumber) % slotModulus
                  NewSlot := (i + newSlotNumber) % slotModulus
                  PrevOffset := 0
                  NewOffset := 0 } m')
              (prevNumberOfBytes / 32) 0 m
          else if encoding = "bytes" then
            forLoop (fun i m' =>
              ReorganizeBytes D c keccak
                { TypeName := typeName
                  PrevSlot := (i + prevSlotNumber) % slotModulus
                  NewSlot := (i + newSlotNumber) % slotModulus
                  PrevOffset := 0
                  NewOffset := 0 } m')
              (prevNumberOfBytes / 32) 0 m
          else .err "Not implemented yet" m
        else if structFound then
          liftErr (GetNumberOfBytes D structTypeName) m fun ss =>
          let prevStructSize := ss.1
          let newStructSize := ss.2
          let structDataType := (D structTypeName).getD DataType.zero
          if toInt64 prevStructSize = 0 then .panic
          else
            let count := wrapInt64 (Int.tdiv (toInt64 prevNumberOfBytes) (toInt64 prevStructSize))
            forLoop (fun i m' =>
              let curPrevSlot := msg.PrevSlot + i * (prevStructSize / 32)
              let curNewSlot := msg.NewSlot + i * (newStructSize / 32)
              forEach (fun member m'' =>
                match D member.TypeName with
                | none => .err "Struct Member Not Found" m''
                | some memberDataType =>
                  let sub := memberDirective curPrevSlot curNewSlot member memberDataType.TypeName
                  if memberDataType.Encoding = "inplace" then
                    ReorganizeInplace D c keccak fuel sub m''
                  else if memberDataType.Encoding = "dynamic_array" then
                    ReorganizeDynamicArrayWith D c keccak (ReorganizeInplace D c keccak fuel) sub m''
                  else if memberDataType.Encoding = "bytes" then
                    ReorganizeBytes D c keccak sub m''
                  else .err "Unknown Encoding" m'')
                structDataType.Members m')
              count.toNat 0 m
        else
          .ok (copyPrimitive c prevNumberOfBytes msg m)

/-- The method `ReorganizeDynamicArray`; the calls it makes to `ReorganizeInplace` have the
budget `fuel`. -/
def ReorganizeDynamicArray (D : Dict) (c : StorageMap) (keccak : Nat → Nat) (fuel : Nat)
    (msg : ReorgInfo) (m : StorageMap) : Res StorageMap :=
  ReorganizeDynamicArrayWith D c keccak (ReorganizeInplace D c keccak fuel) msg m

/-- The method `Reorganize` over the directive list `reorgMessges`. -/
def Reorganize (D : Dict) (c : StorageMap) (keccak : Nat → Nat) (fuel : Nat)
    (reorgMessges : List ReorgInfo) (m : StorageMap) : Res StorageMap :=
  forEach (fun reorgMessage m' =>
    liftErr (IsEncodingInplace D reorgMessage.TypeName) m' fun isInplace =>
    if isInplace then ReorganizeInplace D c keccak fuel reorgMessage m'
    else
      liftErr (IsEncodingDynamicArray D reorgMessage.TypeName) m' fun isDynamicArray =>
      if isDynamicArray then ReorganizeDynamicArray D c keccak fuel reorgMessage m'
      else
        liftErr (IsEncodingBytes D reorgMessage.TypeName) m' fun isBytes =>
        if isBytes then ReorganizeBytes D c keccak reorgMessage m'
        else .err "Not implemented yet" m')
    reorgMessges m

/-- The method `Commit` on the target store `state`: delete every key of the committed map,
then set every modified entry whose value is not all-zero. -/
def Commit (state commitedStorage modifiedStorage : StorageMap) : StorageMap :=
  let keys := commitedStorage.keys
  let st := DeleteKeysFromStorage state keys
  AList.foldl (fun acc key val => if val ≠ zeroHash then SetState acc key val else acc) st
    modifiedStorage

/-- A stand-in for the external hash, used only to evaluate concrete scenarios; every
general theorem is stated for an arbitrary `keccak`. -/
def toyKeccak (n : Nat) : Nat :=
  (n * 1000003 + 4096) % slotModulus

/-- Dictionary of the scenarios: the primitives `t_uint256` and `t_uint128`, a `bytes`
leaf, a dynamic array of `t_uint256` and a dynamic array of `t_bytes`. -/
def scenarioTypes : Dict :=
  Init [⟨"t_uint256", "", "inplace", 32, 32, []⟩, ⟨"t_uint128", "", "inplace", 16, 16, []⟩,
    ⟨"t_bytes", "", "bytes", 32, 32, []⟩,
    ⟨"t_array_uint256", "t_uint256", "dynamic_array", 32, 32, []⟩,
    ⟨"t_array_bytes", "t_bytes", "dynamic_array", 32, 32, []⟩]

/-- Committed image of the long-string scenario: head slot 5 reads `2 * 40 + 1` (a string
of 40 bytes), its two payload slots follow `toyKeccak 5`. -/
def longBytesImage : StorageMap :=
  StorageMap.ofList [(5, BigToHash 81), (toyKeccak 5, BigToHash (2 ^ 255 + 7)),
    (toyKeccak 5 + 1, BigToHash (2 ^ 200))]

/-- Committed image of S3: slot 5 holds the short string "hello", five bytes followed by
zeros and the length byte `0x0a`. -/
def helloImage : StorageMap :=
  StorageMap.ofList [(5, BigToHash (0x68656c6c6f * 256 ^ 27 + 0x0a))]

/-- Committed image of S4: head slot 2 holds the count 3, the three `uint256` elements
11, 12, 13 follow `toyKeccak 2`. -/
def arrayImage : StorageMap :=
  StorageMap.ofList [(2, BigToHash 3), (toyKeccak 2, BigToHash 11), (toyKeccak 2 + 1, BigToHash 12),
    (toyKeccak 2 + 2, BigToHash 13)]

/-- Committed image of an array of one long byte string: head slot 2 holds the count 1, the
element head at `toyKeccak 2` reads `2 * 40 + 1`, and the two payload slots of the element
follow `toyKeccak (toyKeccak 2)`. -/
def bytesArrayImage : StorageMap :=
  StorageMap.ofList [(2, BigToHash 1), (toyKeccak 2, BigToHash 81),
    (toyKeccak (toyKeccak 2), BigToHash (2 ^ 255 + 7)),
    (toyKeccak (toyKeccak 2) + 1, BigToHash (2 ^ 200))]

/-- The zero value of `Member`. -/
def Member.zero : Member := ⟨0, 0, 0, 0, ""⟩

/-- The prev_width of the type of a struct member, 0 when the type is unknown. -/
def memberWidth (D : Dict) (member : Member) : Nat :=
  match D member.TypeName with
  | some md => md.PrevNumberOfBytes
  | none => 0

/-- Destination of byte `k` of a directive: the slot key and the byte position. -/
def destByte (sub : ReorgInfo) (k : Nat) : Nat × Fin 32 :=
  (slotAt sub.NewSlot (sub.NewOffset + k), bytePos (sub.NewOffset + k))

/-- The sub-directive of `msg` for repetition `i` of the struct `sd` and the member at
position `a` of its member list. -/
def structDirective (msg : ReorgInfo) (sd : DataType) (i a : Nat) : ReorgInfo :=
  memberDirective (msg.PrevSlot + i * (sd.PrevNumberOfBytes / 32))
    (msg.NewSlot + i * (sd.NewNumberOfBytes / 32)) (sd.Members.getD a Member.zero)
    (sd.Members.getD a Member.zero).TypeName

/-- Proof invariant for a sequence of primitive copies `job i a` (repetition `i`, member
position `a`, width `width a`) run from the buffer `s0`: in buffer `s` every byte of every
job selected by `P` has arrived at its destination, and every byte that is no destination
of a selected job reads as in `s0`. -/
def CopiedJobs (c : StorageMap) (job : Nat → Nat → ReorgInfo) (width : Nat → Nat)
    (count len : Nat) (s0 : StorageMap) (P : Nat → Nat → Prop) (s : StorageMap) : Prop :=
  (∀ i a k, P i a → i < count → a < len → k < width a →
    regionByte (GetModifiedState s) (job i a).NewSlot (job i a).NewOffset k
      = regionByte (GetCommitedState c) (job i a).PrevSlot (job i a).PrevOffset k) ∧
  (∀ key pos, (∀ i a k, P i a → i < count → a < len → k < width a →
      destByte (job i a) k ≠ (key, pos)) →
    (GetModifiedState s key).get pos = (GetModifiedState s0 key).get pos)

/-- The type `t` is copied as a pure primitive: within `f` steps `ExtractUntilInplace`
reports no dynamic extension and `ContainsStruct` reports no struct. -/
def purePrimitive (D : Dict) (f : Nat) (t : String) : Bool :=
  match ExtractUntilInplace D f t, ContainsStruct D f t with
  | some (.ok (_, _, false)), some (.ok (false, _)) => true
  | _, _ => false

/-- The struct descriptor of `structTypes`. -/
def s5Struct : DataType :=
  ⟨"t_struct", "", "inplace", 32, 64, [⟨0, 16, 0, 0, "t_uint128"⟩, ⟨16, 0, 0, 1, "t_uint128"⟩]⟩

/-- Dictionary of S5: the struct `{uint128 a; uint128 b}` with `a` moved from offset 0 to
offset 16 of slot 0 and `b` moved from offset 16 of slot 0 to offset 0 of slot 1. -/
def structTypes : Dict :=
  Init [⟨"t_uint128", "", "inplace", 16, 16, []⟩, s5Struct]

/-- The struct descriptor of `wideTypes`: `2 ^ 62` bytes wide, one `uint256` member at its
head. -/
def wideStruct : DataType :=
  ⟨"t_wide_struct", "", "inplace", 2 ^ 62, 2 ^ 62, [⟨0, 0, 0, 0, "t_uint256"⟩]⟩

/-- A dictionary with a region of `2 ^ 63` bytes holding two structs of `2 ^ 62` bytes. -/
def wideTypes : Dict :=
  Init [⟨"t_uint256", "", "inplace", 32, 32, []⟩, wideStruct,
    ⟨"t_wide_region", "t_wide_struct", "inplace", 2 ^ 63, 2 ^ 63, []⟩]

/-- Committed image of S5: slot 0 holds `a = 1` in its low half and `b = 2` in its high
half. -/
def structImage : StorageMap :=
  StorageMap.ofList [(0, BigToHash (2 * 2 ^ 128 + 1))]

/-- A directive that moves nothing: new slot and offset equal the old ones. -/
def ReorgInfo.isIdentity (msg : ReorgInfo) : Prop :=
  msg.NewSlot = msg.PrevSlot ∧ msg.NewOffset = msg.PrevOffset

/-- Being an identity directive is decided by comparing the fields. -/
instance ReorgInfo.decidableIsIdentity (msg : ReorgInfo) : Decidable msg.isIdentity :=
  inferInstanceAs (Decidable (msg.NewSlot = msg.PrevSlot ∧ msg.NewOffset = msg.PrevOffset))

/-- A dictionary that changes no layout: every type keeps its width and every struct
member keeps its slot and byte offset. -/
def Dict.isIdentity (D : Dict) : Prop :=
  ∀ t d, D t = some d → d.NewNumberOfBytes = d.PrevNumberOfBytes ∧
    ∀ member, member ∈ d.Members →
      member.NewSlot = member.PrevSlot ∧ member.NewOffset = member.PrevOffset

/-- Every byte of the modified buffer `m` is zero or the committed byte at the same slot
and position. -/
def SubImage (c m : StorageMap) : Prop :=
  ∀ (key : Nat) (pos : Fin 32), (GetModifiedState m key).get pos = 0 ∨
    (GetModifiedState m key).get pos = (GetCommitedState c key).get pos

/-- A committed image with two `uint256` slots, 0 and 1. -/
def twoSlotImage : StorageMap :=
  StorageMap.ofList [(0, BigToHash 0x2a), (1, BigToHash 7)]

/-- A dictionary with a primitive and a type whose encoding the rewriter does not handle. -/
def mappingTypes : Dict :=
  Init [⟨"t_uint256", "", "inplace", 32, 32, []⟩, ⟨"t_mapping", "", "mapping", 32, 32, []⟩]

/-- The method `Commit` when `commitedStorage` is the target's own map, as in `runTest`,
where `Init` receives `dummy.GetStorageAsMap`.  The keys are collected from that map
before the deletions; the deletions and writes then change the one map, which afterwards
is both the target store and the committed map. -/
def CommitShared (store modifiedStorage : StorageMap) : StorageMap :=
  Commit store store modifiedStorage

/-- The head copy of `ReorganizeDynamicArray` (lines 641-657): the width lookup, the loop
`newSlot[i] = prevSlot[i]` and the store of the new head slot. -/
def headCopy (D : Dict) (c : StorageMap) (msg : ReorgInfo) (m : StorageMap) : Res StorageMap :=
  liftErr (GetNumberOfBytes D msg.TypeName) m fun sizes =>
  match copyHead sizes.1 (GetCommitedState c msg.PrevSlot) (GetModifiedState m msg.NewSlot) with
  | none => .panic
  | some newSlot' => .ok (SetModifiedState m msg.NewSlot newSlot')

/-- The rewriting of a dynamic array of nested elements as the claim states it: copy the
head, then run `ReorganizeInplace` for the base type `B` with both offsets 0 on the elements
`i = 0, 1, ..., N - 1` in order, from slot `keccak(prev_slot) + i * (pw / 32)` to slot
`keccak(new_slot) + i * (nw / 32)`, stopping at the first outcome other than `nil`. -/
def nestedArraySpec (D : Dict) (c : StorageMap) (keccak : Nat → Nat) (fuel : Nat)
    (msg : ReorgInfo) (B : String) (pw nw N : Nat) (m : StorageMap) : Res StorageMap :=
  match headCopy D c msg m with
  | .ok m1 =>
    forLoop (fun i m' =>
      ReorganizeInplace D c keccak fuel
        ⟨B, (keccak msg.PrevSlot + i * (pw / 32)) % slotModulus,
          (keccak msg.NewSlot + i * (nw / 32)) % slotModulus, 0, 0⟩ m') N 0 m1
  | r => r

/-- A dictionary whose dynamic array type has a head of 64 bytes. -/
def wideHeadTypes : Dict :=
  Init [⟨"t_uint256", "", "inplace", 32, 32, []⟩,
    ⟨"t_array_wide", "t_uint256", "dynamic_array", 64, 64, []⟩,
    ⟨"t_array_half", "t_missing", "dynamic_array", 16, 16, []⟩]

/-- Dictionary of an array of the S5 struct: the struct is 32 bytes wide before and 64
bytes wide after the change. -/
def nestedTypes : Dict :=
  Init [⟨"t_uint128", "", "inplace", 16, 16, []⟩, s5Struct,
    ⟨"t_array_struct", "t_struct", "dynamic_array", 32, 32, []⟩]

/-- Committed image of an array of two S5 structs: head slot 3 holds the count 2 and the
structs fill the two slots after `toyKeccak 3`. -/
def nestedImage : StorageMap :=
  StorageMap.ofList [(3, BigToHash 2), (toyKeccak 3, BigToHash (2 * 2 ^ 128 + 1)),
    (toyKeccak 3 + 1, BigToHash (4 * 2 ^ 128 + 3))]

/-- The base chain of the type named `t`, walked through types of encoding `inplace` that
have a base, reaches the descriptor `dd`. -/
inductive ReachesThroughInplace (D : Dict) : String → DataType → Prop where
  /-- the walk starts at a known type -/
  | here (t : String) (dd : DataType) (h : D t = some dd) : ReachesThroughInplace D t dd
  /-- the walk passes an inplace type that has a base -/
  | step (t : String) (d dd : DataType) (h : D t = some d) (henc : d.Encoding = "inplace")
      (hbase : d.Base ≠ "") (hrest : ReachesThroughInplace D d.Base dd) :
      ReachesThroughInplace D t dd

/-- The rewriting of an inplace region that hides a dynamic array as the claim states it:
run `ReorganizeDynamicArray` for the array type from slot `p + i` to slot `q + i` with both
offsets 0, for `i = 0, ..., W / 32 - 1` in order, stopping at the first outcome other than
`nil`. -/
def dynamicExtensionSpec (D : Dict) (c : StorageMap) (keccak : Nat → Nat) (fuel : Nat)
    (arrayType : String) (p q W : Nat) (m : StorageMap) : Res StorageMap :=
  forLoop (fun i m' =>
    ReorganizeDynamicArray D c keccak fuel
      ⟨arrayType, (p + i) % slotModulus, (q + i) % slotModulus, 0, 0⟩ m') (W / 32) 0 m

/-- Dictionary of a static array of two dynamic arrays of `uint256`. -/
def staticArrayTypes : Dict :=
  Init [⟨"t_uint256", "", "inplace", 32, 32, []⟩,
    ⟨"t_array_uint256", "t_uint256", "dynamic_array", 32, 32, []⟩,
    ⟨"t_static_arrays", "t_array_uint256", "inplace", 64, 64, []⟩]

/-- A dictionary in which the base of the dynamic array type is absent. -/
def danglingTypes : Dict :=
  Init [⟨"t_static", "t_array_dangling", "inplace", 32, 32, []⟩,
    ⟨"t_array_dangling", "t_missing", "dynamic_array", 32, 32, []⟩]

/-- A dictionary with descriptors the layout rules exclude: a 5-byte primitive as the base
of a dynamic array, and a region of 96 bytes whose struct is 64 bytes wide. -/
def malformedTypes : Dict :=
  Init [⟨"t_uint40", "", "inplace", 5, 5, []⟩,
    ⟨"t_array_uint40", "t_uint40", "dynamic_array", 32, 32, []⟩,
    ⟨"t_uint256", "", "inplace", 32, 32, []⟩,
    ⟨"t_pair", "", "inplace", 64, 64, [⟨0, 0, 0, 0, "t_uint256"⟩, ⟨0, 0, 1, 1, "t_uint256"⟩]⟩,
    ⟨"t_region", "t_pair", "inplace", 96, 96, []⟩,
    ⟨"t_array_zero", "t_zero", "dynamic_array", 32, 32, []⟩,
    ⟨"t_zero", "", "inplace", 0, 0, []⟩]

/-- Committed image for `malformedTypes`: an array of seven 5-byte elements with head slot
2, and three value slots 10, 11, 12. -/
def malformedImage : StorageMap :=
  StorageMap.ofList [(2, BigToHash 7), (toyKeccak 2, BigToHash (2 ^ 256 - 1)),
    (toyKeccak 2 + 1, BigToHash 0x0102030405), (10, BigToHash 1), (11, BigToHash 2),
    (12, BigToHash 3)]

/-- A Go map value is a reference to a map held on the heap; `Ref` names such a map. -/
abbrev Ref := Nat

/-- The maps of the program, by reference, and the first reference not yet in use. -/
structure Heap where
  /-- the map behind each reference -/
  maps : Ref → StorageMap
  /-- the reference that the next `make` returns -/
  next : Ref

/-- The Go expression `make(map[common.Hash]common.Hash)`: a new empty map behind an unused
reference. -/
def Heap.make (h : Heap) : Ref × Heap :=
  (h.next, { maps := Function.update h.maps h.next ∅, next := h.next + 1 })

/-- The program state seen by the methods of `StorageReorganizer`: the heap of maps and the
fields of the struct.  The field `state` is the reference of `state.Storage`, the map of the
target store; `commitedStorage` and `modifiedStorage` are references as well, so two fields
may name one map. -/
structure StorageReorganizer where
  /-- the maps of the program -/
  heap : Heap
  /-- `state.Storage` -/
  state : Ref
  /-- `commitedStorage` -/
  commitedStorage : Ref
  /-- `modifiedStorage` -/
  modifiedStorage : Ref
  /-- `reorgMessges` -/
  reorgMessges : List ReorgInfo
  /-- `dataTypes` -/
  dataTypes : Dict

/-- The function `NewStorageReorganizer`: two maps are made, one for `commitedStorage` and
one for `modifiedStorage`; there are no directives and no descriptors. -/
def NewStorageReorganizer (h : Heap) (state : Ref) : StorageReorganizer :=
  let c := h.make
  let m := c.2.make
  ⟨m.2, state, c.1, m.1, [], fun _ => none⟩

/-- The method `Init`: the field `commitedStorage` is set to the map passed by the caller,
by reference. -/
def StorageReorganizer.Init (s : StorageReorganizer) (currentState : Ref)
    (reorganizationMessages : List ReorgInfo) (dataTypes : List DataType) : StorageReorganizer :=
  { s with
    commitedStorage := currentState
    reorgMessges := reorganizationMessages
    dataTypes := dataTypes.foldl (fun D d => fun t => if t = d.TypeName then some d else D t)
      s.dataTypes }

/-- The method `GetCommitedState`, a read of the map behind `s.commitedStorage`. -/
def StorageReorganizer.GetCommitedState (s : StorageReorganizer) (key : Nat) : Hash :=
  StorageReorg.GetCommitedState (s.heap.maps s.commitedStorage) key

/-- The method `GetModifiedState`, a read of the map behind `s.modifiedStorage`. -/
def StorageReorganizer.GetModifiedState (s : StorageReorganizer) (key : Nat) : Hash :=
  StorageReorg.GetModifiedState (s.heap.maps s.modifiedStorage) key

/-- The method `SetModifiedState`: `s.modifiedStorage[key] = val`, a write to the map behind
`s.modifiedStorage`, seen through every reference to that map. -/
def StorageReorganizer.SetModifiedState (s : StorageReorganizer) (key : Nat) (val : Hash) :
    StorageReorganizer :=
  { s with heap :=
      ⟨Function.update s.heap.maps s.modifiedStorage
        (StorageReorg.SetModifiedState (s.heap.maps s.modifiedStorage) key val), s.heap.next⟩ }

/-- The primitive copy loop of `ReorganizeInplace` (lines 622-631) on the program state:
each iteration reads the committed map and the modified buffer as they are then. -/
def StorageReorganizer.copyLoop (prevSlotNumber newSlotNumber : Nat) :
    Nat → Nat → Nat → StorageReorganizer → StorageReorganizer
  | 0, _, _, s => s
  | count + 1, prevOffset, newOffset, s =>
    let curOldSlotNumber := prevOffset / 32 + prevSlotNumber
    let curNewSlotNumber := newOffset / 32 + newSlotNumber
    let prevSlot := s.GetCommitedState (curOldSlotNumber % slotModulus)
    let newSlot := s.GetModifiedState (curNewSlotNumber % slotModulus)
    let newSlot' := newSlot.set (bytePos newOffset) (prevSlot.get (bytePos prevOffset))
    StorageReorganizer.copyLoop prevSlotNumber newSlotNumber count ((prevOffset + 1) % u64)
      ((newOffset + 1) % u64) (s.SetModifiedState (curNewSlotNumber % slotModulus) newSlot')

/-- The primitive copy of `ReorganizeInplace` (lines 618-634) on the program state. -/
def StorageReorganizer.copyPrimitive (prevNumberOfBytes : Nat) (msg : ReorgInfo)
    (s : StorageReorganizer) : StorageReorganizer :=
  let bound := (prevNumberOfBytes + msg.PrevOffset) % u64
  StorageReorganizer.copyLoop msg.PrevSlot msg.NewSlot (bound - msg.PrevOffset) msg.PrevOffset
    msg.NewOffset s

/-- The method `ReorganizeBytes` on the program state. -/
def StorageReorganizer.ReorganizeBytes (keccak : Nat → Nat) (msg : ReorgInfo)
    (s : StorageReorganizer) : Res StorageReorganizer :=
  liftErr (GetNumberOfBytes s.dataTypes msg.TypeName) s fun sizes =>
  let numberOfBytes := sizes.1
  let prevSlot := s.GetCommitedState msg.PrevSlot
  let newSlot := s.GetModifiedState msg.NewSlot
  match copyHead numberOfBytes prevSlot newSlot with
  | none => .panic
  | some newSlot' =>
    let s1 := s.SetModifiedState msg.NewSlot newSlot'
    let prevDataSlot := keccak msg.PrevSlot
    let newDataSlot := keccak msg.NewSlot
    if (prevSlot.get 31).val &&& 1 ≠ 0 then
      let numberOfSlots : Int := bytesNumberOfSlots prevSlot
      forLoop (fun i (s' : StorageReorganizer) =>
        let slotToBeCopiedFrom := (prevDataSlot + i) % slotModulus
        let slotToBeCopiedTo := (newDataSlot + i) % slotModulus
        let curPrevSlot := s'.GetCommitedState slotToBeCopiedFrom
        let curNewSlot := s'.GetModifiedState slotToBeCopiedTo
        match copyHeadLoop curPrevSlot 32 0 curNewSlot with
        | none => .panic
        | some curNewSlot' => .ok (s'.SetModifiedState slotToBeCopiedTo curNewSlot'))
        numberOfSlots.toNat 0 s1
    else .ok s1

/-- The body of the method `ReorganizeDynamicArray` on the program state, with the method
called for the elements passed as `inplace`. -/
def StorageReorganizer.ReorganizeDynamicArrayWith (keccak : Nat → Nat)
    (inplace : ReorgInfo → StorageReorganizer → Res StorageReorganizer) (msg : ReorgInfo)
    (s : StorageReorganizer) : Res StorageReorganizer :=
  liftErr (GetNumberOfBytes s.dataTypes msg.TypeName) s fun sizes =>
  let prevNumberOfBytes := sizes.1
  let prevSlot := s.GetCommitedState msg.PrevSlot
  let newSlot := s.GetModifiedState msg.NewSlot
  match copyHead prevNumberOfBytes prevSlot newSlot with
  | none => .panic
  | some newSlot' =>
    dynamicArrayElements s.dataTypes keccak inplace msg prevSlot
      (s.SetModifiedState msg.NewSlot newSlot')

/-- The method `ReorganizeInplace` on the program state, with the budget `fuel`. -/
def StorageReorganizer.ReorganizeInplace (keccak : Nat → Nat) :
    Nat → ReorgInfo → StorageReorganizer → Res StorageReorganizer
  | 0, _, _ => .outOfFuel
  | fuel + 1, msg, s =>
    liftErr (GetNumberOfBytes s.dataTypes msg.TypeName) s fun sizes =>
    let prevNumberOfBytes := sizes.1
    let prevSlotNumber := msg.PrevSlot
    let newSlotNumber := msg.NewSlot
    match ExtractUntilInplace s.dataTypes (fuel + 1) msg.TypeName with
    | none => .outOfFuel
    | some (.error e) => .err e s
    | some (.ok (typeName, encoding, found)) =>
      match ContainsStruct s.dataTypes (fuel + 1) msg.TypeName with
      | none => .outOfFuel
      | some (.error e) => .err e s
      | some (.ok (structFound, structTypeName)) =>
        if found then
          if encoding = "dynamic_array" then
            forLoop (fun i (s' : StorageReorganizer) =>
              StorageReorganizer.ReorganizeDynamicArrayWith keccak
                (StorageReorganizer.ReorganizeInplace keccak fuel)
                { TypeName := typeName
                  PrevSlot := (i + prevSlotNumber) % slotModulus
                  NewSlot := (i + newSlotNumber) % slotModulus
                  PrevOffset := 0
                  NewOffset := 0 } s')
              (prevNumberOfBytes / 32) 0 s
          else if encoding = "bytes" then
            forLoop (fun i (s' : StorageReorganizer) =>
              StorageReorganizer.ReorganizeBytes keccak
                { TypeName := typeName
                  PrevSlot := (i + prevSlotNumber) % slotModulus
                  NewSlot := (i + newSlotNumber) % slotModulus
                  PrevOffset := 0
                  NewOffset := 0 } s')
              (prevNumberOfBytes / 32) 0 s
          else .err "Not implemented yet" s
        else if structFound then
          liftErr (GetNumberOfBytes s.dataTypes structTypeName) s fun ss =>
          let prevStructSize := ss.1
          let newStructSize := ss.2
          let structDataType := (s.dataTypes structTypeName).getD DataType.zero
          if toInt64 prevStructSize = 0 then .panic
          else
            let count := wrapInt64 (Int.tdiv (toInt64 prevNumberOfBytes) (toInt64 prevStructSize))
            forLoop (fun i (s' : StorageReorganizer) =>
              let curPrevSlot := msg.PrevSlot + i * (prevStructSize / 32)
              let curNewSlot := msg.NewSlot + i * (newStructSize / 32)
              forEach (fun member (s'' : StorageReorganizer) =>
                match s''.dataTypes member.TypeName with
                | none => .err "Struct Member Not Found" s''
                | some memberDataType =>
                  let sub := memberDirective curPrevSlot curNewSlot member memberDataType.TypeName
                  if memberDataType.Encoding = "inplace" then
                    StorageReorganizer.ReorganizeInplace keccak fuel sub s''
                  else if memberDataType.Encoding = "dynamic_array" then
                    StorageReorganizer.ReorganizeDynamicArrayWith keccak
                      (StorageReorganizer.ReorganizeInplace keccak fuel) sub s''
                  else if memberDataType.Encoding = "bytes" then
                    StorageReorganizer.ReorganizeBytes keccak sub s''
                  else .err "Unknown Encoding" s'')
                structDataType.Members s')
              count.toNat 0 s
        else
          .ok (StorageReorganizer.copyPrimitive prevNumberOfBytes msg s)

/-- The method `ReorganizeDynamicArray` on the program state. -/
def StorageReorganizer.ReorganizeDynamicArray (keccak : Nat → Nat) (fuel : Nat)
    (msg : ReorgInfo) (s : StorageReorganizer) : Res StorageReorganizer :=
  StorageReorganizer.ReorganizeDynamicArrayWith keccak
    (StorageReorganizer.ReorganizeInplace keccak fuel) msg s

/-- The method `Reorganize` on the program state: the loop over `s.reorgMessges`, with the
dictionary read from the state at each step. -/
def StorageReorganizer.Reorganize (s : StorageReorganizer) (keccak : Nat → Nat) (fuel : Nat) :
    Res StorageReorganizer :=
  forEach (fun reorgMessage (s' : StorageReorganizer) =>
    liftErr (IsEncodingInplace s'.dataTypes reorgMessage.TypeName) s' fun isInplace =>
    if isInplace then StorageReorganizer.ReorganizeInplace keccak fuel reorgMessage s'
    else
      liftErr (IsEncodingDynamicArray s'.dataTypes reorgMessage.TypeName) s' fun isDynamicArray =>
      if isDynamicArray then StorageReorganizer.ReorganizeDynamicArray keccak fuel reorgMessage s'
      else
        liftErr (IsEncodingBytes s'.dataTypes reorgMessage.TypeName) s' fun isBytes =>
        if isBytes then StorageReorganizer.ReorganizeBytes keccak reorgMessage s'
        else .err "Not implemented yet" s')
    s.reorgMessges s

/-- The program state `s` with the map behind `s.modifiedStorage` replaced by `m`. -/
def StorageReorganizer.withModified (s : StorageReorganizer) (m : StorageMap) :
    StorageReorganizer :=
  { s with heap := ⟨Function.update s.heap.maps s.modifiedStorage m, s.heap.next⟩ }

/-- Apply `f` to the state carried by an outcome. -/
def Res.map {σ τ : Type} (f : σ → τ) (r : Res σ) : Res τ :=
  match r with
  | .ok s => .ok (f s)
  | .err e s => .err e (f s)
  | .panic => .panic
  | .outOfFuel => .outOfFuel

/-- The heap of `runTest` over the two-slot image: the map of the target store behind
reference 0. -/
def twoSlotHeap : Heap :=
  ⟨fun r => if r = 0 then twoSlotImage else ∅, 1⟩

/-- The inverse of a directive: old and new slot exchanged, old and new offset exchanged. -/
def ReorgInfo.inverse (msg : ReorgInfo) : ReorgInfo :=
  ⟨msg.TypeName, msg.NewSlot, msg.PrevSlot, msg.NewOffset, msg.PrevOffset⟩

/-- The inverse of a struct member: old and new slot and offset exchanged. -/
def Member.inverse (member : Member) : Member :=
  ⟨member.NewOffset, member.PrevOffset, member.NewSlot, member.PrevSlot, member.TypeName⟩

/-- The inverse of a descriptor: old and new width exchanged, every member inverted. -/
def DataType.inverse (d : DataType) : DataType :=
  ⟨d.TypeName, d.Base, d.Encoding, d.NewNumberOfBytes, d.PrevNumberOfBytes,
    d.Members.map Member.inverse⟩

/-- The dictionary of the inverse layout change. -/
def Dict.inverse (D : Dict) : Dict :=
  fun t => (D t).map DataType.inverse

/-- The round trip as the claim states it, run the way `runTest` runs one change (the
committed map is the target's own map, the modified buffer starts empty, and `Commit` is
reached only when `Reorganize` returned `nil`): the layout change over the image `c`, then
the inverse change over the image that `Commit` left.  The state carried by the outcome is
the target store. -/
def roundTrip (D : Dict) (c : StorageMap) (keccak : Nat → Nat) (fuel : Nat)
    (msgs : List ReorgInfo) : Res StorageMap :=
  match Reorganize D c keccak fuel msgs ∅ with
  | .ok m1 =>
    match Reorganize D.inverse (CommitShared c m1) keccak fuel (msgs.map ReorgInfo.inverse) ∅ with
    | .ok m2 => .ok (CommitShared (CommitShared c m1) m2)
    | .err e _ => .err e (CommitShared c m1)
    | .panic => .panic
    | .outOfFuel => .outOfFuel
  | .err e _ => .err e c
  | .panic => .panic
  | .outOfFuel => .outOfFuel

/-- Committed image of S2: slot 0 holds 1 in its high half and 2 in its low half. -/
def packedImage : StorageMap :=
  StorageMap.ofList [(0, BigToHash (2 ^ 128 + 2))]

/-- Dictionary of a static array of two byte strings. -/
def staticBytesTypes : Dict :=
  Init [⟨"t_bytes", "", "bytes", 32, 32, []⟩,
    ⟨"t_static_bytes", "t_bytes", "inplace", 64, 64, []⟩]

/-- Committed image of a static array of two byte strings in slots 5 and 6: the first is a
long string of 40 bytes (head `2 * 40 + 1`, two payload slots after `toyKeccak 5`), the
second the short string "hello". -/
def staticBytesImage : StorageMap :=
  StorageMap.ofList [(5, BigToHash 81), (6, BigToHash (0x68656c6c6f * 256 ^ 27 + 0x0a)),
    (toyKeccak 5, BigToHash (2 ^ 255 + 7)), (toyKeccak 5 + 1, BigToHash (2 ^ 200))]

/-- The rewriting of an inplace region of byte strings as the claim states it: run
`ReorganizeBytes` for the bytes type from slot `p + i` to slot `q + i` with both offsets 0,
for `i = 0, ..., W / 32 - 1` in order, stopping at the first outcome other than `nil`. -/
def bytesExtensionSpec (D : Dict) (c : StorageMap) (keccak : Nat → Nat)
    (bytesType : String) (p q W : Nat) (m : StorageMap) : Res StorageMap :=
  forLoop (fun i m' =>
    ReorganizeBytes D c keccak
      ⟨bytesType, (p + i) % slotModulus, (q + i) % slotModulus, 0, 0⟩ m') (W / 32) 0 m

/-- The dictionary `D` with the new width of the type named `t` replaced by `nw`; nothing
else differs. -/
def Dict.withNewWidth (D : Dict) (t : String) (nw : Nat) : Dict :=
  fun s => if s = t then (D s).map (fun d => { d with NewNumberOfBytes := nw }) else D s

/-- The widths of a dictionary are well formed: every `dynamic_array` and every `bytes`
type has prev_width at most 32, every inplace type without base and members that is the
base of a dynamic array has a prev_width from 1 to 32, and every struct type has a
prev_width of at least 1. -/
def Dict.wellFormedWidths (D : Dict) : Prop :=
  (∀ t d, D t = some d → d.Encoding = "dynamic_array" ∨ d.Encoding = "bytes" →
    d.PrevNumberOfBytes ≤ 32) ∧
  (∀ t d b, D t = some d → d.Encoding = "dynamic_array" → D d.Base = some b →
    b.Encoding = "inplace" → b.Base = "" → b.Members = [] →
    1 ≤ b.PrevNumberOfBytes ∧ b.PrevNumberOfBytes ≤ 32) ∧
  (∀ t d, D t = some d → d.Members ≠ [] → 1 ≤ d.PrevNumberOfBytes)

/-- Descriptors of a record `{uint128 a; bytes b; uint128[] c}` that occupies three slots:
a struct with a primitive, a byte string and a dynamic array of packed primitives. -/
def recordTypesList : List DataType :=
  [⟨"t_uint128", "", "inplace", 16, 16, []⟩, ⟨"t_bytes", "", "bytes", 32, 32, []⟩,
    ⟨"t_array_uint128", "t_uint128", "dynamic_array", 32, 32, []⟩,
    ⟨"t_record", "", "inplace", 96, 96,
      [⟨0, 0, 0, 0, "t_uint128"⟩, ⟨0, 0, 1, 1, "t_bytes"⟩, ⟨0, 0, 2, 2, "t_array_uint128"⟩]⟩]

/-- Committed image of one record at slot 0: `a = 5`, `b = "hello"`, and `c` with the three
elements 11, 12, 13 packed two to a slot after `toyKeccak 2`. -/
def recordImage : StorageMap :=
  StorageMap.ofList [(0, BigToHash 5), (1, BigToHash (0x68656c6c6f * 256 ^ 27 + 0x0a)),
    (2, BigToHash 3), (toyKeccak 2, BigToHash (12 * 2 ^ 128 + 11)),
    (toyKeccak 2 + 1, BigToHash 13)]

/-- The function `rank` decreases from every known type to its base and to the types of
its members: the dictionary has no cycle, so every walk along bases and members ends. -/
def Dict.ranked (D : Dict) (rank : String → Nat) : Prop :=
  ∀ t d, D t = some d → rank d.Base < rank t ∧
    ∀ member, member ∈ d.Members → rank member.TypeName < rank t

/-- The reorganizer of `runTest` over the two-slot image: the committed map is the map of the
target store, passed by reference; one directive that is copied, then one of an unknown
type. -/
def runTestReorganizer : StorageReorganizer :=
  (NewStorageReorganizer twoSlotHeap 0).Init 0
    [⟨"t_uint256", 0, 5, 0, 0⟩, ⟨"t_missing", 1, 6, 0, 0⟩]
    [⟨"t_uint256", "", "inplace", 32, 32, []⟩]

/-- A byte of storage: the key of a slot and a position in it. -/
abbrev Loc := Nat × Fin 32

/-- A set of byte moves: `J dst src` says that the byte at `src` of the committed image is
to be found at `dst` of the modified buffer. -/
abbrev Moves := Loc → Loc → Prop

/-- The byte at a location of the store read by `read`. -/
def byteAt (read : Nat → Hash) (l : Loc) : Byte :=
  (read l.1).get l.2

/-- Source of byte `k` of a directive: the slot key and the byte position. -/
def srcByte (sub : ReorgInfo) (k : Nat) : Loc :=
  (slotAt sub.PrevSlot (sub.PrevOffset + k), bytePos (sub.PrevOffset + k))

/-- The moves of a region of `w` bytes: byte `k` of the source region goes to byte `k` of
the destination region. -/
def primitiveMoves (msg : ReorgInfo) (w : Nat) : Moves :=
  fun dst src => ∃ k, k < w ∧ dst = destByte msg k ∧ src = srcByte msg k

/-- The moves of a whole slot: every byte of slot `src` goes to the same position of slot
`dst`. -/
def slotMoves (dst src : Nat) : Moves :=
  fun d s => d.1 = dst ∧ s.1 = src ∧ d.2 = s.2

/-- The buffer `m'` is the buffer `m` after the moves `J` from the committed image `c`: the
destination of every move reads as its source does in `c`, and every byte that is no
destination reads as in `m`. -/
def Realizes (c : StorageMap) (J : Moves) (m m' : StorageMap) : Prop :=
  (∀ d s, J d s → byteAt (GetModifiedState m') d = byteAt (GetCommitedState c) s) ∧
  (∀ d, (∀ s, ¬ J d s) → byteAt (GetModifiedState m') d = byteAt (GetModifiedState m) d)

/-- The three rewriters a directive can be passed to. -/
inductive Entry where
  /-- `ReorganizeInplace` -/
  | inplace
  /-- `ReorganizeDynamicArray` -/
  | dynamicArray
  /-- `ReorganizeBytes` -/
  | bytes
deriving DecidableEq

/-- The rewriter chosen for a type by its encoding, as `Reorganize` and the struct branch of
`ReorganizeInplace` choose it. -/
def entryOf (D : Dict) (t : String) : Option Entry :=
  match D t with
  | some d =>
    if d.Encoding = "inplace" then some .inplace
    else if d.Encoding = "dynamic_array" then some .dynamicArray
    else if d.Encoding = "bytes" then some .bytes
    else none
  | none => none

/-- The call of a rewriter with the budget `fuel`. -/
def runEntry (D : Dict) (c : StorageMap) (keccak : Nat → Nat) (fuel : Nat) (e : Entry)
    (msg : ReorgInfo) (m : StorageMap) : Res StorageMap :=
  match e with
  | .inplace => ReorganizeInplace D c keccak fuel msg m
  | .dynamicArray => ReorganizeDynamicArray D c keccak fuel msg m
  | .bytes => ReorganizeBytes D c keccak msg m

/-- The entity that a directive addresses, as the set of byte moves the layout change asks
for.  `Layout D keccak c n e msg J`: passed to the rewriter `e` with budget `n`, the
directive `msg` over the image `c` stands for the moves `J`.  The rules follow the
specification of the three rewriters.  Inplace: a pure primitive region, of unchanged width
and with offsets that do not wrap; a region of struct repetitions, as many on the old side
as on the new one, each member laid out by the rewriter its encoding selects; a region with
a dynamic extension, one head of a dynamic array per slot.  Dynamic array: a head slot of
width 32 and the elements after the hash of the head's key, laid out by the base type
(inplace and nested, inplace and flat, or a dynamic array).  Bytes: a head slot of width 32
and, in the long form, the payload slots.  There is no rule for an array, static or
dynamic, whose elements are byte strings: the specification hands each element to the bytes
rewriter, the code copies its head slot only. -/
inductive Layout (D : Dict) (keccak : Nat → Nat) (c : StorageMap) :
    Nat → Entry → ReorgInfo → Moves → Prop where
  /-- a region of primitives -/
  | primitive (n f : Nat) (msg : ReorgInfo) (d : DataType) (tn st : String)
      (hD : D msg.TypeName = some d)
      (hE : ExtractUntilInplace D f msg.TypeName = some (.ok (tn, "inplace", false)))
      (hS : ContainsStruct D f msg.TypeName = some (.ok (false, st)))
      (hf : f ≤ n)
      (hw : d.NewNumberOfBytes = d.PrevNumberOfBytes)
      (hpo : msg.PrevOffset + d.PrevNumberOfBytes < u64)
      (hno : msg.NewOffset + d.PrevNumberOfBytes < u64) :
      Layout D keccak c n .inplace msg (primitiveMoves msg d.PrevNumberOfBytes)
  /-- a region of structs -/
  | struct (n f : Nat) (msg : ReorgInfo) (d sd : DataType) (tn enc S : String)
      (ent : Member → Entry) (sub : Nat → Member → Moves)
      (hD : D msg.TypeName = some d)
      (hE : ExtractUntilInplace D f msg.TypeName = some (.ok (tn, enc, false)))
      (hS : ContainsStruct D f msg.TypeName = some (.ok (true, S)))
      (hDS : D S = some sd) (hf : f ≤ n + 1)
      (hW : d.PrevNumberOfBytes < 2 ^ 63) (hps : 0 < sd.PrevNumberOfBytes)
      (hps' : sd.PrevNumberOfBytes < 2 ^ 63)
      (hW' : d.NewNumberOfBytes < 2 ^ 63) (hns : 0 < sd.NewNumberOfBytes)
      (hns' : sd.NewNumberOfBytes < 2 ^ 63)
      (hcount : d.NewNumberOfBytes / sd.NewNumberOfBytes
        = d.PrevNumberOfBytes / sd.PrevNumberOfBytes)
      (hent : ∀ member, member ∈ sd.Members → entryOf D member.TypeName = some (ent member))
      (hsub : ∀ i member, i < d.PrevNumberOfBytes / sd.PrevNumberOfBytes →
        member ∈ sd.Members →
        Layout D keccak c n (ent member)
          (memberDirective (msg.PrevSlot + i * (sd.PrevNumberOfBytes / 32))
            (msg.NewSlot + i * (sd.NewNumberOfBytes / 32)) member member.TypeName)
          (sub i member)) :
      Layout D keccak c (n + 1) .inplace msg
        (fun dst src => ∃ i, i < d.PrevNumberOfBytes / sd.PrevNumberOfBytes ∧
          ∃ member, member ∈ sd.Members ∧ sub i member dst src)
  /-- a region of dynamic arrays, one head per slot -/
  | extension (n f : Nat) (msg : ReorgInfo) (d : DataType) (tn st : String) (sf : Bool)
      (sub : Nat → Moves)
      (hD : D msg.TypeName = some d)
      (hE : ExtractUntilInplace D f msg.TypeName = some (.ok (tn, "dynamic_array", true)))
      (hS : ContainsStruct D f msg.TypeName = some (.ok (sf, st)))
      (hf : f ≤ n + 1)
      (hcount : d.NewNumberOfBytes / 32 = d.PrevNumberOfBytes / 32)
      (hsub : ∀ i, i < d.PrevNumberOfBytes / 32 →
        Layout D keccak c n .dynamicArray
          ⟨tn, (i + msg.PrevSlot) % slotModulus, (i + msg.NewSlot) % slotModulus, 0, 0⟩
          (sub i)) :
      Layout D keccak c (n + 1) .inplace msg
        (fun dst src => ∃ i, i < d.PrevNumberOfBytes / 32 ∧ sub i dst src)
  /-- a dynamic array without elements -/
  | arrayEmpty (n : Nat) (msg : ReorgInfo) (d : DataType)
      (hD : D msg.TypeName = some d)
      (hw : d.PrevNumberOfBytes = 32) (hw' : d.NewNumberOfBytes = 32)
      (hN : (GetCommitedState c msg.PrevSlot).Big = 0) :
      Layout D keccak c n .dynamicArray msg (slotMoves msg.NewSlot msg.PrevSlot)
  /-- a dynamic array of packed primitives -/
  | arrayFlat (n : Nat) (msg : ReorgInfo) (d b : DataType) (sub : Nat → Nat → Moves)
      (hD : D msg.TypeName = some d)
      (hw : d.PrevNumberOfBytes = 32) (hw' : d.NewNumberOfBytes = 32)
      (hN : (GetCommitedState c msg.PrevSlot).Big ≠ 0)
      (hB : D d.Base = some b) (hbenc : b.Encoding = "inplace") (hbbase : b.Base = "")
      (hbmem : b.Members = [])
      (hb1 : 1 ≤ b.PrevNumberOfBytes) (hb32 : b.PrevNumberOfBytes ≤ 32)
      (hbw : b.NewNumberOfBytes = b.PrevNumberOfBytes)
      (hsub : ∀ i j,
        i < (GetCommitedState c msg.PrevSlot).Big / (32 / b.PrevNumberOfBytes) +
          (if (GetCommitedState c msg.PrevSlot).Big % (32 / b.PrevNumberOfBytes) > 0 then 1
            else 0) →
        j < 32 / b.PrevNumberOfBytes →
        Layout D keccak c n .inplace
          ⟨d.Base, (keccak msg.PrevSlot + i) % slotModulus,
            (keccak msg.NewSlot + i) % slotModulus, j * b.PrevNumberOfBytes,
            j * b.PrevNumberOfBytes⟩
          (sub i j)) :
      Layout D keccak c n .dynamicArray msg
        (fun dst src => slotMoves msg.NewSlot msg.PrevSlot dst src ∨
          ∃ i, i < (GetCommitedState c msg.PrevSlot).Big / (32 / b.PrevNumberOfBytes) +
              (if (GetCommitedState c msg.PrevSlot).Big % (32 / b.PrevNumberOfBytes) > 0 then 1
                else 0) ∧
            ∃ j, j < 32 / b.PrevNumberOfBytes ∧ sub i j dst src)
  /-- a dynamic array of structs or of static arrays -/
  | arrayNested (n : Nat) (msg : ReorgInfo) (d b : DataType) (sub : Nat → Moves)
      (hD : D msg.TypeName = some d)
      (hw : d.PrevNumberOfBytes = 32) (hw' : d.NewNumberOfBytes = 32)
      (hN : (GetCommitedState c msg.PrevSlot).Big ≠ 0)
      (hB : D d.Base = some b) (hbenc : b.Encoding = "inplace")
      (hnest : b.Base ≠ "" ∨ b.Members ≠ [])
      (hsub : ∀ i, i < (GetCommitedState c msg.PrevSlot).Big →
        Layout D keccak c n .inplace
          ⟨d.Base, (keccak msg.PrevSlot + b.PrevNumberOfBytes / 32 * i) % slotModulus,
            (keccak msg.NewSlot + b.NewNumberOfBytes / 32 * i) % slotModulus, 0, 0⟩
          (sub i)) :
      Layout D keccak c n .dynamicArray msg
        (fun dst src => slotMoves msg.NewSlot msg.PrevSlot dst src ∨
          ∃ i, i < (GetCommitedState c msg.PrevSlot).Big ∧ sub i dst src)
  /-- a dynamic array of dynamic arrays -/
  | arrayOfArrays (n : Nat) (msg : ReorgInfo) (d b : DataType) (sub : Nat → Moves)
      (hD : D msg.TypeName = some d)
      (hw : d.PrevNumberOfBytes = 32) (hw' : d.NewNumberOfBytes = 32)
      (hN : (GetCommitedState c msg.PrevSlot).Big ≠ 0)
      (hB : D d.Base = some b) (hbenc : b.Encoding = "dynamic_array")
      (hsub : ∀ i, i < (GetCommitedState c msg.PrevSlot).Big →
        Layout D keccak c n .inplace
          ⟨d.Base, (keccak msg.PrevSlot + i) % slotModulus,
            (keccak msg.NewSlot + i) % slotModulus, 0, 0⟩
          (sub i)) :
      Layout D keccak c n .dynamicArray msg
        (fun dst src => slotMoves msg.NewSlot msg.PrevSlot dst src ∨
          ∃ i, i < (GetCommitedState c msg.PrevSlot).Big ∧ sub i dst src)
  /-- a byte string -/
  | bytes (n : Nat) (msg : ReorgInfo) (d : DataType)
      (hD : D msg.TypeName = some d)
      (hw : d.PrevNumberOfBytes = 32) (hw' : d.NewNumberOfBytes = 32) :
      Layout D keccak c n .bytes msg
        (fun dst src => slotMoves msg.NewSlot msg.PrevSlot dst src ∨
          (((GetCommitedState c msg.PrevSlot).get 31).val &&& 1 ≠ 0 ∧
            ∃ i, i < (bytesNumberOfSlots (GetCommitedState c msg.PrevSlot)).toNat ∧
              slotMoves ((keccak msg.NewSlot + i) % slotModulus)
                ((keccak msg.PrevSlot + i) % slotModulus) dst src))

/-- The moves of the layout change of S5 for the struct at slot 0: each of the two members,
16 bytes wide, from its old place to its new one. -/
def s5Moves : Moves :=
  fun dst src => ∃ i, i < s5Struct.PrevNumberOfBytes / s5Struct.PrevNumberOfBytes ∧
    ∃ member, member ∈ s5Struct.Members ∧
      primitiveMoves
        (memberDirective (0 + i * (s5Struct.PrevNumberOfBytes / 32))
          (0 + i * (s5Struct.NewNumberOfBytes / 32)) member member.TypeName) 16 dst src

/-- The moves of the layout change of S4 for the array with head slot 2 moved to head slot
`ns`: the head slot, and each of the data slots as one element of 32 bytes. -/
def s4Moves (ns : Nat) : Moves :=
  fun dst src => slotMoves ns 2 dst src ∨
    ∃ i, i < (GetCommitedState arrayImage 2).Big / (32 / 32) +
        (if (GetCommitedState arrayImage 2).Big % (32 / 32) > 0 then 1 else 0) ∧
      ∃ j, j < 32 / 32 ∧
        primitiveMoves
          ⟨"t_uint256", (toyKeccak 2 + i) % slotModulus, (toyKeccak ns + i) % slotModulus,
            j * 32, j * 32⟩ 32 dst src

/-- The moves of the layout change for the long byte string with head slot 5 moved to head
slot 9: the head slot and the payload slots. -/
def longBytesMoves : Moves :=
  fun dst src => slotMoves 9 5 dst src ∨
    (((GetCommitedState longBytesImage 5).get 31).val &&& 1 ≠ 0 ∧
      ∃ i, i < (bytesNumberOfSlots (GetCommitedState longBytesImage 5)).toNat ∧
        slotMoves ((toyKeccak 9 + i) % slotModulus) ((toyKeccak 5 + i) % slotModulus) dst src)

/-! ## Properties -/

theorem GetModifiedState_set (m : StorageMap) (k : Nat) (v : Hash) (k' : Nat) :
    GetModifiedState (SetModifiedState m k v) k' = if k' = k then v else GetModifiedState m k' := by
  unfold GetModifiedState SetModifiedState StorageMap.get? StorageMap.set
  by_cases h : k' = k
  · subst h
    simp [AList.lookup_insert]
  · simp [AList.lookup_insert_ne h, h]

theorem u64_shift (a j : Nat) : ((a + 1) % u64 + j) % u64 = (a + (j + 1)) % u64 := by
  simp only [u64]
  omega

theorem bytePos_eq_iff (a b : Nat) : bytePos a = bytePos b ↔ a % 32 = b % 32 := by
  unfold bytePos
  rw [Fin.mk.injEq]
  omega

theorem slotAt_inj (s a b : Nat) (ha : a < u64) (hb : b < u64)
    (h1 : slotAt s a = slotAt s b) (h2 : bytePos a = bytePos b) : a = b := by
  rw [bytePos_eq_iff] at h2
  simp only [slotAt, slotModulus, u64] at *
  omega

theorem copyLoop_frame (c : StorageMap) (ps ns : Nat) :
    ∀ (count po no : Nat) (m : StorageMap) (key : Nat) (pos : Fin 32), no < u64 →
      (∀ j, j < count → ¬ (slotAt ns ((no + j) % u64) = key ∧ bytePos ((no + j) % u64) = pos)) →
      (GetModifiedState (copyLoop c ps ns count po no m) key).get pos
        = (GetModifiedState m key).get pos := by
  intro count
  induction count with
  | zero => intro po no m key pos _ _; rfl
  | succ n ih =>
    intro po no m key pos hno h
    rw [copyLoop]
    rw [ih _ _ _ _ _ (Nat.mod_lt _ (by decide))]
    · have h0 := h 0 (Nat.succ_pos n)
      rw [Nat.add_zero, Nat.mod_eq_of_lt hno] at h0
      rw [GetModifiedState_set]
      by_cases hk : key = (no / 32 + ns) % slotModulus
      · rw [if_pos hk]
        have hp : bytePos no ≠ pos := fun hp => h0 ⟨hk.symm, hp⟩
        rw [Mathlib.Vector.get_set_of_ne hp, hk]
      · rw [if_neg hk]
    · intro j hj
      rw [u64_shift]
      exact h (j + 1) (Nat.succ_lt_succ hj)


theorem copyLoop_written (c : StorageMap) (ps ns : Nat) :
    ∀ (count po no : Nat) (m : StorageMap) (j : Nat), po < u64 → no < u64 → j < count →
      (∀ j', j < j' → j' < count →
        ¬ (slotAt ns ((no + j') % u64) = slotAt ns ((no + j) % u64) ∧
           bytePos ((no + j') % u64) = bytePos ((no + j) % u64))) →
      (GetModifiedState (copyLoop c ps ns count po no m) (slotAt ns ((no + j) % u64))).get
          (bytePos ((no + j) % u64))
        = (GetCommitedState c (slotAt ps ((po + j) % u64))).get (bytePos ((po + j) % u64)) := by
  intro count
  induction count with
  | zero => intro po no m j _ _ hj; exact absurd hj (Nat.not_lt_zero _)
  | succ n ih =>
    intro po no m j hpo hno hj h
    cases j with
    | zero =>
      rw [copyLoop, copyLoop_frame c ps ns n _ _ _ _ _ (Nat.mod_lt _ (by decide))]
      · rw [Nat.add_zero, Nat.add_zero, Nat.mod_eq_of_lt hno, Nat.mod_eq_of_lt hpo,
          GetModifiedState_set]
        simp only [slotAt, if_true]
        rw [Mathlib.Vector.get_set_same]
      · intro j' hj'
        rw [u64_shift]
        exact h (j' + 1) (Nat.succ_pos _) (Nat.succ_lt_succ hj')
    | succ j0 =>
      rw [copyLoop]
      have := ih ((po + 1) % u64) ((no + 1) % u64)
        (SetModifiedState m ((no / 32 + ns) % slotModulus)
          ((GetModifiedState m ((no / 32 + ns) % slotModulus)).set (bytePos no)
            ((GetCommitedState c ((po / 32 + ps) % slotModulus)).get (bytePos po))))
        j0 (Nat.mod_lt _ (by decide)) (Nat.mod_lt _ (by decide)) (Nat.lt_of_succ_lt_succ hj)
        (by
          intro j' h1 h2
          rw [u64_shift, u64_shift]
          exact h (j' + 1) (Nat.succ_lt_succ h1) (Nat.succ_lt_succ h2))
      rw [u64_shift, u64_shift] at this
      exact this

theorem ExtractUntilInplace_mono (D : Dict) :
    ∀ (f : Nat) (t : String) (r : Except String (String × String × Bool)) (f' : Nat),
      ExtractUntilInplace D f t = some r → f ≤ f' → ExtractUntilInplace D f' t = some r := by
  intro f
  induction f with
  | zero => intro t r f' h; simp [ExtractUntilInplace] at h
  | succ n ih =>
    intro t r f' h hle
    obtain ⟨k, rfl⟩ : ∃ k, f' = k + 1 := ⟨f' - 1, by omega⟩
    rw [ExtractUntilInplace] at h ⊢
    cases hD : D t with
    | none => rw [hD] at h; exact h
    | some d =>
      rw [hD] at h
      simp only [] at h ⊢
      split_ifs at h ⊢ with h1 h2
      · exact h
      · exact h
      · exact ih _ _ _ h (by omega)

theorem ContainsStruct_mono (D : Dict) :
    ∀ (f : Nat) (t : String) (r : Except String (Bool × String)) (f' : Nat),
      ContainsStruct D f t = some r → f ≤ f' → ContainsStruct D f' t = some r := by
  intro f
  induction f with
  | zero => intro t r f' h; simp [ContainsStruct] at h
  | succ n ih =>
    intro t r f' h hle
    obtain ⟨k, rfl⟩ : ∃ k, f' = k + 1 := ⟨f' - 1, by omega⟩
    rw [ContainsStruct] at h ⊢
    cases hD : D t with
    | none => rw [hD] at h; exact h
    | some d =>
      rw [hD] at h
      simp only [] at h ⊢
      split_ifs at h ⊢ with h1 h2
      · exact h
      · exact h
      · exact ih _ _ _ h (by omega)

/-- Unfolding of `ReorganizeInplace` on a type for which neither a dynamic extension nor a
struct is reported: the primitive copy runs. -/
theorem ReorganizeInplace_primitive (D : Dict) (c : StorageMap) (keccak : Nat → Nat)
    (f fuel : Nat) (msg : ReorgInfo) (m : StorageMap) (d : DataType) (tn enc st : String)
    (hD : D msg.TypeName = some d)
    (hE : ExtractUntilInplace D f msg.TypeName = some (.ok (tn, enc, false)))
    (hS : ContainsStruct D f msg.TypeName = some (.ok (false, st)))
    (hf : f ≤ fuel) :
    ReorganizeInplace D c keccak fuel msg m = .ok (copyPrimitive c d.PrevNumberOfBytes msg m) := by
  have hf0 : f ≠ 0 := by
    rintro rfl
    simp [ExtractUntilInplace] at hE
  obtain ⟨k, rfl⟩ : ∃ k, fuel = k + 1 := ⟨fuel - 1, by omega⟩
  rw [ReorganizeInplace]
  simp only [GetNumberOfBytes, hD, liftErr, ExtractUntilInplace_mono D f _ _ _ hE hf,
    ContainsStruct_mono D f _ _ _ hS hf]
  simp


theorem copyPrimitive_byte (c : StorageMap) (w : Nat) (msg : ReorgInfo) (m : StorageMap)
    (hpo : msg.PrevOffset + w < u64) (hno : msg.NewOffset + w ≤ u64) (k : Nat) (hk : k < w) :
    regionByte (GetModifiedState (copyPrimitive c w msg m)) msg.NewSlot msg.NewOffset k
      = regionByte (GetCommitedState c) msg.PrevSlot msg.PrevOffset k := by
  have hb : (w + msg.PrevOffset) % u64 - msg.PrevOffset = w := by
    rw [Nat.mod_eq_of_lt (by omega)]
    omega
  have h := copyLoop_written c msg.PrevSlot msg.NewSlot w msg.PrevOffset msg.NewOffset m k
    (by omega) (by omega) hk (by
      intro j' h1 h2 h3
      have e := slotAt_inj msg.NewSlot _ _ (Nat.mod_lt _ (by decide)) (Nat.mod_lt _ (by decide))
        h3.1 h3.2
      rw [Nat.mod_eq_of_lt (by omega), Nat.mod_eq_of_lt (by omega)] at e
      omega)
  rw [Nat.mod_eq_of_lt (show msg.NewOffset + k < u64 by omega),
    Nat.mod_eq_of_lt (show msg.PrevOffset + k < u64 by omega)] at h
  unfold copyPrimitive regionByte
  simp only [hb]
  exact h

/-- C1 (amended): pure-primitive copy.  When neither a dynamic extension nor a struct is
reported for the directive's type, of prev_width `W`, and the `uint64` counters do not wrap
(`PrevOffset + W < 2 ^ 64`, `NewOffset + W ≤ 2 ^ 64`), `ReorganizeInplace` returns `nil` and
for every `k < W` byte `k` of the destination region in the modified buffer equals byte `k`
of the source region in the committed image; a field that fits one slot on both sides keeps
its big-endian integer value. -/
theorem C1_primitive_copy (D : Dict) (c : StorageMap) (keccak : Nat → Nat)
    (f fuel : Nat) (msg : ReorgInfo) (m : StorageMap) (d : DataType) (tn enc st : String)
    (hD : D msg.TypeName = some d)
    (hE : ExtractUntilInplace D f msg.TypeName = some (.ok (tn, enc, false)))
    (hS : ContainsStruct D f msg.TypeName = some (.ok (false, st)))
    (hf : f ≤ fuel)
    (hpo : msg.PrevOffset + d.PrevNumberOfBytes < u64)
    (hno : msg.NewOffset + d.PrevNumberOfBytes ≤ u64) :
    ∃ m', ReorganizeInplace D c keccak fuel msg m = .ok m' ∧
      (∀ k, k < d.PrevNumberOfBytes →
        regionByte (GetModifiedState m') msg.NewSlot msg.NewOffset k
          = regionByte (GetCommitedState c) msg.PrevSlot msg.PrevOffset k) ∧
      (msg.PrevOffset + d.PrevNumberOfBytes ≤ 32 → msg.NewOffset + d.PrevNumberOfBytes ≤ 32 →
        fieldValue (GetModifiedState m' (msg.NewSlot % slotModulus)) msg.NewOffset
            d.PrevNumberOfBytes
          = fieldValue (GetCommitedState c (msg.PrevSlot % slotModulus)) msg.PrevOffset
            d.PrevNumberOfBytes) := by
  refine ⟨_, ReorganizeInplace_primitive D c keccak f fuel msg m d tn enc st hD hE hS hf, ?_, ?_⟩
  · intro k hk
    exact copyPrimitive_byte c _ msg m hpo hno k hk
  · intro h1 h2
    unfold fieldValue
    congr 1
    apply List.map_congr_left
    intro k hk
    rw [List.mem_range] at hk
    have hb := copyPrimitive_byte c _ msg m hpo hno k hk
    unfold regionByte slotAt at hb
    rw [Nat.div_eq_of_lt (by omega), Nat.div_eq_of_lt (by omega), Nat.zero_add, Nat.zero_add]
      at hb
    rw [hb]

/-- C1 witness: scenario S1, a `uint256` holding `0x2a` moved from slot 0 to slot 1. -/
theorem C1_primitive_copy_witness :
    ∃ m', ReorganizeInplace scenarioTypes (StorageMap.ofList [(0, BigToHash 0x2a)]) toyKeccak 1
        ⟨"t_uint256", 0, 1, 0, 0⟩ ∅ = .ok m' ∧
      (∀ k, k < 32 →
        regionByte (GetModifiedState m') 1 0 k
          = regionByte (GetCommitedState (StorageMap.ofList [(0, BigToHash 0x2a)])) 0 0 k) ∧
      (0 + 32 ≤ 32 → 0 + 32 ≤ 32 →
        fieldValue (GetModifiedState m' (1 % slotModulus)) 0 32
          = fieldValue (GetCommitedState (StorageMap.ofList [(0, BigToHash 0x2a)])
              (0 % slotModulus)) 0 32) :=
  C1_primitive_copy scenarioTypes (StorageMap.ofList [(0, BigToHash 0x2a)]) toyKeccak 1 1
    ⟨"t_uint256", 0, 1, 0, 0⟩ ∅ ⟨"t_uint256", "", "inplace", 32, 32, []⟩ "t_uint256" "inplace" ""
    (by decide) (by decide) (by decide) (by decide) (by decide) (by decide)

/-- C1 counterexample: with `PrevOffset = 2 ^ 64 - 1` and width 32 the `uint64` loop bound
wraps to 31, the loop body never runs, and byte 0 of the destination (zero) differs from
byte 0 of the source (`0x80`). -/
theorem C1_counterexample :
    scenarioTypes "t_uint256" = some ⟨"t_uint256", "", "inplace", 32, 32, []⟩ ∧
    ExtractUntilInplace scenarioTypes 1 "t_uint256" = some (.ok ("t_uint256", "inplace", false)) ∧
    ContainsStruct scenarioTypes 1 "t_uint256" = some (.ok (false, "")) ∧
    ReorganizeInplace scenarioTypes (StorageMap.ofList [(2 ^ 59 - 1, BigToHash (2 ^ 255))])
      toyKeccak 1 ⟨"t_uint256", 0, 1, 2 ^ 64 - 1, 0⟩ ∅ = .ok ∅ ∧
    (0 < 32 ∧
      regionByte (GetModifiedState ∅) 1 0 0
        ≠ regionByte (GetCommitedState (StorageMap.ofList [(2 ^ 59 - 1, BigToHash (2 ^ 255))]))
            0 (2 ^ 64 - 1) 0) := by
  decide

theorem copyPrimitive_frame (c : StorageMap) (w : Nat) (msg : ReorgInfo) (m : StorageMap)
    (hno : msg.NewOffset + w ≤ u64) (key : Nat) (pos : Fin 32)
    (h : ∀ k, k < w →
      ¬ (slotAt msg.NewSlot (msg.NewOffset + k) = key ∧ bytePos (msg.NewOffset + k) = pos)) :
    (GetModifiedState (copyPrimitive c w msg m) key).get pos = (GetModifiedState m key).get pos := by
  unfold copyPrimitive
  have hc : (w + msg.PrevOffset) % u64 - msg.PrevOffset ≤ w := by
    simp only [u64]
    omega
  rcases Nat.eq_zero_or_pos ((w + msg.PrevOffset) % u64 - msg.PrevOffset) with h0 | h0
  · simp only [h0]
    rfl
  · apply copyLoop_frame
    · omega
    · intro j hj
      rw [Nat.mod_eq_of_lt (by omega)]
      exact h j (by omega)

/-- C2 (amended): packed-field preservation.  For a pure-primitive directive of prev_width
`W` with `NewOffset + W ≤ 2 ^ 64`, and any prior modified buffer, `ReorganizeInplace`
returns `nil` and every byte of every modified slot that is not one of the `W` destination
byte positions reads the same after the call as before (an absent slot reading as zero). -/
theorem C2_packed_field_preservation (D : Dict) (c : StorageMap) (keccak : Nat → Nat)
    (f fuel : Nat) (msg : ReorgInfo) (m : StorageMap) (d : DataType) (tn enc st : String)
    (hD : D msg.TypeName = some d)
    (hE : ExtractUntilInplace D f msg.TypeName = some (.ok (tn, enc, false)))
    (hS : ContainsStruct D f msg.TypeName = some (.ok (false, st)))
    (hf : f ≤ fuel)
    (hno : msg.NewOffset + d.PrevNumberOfBytes ≤ u64) :
    ∃ m', ReorganizeInplace D c keccak fuel msg m = .ok m' ∧
      ∀ (key : Nat) (pos : Fin 32),
        (∀ k, k < d.PrevNumberOfBytes →
          ¬ (slotAt msg.NewSlot (msg.NewOffset + k) = key ∧ bytePos (msg.NewOffset + k) = pos)) →
        (GetModifiedState m' key).get pos = (GetModifiedState m key).get pos :=
  ⟨_, ReorganizeInplace_primitive D c keccak f fuel msg m d tn enc st hD hE hS hf,
    fun key pos h => copyPrimitive_frame c _ msg m hno key pos h⟩

/-- C2 witness: scenario S2.  Slot 0 holds 1 in its high half and 2 in its low half; the
two `uint128` directives swap the halves, and the second directive, run on the buffer the
first one left, keeps every byte outside its own 16 destination bytes. -/
theorem C2_packed_field_preservation_witness :
    Reorganize scenarioTypes (StorageMap.ofList [(0, BigToHash (2 ^ 128 + 2))]) toyKeccak 1
        [⟨"t_uint128", 0, 0, 0, 16⟩, ⟨"t_uint128", 0, 0, 16, 0⟩] ∅
      = .ok (StorageMap.ofList [(0, BigToHash (2 * 2 ^ 128 + 1))]) ∧
    ∃ m', ReorganizeInplace scenarioTypes (StorageMap.ofList [(0, BigToHash (2 ^ 128 + 2))])
        toyKeccak 1 ⟨"t_uint128", 0, 0, 16, 0⟩ (StorageMap.ofList [(0, BigToHash (2 * 2 ^ 128))])
        = .ok m' ∧
      ∀ (key : Nat) (pos : Fin 32),
        (∀ k, k < 16 → ¬ (slotAt 0 (0 + k) = key ∧ bytePos (0 + k) = pos)) →
        (GetModifiedState m' key).get pos
          = (GetModifiedState (StorageMap.ofList [(0, BigToHash (2 * 2 ^ 128))]) key).get pos :=
  ⟨by decide,
    C2_packed_field_preservation scenarioTypes (StorageMap.ofList [(0, BigToHash (2 ^ 128 + 2))])
      toyKeccak 1 1 ⟨"t_uint128", 0, 0, 16, 0⟩ (StorageMap.ofList [(0, BigToHash (2 * 2 ^ 128))])
      ⟨"t_uint128", "", "inplace", 16, 16, []⟩ "t_uint128" "inplace" ""
      (by decide) (by decide) (by decide) (by decide) (by decide)⟩

/-- C2 counterexample: with `NewOffset = 2 ^ 64 - 1` and width 32 the `uint64` counter
`newOffset` wraps to 0 after the first byte, so byte 1 of the source (`0x2a`) is written to
position 31 of slot 1, which is none of the 32 destination positions of the claim. -/
theorem C2_counterexample :
    scenarioTypes "t_uint256" = some ⟨"t_uint256", "", "inplace", 32, 32, []⟩ ∧
    ExtractUntilInplace scenarioTypes 1 "t_uint256" = some (.ok ("t_uint256", "inplace", false)) ∧
    ContainsStruct scenarioTypes 1 "t_uint256" = some (.ok (false, "")) ∧
    ∃ m', ReorganizeInplace scenarioTypes (StorageMap.ofList [(0, BigToHash 0x2a00)]) toyKeccak 1
        ⟨"t_uint256", 0, 1, 0, 2 ^ 64 - 1⟩ ∅ = .ok m' ∧
      (∀ k, k < 32 → ¬ (slotAt 1 (2 ^ 64 - 1 + k) = 1 ∧ bytePos (2 ^ 64 - 1 + k) = 31)) ∧
      (GetModifiedState m' 1).get 31 ≠ (GetModifiedState ∅ 1).get 31 :=
  ⟨by decide, by decide, by decide, _, rfl, by decide, by decide⟩

theorem get?_SetState (st : StorageMap) (k : Nat) (v : Hash) (k' : Nat) :
    (SetState st k v).get? k'
      = if k' = k then (if v = zeroHash then none else some v) else st.get? k' := by
  unfold SetState StorageMap.get? StorageMap.set StorageMap.delete
  by_cases hv : v = zeroHash
  · by_cases hk : k' = k
    · subst hk
      simp [hv, AList.lookup_erase]
    · simp [hv, hk, AList.lookup_erase_ne hk]
  · by_cases hk : k' = k
    · subst hk
      simp [hv, AList.lookup_insert]
    · simp [hv, hk, AList.lookup_insert_ne hk]

theorem get?_DeleteKeysFromStorage (keys : List Nat) :
    ∀ (st : StorageMap) (k : Nat),
      (DeleteKeysFromStorage st keys).get? k = if k ∈ keys then none else st.get? k := by
  induction keys with
  | nil => intro st k; simp [DeleteKeysFromStorage]
  | cons a rest ih =>
    intro st k
    have h := ih (SetState st a zeroHash) k
    unfold DeleteKeysFromStorage at h ⊢
    rw [List.foldl_cons, h, get?_SetState]
    by_cases hk : k = a
    · simp [hk]
    · by_cases hr : k ∈ rest
      · simp [hr]
      · simp [hk, hr]

theorem get?_foldl_entries (l : List (Sigma (fun _ : Nat => Hash))) :
    l.NodupKeys → ∀ (st : StorageMap) (k : Nat),
      (l.foldl (fun acc e => if e.2 ≠ zeroHash then SetState acc e.1 e.2 else acc) st).get? k
        = match l.dlookup k with
          | some v => if v ≠ zeroHash then some v else st.get? k
          | none => st.get? k := by
  induction l with
  | nil => intro _ st k; simp
  | cons e rest ih =>
    intro hnd st k
    rw [List.nodupKeys_cons] at hnd
    rw [List.foldl_cons, ih hnd.2]
    by_cases hk : k = e.1
    · subst hk
      have hnone : List.dlookup e.1 rest = none := List.dlookup_eq_none.mpr hnd.1
      rw [hnone, List.dlookup_cons_eq]
      by_cases hv : e.2 = zeroHash
      · simp [hv]
      · simp [hv, get?_SetState]
    · rw [List.dlookup_cons_ne _ _ hk]
      have hst : (if e.2 ≠ zeroHash then SetState st e.1 e.2 else st).get? k = st.get? k := by
        by_cases hv : e.2 = zeroHash
        · simp [hv]
        · simp [hv, get?_SetState, hk]
      rw [hst]

theorem get?_Commit (state commitedStorage modifiedStorage : StorageMap) (k : Nat) :
    (Commit state commitedStorage modifiedStorage).get? k
      = match modifiedStorage.get? k with
        | some v =>
          if v ≠ zeroHash then some v
          else if k ∈ commitedStorage.keys then none else state.get? k
        | none => if k ∈ commitedStorage.keys then none else state.get? k := by
  unfold Commit AList.foldl
  simp only []
  rw [get?_foldl_entries _ modifiedStorage.nodupKeys, get?_DeleteKeysFromStorage]
  rfl

/-- C3: Commit produces exactly the non-zero modified image.  When every key of the target
store is a key of the committed image, after `Commit` the target holds at key `k` the value
`modified[k]` if that is present and not all-zero, and holds nothing at `k` otherwise. -/
theorem C3_commit_image (state commitedStorage modifiedStorage : StorageMap)
    (hsub : ∀ k, k ∈ state.keys → k ∈ commitedStorage.keys) (k : Nat) :
    (Commit state commitedStorage modifiedStorage).get? k
      = match modifiedStorage.get? k with
        | some v => if v ≠ zeroHash then some v else none
        | none => none := by
  rw [get?_Commit]
  have hk : (if k ∈ commitedStorage.keys then none else state.get? k) = none := by
    by_cases h : k ∈ commitedStorage.keys
    · simp [h]
    · have : k ∉ state.keys := fun h' => h (hsub k h')
      simp only [h, if_false]
      exact AList.lookup_eq_none.mpr (fun h' => this (AList.mem_keys.mp h'))
  rw [hk]

/-- C3 witness: the store of S1 is both target and committed image; the modified buffer
holds the moved value at slot 1 and an all-zero slot 3. -/
theorem C3_commit_image_witness :
    (Commit (StorageMap.ofList [(0, BigToHash 0x2a)]) (StorageMap.ofList [(0, BigToHash 0x2a)])
        (StorageMap.ofList [(1, BigToHash 0x2a), (3, zeroHash)])).get? 3
      = match (StorageMap.ofList [(1, BigToHash 0x2a), (3, zeroHash)]).get? 3 with
        | some v => if v ≠ zeroHash then some v else none
        | none => none :=
  C3_commit_image (StorageMap.ofList [(0, BigToHash 0x2a)]) (StorageMap.ofList [(0, BigToHash 0x2a)])
    (StorageMap.ofList [(1, BigToHash 0x2a), (3, zeroHash)]) (fun _ h => h) 3

theorem copyHeadLoop_get (p : Hash) :
    ∀ (count i : Nat) (n : Hash), i + count ≤ 32 →
      ∃ h, copyHeadLoop p count i n = some h ∧
        ∀ j : Fin 32, h.get j = if i ≤ j.val ∧ j.val < i + count then p.get j else n.get j := by
  intro count
  induction count with
  | zero =>
    intro i n _
    refine ⟨n, rfl, fun j => ?_⟩
    rw [if_neg]
    omega
  | succ k ih =>
    intro i n hle
    have hi : i < 32 := by omega
    rw [copyHeadLoop, dif_pos hi]
    obtain ⟨h, hh, hget⟩ := ih (i + 1) (n.set ⟨i, hi⟩ (p.get ⟨i, hi⟩)) (by omega)
    refine ⟨h, hh, fun j => ?_⟩
    rw [hget j]
    by_cases hj : j = ⟨i, hi⟩
    · subst hj
      simp
    · have hne : (⟨i, hi⟩ : Fin 32) ≠ j := fun e => hj e.symm
      have hv : j.val ≠ i := fun e => hj (Fin.ext e)
      rw [Mathlib.Vector.get_set_of_ne hne]
      by_cases h1 : i + 1 ≤ j.val ∧ j.val < i + 1 + k
      · rw [if_pos h1, if_pos (by omega)]
      · rw [if_neg h1, if_neg (by omega)]

theorem copyHeadLoop_full (p n : Hash) : copyHeadLoop p 32 0 n = some p := by
  obtain ⟨h, hh, hget⟩ := copyHeadLoop_get p 32 0 n (by omega)
  rw [hh]
  congr 1
  apply Mathlib.Vector.ext
  intro j
  rw [hget j, if_pos ⟨Nat.zero_le _, by omega⟩]

theorem copyHead_full (p n : Hash) : copyHead 32 p n = some p := by
  have h : (toInt64 32).toNat = 32 := by decide
  unfold copyHead
  rw [h]
  exact copyHeadLoop_full p n

/-- Hoare rule for a counted loop whose body always returns `nil`. -/
theorem forLoop_ok {σ : Type} (body : Nat → σ → Res σ) (Inv : Nat → σ → Prop) :
    ∀ (n i : Nat) (s : σ), Inv i s →
      (∀ k s, i ≤ k → k < i + n → Inv k s → ∃ s', body k s = .ok s' ∧ Inv (k + 1) s') →
      ∃ s', forLoop body n i s = .ok s' ∧ Inv (i + n) s' := by
  intro n
  induction n with
  | zero => intro i s h _; exact ⟨s, rfl, h⟩
  | succ k ih =>
    intro i s h hstep
    obtain ⟨s1, hb, h1⟩ := hstep i s (Nat.le_refl _) (by omega) h
    obtain ⟨s2, hl, h2⟩ := ih (i + 1) s1 h1 (fun k' s' hk1 hk2 hI => hstep k' s' (by omega) (by omega) hI)
    refine ⟨s2, ?_, ?_⟩
    · rw [forLoop, hb]
      exact hl
    · rw [show i + (k + 1) = i + 1 + k by omega]
      exact h2

/-- Rule for a counted loop and a property kept by every returning run of the body. -/
theorem forLoop_whenReturned {σ : Type} (body : Nat → σ → Res σ) (Q : σ → Prop)
    (hbody : ∀ k s, Q s → (body k s).whenReturned Q) :
    ∀ (n i : Nat) (s : σ), Q s → (forLoop body n i s).whenReturned Q := by
  intro n
  induction n with
  | zero => intro i s h; exact h
  | succ k ih =>
    intro i s h
    rw [forLoop]
    have hb := hbody i s h
    cases hr : body i s with
    | ok s' => rw [hr] at hb; exact ih (i + 1) s' hb
    | err e s' => rw [hr] at hb; exact hb
    | panic => trivial
    | outOfFuel => trivial

/-- A counted loop whose step `k` makes slot `dst k` of the modified buffer equal to the
committed slot `src k` and leaves every other slot as it reads. -/
theorem slotCopyLoop (c : StorageMap) (body : Nat → StorageMap → Res StorageMap)
    (dst src : Nat → Nat)
    (hcompat : ∀ i k, dst i = dst k → GetCommitedState c (src i) = GetCommitedState c (src k))
    (hbody : ∀ k s, ∃ s', body k s = .ok s' ∧
      GetModifiedState s' (dst k) = GetCommitedState c (src k) ∧
      ∀ key, key ≠ dst k → GetModifiedState s' key = GetModifiedState s key)
    (n : Nat) (s : StorageMap) :
    ∃ s', forLoop body n 0 s = .ok s' ∧
      (∀ i, i < n → GetModifiedState s' (dst i) = GetCommitedState c (src i)) ∧
      (∀ key, (∀ i, i < n → key ≠ dst i) → GetModifiedState s' key = GetModifiedState s key) := by
  have h := forLoop_ok body
    (fun k s' => (∀ i, i < k → GetModifiedState s' (dst i) = GetCommitedState c (src i)) ∧
      (∀ key, (∀ i, i < k → key ≠ dst i) → GetModifiedState s' key = GetModifiedState s key))
    n 0 s ⟨fun i hi => absurd hi (Nat.not_lt_zero _), fun _ _ => rfl⟩
    (by
      intro k s0 _ _ hI
      obtain ⟨s1, hb, hw, hfr⟩ := hbody k s0
      refine ⟨s1, hb, ?_, ?_⟩
      · intro i hi
        by_cases hd : dst i = dst k
        · rw [hd, hw, hcompat i k hd]
        · rw [hfr _ hd]
          exact hI.1 i (by
            rcases Nat.lt_succ_iff_lt_or_eq.mp hi with h | h
            · exact h
            · exact absurd (by rw [h]) hd)
      · intro key hkey
        rw [hfr key (hkey k (Nat.lt_succ_self k))]
        exact hI.2 key (fun i hi => hkey i (Nat.lt_succ_of_lt hi)))
  rw [Nat.zero_add] at h
  exact h

theorem slot_compat (c : StorageMap) (a b i k : Nat)
    (h : (a + i) % slotModulus = (a + k) % slotModulus) :
    GetCommitedState c ((b + i) % slotModulus) = GetCommitedState c ((b + k) % slotModulus) := by
  have : (b + i) % slotModulus = (b + k) % slotModulus := by
    simp only [slotModulus] at *
    omega
  rw [this]

/-- What `ReorganizeBytes` does for a known type of prev_width 32: the head slot is copied
whole, and for a long string the payload slots are copied one by one. -/
theorem ReorganizeBytes_run (D : Dict) (c : StorageMap) (keccak : Nat → Nat) (msg : ReorgInfo)
    (m : StorageMap) (d : DataType) (hD : D msg.TypeName = some d)
    (hw : d.PrevNumberOfBytes = 32) :
    ∃ m', ReorganizeBytes D c keccak msg m = .ok m' ∧
      (∀ i, ((GetCommitedState c msg.PrevSlot).get 31).val &&& 1 ≠ 0 →
        i < (bytesNumberOfSlots (GetCommitedState c msg.PrevSlot)).toNat →
        GetModifiedState m' ((keccak msg.NewSlot + i) % slotModulus)
          = GetCommitedState c ((keccak msg.PrevSlot + i) % slotModulus)) ∧
      (∀ key, (((GetCommitedState c msg.PrevSlot).get 31).val &&& 1 ≠ 0 →
          ∀ i, i < (bytesNumberOfSlots (GetCommitedState c msg.PrevSlot)).toNat →
            key ≠ (keccak msg.NewSlot + i) % slotModulus) →
        GetModifiedState m' key
          = GetModifiedState (SetModifiedState m msg.NewSlot (GetCommitedState c msg.PrevSlot))
              key) := by
  unfold ReorganizeBytes
  simp only [GetNumberOfBytes, hD, liftErr, hw, copyHead_full]
  by_cases hflag : ((GetCommitedState c msg.PrevSlot).get 31).val &&& 1 ≠ 0
  · rw [if_pos hflag]
    obtain ⟨s', hrun, h1, h2⟩ := slotCopyLoop c
      (fun i m' =>
        match copyHeadLoop (GetCommitedState c ((keccak msg.PrevSlot + i) % slotModulus)) 32 0
            (GetModifiedState m' ((keccak msg.NewSlot + i) % slotModulus)) with
        | none => Res.panic
        | some curNewSlot' =>
          Res.ok (SetModifiedState m' ((keccak msg.NewSlot + i) % slotModulus) curNewSlot'))
      (fun i => (keccak msg.NewSlot + i) % slotModulus)
      (fun i => (keccak msg.PrevSlot + i) % slotModulus)
      (fun i k h => slot_compat c _ _ i k h)
      (by
        intro k s
        refine ⟨SetModifiedState s ((keccak msg.NewSlot + k) % slotModulus)
          (GetCommitedState c ((keccak msg.PrevSlot + k) % slotModulus)), ?_, ?_, ?_⟩
        · simp only [copyHeadLoop_full]
        · simp only [GetModifiedState_set, if_true]
        · intro key hk
          simp only [GetModifiedState_set, if_neg hk])
      (bytesNumberOfSlots (GetCommitedState c msg.PrevSlot)).toNat
      (SetModifiedState m msg.NewSlot (GetCommitedState c msg.PrevSlot))
    exact ⟨s', hrun, fun i _ hi => h1 i hi, fun key hk => h2 key (hk hflag)⟩
  · rw [if_neg hflag]
    exact ⟨_, rfl, fun i h => absurd h hflag, fun _ _ => rfl⟩

theorem bytesNumberOfSlots_long (h : Hash) (L : Nat) (hL : h.Big = 2 * L + 1) :
    (bytesNumberOfSlots h).toNat = (L + 31) / 32 := by
  unfold bytesNumberOfSlots
  rw [hL]
  simp only []
  split_ifs <;> omega

theorem get?_Commit_self (c m : StorageMap) (k : Nat) :
    (Commit c c m).get? k
      = if GetModifiedState m k = zeroHash then none else some (GetModifiedState m k) := by
  have hk : (if k ∈ c.keys then none else c.get? k) = none := by
    by_cases h : k ∈ c.keys
    · simp [h]
    · simp only [h, if_false]
      exact AList.lookup_eq_none.mpr (fun h' => h (AList.mem_keys.mp h'))
  rw [get?_Commit, hk]
  unfold GetModifiedState
  cases m.get? k with
  | none => simp
  | some v =>
    by_cases hv : v = zeroHash
    · simp [hv]
    · simp [hv]

/-- C8: long-form bytes payload.  For a bytes directive of prev_width 32 whose committed
head has the low bit of byte 31 set and reads `2 * L + 1`, `ReorganizeBytes` returns `nil`,
every payload slot `keccak(new_slot) + i`, `i < ⌈L / 32⌉`, of the modified buffer equals the
committed slot `keccak(prev_slot) + i`, and no slot other than `new_slot` and these payload
slots is changed. -/
theorem C8_long_bytes_payload (D : Dict) (c : StorageMap) (keccak : Nat → Nat) (msg : ReorgInfo)
    (m : StorageMap) (d : DataType) (L : Nat) (hD : D msg.TypeName = some d)
    (hw : d.PrevNumberOfBytes = 32)
    (hflag : ((GetCommitedState c msg.PrevSlot).get 31).val &&& 1 ≠ 0)
    (hL : (GetCommitedState c msg.PrevSlot).Big = 2 * L + 1) :
    ∃ m', ReorganizeBytes D c keccak msg m = .ok m' ∧
      (∀ i, i < (L + 31) / 32 →
        GetModifiedState m' ((keccak msg.NewSlot + i) % slotModulus)
          = GetCommitedState c ((keccak msg.PrevSlot + i) % slotModulus)) ∧
      (∀ key, key ≠ msg.NewSlot →
        (∀ i, i < (L + 31) / 32 → key ≠ (keccak msg.NewSlot + i) % slotModulus) →
        GetModifiedState m' key = GetModifiedState m key) := by
  obtain ⟨m', hrun, h1, h2⟩ := ReorganizeBytes_run D c keccak msg m d hD hw
  have hn := bytesNumberOfSlots_long _ L hL
  refine ⟨m', hrun, ?_, ?_⟩
  · intro i hi
    exact h1 i hflag (by rw [hn]; exact hi)
  · intro key hk hdata
    rw [h2 key (fun _ i hi => hdata i (by rw [← hn]; exact hi)), GetModifiedState_set, if_neg hk]

/-- C8 witness: a 40-byte string with head at slot 5 moved to slot 9; two payload slots. -/
theorem C8_long_bytes_payload_witness :
    ∃ m', ReorganizeBytes scenarioTypes longBytesImage toyKeccak ⟨"t_bytes", 5, 9, 0, 0⟩ ∅ = .ok m' ∧
      (∀ i, i < (40 + 31) / 32 →
        GetModifiedState m' ((toyKeccak 9 + i) % slotModulus)
          = GetCommitedState longBytesImage ((toyKeccak 5 + i) % slotModulus)) ∧
      (∀ key, key ≠ 9 →
        (∀ i, i < (40 + 31) / 32 → key ≠ (toyKeccak 9 + i) % slotModulus) →
        GetModifiedState m' key = GetModifiedState ∅ key) :=
  C8_long_bytes_payload scenarioTypes longBytesImage toyKeccak ⟨"t_bytes", 5, 9, 0, 0⟩ ∅
    ⟨"t_bytes", "", "bytes", 32, 32, []⟩ 40 (by decide) (by decide) (by decide) (by decide)

/-- C9 (amended): short-form bytes relocation.  For a bytes directive of prev_width 32 whose
committed head has the low bit of byte 31 clear, `ReorganizeBytes` returns `nil`, sets the
modified slot `new_slot` to the committed slot `prev_slot` and changes no other slot.  When
the modified buffer reads all-zero at `prev_slot` before the call, after `Commit` into the
store the image was taken from, `new_slot` reads that value and `prev_slot`, if different
from `new_slot`, is absent. -/
theorem C9_short_bytes_relocation (D : Dict) (c : StorageMap) (keccak : Nat → Nat)
    (msg : ReorgInfo) (m : StorageMap) (d : DataType) (hD : D msg.TypeName = some d)
    (hw : d.PrevNumberOfBytes = 32)
    (hflag : ((GetCommitedState c msg.PrevSlot).get 31).val &&& 1 = 0) :
    ∃ m', ReorganizeBytes D c keccak msg m = .ok m' ∧
      GetModifiedState m' msg.NewSlot = GetCommitedState c msg.PrevSlot ∧
      (∀ key, key ≠ msg.NewSlot → GetModifiedState m' key = GetModifiedState m key) ∧
      (GetModifiedState m msg.PrevSlot = zeroHash →
        ((Commit c c m').get? msg.NewSlot).getD zeroHash = GetCommitedState c msg.PrevSlot ∧
        (msg.PrevSlot ≠ msg.NewSlot → (Commit c c m').get? msg.PrevSlot = none)) := by
  obtain ⟨m', hrun, _, h2⟩ := ReorganizeBytes_run D c keccak msg m d hD hw
  have hfr : ∀ key, GetModifiedState m' key
      = GetModifiedState (SetModifiedState m msg.NewSlot (GetCommitedState c msg.PrevSlot)) key :=
    fun key => h2 key (fun hf => absurd hflag hf)
  have hnew : GetModifiedState m' msg.NewSlot = GetCommitedState c msg.PrevSlot := by
    rw [hfr, GetModifiedState_set, if_pos rfl]
  have hoth : ∀ key, key ≠ msg.NewSlot → GetModifiedState m' key = GetModifiedState m key := by
    intro key hk
    rw [hfr, GetModifiedState_set, if_neg hk]
  refine ⟨m', hrun, hnew, hoth, ?_⟩
  intro hm
  constructor
  · rw [get?_Commit_self, hnew]
    by_cases hz : GetCommitedState c msg.PrevSlot = zeroHash
    · simp [hz]
    · simp [hz]
  · intro hne
    rw [get?_Commit_self, hoth _ hne, hm, if_pos rfl]

/-- C9 witness: scenario S3, "hello" moved from slot 5 to slot 9. -/
theorem C9_short_bytes_relocation_witness :
    ∃ m', ReorganizeBytes scenarioTypes helloImage toyKeccak ⟨"t_bytes", 5, 9, 0, 0⟩ ∅ = .ok m' ∧
      GetModifiedState m' 9 = GetCommitedState helloImage 5 ∧
      (∀ key, key ≠ 9 → GetModifiedState m' key = GetModifiedState ∅ key) ∧
      (GetModifiedState ∅ 5 = zeroHash →
        ((Commit helloImage helloImage m').get? 9).getD zeroHash = GetCommitedState helloImage 5 ∧
        ((5 : Nat) ≠ 9 → (Commit helloImage helloImage m').get? 5 = none)) :=
  C9_short_bytes_relocation scenarioTypes helloImage toyKeccak ⟨"t_bytes", 5, 9, 0, 0⟩ ∅
    ⟨"t_bytes", "", "bytes", 32, 32, []⟩ (by decide) (by decide) (by decide)

theorem whenReturned_mono {σ : Type} (r : Res σ) (P Q : σ → Prop) (h : ∀ s, P s → Q s)
    (hr : r.whenReturned P) : r.whenReturned Q := by
  cases r with
  | ok s => exact h s hr
  | err e s => exact h s hr
  | panic => trivial
  | outOfFuel => trivial

theorem ReorganizeDynamicArray_run (D : Dict) (c : StorageMap) (keccak : Nat → Nat) (fuel : Nat)
    (msg : ReorgInfo) (m : StorageMap) (d : DataType) (hD : D msg.TypeName = some d)
    (hw : d.PrevNumberOfBytes = 32) :
    ReorganizeDynamicArray D c keccak fuel msg m
      = dynamicArrayElements D keccak (ReorganizeInplace D c keccak fuel) msg
          (GetCommitedState c msg.PrevSlot)
          (SetModifiedState m msg.NewSlot (GetCommitedState c msg.PrevSlot)) := by
  unfold ReorganizeDynamicArray ReorganizeDynamicArrayWith
  simp only [GetNumberOfBytes, hD, liftErr, hw, copyHead_full]

theorem slotAt_small (slot off : Nat) (hs : slot < slotModulus) (ho : off < 32) :
    slotAt slot off = slot := by
  unfold slotAt
  rw [Nat.div_eq_of_lt ho, Nat.zero_add, Nat.mod_eq_of_lt hs]

theorem bytePos_cover (pos : Fin 32) : bytePos (31 - pos.val) = pos := by
  unfold bytePos
  apply Fin.ext
  have := pos.isLt
  simp only []
  omega

/-- The lane loop of a packed dynamic array (lines 738-752) for one data slot: with a
primitive callee of width `w` dividing 32 it copies the whole slot `src` of the committed
image to slot `dst` of the modified buffer and changes no other slot. -/
theorem laneLoop (c : StorageMap) (inplace : ReorgInfo → StorageMap → Res StorageMap)
    (tn : String) (w src dst : Nat) (hdiv : w ∣ 32) (hdst : dst < slotModulus)
    (hsrc : src < slotModulus)
    (hprim : ∀ j s, inplace ⟨tn, src, dst, j * w, j * w⟩ s
      = .ok (copyPrimitive c w ⟨tn, src, dst, j * w, j * w⟩ s))
    (s : StorageMap) :
    ∃ s', forLoop (fun j s'' => inplace
        { PrevSlot := src, NewSlot := dst, PrevOffset := j * w, NewOffset := j * w,
          TypeName := tn } s'') (32 / w) 0 s = .ok s' ∧
      GetModifiedState s' dst = GetCommitedState c src ∧
      ∀ key, key ≠ dst → GetModifiedState s' key = GetModifiedState s key := by
  have hper : 32 / w * w = 32 := Nat.div_mul_cancel hdiv
  have hlane : ∀ j, j < 32 / w → (j + 1) * w ≤ 32 := by
    intro j hj
    calc (j + 1) * w ≤ 32 / w * w := Nat.mul_le_mul_right w hj
      _ = 32 := hper
  have h := forLoop_ok
    (fun j s'' => inplace
        { PrevSlot := src, NewSlot := dst, PrevOffset := j * w, NewOffset := j * w,
          TypeName := tn } s'')
    (fun j s' =>
      (∀ off, off < j * w →
        (GetModifiedState s' dst).get (bytePos off) = (GetCommitedState c src).get (bytePos off)) ∧
      (∀ key, key ≠ dst → GetModifiedState s' key = GetModifiedState s key))
    (32 / w) 0 s
    ⟨fun off ho => by rw [Nat.zero_mul] at ho; exact absurd ho (Nat.not_lt_zero _),
      fun _ _ => rfl⟩
    (by
      intro j s0 _ hj hI
      rw [Nat.zero_add] at hj
      have hl := hlane j hj
      have hjw : (j + 1) * w = j * w + w := by rw [Nat.add_mul, Nat.one_mul]
      rw [hjw] at hl
      refine ⟨_, hprim j s0, ?_, ?_⟩
      · intro off ho
        rw [hjw] at ho
        by_cases hlt : off < j * w
        · rw [copyPrimitive_frame c w ⟨tn, src, dst, j * w, j * w⟩ s0
            (by simp only [u64]; omega) dst (bytePos off)
            (by
              intro k hk h
              have := (bytePos_eq_iff _ _).mp h.2
              simp only [] at this
              omega)]
          exact hI.1 off hlt
        · have hb := copyPrimitive_byte c w ⟨tn, src, dst, j * w, j * w⟩ s0
            (by simp only [u64]; omega) (by simp only [u64]; omega) (off - j * w) (by omega)
          unfold regionByte at hb
          simp only [] at hb
          rw [show j * w + (off - j * w) = off by omega, slotAt_small dst off hdst (by omega),
            slotAt_small src off hsrc (by omega)] at hb
          exact hb
      · intro key hk
        have hfr : GetModifiedState (copyPrimitive c w ⟨tn, src, dst, j * w, j * w⟩ s0) key
            = GetModifiedState s0 key := by
          apply Mathlib.Vector.ext
          intro pos
          exact copyPrimitive_frame c w ⟨tn, src, dst, j * w, j * w⟩ s0
            (by simp only [u64]; omega) key pos
            (by
              intro k hk' h
              have h1 := h.1
              simp only [] at h1
              rw [slotAt_small dst _ hdst (by omega)] at h1
              exact hk h1.symm)
        rw [hfr]
        exact hI.2 key hk)
  obtain ⟨s', hrun, hbytes, hfr⟩ := h
  refine ⟨s', hrun, ?_, hfr⟩
  apply Mathlib.Vector.ext
  intro pos
  have := hbytes (31 - pos.val) (by rw [Nat.zero_add, hper]; omega)
  rw [bytePos_cover] at this
  exact this

theorem ceil_slots (n per : Nat) (hper : 0 < per) :
    n / per + (if n % per > 0 then 1 else 0) = (n + per - 1) / per := by
  have hdm := Nat.div_add_mod n per
  have hlt := Nat.mod_lt n hper
  have e : n + per - 1 = per * (n / per) + (n % per + per - 1) := by omega
  have e2 : (n % per + per - 1) / per = if n % per > 0 then 1 else 0 := by
    by_cases h0 : n % per > 0
    · have e3 : n % per + per - 1 = (n % per - 1) + per := by omega
      have e4 : (n % per - 1) / per = 0 := Nat.div_eq_of_lt (by omega)
      rw [if_pos h0, e3, Nat.add_div_right _ hper, e4]
    · have e4 : (n % per + per - 1) / per = 0 := Nat.div_eq_of_lt (by omega)
      rw [if_neg h0, e4]
  rw [e, Nat.mul_add_div hper, e2]

/-- A type without base and without members is copied as a primitive by `ReorganizeInplace`,
whatever its encoding. -/
theorem ReorganizeInplace_leaf (D : Dict) (c : StorageMap) (keccak : Nat → Nat) (fuel : Nat)
    (msg : ReorgInfo) (m : StorageMap) (b : DataType) (hB : D msg.TypeName = some b)
    (hbbase : b.Base = "") (hbmem : b.Members = []) (hfuel : 1 ≤ fuel) :
    ReorganizeInplace D c keccak fuel msg m = .ok (copyPrimitive c b.PrevNumberOfBytes msg m) :=
  ReorganizeInplace_primitive D c keccak 1 fuel msg m b b.TypeName b.Encoding "" hB
    (by simp [ExtractUntilInplace, hB, hbbase])
    (by simp [ContainsStruct, hB, hbbase, hbmem]) hfuel

theorem dynamicArrayElements_flat {σ : Type} (D : Dict) (keccak : Nat → Nat)
    (inplace : ReorgInfo → σ → Res σ) (msg : ReorgInfo) (prevSlot : Hash) (m1 : σ)
    (d b : DataType) (hD : D msg.TypeName = some d) (hB : D d.Base = some b)
    (hbenc : b.Encoding = "inplace") (hbbase : b.Base = "") (hbmem : b.Members = [])
    (hN : prevSlot.Big ≠ 0) (hw0 : b.PrevNumberOfBytes ≠ 0) (hper : 32 / b.PrevNumberOfBytes ≠ 0) :
    dynamicArrayElements D keccak inplace msg prevSlot m1
      = forLoop (fun i m' =>
          forLoop (fun j m'' =>
            inplace
              { PrevSlot := (keccak msg.PrevSlot + i) % slotModulus
                NewSlot := (keccak msg.NewSlot + i) % slotModulus
                PrevOffset := j * b.PrevNumberOfBytes
                NewOffset := j * b.PrevNumberOfBytes
                TypeName := d.Base } m'')
            (32 / b.PrevNumberOfBytes) 0 m')
          (prevSlot.Big / (32 / b.PrevNumberOfBytes) +
            (if prevSlot.Big % (32 / b.PrevNumberOfBytes) > 0 then 1 else 0)) 0 m1 := by
  unfold dynamicArrayElements
  simp [hD, hB, hbenc, hbbase, hbmem, hN, hw0, hper, IsEncodingInplace, IsNested, IsFlat,
    GetNumberOfBytes, liftErr]

/-- C7: dynamic array of packed primitives.  For a dynamic-array directive of prev_width 32
with committed element count `N > 0` whose base has no base and no members and a width
`w` dividing 32, `ReorganizeDynamicArray` returns `nil`; with
`slot_count = ⌈N / (32 / w)⌉` every modified slot `keccak(new_slot) + i`, `i < slot_count`,
equals the committed slot `keccak(prev_slot) + i`, and no slot other than `new_slot` and
these data slots is changed. -/
theorem C7_packed_dynamic_array (D : Dict) (c : StorageMap) (keccak : Nat → Nat) (fuel : Nat)
    (msg : ReorgInfo) (m : StorageMap) (d b : DataType) (hD : D msg.TypeName = some d)
    (hw : d.PrevNumberOfBytes = 32) (hB : D d.Base = some b) (hbenc : b.Encoding = "inplace")
    (hbbase : b.Base = "") (hbmem : b.Members = []) (hdiv : b.PrevNumberOfBytes ∣ 32)
    (hN : 0 < (GetCommitedState c msg.PrevSlot).Big) (hfuel : 1 ≤ fuel) :
    ∃ m', ReorganizeDynamicArray D c keccak fuel msg m = .ok m' ∧
      (∀ i, i < ((GetCommitedState c msg.PrevSlot).Big + 32 / b.PrevNumberOfBytes - 1)
            / (32 / b.PrevNumberOfBytes) →
        GetModifiedState m' ((keccak msg.NewSlot + i) % slotModulus)
          = GetCommitedState c ((keccak msg.PrevSlot + i) % slotModulus)) ∧
      (∀ key, key ≠ msg.NewSlot →
        (∀ i, i < ((GetCommitedState c msg.PrevSlot).Big + 32 / b.PrevNumberOfBytes - 1)
            / (32 / b.PrevNumberOfBytes) → key ≠ (keccak msg.NewSlot + i) % slotModulus) →
        GetModifiedState m' key = GetModifiedState m key) := by
  have hw0 : b.PrevNumberOfBytes ≠ 0 := by
    intro h0
    rw [h0] at hdiv
    exact absurd (Nat.eq_zero_of_zero_dvd hdiv) (by decide)
  have hle : b.PrevNumberOfBytes ≤ 32 := Nat.le_of_dvd (by decide) hdiv
  have hper : 32 / b.PrevNumberOfBytes ≠ 0 := by
    have := Nat.div_pos hle (Nat.pos_of_ne_zero hw0)
    omega
  rw [ReorganizeDynamicArray_run D c keccak fuel msg m d hD hw,
    dynamicArrayElements_flat D keccak _ msg _ _ d b hD hB hbenc hbbase hbmem (by omega) hw0 hper,
    ceil_slots _ _ (Nat.pos_of_ne_zero hper)]
  obtain ⟨m', hrun, h1, h2⟩ := slotCopyLoop c _
    (fun i => (keccak msg.NewSlot + i) % slotModulus)
    (fun i => (keccak msg.PrevSlot + i) % slotModulus)
    (fun i k h => slot_compat c _ _ i k h)
    (fun i s => laneLoop c (ReorganizeInplace D c keccak fuel) d.Base b.PrevNumberOfBytes
      ((keccak msg.PrevSlot + i) % slotModulus) ((keccak msg.NewSlot + i) % slotModulus) hdiv
      (Nat.mod_lt _ (by decide)) (Nat.mod_lt _ (by decide))
      (fun j s' => ReorganizeInplace_leaf D c keccak fuel _ s' b hB hbbase hbmem hfuel) s)
    (((GetCommitedState c msg.PrevSlot).Big + 32 / b.PrevNumberOfBytes - 1)
      / (32 / b.PrevNumberOfBytes))
    (SetModifiedState m msg.NewSlot (GetCommitedState c msg.PrevSlot))
  refine ⟨m', hrun, h1, ?_⟩
  intro key hk hdata
  rw [h2 key hdata, GetModifiedState_set, if_neg hk]

set_option maxRecDepth 20000 in
/-- C7 witness: scenario S4, three `uint256` elements, head moved from slot 2 to slot 7;
the run is also evaluated in full. -/
theorem C7_packed_dynamic_array_witness :
    Reorganize scenarioTypes arrayImage toyKeccak 1 [⟨"t_array_uint256", 2, 7, 0, 0⟩] ∅
      = .ok (StorageMap.ofList [(toyKeccak 7 + 2, BigToHash 13), (toyKeccak 7 + 1, BigToHash 12),
          (toyKeccak 7, BigToHash 11), (7, BigToHash 3)]) ∧
    ∃ m', ReorganizeDynamicArray scenarioTypes arrayImage toyKeccak 1
        ⟨"t_array_uint256", 2, 7, 0, 0⟩ ∅ = .ok m' ∧
      (∀ i, i < ((GetCommitedState arrayImage 2).Big + 32 / 32 - 1) / (32 / 32) →
        GetModifiedState m' ((toyKeccak 7 + i) % slotModulus)
          = GetCommitedState arrayImage ((toyKeccak 2 + i) % slotModulus)) ∧
      (∀ key, key ≠ 7 →
        (∀ i, i < ((GetCommitedState arrayImage 2).Big + 32 / 32 - 1) / (32 / 32) →
          key ≠ (toyKeccak 7 + i) % slotModulus) →
        GetModifiedState m' key = GetModifiedState ∅ key) :=
  ⟨by decide,
    C7_packed_dynamic_array scenarioTypes arrayImage toyKeccak 1 ⟨"t_array_uint256", 2, 7, 0, 0⟩ ∅
      ⟨"t_array_uint256", "t_uint256", "dynamic_array", 32, 32, []⟩
      ⟨"t_uint256", "", "inplace", 32, 32, []⟩
      (by decide) (by decide) (by decide) (by decide) (by decide) (by decide) (by decide)
      (by decide) (by decide)⟩

/-- One call of a 32-byte primitive callee at offset 0 copies the whole slot. -/
theorem wholeSlotCall (c : StorageMap) (inplace : ReorgInfo → StorageMap → Res StorageMap)
    (tn : String) (src dst : Nat) (hdst : dst < slotModulus) (hsrc : src < slotModulus)
    (hprim : ∀ po no s, inplace ⟨tn, src, dst, po, no⟩ s
      = .ok (copyPrimitive c 32 ⟨tn, src, dst, po, no⟩ s))
    (s : StorageMap) :
    ∃ s', inplace ⟨tn, src, dst, 0, 0⟩ s = .ok s' ∧
      GetModifiedState s' dst = GetCommitedState c src ∧
      ∀ key, key ≠ dst → GetModifiedState s' key = GetModifiedState s key := by
  obtain ⟨s', hrun, h1, h2⟩ := laneLoop c inplace tn 32 src dst (Nat.dvd_refl 32) hdst hsrc
    (fun j s0 => hprim _ _ s0) s
  refine ⟨s', ?_, h1, h2⟩
  have e : (32 : Nat) / 32 = 1 := by decide
  rw [e, forLoop, Nat.zero_mul] at hrun
  rw [hprim] at hrun ⊢
  simpa [forLoop] using hrun

theorem dynamicArrayElements_bytes {σ : Type} (D : Dict) (keccak : Nat → Nat)
    (inplace : ReorgInfo → σ → Res σ) (msg : ReorgInfo) (prevSlot : Hash) (m1 : σ)
    (d b : DataType) (hD : D msg.TypeName = some d) (hB : D d.Base = some b)
    (hbenc : b.Encoding = "bytes") (hN : prevSlot.Big ≠ 0) :
    dynamicArrayElements D keccak inplace msg prevSlot m1
      = forLoop (fun i m' =>
          inplace
            { PrevSlot := (keccak msg.PrevSlot + i) % slotModulus
              NewSlot := (keccak msg.NewSlot + i) % slotModulus
              PrevOffset := 0
              NewOffset := 0
              TypeName := d.Base } m')
          prevSlot.Big 0 m1 := by
  unfold dynamicArrayElements
  simp [hD, hB, hbenc, hN, IsEncodingInplace, IsEncodingDynamicArray, IsEncodingBytes, liftErr]

/-- C4 (what the code does): for a dynamic-array directive of prev_width 32 with element
count `N > 0` whose base is a bytes type without base and members, of prev_width 32,
`ReorganizeDynamicArray` returns `nil`, copies each element head slot
`keccak(prev_slot) + i` whole to `keccak(new_slot) + i`, and changes no slot other than
`new_slot` and these `N` head slots: the payload slots of long elements are not written. -/
theorem C4_array_of_bytes_heads_only (D : Dict) (c : StorageMap) (keccak : Nat → Nat)
    (fuel : Nat) (msg : ReorgInfo) (m : StorageMap) (d b : DataType)
    (hD : D msg.TypeName = some d) (hw : d.PrevNumberOfBytes = 32) (hB : D d.Base = some b)
    (hbenc : b.Encoding = "bytes") (hbbase : b.Base = "") (hbmem : b.Members = [])
    (hbw : b.PrevNumberOfBytes = 32) (hN : 0 < (GetCommitedState c msg.PrevSlot).Big)
    (hfuel : 1 ≤ fuel) :
    ∃ m', ReorganizeDynamicArray D c keccak fuel msg m = .ok m' ∧
      (∀ i, i < (GetCommitedState c msg.PrevSlot).Big →
        GetModifiedState m' ((keccak msg.NewSlot + i) % slotModulus)
          = GetCommitedState c ((keccak msg.PrevSlot + i) % slotModulus)) ∧
      (∀ key, key ≠ msg.NewSlot →
        (∀ i, i < (GetCommitedState c msg.PrevSlot).Big →
          key ≠ (keccak msg.NewSlot + i) % slotModulus) →
        GetModifiedState m' key = GetModifiedState m key) := by
  rw [ReorganizeDynamicArray_run D c keccak fuel msg m d hD hw,
    dynamicArrayElements_bytes D keccak _ msg _ _ d b hD hB hbenc (by omega)]
  obtain ⟨m', hrun, h1, h2⟩ := slotCopyLoop c _
    (fun i => (keccak msg.NewSlot + i) % slotModulus)
    (fun i => (keccak msg.PrevSlot + i) % slotModulus)
    (fun i k h => slot_compat c _ _ i k h)
    (fun i s => wholeSlotCall c (ReorganizeInplace D c keccak fuel) d.Base
      ((keccak msg.PrevSlot + i) % slotModulus) ((keccak msg.NewSlot + i) % slotModulus)
      (Nat.mod_lt _ (by decide)) (Nat.mod_lt _ (by decide))
      (fun po no s' => by
        rw [ReorganizeInplace_leaf D c keccak fuel _ s' b hB hbbase hbmem hfuel, hbw]) s)
    (GetCommitedState c msg.PrevSlot).Big
    (SetModifiedState m msg.NewSlot (GetCommitedState c msg.PrevSlot))
  refine ⟨m', hrun, h1, ?_⟩
  intro key hk hdata
  rw [h2 key hdata, GetModifiedState_set, if_neg hk]

set_option maxRecDepth 20000 in
/-- C4 failing input: an array of one long byte string (40 bytes) moved from slot 2 to
slot 7.  The run returns `nil` with only the array head and the element head in the
buffer; the first payload slot of the element under the new head is still zero and differs
from the committed payload slot under the old head. -/
theorem C4_array_of_bytes_heads_only_witness :
    (∃ m', ReorganizeDynamicArray scenarioTypes bytesArrayImage toyKeccak 1
        ⟨"t_array_bytes", 2, 7, 0, 0⟩ ∅ = .ok m' ∧
      (∀ i, i < (GetCommitedState bytesArrayImage 2).Big →
        GetModifiedState m' ((toyKeccak 7 + i) % slotModulus)
          = GetCommitedState bytesArrayImage ((toyKeccak 2 + i) % slotModulus)) ∧
      (∀ key, key ≠ 7 →
        (∀ i, i < (GetCommitedState bytesArrayImage 2).Big →
          key ≠ (toyKeccak 7 + i) % slotModulus) →
        GetModifiedState m' key = GetModifiedState ∅ key)) ∧
    Reorganize scenarioTypes bytesArrayImage toyKeccak 1 [⟨"t_array_bytes", 2, 7, 0, 0⟩] ∅
      = .ok (StorageMap.ofList [(toyKeccak 7, BigToHash 81), (7, BigToHash 1)]) ∧
    GetModifiedState (StorageMap.ofList [(toyKeccak 7, BigToHash 81), (7, BigToHash 1)])
        ((toyKeccak ((toyKeccak 7 + 0) % slotModulus) + 0) % slotModulus)
      ≠ GetCommitedState bytesArrayImage
        ((toyKeccak ((toyKeccak 2 + 0) % slotModulus) + 0) % slotModulus) :=
  ⟨C4_array_of_bytes_heads_only scenarioTypes bytesArrayImage toyKeccak 1
      ⟨"t_array_bytes", 2, 7, 0, 0⟩ ∅ ⟨"t_array_bytes", "t_bytes", "dynamic_array", 32, 32, []⟩
      ⟨"t_bytes", "", "bytes", 32, 32, []⟩
      (by decide) (by decide) (by decide) (by decide) (by decide) (by decide) (by decide)
      (by decide) (by decide),
    by decide, by decide⟩

theorem toInt64_small (x : Nat) (h : x < 2 ^ 63) : toInt64 x = (x : Int) := by
  unfold toInt64
  have e : x % u64 = x := Nat.mod_eq_of_lt (by simp only [u64]; omega)
  rw [e, if_pos h]

theorem structCount (W ps : Nat) (hW : W < 2 ^ 63) (hps : 0 < ps) (hps' : ps < 2 ^ 63) :
    toInt64 ps ≠ 0 ∧ (wrapInt64 (Int.tdiv (toInt64 W) (toInt64 ps))).toNat = W / ps := by
  rw [toInt64_small W hW, toInt64_small ps hps']
  constructor
  · omega
  · have e : Int.tdiv (W : Int) (ps : Int) = ((W / ps : Nat) : Int) := rfl
    have hle : W / ps ≤ W := Nat.div_le_self W ps
    rw [e]
    generalize W / ps = q at hle ⊢
    unfold wrapInt64
    omega

theorem forEach_ok {α σ : Type} (body : α → σ → Res σ) :
    ∀ (l : List α) (Inv : Nat → σ → Prop) (s : σ), Inv 0 s →
      (∀ a (ha : a < l.length) s, Inv a s →
        ∃ s', body (l.get ⟨a, ha⟩) s = .ok s' ∧ Inv (a + 1) s') →
      ∃ s', forEach body l s = .ok s' ∧ Inv l.length s' := by
  intro l
  induction l with
  | nil => intro Inv s h0 _; exact ⟨s, rfl, h0⟩
  | cons x rest ih =>
    intro Inv s h0 hstep
    obtain ⟨s1, hb, h1⟩ := hstep 0 (Nat.succ_pos _) s h0
    obtain ⟨s2, hl, h2⟩ := ih (fun a s' => Inv (a + 1) s') s1 h1
      (fun a ha s' hI => hstep (a + 1) (Nat.succ_lt_succ ha) s' hI)
    refine ⟨s2, ?_, h2⟩
    rw [forEach]
    simp only [List.get] at hb
    rw [hb]
    exact hl

theorem ReorganizeInplace_struct (D : Dict) (c : StorageMap) (keccak : Nat → Nat)
    (f fuel : Nat) (msg : ReorgInfo) (m : StorageMap) (d sd : DataType) (tn enc S : String)
    (hD : D msg.TypeName = some d)
    (hE : ExtractUntilInplace D f msg.TypeName = some (.ok (tn, enc, false)))
    (hS : ContainsStruct D f msg.TypeName = some (.ok (true, S)))
    (hDS : D S = some sd) (hf : f ≤ fuel + 1)
    (hW : d.PrevNumberOfBytes < 2 ^ 63) (hps : 0 < sd.PrevNumberOfBytes)
    (hps' : sd.PrevNumberOfBytes < 2 ^ 63) :
    ReorganizeInplace D c keccak (fuel + 1) msg m
      = forLoop (fun i m' =>
          forEach (fun member m'' =>
            match D member.TypeName with
            | none => .err "Struct Member Not Found" m''
            | some memberDataType =>
              if memberDataType.Encoding = "inplace" then
                ReorganizeInplace D c keccak fuel
                  (memberDirective (msg.PrevSlot + i * (sd.PrevNumberOfBytes / 32))
                    (msg.NewSlot + i * (sd.NewNumberOfBytes / 32)) member
                    memberDataType.TypeName) m''
              else if memberDataType.Encoding = "dynamic_array" then
                ReorganizeDynamicArrayWith D c keccak (ReorganizeInplace D c keccak fuel)
                  (memberDirective (msg.PrevSlot + i * (sd.PrevNumberOfBytes / 32))
                    (msg.NewSlot + i * (sd.NewNumberOfBytes / 32)) member
                    memberDataType.TypeName) m''
              else if memberDataType.Encoding = "bytes" then
                ReorganizeBytes D c keccak
                  (memberDirective (msg.PrevSlot + i * (sd.PrevNumberOfBytes / 32))
                    (msg.NewSlot + i * (sd.NewNumberOfBytes / 32)) member
                    memberDataType.TypeName) m''
              else .err "Unknown Encoding" m'')
            sd.Members m')
          (d.PrevNumberOfBytes / sd.PrevNumberOfBytes) 0 m := by
  obtain ⟨hc1, hc2⟩ := structCount _ _ hW hps hps'
  rw [ReorganizeInplace]
  simp only [GetNumberOfBytes, hD, liftErr, ExtractUntilInplace_mono D f _ _ _ hE hf,
    ContainsStruct_mono D f _ _ _ hS hf, hDS, Option.getD, hc1, hc2]
  simp

theorem CopiedJobs_congr (c : StorageMap) (job : Nat → Nat → ReorgInfo) (width : Nat → Nat)
    (count len : Nat) (s0 : StorageMap) (P P' : Nat → Nat → Prop) (s : StorageMap)
    (h : ∀ i a, i < count → a < len → (P i a ↔ P' i a))
    (hg : CopiedJobs c job width count len s0 P s) :
    CopiedJobs c job width count len s0 P' s := by
  refine ⟨fun i a k hP hi ha hk => hg.1 i a k ((h i a hi ha).mpr hP) hi ha hk, ?_⟩
  intro key pos hfr
  exact hg.2 key pos (fun i a k hP hi ha hk => hfr i a k ((h i a hi ha).mp hP) hi ha hk)

theorem CopiedJobs_step (c : StorageMap) (job : Nat → Nat → ReorgInfo) (width : Nat → Nat)
    (count len : Nat) (s0 : StorageMap) (P : Nat → Nat → Prop) (s : StorageMap)
    (hpo : ∀ i a, i < count → a < len → (job i a).PrevOffset + width a < u64)
    (hno : ∀ i a, i < count → a < len → (job i a).NewOffset + width a ≤ u64)
    (hdisj : ∀ i i' a a' k k', i < count → i' < count → a < len → a' < len →
      k < width a → k' < width a' → (i, a) ≠ (i', a') →
      destByte (job i a) k ≠ destByte (job i' a') k')
    (i0 a0 : Nat) (hi0 : i0 < count) (ha0 : a0 < len) (hnew : ¬ P i0 a0)
    (hg : CopiedJobs c job width count len s0 P s) :
    CopiedJobs c job width count len s0 (fun i a => P i a ∨ (i = i0 ∧ a = a0))
      (copyPrimitive c (width a0) (job i0 a0) s) := by
  constructor
  · intro i a k hP hi ha hk
    rcases hP with hP | ⟨rfl, rfl⟩
    · have hne : (i, a) ≠ (i0, a0) := by
        intro e
        rw [Prod.mk.injEq] at e
        rw [e.1, e.2] at hP
        exact hnew hP
      have hfr := copyPrimitive_frame c (width a0) (job i0 a0) s (hno i0 a0 hi0 ha0)
        (slotAt (job i a).NewSlot ((job i a).NewOffset + k)) (bytePos ((job i a).NewOffset + k))
        (fun k' hk' h => hdisj i0 i a0 a k' k hi0 hi ha0 ha hk' hk (fun e => hne e.symm)
          (Prod.ext h.1 h.2))
      unfold regionByte
      rw [hfr]
      exact hg.1 i a k hP hi ha hk
    · exact copyPrimitive_byte c _ _ s (hpo i a hi ha) (hno i a hi ha) k hk
  · intro key pos hfr
    rw [copyPrimitive_frame c (width a0) (job i0 a0) s (hno i0 a0 hi0 ha0) key pos
      (fun k hk h => hfr i0 a0 k (Or.inr ⟨rfl, rfl⟩) hi0 ha0 hk (Prod.ext h.1 h.2))]
    exact hg.2 key pos (fun i a k hP hi ha hk => hfr i a k (Or.inl hP) hi ha hk)

/-- Repetitions of a list of primitive copies with pairwise disjoint destinations: every
byte of every copy arrives, and no other byte changes. -/
theorem nestedCopy {α : Type} (c : StorageMap) (members : List α)
    (B : Nat → α → StorageMap → Res StorageMap) (job : Nat → Nat → ReorgInfo)
    (width : Nat → Nat) (count : Nat)
    (hB : ∀ i a (ha : a < members.length) s, i < count →
      B i (members.get ⟨a, ha⟩) s = .ok (copyPrimitive c (width a) (job i a) s))
    (hpo : ∀ i a, i < count → a < members.length → (job i a).PrevOffset + width a < u64)
    (hno : ∀ i a, i < count → a < members.length → (job i a).NewOffset + width a ≤ u64)
    (hdisj : ∀ i i' a a' k k', i < count → i' < count → a < members.length →
      a' < members.length → k < width a → k' < width a' → (i, a) ≠ (i', a') →
      destByte (job i a) k ≠ destByte (job i' a') k')
    (s0 : StorageMap) :
    ∃ s', forLoop (fun i s => forEach (B i) members s) count 0 s0 = .ok s' ∧
      CopiedJobs c job width count members.length s0 (fun _ _ => True) s' := by
  have h := forLoop_ok (fun i s => forEach (B i) members s)
    (fun i s => CopiedJobs c job width count members.length s0 (fun i' _ => i' < i) s)
    count 0 s0
    ⟨fun i a k hP => absurd hP (Nat.not_lt_zero _), fun _ _ _ => rfl⟩
    (by
      intro i s _ hi hI
      rw [Nat.zero_add] at hi
      have hin := forEach_ok (B i) members
        (fun a s' => CopiedJobs c job width count members.length s0
          (fun i' a' => i' < i ∨ (i' = i ∧ a' < a)) s') s
        (CopiedJobs_congr c job width count _ s0 _ _ s (fun i' a' _ _ => by omega) hI)
        (by
          intro a ha s' hI'
          refine ⟨_, hB i a ha s' hi, ?_⟩
          have hs := CopiedJobs_step c job width count members.length s0 _ s' hpo hno hdisj
            i a hi ha (by omega) hI'
          exact CopiedJobs_congr c job width count _ s0 _ _ _ (fun i' a' _ _ => by omega) hs)
      obtain ⟨s', hrun, hI'⟩ := hin
      exact ⟨s', hrun,
        CopiedJobs_congr c job width count _ s0 _ _ s' (fun i' a' _ ha' => by omega) hI'⟩)
  obtain ⟨s', hrun, hI⟩ := h
  rw [Nat.zero_add] at hI
  exact ⟨s', hrun, CopiedJobs_congr c job width count _ s0 _ _ s'
    (fun i' a' hi' _ => ⟨fun _ => trivial, fun _ => hi'⟩) hI⟩

theorem Init_TypeName (l : List DataType) :
    ∀ (t : String) (x : DataType), Init l t = some x → x.TypeName = t := by
  unfold Init
  have h : ∀ (l : List DataType) (D0 : Dict), (∀ t x, D0 t = some x → x.TypeName = t) →
      ∀ t x, l.foldl (fun D d => fun t => if t = d.TypeName then some d else D t) D0 t = some x →
        x.TypeName = t := by
    intro l
    induction l with
    | nil => intro D0 h0 t x hx; exact h0 t x hx
    | cons d rest ih =>
      intro D0 h0 t x hx
      rw [List.foldl_cons] at hx
      refine ih _ ?_ t x hx
      intro t' x' hx'
      by_cases ht : t' = d.TypeName
      · simp only [ht, if_true, Option.some.injEq] at hx'
        rw [← hx', ht]
      · simp only [ht, if_false] at hx'
        exact h0 t' x' hx'
  exact h l _ (fun t x hx => by simp at hx)

theorem purePrimitive_spec (D : Dict) (f : Nat) (t : String) (h : purePrimitive D f t = true) :
    ∃ tn enc st, ExtractUntilInplace D f t = some (.ok (tn, enc, false)) ∧
      ContainsStruct D f t = some (.ok (false, st)) := by
  unfold purePrimitive at h
  split at h
  · rename_i tn enc st hE hS
    exact ⟨tn, enc, st, hE, hS⟩
  · exact absurd h (by decide)

/-- C10 (amended): struct member relocation.  Let the dictionary be keyed by type name, the
directive's type have prev_width `W < 2 ^ 63`, no dynamic extension, and reach the struct
`S` of prev width `ps` with `1 ≤ ps < 2 ^ 63`, all of whose members are inplace pure
primitives whose `uint64` offsets do not wrap.  If the destinations of distinct members and
repetitions do not overlap, `ReorganizeInplace` returns `nil` after `W / ps` repetitions;
for every repetition `i`, member and byte `k` of the member the modified byte at offset
`new_offset + k` from slot `new_slot + i * (ns / 32) + member.new_slot` equals the committed
byte at offset `prev_offset + k` from slot `prev_slot + i * (ps / 32) + member.prev_slot`,
and every other modified byte is unchanged. -/
theorem C10_struct_member_relocation (D : Dict) (c : StorageMap) (keccak : Nat → Nat)
    (f fuel : Nat) (msg : ReorgInfo) (m : StorageMap) (d sd : DataType) (tn enc S : String)
    (hwf : ∀ t x, D t = some x → x.TypeName = t)
    (hD : D msg.TypeName = some d)
    (hE : ExtractUntilInplace D f msg.TypeName = some (.ok (tn, enc, false)))
    (hS : ContainsStruct D f msg.TypeName = some (.ok (true, S)))
    (hDS : D S = some sd) (hf : f + 1 ≤ fuel)
    (hW : d.PrevNumberOfBytes < 2 ^ 63) (hps : 0 < sd.PrevNumberOfBytes)
    (hps' : sd.PrevNumberOfBytes < 2 ^ 63)
    (hmem : ∀ member, member ∈ sd.Members →
      (D member.TypeName).map (fun md => md.Encoding) = some "inplace" ∧
      purePrimitive D f member.TypeName = true ∧
      member.PrevOffset + memberWidth D member < u64 ∧
      member.NewOffset + memberWidth D member ≤ u64)
    (hdisj : ∀ i, i < d.PrevNumberOfBytes / sd.PrevNumberOfBytes →
      ∀ i', i' < d.PrevNumberOfBytes / sd.PrevNumberOfBytes →
      ∀ a, a < sd.Members.length → ∀ a', a' < sd.Members.length → (i, a) ≠ (i', a') →
      ∀ k, k < memberWidth D (sd.Members.getD a Member.zero) →
      ∀ k', k' < memberWidth D (sd.Members.getD a' Member.zero) →
      destByte (structDirective msg sd i a) k ≠ destByte (structDirective msg sd i' a') k') :
    ∃ m', ReorganizeInplace D c keccak fuel msg m = .ok m' ∧
      (∀ i a k, i < d.PrevNumberOfBytes / sd.PrevNumberOfBytes → a < sd.Members.length →
        k < memberWidth D (sd.Members.getD a Member.zero) →
        regionByte (GetModifiedState m') (structDirective msg sd i a).NewSlot
            (sd.Members.getD a Member.zero).NewOffset k
          = regionByte (GetCommitedState c) (structDirective msg sd i a).PrevSlot
            (sd.Members.getD a Member.zero).PrevOffset k) ∧
      (∀ key pos,
        (∀ i a k, i < d.PrevNumberOfBytes / sd.PrevNumberOfBytes → a < sd.Members.length →
          k < memberWidth D (sd.Members.getD a Member.zero) →
          destByte (structDirective msg sd i a) k ≠ (key, pos)) →
        (GetModifiedState m' key).get pos = (GetModifiedState m key).get pos) := by
  obtain ⟨fuel', rfl⟩ : ∃ k, fuel = k + 1 := ⟨fuel - 1, by omega⟩
  rw [ReorganizeInplace_struct D c keccak f fuel' msg m d sd tn enc S hD hE hS hDS (by omega)
    hW hps hps']
  have hget : ∀ a (ha : a < sd.Members.length),
      sd.Members.get ⟨a, ha⟩ = sd.Members.getD a Member.zero := by
    intro a ha
    rw [List.getD_eq_getElem _ _ ha]
    rfl
  obtain ⟨m', hrun, hw, hfr⟩ := nestedCopy c sd.Members
    (fun i member m'' =>
      match D member.TypeName with
      | none => .err "Struct Member Not Found" m''
      | some memberDataType =>
        if memberDataType.Encoding = "inplace" then
          ReorganizeInplace D c keccak fuel'
            (memberDirective (msg.PrevSlot + i * (sd.PrevNumberOfBytes / 32))
              (msg.NewSlot + i * (sd.NewNumberOfBytes / 32)) member
              memberDataType.TypeName) m''
        else if memberDataType.Encoding = "dynamic_array" then
          ReorganizeDynamicArrayWith D c keccak (ReorganizeInplace D c keccak fuel')
            (memberDirective (msg.PrevSlot + i * (sd.PrevNumberOfBytes / 32))
              (msg.NewSlot + i * (sd.NewNumberOfBytes / 32)) member
              memberDataType.TypeName) m''
        else if memberDataType.Encoding = "bytes" then
          ReorganizeBytes D c keccak
            (memberDirective (msg.PrevSlot + i * (sd.PrevNumberOfBytes / 32))
              (msg.NewSlot + i * (sd.NewNumberOfBytes / 32)) member
              memberDataType.TypeName) m''
        else .err "Unknown Encoding" m'')
    (structDirective msg sd)
    (fun a => memberWidth D (sd.Members.getD a Member.zero))
    (d.PrevNumberOfBytes / sd.PrevNumberOfBytes)
    (by
      intro i a ha s hi
      have hm := hmem _ (List.get_mem sd.Members a ha)
      rw [hget a ha] at hm ⊢
      obtain ⟨henc, hpp, _, _⟩ := hm
      obtain ⟨tn', enc', st', hE', hS'⟩ := purePrimitive_spec D f _ hpp
      cases hmd : D (sd.Members.getD a Member.zero).TypeName with
      | none => rw [hmd] at henc; simp at henc
      | some md =>
        rw [hmd] at henc
        simp only [Option.map_some', Option.some.injEq] at henc
        have htn := hwf _ _ hmd
        simp only [hmd, henc, if_true, htn]
        have hw : memberWidth D (sd.Members.getD a Member.zero) = md.PrevNumberOfBytes := by
          unfold memberWidth
          rw [hmd]
        rw [hw]
        exact ReorganizeInplace_primitive D c keccak f fuel' (structDirective msg sd i a) s md
          tn' enc' st' hmd hE' hS' (by omega))
    (fun i a _ ha => (hmem _ (by rw [← hget a ha]; exact List.get_mem sd.Members a ha)).2.2.1)
    (fun i a _ ha => (hmem _ (by rw [← hget a ha]; exact List.get_mem sd.Members a ha)).2.2.2)
    (fun i i' a a' k k' hi hi' ha ha' hk hk' hne => hdisj i hi i' hi' a ha a' ha' hne k hk k' hk')
    m
  exact ⟨m', hrun, fun i a k hi ha hk => hw i a k trivial hi ha hk,
    fun key pos h => hfr key pos (fun i a k _ hi ha hk => h i a k hi ha hk)⟩

theorem s5_width (a : Nat) (ha : a < 2) :
    memberWidth structTypes (s5Struct.Members.getD a Member.zero) = 16 := by
  interval_cases a <;> decide

theorem s5_disjoint :
    ∀ i, i < s5Struct.PrevNumberOfBytes / s5Struct.PrevNumberOfBytes →
      ∀ i', i' < s5Struct.PrevNumberOfBytes / s5Struct.PrevNumberOfBytes →
      ∀ a, a < s5Struct.Members.length → ∀ a', a' < s5Struct.Members.length → (i, a) ≠ (i', a') →
      ∀ k, k < memberWidth structTypes (s5Struct.Members.getD a Member.zero) →
      ∀ k', k' < memberWidth structTypes (s5Struct.Members.getD a' Member.zero) →
      destByte (structDirective ⟨"t_struct", 0, 0, 0, 0⟩ s5Struct i a) k
        ≠ destByte (structDirective ⟨"t_struct", 0, 0, 0, 0⟩ s5Struct i' a') k' := by
  intro i hi i' hi' a ha a' ha' hne k hk k' hk' h
  have hi0 : i = 0 := by
    have : s5Struct.PrevNumberOfBytes / s5Struct.PrevNumberOfBytes = 1 := by decide
    omega
  have hi0' : i' = 0 := by
    have : s5Struct.PrevNumberOfBytes / s5Struct.PrevNumberOfBytes = 1 := by decide
    omega
  have hl : s5Struct.Members.length = 2 := by decide
  rw [hl] at ha ha'
  rw [s5_width a ha] at hk
  rw [s5_width a' ha'] at hk'
  subst hi0 hi0'
  have h1 := congrArg Prod.fst h
  interval_cases a <;> interval_cases a'
  · exact hne rfl
  · simp [destByte, structDirective, memberDirective, slotAt, s5Struct] at h1
    simp only [slotModulus] at h1
    omega
  · simp [destByte, structDirective, memberDirective, slotAt, s5Struct] at h1
    simp only [slotModulus] at h1
    omega
  · exact hne rfl

set_option maxRecDepth 100000 in
/-- C10 witness: scenario S5; the run is also evaluated in full. -/
theorem C10_struct_member_relocation_witness :
    Reorganize structTypes structImage toyKeccak 2 [⟨"t_struct", 0, 0, 0, 0⟩] ∅
      = .ok (StorageMap.ofList [(1, BigToHash 2), (0, BigToHash (2 ^ 128))]) ∧
    ∃ m', ReorganizeInplace structTypes structImage toyKeccak 2 ⟨"t_struct", 0, 0, 0, 0⟩ ∅
        = .ok m' ∧
      (∀ i a k, i < s5Struct.PrevNumberOfBytes / s5Struct.PrevNumberOfBytes →
        a < s5Struct.Members.length →
        k < memberWidth structTypes (s5Struct.Members.getD a Member.zero) →
        regionByte (GetModifiedState m')
            (structDirective ⟨"t_struct", 0, 0, 0, 0⟩ s5Struct i a).NewSlot
            (s5Struct.Members.getD a Member.zero).NewOffset k
          = regionByte (GetCommitedState structImage)
            (structDirective ⟨"t_struct", 0, 0, 0, 0⟩ s5Struct i a).PrevSlot
            (s5Struct.Members.getD a Member.zero).PrevOffset k) ∧
      (∀ key pos,
        (∀ i a k, i < s5Struct.PrevNumberOfBytes / s5Struct.PrevNumberOfBytes →
          a < s5Struct.Members.length →
          k < memberWidth structTypes (s5Struct.Members.getD a Member.zero) →
          destByte (structDirective ⟨"t_struct", 0, 0, 0, 0⟩ s5Struct i a) k ≠ (key, pos)) →
        (GetModifiedState m' key).get pos = (GetModifiedState ∅ key).get pos) :=
  ⟨by decide,
    C10_struct_member_relocation structTypes structImage toyKeccak 1 2 ⟨"t_struct", 0, 0, 0, 0⟩ ∅
      s5Struct s5Struct "t_struct" "inplace" "t_struct" (Init_TypeName _)
      (by decide) (by decide) (by decide) (by decide) (by decide) (by decide) (by decide)
      (by decide) (by decide) s5_disjoint⟩

theorem wide_disjoint :
    ∀ i, i < 2 ^ 63 / wideStruct.PrevNumberOfBytes →
      ∀ i', i' < 2 ^ 63 / wideStruct.PrevNumberOfBytes →
      ∀ a, a < wideStruct.Members.length → ∀ a', a' < wideStruct.Members.length →
      (i, a) ≠ (i', a') →
      ∀ k, k < memberWidth wideTypes (wideStruct.Members.getD a Member.zero) →
      ∀ k', k' < memberWidth wideTypes (wideStruct.Members.getD a' Member.zero) →
      destByte (structDirective ⟨"t_wide_region", 0, 1, 0, 0⟩ wideStruct i a) k
        ≠ destByte (structDirective ⟨"t_wide_region", 0, 1, 0, 0⟩ wideStruct i' a') k' := by
  intro i hi i' hi' a ha a' ha' hne k hk k' hk' h
  have hc : 2 ^ 63 / wideStruct.PrevNumberOfBytes = 2 := by decide
  have hl : wideStruct.Members.length = 1 := by decide
  rw [hc] at hi hi'
  rw [hl] at ha ha'
  have ha0 : a = 0 := by omega
  have ha0' : a' = 0 := by omega
  subst ha0 ha0'
  have hw : memberWidth wideTypes (wideStruct.Members.getD 0 Member.zero) = 32 := by decide
  rw [hw] at hk hk'
  have h1 := congrArg Prod.fst h
  simp [destByte, structDirective, memberDirective, slotAt, wideStruct] at h1
  simp only [slotModulus] at h1
  have hii : i ≠ i' := fun e => hne (by rw [e])
  omega

/-- C10 counterexample: a region of `W = 2 ^ 63` bytes of a struct of `2 ^ 62` bytes with
one `uint256` member.  The claim has `W / ps = 2` repetitions, but `int(W)` is negative, the
loop bound `int(W) / int(ps)` is `-2`, no repetition runs, and byte 0 of the member in
repetition 0 is not copied. -/
theorem C10_counterexample :
    wideTypes "t_wide_region"
      = some ⟨"t_wide_region", "t_wide_struct", "inplace", 2 ^ 63, 2 ^ 63, []⟩ ∧
    ExtractUntilInplace wideTypes 2 "t_wide_region"
      = some (.ok ("t_wide_struct", "inplace", false)) ∧
    ContainsStruct wideTypes 2 "t_wide_region" = some (.ok (true, "t_wide_struct")) ∧
    wideTypes "t_wide_struct" = some wideStruct ∧
    32 ∣ wideStruct.PrevNumberOfBytes ∧ 32 ∣ wideStruct.NewNumberOfBytes ∧
    wideStruct.PrevNumberOfBytes ∣ 2 ^ 63 ∧
    (∀ member, member ∈ wideStruct.Members →
      (wideTypes member.TypeName).map (fun md => md.Encoding) = some "inplace" ∧
      purePrimitive wideTypes 1 member.TypeName = true) ∧
    (∀ i, i < 2 ^ 63 / wideStruct.PrevNumberOfBytes →
      ∀ i', i' < 2 ^ 63 / wideStruct.PrevNumberOfBytes →
      ∀ a, a < wideStruct.Members.length → ∀ a', a' < wideStruct.Members.length →
      (i, a) ≠ (i', a') →
      ∀ k, k < memberWidth wideTypes (wideStruct.Members.getD a Member.zero) →
      ∀ k', k' < memberWidth wideTypes (wideStruct.Members.getD a' Member.zero) →
      destByte (structDirective ⟨"t_wide_region", 0, 1, 0, 0⟩ wideStruct i a) k
        ≠ destByte (structDirective ⟨"t_wide_region", 0, 1, 0, 0⟩ wideStruct i' a') k') ∧
    ReorganizeInplace wideTypes (StorageMap.ofList [(0, BigToHash 0x2a)]) toyKeccak 3
      ⟨"t_wide_region", 0, 1, 0, 0⟩ ∅ = .ok ∅ ∧
    0 < 2 ^ 63 / wideStruct.PrevNumberOfBytes ∧
    0 < memberWidth wideTypes (wideStruct.Members.getD 0 Member.zero) ∧
    regionByte (GetModifiedState ∅)
        (structDirective ⟨"t_wide_region", 0, 1, 0, 0⟩ wideStruct 0 0).NewSlot
        (wideStruct.Members.getD 0 Member.zero).NewOffset 0
      ≠ regionByte (GetCommitedState (StorageMap.ofList [(0, BigToHash 0x2a)]))
        (structDirective ⟨"t_wide_region", 0, 1, 0, 0⟩ wideStruct 0 0).PrevSlot
        (wideStruct.Members.getD 0 Member.zero).PrevOffset 0 :=
  ⟨by decide, by decide, by decide, by decide, by decide, by decide, by decide, by decide,
    wide_disjoint, by decide, by decide, by decide, by decide⟩

theorem SubImage_set (c m : StorageMap) (key : Nat) (v : Hash) (h : SubImage c m)
    (hv : ∀ pos, v.get pos = 0 ∨ v.get pos = (GetCommitedState c key).get pos) :
    SubImage c (SetModifiedState m key v) := by
  intro key' pos
  rw [GetModifiedState_set]
  by_cases hk : key' = key
  · rw [if_pos hk, hk]
    exact hv pos
  · rw [if_neg hk]
    exact h key' pos

theorem copyLoop_SubImage (c : StorageMap) (ps : Nat) :
    ∀ (count po : Nat) (m : StorageMap), SubImage c m →
      SubImage c (copyLoop c ps ps count po po m) := by
  intro count
  induction count with
  | zero => intro po m h; exact h
  | succ n ih =>
    intro po m h
    rw [copyLoop]
    apply ih
    apply SubImage_set c m _ _ h
    intro pos
    by_cases hp : pos = bytePos po
    · right
      rw [hp, Mathlib.Vector.get_set_same]
    · rw [Mathlib.Vector.get_set_of_ne (fun e => hp e.symm)]
      exact h _ pos

theorem copyPrimitive_SubImage (c : StorageMap) (w : Nat) (msg : ReorgInfo) (m : StorageMap)
    (hid : msg.isIdentity) (h : SubImage c m) : SubImage c (copyPrimitive c w msg m) := by
  unfold copyPrimitive
  rw [hid.1, hid.2]
  exact copyLoop_SubImage c _ _ _ m h

theorem copyHeadLoop_either (p : Hash) :
    ∀ (count i : Nat) (n h : Hash), copyHeadLoop p count i n = some h →
      ∀ j, h.get j = p.get j ∨ h.get j = n.get j := by
  intro count
  induction count with
  | zero =>
    intro i n h hh j
    rw [copyHeadLoop, Option.some.injEq] at hh
    rw [hh]
    exact Or.inr rfl
  | succ k ih =>
    intro i n h hh j
    rw [copyHeadLoop] at hh
    by_cases hi : i < 32
    · rw [dif_pos hi] at hh
      rcases ih _ _ _ hh j with h1 | h1
      · exact Or.inl h1
      · by_cases hj : j = ⟨i, hi⟩
        · left
          rw [h1, hj, Mathlib.Vector.get_set_same]
        · right
          rw [h1, Mathlib.Vector.get_set_of_ne (fun e => hj e.symm)]
    · rw [dif_neg hi] at hh
      exact absurd hh (by simp)

theorem headCopy_SubImage (c m : StorageMap) (n key : Nat) (h : SubImage c m) (v : Hash)
    (hv : copyHead n (GetCommitedState c key) (GetModifiedState m key) = some v) :
    SubImage c (SetModifiedState m key v) := by
  apply SubImage_set c m key v h
  intro pos
  rcases copyHeadLoop_either _ _ _ _ _ hv pos with h1 | h1
  · exact Or.inr h1
  · rw [h1]
    exact h key pos

theorem liftErr_whenReturned {α σ : Type} (e : Except String α) (s : σ) (k : α → Res σ)
    (Q : σ → Prop) (hs : Q s) (hk : ∀ a, (k a).whenReturned Q) :
    (liftErr e s k).whenReturned Q := by
  cases e with
  | ok a => exact hk a
  | error msg => exact hs

theorem forEach_whenReturned {α σ : Type} (body : α → σ → Res σ) (Q : σ → Prop) :
    ∀ (l : List α), (∀ a, a ∈ l → ∀ s, Q s → (body a s).whenReturned Q) →
      ∀ s, Q s → (forEach body l s).whenReturned Q := by
  intro l
  induction l with
  | nil => intro _ s h; exact h
  | cons x rest ih =>
    intro hbody s h
    rw [forEach]
    have hb := hbody x (List.mem_cons_self _ _) s h
    cases hr : body x s with
    | ok s' =>
      rw [hr] at hb
      exact ih (fun a ha => hbody a (List.mem_cons_of_mem _ ha)) s' hb
    | err e s' => rw [hr] at hb; exact hb
    | panic => trivial
    | outOfFuel => trivial

theorem ReorganizeBytes_SubImage (D : Dict) (c : StorageMap) (keccak : Nat → Nat)
    (msg : ReorgInfo) (m : StorageMap) (hid : msg.isIdentity) (h : SubImage c m) :
    (ReorganizeBytes D c keccak msg m).whenReturned (SubImage c) := by
  unfold ReorganizeBytes
  apply liftErr_whenReturned _ _ _ _ h
  intro sizes
  simp only []
  rw [hid.1]
  cases hv : copyHead sizes.1 (GetCommitedState c msg.PrevSlot)
      (GetModifiedState m msg.PrevSlot) with
  | none => trivial
  | some v =>
    have h1 := headCopy_SubImage c m _ _ h v hv
    simp only []
    split_ifs
    · apply forLoop_whenReturned _ _ _ _ _ _ h1
      intro k s hs
      simp only [copyHeadLoop_full]
      exact SubImage_set c s _ _ hs (fun pos => Or.inr rfl)
    · exact h1

theorem GetNumberOfBytes_identity (D : Dict) (hD : D.isIdentity) (t : String) (sz : Nat × Nat)
    (h : GetNumberOfBytes D t = .ok sz) : sz.2 = sz.1 := by
  unfold GetNumberOfBytes at h
  cases hd : D t with
  | none => rw [hd] at h; simp at h
  | some d =>
    rw [hd] at h
    simp only [Except.ok.injEq] at h
    rw [← h]
    exact (hD t d hd).1

theorem dynamicArrayElements_identity (D : Dict) (keccak : Nat → Nat)
    (inplace : ReorgInfo → StorageMap → Res StorageMap) (msg : ReorgInfo) (prevSlot : Hash)
    (Q : StorageMap → Prop) (hD : D.isIdentity) (hid : msg.isIdentity)
    (hcb : ∀ sub : ReorgInfo, sub.isIdentity → ∀ s, Q s → (inplace sub s).whenReturned Q)
    (m1 : StorageMap) (h1 : Q m1) :
    (dynamicArrayElements D keccak inplace msg prevSlot m1).whenReturned Q := by
  unfold dynamicArrayElements
  simp only []
  rw [hid.1]
  split_ifs with hN
  · exact h1
  apply liftErr_whenReturned _ _ _ _ h1
  intro isInplace
  split_ifs
  · apply liftErr_whenReturned _ _ _ _ h1
    intro isNested
    split_ifs
    · cases hs : GetNumberOfBytes D ((D msg.TypeName).getD DataType.zero).Base with
      | error e => exact h1
      | ok sz =>
        have hsz := GetNumberOfBytes_identity D hD _ sz hs
        simp only [liftErr]
        apply forLoop_whenReturned _ _ _ _ _ _ h1
        intro k s hs'
        exact hcb _ ⟨by simp only [hsz], rfl⟩ s hs'
    · apply liftErr_whenReturned _ _ _ _ h1
      intro isFlat
      split_ifs
      · apply liftErr_whenReturned _ _ _ _ h1
        intro sz
        split_ifs
        all_goals first
          | trivial
          | (apply forLoop_whenReturned _ _ _ _ _ _ h1
             intro i s hs'
             apply forLoop_whenReturned _ _ _ _ _ _ hs'
             intro j s' hs''
             exact hcb _ ⟨rfl, rfl⟩ s' hs'')
      · exact h1
  · apply liftErr_whenReturned _ _ _ _ h1
    intro isDyn
    split_ifs
    · apply forLoop_whenReturned _ _ _ _ _ _ h1
      intro k s hs'
      exact hcb _ ⟨rfl, rfl⟩ s hs'
    · apply liftErr_whenReturned _ _ _ _ h1
      intro isBytes
      split_ifs
      · apply forLoop_whenReturned _ _ _ _ _ _ h1
        intro k s hs'
        exact hcb _ ⟨rfl, rfl⟩ s hs'
      · exact h1

theorem ReorganizeDynamicArrayWith_SubImage (D : Dict) (c : StorageMap) (keccak : Nat → Nat)
    (inplace : ReorgInfo → StorageMap → Res StorageMap) (msg : ReorgInfo) (m : StorageMap)
    (hD : D.isIdentity) (hid : msg.isIdentity)
    (hcb : ∀ sub : ReorgInfo, sub.isIdentity →
      ∀ s, SubImage c s → (inplace sub s).whenReturned (SubImage c))
    (h : SubImage c m) :
    (ReorganizeDynamicArrayWith D c keccak inplace msg m).whenReturned (SubImage c) := by
  unfold ReorganizeDynamicArrayWith
  apply liftErr_whenReturned _ _ _ _ h
  intro sizes
  simp only []
  cases hv : copyHead sizes.1 (GetCommitedState c msg.PrevSlot)
      (GetModifiedState m msg.NewSlot) with
  | none => trivial
  | some v =>
    simp only []
    apply dynamicArrayElements_identity D keccak inplace msg _ _ hD hid hcb
    rw [hid.1] at hv ⊢
    exact headCopy_SubImage c m _ _ h v hv

theorem members_identity (D : Dict) (hD : D.isIdentity) (S : String) (member : Member)
    (hm : member ∈ ((D S).getD DataType.zero).Members) :
    member.NewSlot = member.PrevSlot ∧ member.NewOffset = member.PrevOffset := by
  cases hd : D S with
  | none =>
    rw [hd] at hm
    simp [DataType.zero] at hm
  | some sd =>
    rw [hd] at hm
    exact (hD S sd hd).2 member hm

/-- Under an identity dictionary `ReorganizeInplace` keeps the buffer a sub-image of the
committed image on every identity directive. -/
theorem ReorganizeInplace_SubImage (D : Dict) (c : StorageMap) (keccak : Nat → Nat)
    (hD : D.isIdentity) :
    ∀ (fuel : Nat) (msg : ReorgInfo) (m : StorageMap), msg.isIdentity → SubImage c m →
      (ReorganizeInplace D c keccak fuel msg m).whenReturned (SubImage c) := by
  intro fuel
  induction fuel with
  | zero => intro msg m _ _; rw [ReorganizeInplace]; trivial
  | succ n ih =>
    intro msg m hid h
    rw [ReorganizeInplace]
    apply liftErr_whenReturned _ _ _ _ h
    intro sizes
    simp only []
    cases hE : ExtractUntilInplace D (n + 1) msg.TypeName with
    | none => trivial
    | some rE =>
      cases rE with
      | error e => exact h
      | ok tE =>
        obtain ⟨typeName, encoding, found⟩ := tE
        cases hS : ContainsStruct D (n + 1) msg.TypeName with
        | none => trivial
        | some rS =>
          cases rS with
          | error e => exact h
          | ok tS =>
            obtain ⟨structFound, structTypeName⟩ := tS
            simp only []
            split_ifs
            · apply forLoop_whenReturned _ _ _ _ _ _ h
              intro i s hs
              exact ReorganizeDynamicArrayWith_SubImage D c keccak _ _ s hD
                ⟨by simp only [hid.1], rfl⟩ (fun sub hsub s' hs' => ih sub s' hsub hs') hs
            · apply forLoop_whenReturned _ _ _ _ _ _ h
              intro i s hs
              exact ReorganizeBytes_SubImage D c keccak _ s ⟨by simp only [hid.1], rfl⟩ hs
            · exact h
            · cases hss : GetNumberOfBytes D structTypeName with
              | error e => exact h
              | ok ss =>
                have hsz := GetNumberOfBytes_identity D hD _ ss hss
                simp only [liftErr]
                split_ifs
                · trivial
                · apply forLoop_whenReturned _ _ _ _ _ _ h
                  intro i s hs
                  apply forEach_whenReturned _ _ _ _ s hs
                  intro member hmem s' hs'
                  have hmi := members_identity D hD structTypeName member hmem
                  have hsub : ∀ t, (memberDirective (msg.PrevSlot + i * (ss.1 / 32))
                      (msg.NewSlot + i * (ss.2 / 32)) member t).isIdentity := by
                    intro t
                    refine ⟨?_, hmi.2⟩
                    simp only [memberDirective, hid.1, hsz, hmi.1]
                  cases hmd : D member.TypeName with
                  | none => exact hs'
                  | some md =>
                    simp only []
                    split_ifs
                    · exact ih _ s' (hsub _) hs'
                    · exact ReorganizeDynamicArrayWith_SubImage D c keccak _ _ s' hD (hsub _)
                        (fun sub hsub' s'' hs'' => ih sub s'' hsub' hs'') hs'
                    · exact ReorganizeBytes_SubImage D c keccak _ s' (hsub _) hs'
                    · exact hs'
            · exact copyPrimitive_SubImage c _ msg m hid h

theorem Reorganize_SubImage (D : Dict) (c : StorageMap) (keccak : Nat → Nat) (fuel : Nat)
    (reorgMessges : List ReorgInfo) (m : StorageMap) (hD : D.isIdentity)
    (hmsgs : ∀ msg : ReorgInfo, msg ∈ reorgMessges → msg.isIdentity) (h : SubImage c m) :
    (Reorganize D c keccak fuel reorgMessges m).whenReturned (SubImage c) := by
  unfold Reorganize
  apply forEach_whenReturned _ _ _ _ m h
  intro msg hmsg s hs
  have hid := hmsgs msg hmsg
  apply liftErr_whenReturned _ _ _ _ hs
  intro isInplace
  split_ifs
  · exact ReorganizeInplace_SubImage D c keccak hD fuel msg s hid hs
  · apply liftErr_whenReturned _ _ _ _ hs
    intro isDyn
    split_ifs
    · exact ReorganizeDynamicArrayWith_SubImage D c keccak _ msg s hD hid
        (fun sub hsub s' hs' => ReorganizeInplace_SubImage D c keccak hD fuel sub s' hsub hs') hs
    · apply liftErr_whenReturned _ _ _ _ hs
      intro isBytes
      split_ifs
      · exact ReorganizeBytes_SubImage D c keccak msg s hid hs
      · exact hs

theorem SubImage_empty (c : StorageMap) : SubImage c ∅ := by
  intro key pos
  left
  have : GetModifiedState ∅ key = zeroHash := rfl
  rw [this]
  exact Mathlib.Vector.get_replicate 0 pos

theorem Init_isIdentity (l : List DataType)
    (hl : ∀ d, d ∈ l → d.NewNumberOfBytes = d.PrevNumberOfBytes ∧
      ∀ member, member ∈ d.Members →
        member.NewSlot = member.PrevSlot ∧ member.NewOffset = member.PrevOffset) :
    (Init l).isIdentity := by
  unfold Init
  have h : ∀ (l : List DataType) (D0 : Dict), D0.isIdentity →
      (∀ d, d ∈ l → d.NewNumberOfBytes = d.PrevNumberOfBytes ∧
        ∀ member, member ∈ d.Members →
          member.NewSlot = member.PrevSlot ∧ member.NewOffset = member.PrevOffset) →
      Dict.isIdentity
        (l.foldl (fun D d => fun t => if t = d.TypeName then some d else D t) D0) := by
    intro l
    induction l with
    | nil => intro D0 h0 _; exact h0
    | cons d rest ih =>
      intro D0 h0 hl
      rw [List.foldl_cons]
      apply ih
      · intro t x hx
        by_cases ht : t = d.TypeName
        · simp only [ht, if_true, Option.some.injEq] at hx
          rw [← hx]
          exact hl d (List.mem_cons_self _ _)
        · simp only [ht, if_false] at hx
          exact h0 t x hx
      · intro d' hd'
        exact hl d' (List.mem_cons_of_mem _ hd')
  exact h l _ (fun t x hx => by simp at hx) hl

theorem scenarioTypes_isIdentity : scenarioTypes.isIdentity :=
  Init_isIdentity _ (by decide)

set_option maxRecDepth 100000 in
/-- C5 counterexample: an identity dictionary and the single identity directive on slot 0 of
the two-slot image.  The run returns `nil`, and after `Commit` slot 1 of the pre-transform
image, which no directive covers, is gone.  Further, the identity directive on an array of
one long byte string, which covers the whole image: the run returns `nil` with the two head
slots only, and after `Commit` the first payload slot of the string is gone. -/
theorem C5_counterexample :
    scenarioTypes.isIdentity ∧
    (∀ msg : ReorgInfo, msg ∈ [(⟨"t_uint256", 0, 0, 0, 0⟩ : ReorgInfo)] → msg.isIdentity) ∧
    Reorganize scenarioTypes twoSlotImage toyKeccak 1 [⟨"t_uint256", 0, 0, 0, 0⟩] ∅
      = .ok (StorageMap.ofList [(0, BigToHash 0x2a)]) ∧
    (Commit twoSlotImage twoSlotImage (StorageMap.ofList [(0, BigToHash 0x2a)])).get? 1
      ≠ twoSlotImage.get? 1 ∧
    (∀ msg : ReorgInfo, msg ∈ [(⟨"t_array_bytes", 2, 2, 0, 0⟩ : ReorgInfo)] → msg.isIdentity) ∧
    Reorganize scenarioTypes bytesArrayImage toyKeccak 1 [⟨"t_array_bytes", 2, 2, 0, 0⟩] ∅
      = .ok (StorageMap.ofList [(toyKeccak 2, BigToHash 81), (2, BigToHash 1)]) ∧
    (Commit bytesArrayImage bytesArrayImage
        (StorageMap.ofList [(toyKeccak 2, BigToHash 81), (2, BigToHash 1)])).get?
      (toyKeccak (toyKeccak 2)) = none ∧
    bytesArrayImage.get? (toyKeccak (toyKeccak 2)) = some (BigToHash (2 ^ 255 + 7)) :=
  ⟨scenarioTypes_isIdentity, by decide, by decide, by decide, by decide, by decide, by decide,
    by decide⟩

theorem forEach_append {α σ : Type} (body : α → σ → Res σ) :
    ∀ (pre post : List α) (s s1 : σ), forEach body pre s = .ok s1 →
      forEach body (pre ++ post) s = forEach body post s1 := by
  intro pre
  induction pre with
  | nil =>
    intro post s s1 h
    rw [forEach, Res.ok.injEq] at h
    rw [List.nil_append, h]
  | cons x rest ih =>
    intro post s s1 h
    rw [List.cons_append, forEach]
    rw [forEach] at h
    cases hb : body x s with
    | ok s' =>
      rw [hb] at h
      exact ih post s' s1 h
    | err e s' => rw [hb] at h; exact absurd h (by simp)
    | panic => rw [hb] at h; exact absurd h (by simp)
    | outOfFuel => rw [hb] at h; exact absurd h (by simp)

/-- C15: dispatcher errors.  `Reorganize` on the empty list returns `nil`.  When the
directives before `bad` have returned `nil` leaving the buffer `m1`, and the type of `bad`
is absent from the dictionary, `Reorganize` returns the error "Type not found" with the
buffer exactly `m1`; when the type is known but its encoding is none of `inplace`,
`dynamic_array`, `bytes`, it returns the error "Not implemented yet" with the buffer
exactly `m1`.  In both cases nothing depends on the directives after `bad`. -/
theorem C15_dispatcher_errors (D : Dict) (c : StorageMap) (keccak : Nat → Nat) (fuel : Nat)
    (pre post : List ReorgInfo) (bad : ReorgInfo) (m m1 : StorageMap)
    (hpre : Reorganize D c keccak fuel pre m = .ok m1) :
    Reorganize D c keccak fuel [] m = .ok m ∧
    (D bad.TypeName = none →
      Reorganize D c keccak fuel (pre ++ bad :: post) m = .err "Type not found" m1) ∧
    (∀ d, D bad.TypeName = some d → d.Encoding ≠ "inplace" → d.Encoding ≠ "dynamic_array" →
      d.Encoding ≠ "bytes" →
      Reorganize D c keccak fuel (pre ++ bad :: post) m = .err "Not implemented yet" m1) := by
  unfold Reorganize at hpre ⊢
  refine ⟨rfl, ?_, ?_⟩
  · intro hD
    rw [forEach_append _ pre (bad :: post) m m1 hpre, forEach]
    simp [IsEncodingInplace, hD, liftErr]
  · intro d hD h1 h2 h3
    rw [forEach_append _ pre (bad :: post) m m1 hpre, forEach]
    simp [IsEncodingInplace, IsEncodingDynamicArray, IsEncodingBytes, hD, liftErr, h1, h2, h3]


/-- C15 witness: after the directive of S1 a directive of an unknown type, and after the
same directive one of a type with encoding `mapping`; a further directive follows each. -/
theorem C15_dispatcher_errors_witness :
    Reorganize mappingTypes twoSlotImage toyKeccak 1 [] ∅ = .ok ∅ ∧
    Reorganize mappingTypes twoSlotImage toyKeccak 1
        ([⟨"t_uint256", 0, 5, 0, 0⟩] ++ ⟨"t_missing", 1, 6, 0, 0⟩ :: [⟨"t_uint256", 1, 7, 0, 0⟩]) ∅
      = .err "Type not found" (StorageMap.ofList [(5, BigToHash 0x2a)]) ∧
    Reorganize mappingTypes twoSlotImage toyKeccak 1
        ([⟨"t_uint256", 0, 5, 0, 0⟩] ++ ⟨"t_mapping", 1, 6, 0, 0⟩ :: [⟨"t_uint256", 1, 7, 0, 0⟩]) ∅
      = .err "Not implemented yet" (StorageMap.ofList [(5, BigToHash 0x2a)]) :=
  ⟨(C15_dispatcher_errors mappingTypes twoSlotImage toyKeccak 1 [⟨"t_uint256", 0, 5, 0, 0⟩]
      [⟨"t_uint256", 1, 7, 0, 0⟩] ⟨"t_missing", 1, 6, 0, 0⟩ ∅
      (StorageMap.ofList [(5, BigToHash 0x2a)]) (by decide)).1,
    (C15_dispatcher_errors mappingTypes twoSlotImage toyKeccak 1 [⟨"t_uint256", 0, 5, 0, 0⟩]
      [⟨"t_uint256", 1, 7, 0, 0⟩] ⟨"t_missing", 1, 6, 0, 0⟩ ∅
      (StorageMap.ofList [(5, BigToHash 0x2a)]) (by decide)).2.1 (by decide),
    (C15_dispatcher_errors mappingTypes twoSlotImage toyKeccak 1 [⟨"t_uint256", 0, 5, 0, 0⟩]
      [⟨"t_uint256", 1, 7, 0, 0⟩] ⟨"t_mapping", 1, 6, 0, 0⟩ ∅
      (StorageMap.ofList [(5, BigToHash 0x2a)]) (by decide)).2.2
      ⟨"t_mapping", "", "mapping", 32, 32, []⟩ (by decide) (by decide) (by decide) (by decide)⟩

/-- C18: idempotence of `Commit`.  With a committed map separate from the target, and
with the committed map being the target's own map, a second `Commit` with the same
modified buffer leaves at every key what the first one left. -/
theorem C18_commit_idempotent (state c m : StorageMap) :
    (∀ k, (Commit (Commit state c m) c m).get? k = (Commit state c m).get? k) ∧
    (∀ k, (CommitShared (CommitShared c m) m).get? k = (CommitShared c m).get? k) := by
  constructor
  · intro k
    rw [get?_Commit (Commit state c m) c m k, get?_Commit state c m k]
    cases hm : m.get? k with
    | none =>
      simp only []
      by_cases hk : k ∈ c.keys
      · simp [hk]
      · simp [hk, hm]
    | some v =>
      simp only []
      by_cases hv : v = zeroHash
      · by_cases hk : k ∈ c.keys
        · simp [hv, hk]
        · simp [hv, hk]
      · simp [hv]
  · intro k
    unfold CommitShared
    rw [get?_Commit_self, get?_Commit_self]

/-- C19: zero-skip.  When no entry of the target store holds the all-zero value before,
then after `Commit`, whatever the committed image and the modified buffer hold, no key of
the target maps to the all-zero value. -/
theorem C19_zero_skip (state c m : StorageMap)
    (hst : ∀ e, e ∈ state.entries → e.2 ≠ zeroHash) :
    ∀ k, (Commit state c m).get? k ≠ some zeroHash := by
  have hs : ∀ k, state.get? k ≠ some zeroHash := by
    intro k h
    have := AList.mem_lookup_iff.mp h
    exact hst _ this rfl
  intro k
  rw [get?_Commit]
  cases hm : m.get? k with
  | none =>
    simp only []
    by_cases hk : k ∈ c.keys
    · simp [hk]
    · simp only [hk, if_false]
      exact hs k
  | some v =>
    simp only []
    by_cases hv : v = zeroHash
    · by_cases hk : k ∈ c.keys
      · simp [hv, hk]
      · simp only [hv, ne_eq, not_true_eq_false, if_false, hk]
        exact hs k
    · simp [hv]

/-- C19 witness: the target is the two-slot image, the modified buffer holds one moved
value and one all-zero slot. -/
theorem C19_zero_skip_witness :
    (Commit twoSlotImage twoSlotImage
        (StorageMap.ofList [(5, BigToHash 0x2a), (1, zeroHash)])).entries
      = (StorageMap.ofList [(5, BigToHash 0x2a)]).entries ∧
    ∀ k, (Commit twoSlotImage twoSlotImage
        (StorageMap.ofList [(5, BigToHash 0x2a), (1, zeroHash)])).get? k ≠ some zeroHash :=
  ⟨by decide,
    C19_zero_skip twoSlotImage twoSlotImage (StorageMap.ofList [(5, BigToHash 0x2a), (1, zeroHash)])
      (by decide)⟩

theorem toInt64_toNat_small (x : Nat) (h : x ≤ 32) : (toInt64 x).toNat = x := by
  rw [toInt64_small x (by omega)]
  rfl

theorem zeroHash_get (j : Fin 32) : zeroHash.get j = 0 :=
  Mathlib.Vector.get_replicate 0 j

theorem ReorganizeDynamicArray_eq_headCopy (D : Dict) (c : StorageMap) (keccak : Nat → Nat)
    (fuel : Nat) (msg : ReorgInfo) (m : StorageMap) :
    ReorganizeDynamicArray D c keccak fuel msg m
      = match headCopy D c msg m with
        | .ok m1 => dynamicArrayElements D keccak (ReorganizeInplace D c keccak fuel) msg
            (GetCommitedState c msg.PrevSlot) m1
        | r => r := by
  unfold ReorganizeDynamicArray ReorganizeDynamicArrayWith headCopy
  cases GetNumberOfBytes D msg.TypeName with
  | error e => rfl
  | ok sizes =>
    simp only [liftErr]
    cases copyHead sizes.1 (GetCommitedState c msg.PrevSlot) (GetModifiedState m msg.NewSlot) with
    | none => rfl
    | some v => rfl

/-- C20 (amended): empty dynamic array.  For a directive of a known type of prev_width at
most 32 whose committed head slot is all-zero, `ReorganizeDynamicArray` returns `nil`,
whatever the base type is and with any budget; it changes the modified buffer only at
`new_slot`, whose first prev_width bytes become zero and whose other bytes stay. -/
theorem C20_empty_dynamic_array (D : Dict) (c : StorageMap) (keccak : Nat → Nat) (fuel : Nat)
    (msg : ReorgInfo) (m : StorageMap) (d : DataType) (hD : D msg.TypeName = some d)
    (hw : d.PrevNumberOfBytes ≤ 32) (hzero : GetCommitedState c msg.PrevSlot = zeroHash) :
    ∃ m', ReorganizeDynamicArray D c keccak fuel msg m = .ok m' ∧
      (∀ key, key ≠ msg.NewSlot → GetModifiedState m' key = GetModifiedState m key) ∧
      (∀ j : Fin 32, (GetModifiedState m' msg.NewSlot).get j
        = if j.val < d.PrevNumberOfBytes then 0 else (GetModifiedState m msg.NewSlot).get j) := by
  obtain ⟨h, hh, hget⟩ := copyHeadLoop_get (GetCommitedState c msg.PrevSlot) d.PrevNumberOfBytes 0
    (GetModifiedState m msg.NewSlot) (by omega)
  have hbig : zeroHash.Big = 0 := by decide
  refine ⟨SetModifiedState m msg.NewSlot h, ?_, ?_, ?_⟩
  · rw [ReorganizeDynamicArray_eq_headCopy]
    unfold headCopy copyHead
    simp only [GetNumberOfBytes, hD, liftErr, toInt64_toNat_small _ hw, hh]
    unfold dynamicArrayElements
    simp only [hzero, hbig, if_true]
  · intro key hk
    rw [GetModifiedState_set, if_neg hk]
  · intro j
    rw [GetModifiedState_set, if_pos rfl, hget j, hzero, zeroHash_get]
    by_cases hj : j.val < d.PrevNumberOfBytes
    · rw [if_pos hj, if_pos ⟨Nat.zero_le _, by omega⟩]
    · rw [if_neg hj, if_neg (by omega)]

/-- C20 witness: an array type of prev_width 16 whose base type is absent from the
dictionary, head moved from the empty slot 2 to slot 7 of a buffer that holds a value
there; budget 0. -/
theorem C20_empty_dynamic_array_witness :
    ∃ m', ReorganizeDynamicArray wideHeadTypes twoSlotImage toyKeccak 0
        ⟨"t_array_half", 2, 7, 0, 0⟩ (StorageMap.ofList [(7, BigToHash (2 ^ 256 - 1))]) = .ok m' ∧
      (∀ key, key ≠ 7 → GetModifiedState m' key
        = GetModifiedState (StorageMap.ofList [(7, BigToHash (2 ^ 256 - 1))]) key) ∧
      (∀ j : Fin 32, (GetModifiedState m' 7).get j
        = if j.val < 16 then 0
          else (GetModifiedState (StorageMap.ofList [(7, BigToHash (2 ^ 256 - 1))]) 7).get j) :=
  C20_empty_dynamic_array wideHeadTypes twoSlotImage toyKeccak 0 ⟨"t_array_half", 2, 7, 0, 0⟩
    (StorageMap.ofList [(7, BigToHash (2 ^ 256 - 1))])
    ⟨"t_array_half", "t_missing", "dynamic_array", 16, 16, []⟩ (by decide) (by decide) (by decide)

/-- C20 counterexample: a known array type of prev_width 64 with an all-zero committed
head.  The head copy indexes the 32-byte slot at 32 and the run panics instead of
returning. -/
theorem C20_counterexample :
    wideHeadTypes "t_array_wide"
      = some ⟨"t_array_wide", "t_uint256", "dynamic_array", 64, 64, []⟩ ∧
    GetCommitedState twoSlotImage 2 = zeroHash ∧
    ReorganizeDynamicArray wideHeadTypes twoSlotImage toyKeccak 1 ⟨"t_array_wide", 2, 7, 0, 0⟩ ∅
      = .panic := by
  decide

/-- C11: dynamic array of nested elements.  For a directive of a known type with committed
element count `N > 0` whose base type `B` is known, has encoding `inplace` and is a struct
or has a base, with prev width `pw` and new width `nw`, `ReorganizeDynamicArray` is the head
copy followed by `ReorganizeInplace` for `B`, offsets 0, on the elements `0, ..., N - 1` in
order, from slot `keccak(prev_slot) + i * (pw / 32)` to slot `keccak(new_slot) + i * (nw / 32)`,
stopping at the first error: same outcome and same modified buffer. -/
theorem C11_nested_array_refinement (D : Dict) (c : StorageMap) (keccak : Nat → Nat)
    (fuel : Nat) (msg : ReorgInfo) (m : StorageMap) (d b : DataType)
    (hD : D msg.TypeName = some d) (hB : D d.Base = some b) (hbenc : b.Encoding = "inplace")
    (hnested : b.Base ≠ "" ∨ b.Members ≠ [])
    (hN : 0 < (GetCommitedState c msg.PrevSlot).Big) :
    ReorganizeDynamicArray D c keccak fuel msg m
      = nestedArraySpec D c keccak fuel msg d.Base b.PrevNumberOfBytes b.NewNumberOfBytes
          (GetCommitedState c msg.PrevSlot).Big m := by
  rw [ReorganizeDynamicArray_eq_headCopy]
  unfold nestedArraySpec
  cases headCopy D c msg m with
  | err e s => rfl
  | panic => rfl
  | outOfFuel => rfl
  | ok m1 =>
    simp only []
    have hnest : IsNested D d.Base = .ok true := by
      unfold IsNested
      rw [hB]
      rcases hnested with h | h
      · simp [h]
      · by_cases hb : b.Base = ""
        · have : b.Members.length ≠ 0 := fun e => h (List.length_eq_zero.mp e)
          simp [hb, this]
        · simp [hb]
    unfold dynamicArrayElements
    simp only [hD, Option.getD, Nat.ne_of_gt hN, if_false, IsEncodingInplace, hB, hbenc, liftErr,
      if_true, hnest, GetNumberOfBytes]
    congr 1
    funext i m'
    rw [Nat.mul_comm (b.PrevNumberOfBytes / 32) i, Nat.mul_comm (b.NewNumberOfBytes / 32) i]

set_option maxRecDepth 100000 in
/-- C11 witness: an array of two S5 structs, head moved from slot 3 to slot 8; the elements
are one slot apart before and two slots apart after.  The run is also evaluated. -/
theorem C11_nested_array_refinement_witness :
    ReorganizeDynamicArray nestedTypes nestedImage toyKeccak 3 ⟨"t_array_struct", 3, 8, 0, 0⟩ ∅
      = .ok (StorageMap.ofList [(toyKeccak 8 + 3, BigToHash 4),
          (toyKeccak 8 + 2, BigToHash (3 * 2 ^ 128)), (toyKeccak 8 + 1, BigToHash 2),
          (toyKeccak 8, BigToHash (2 ^ 128)), (8, BigToHash 2)]) ∧
    ReorganizeDynamicArray nestedTypes nestedImage toyKeccak 3 ⟨"t_array_struct", 3, 8, 0, 0⟩ ∅
      = nestedArraySpec nestedTypes nestedImage toyKeccak 3 ⟨"t_array_struct", 3, 8, 0, 0⟩
          "t_struct" 32 64 (GetCommitedState nestedImage 3).Big ∅ :=
  ⟨by decide,
    C11_nested_array_refinement nestedTypes nestedImage toyKeccak 3
      ⟨"t_array_struct", 3, 8, 0, 0⟩ ∅ ⟨"t_array_struct", "t_struct", "dynamic_array", 32, 32, []⟩
      s5Struct (by decide) (by decide) (by decide) (by decide) (by decide)⟩

theorem ExtractUntilInplace_of_reaches (D : Dict) (t : String) (dd : DataType)
    (h : ReachesThroughInplace D t dd) (henc : dd.Encoding ≠ "inplace") (hbase : dd.Base ≠ "") :
    ∃ f, ExtractUntilInplace D f t = some (.ok (dd.TypeName, dd.Encoding, true)) := by
  induction h with
  | here t dd h =>
    refine ⟨1, ?_⟩
    rw [ExtractUntilInplace]
    simp [h, hbase, henc]
  | step t d dd h hdenc hdbase _ ih =>
    obtain ⟨f, hf⟩ := ih henc hbase
    refine ⟨f + 1, ?_⟩
    rw [ExtractUntilInplace]
    simp [h, hdbase, hdenc, hf]

/-- C12 (amended): dynamic extension dominates.  Let the base chain of the directive's
type, of prev_width `W`, reach through inplace types a `dynamic_array` type that has a base,
and let `ContainsStruct` return a result for the directive's type, with or without a
struct.  Then, for every large enough budget and for every pair of byte offsets in the
directive, `ReorganizeInplace` from slot `p` to slot `q` is the run of
`ReorganizeDynamicArray` for the array type from slot `p + i` to slot `q + i`, offsets 0,
for `i = 0, ..., W / 32 - 1` in order, stopping at the first error. -/
theorem C12_dynamic_extension_dominates (D : Dict) (c : StorageMap) (keccak : Nat → Nat)
    (msg : ReorgInfo) (m : StorageMap) (d dd : DataType) (f : Nat) (r : Bool × String)
    (hD : D msg.TypeName = some d) (hreach : ReachesThroughInplace D msg.TypeName dd)
    (hdenc : dd.Encoding = "dynamic_array") (hdbase : dd.Base ≠ "")
    (hS : ContainsStruct D f msg.TypeName = some (.ok r)) :
    ∃ f0, ∀ fuel, f0 ≤ fuel → ∀ po no : Nat,
      ReorganizeInplace D c keccak (fuel + 1)
          ⟨msg.TypeName, msg.PrevSlot, msg.NewSlot, po, no⟩ m
        = dynamicExtensionSpec D c keccak fuel dd.TypeName msg.PrevSlot msg.NewSlot
            d.PrevNumberOfBytes m := by
  obtain ⟨fE, hE⟩ := ExtractUntilInplace_of_reaches D _ dd hreach
    (by rw [hdenc]; decide) hdbase
  refine ⟨fE + f, ?_⟩
  intro fuel hfuel po no
  obtain ⟨structFound, structTypeName⟩ := r
  rw [ReorganizeInplace]
  simp only [GetNumberOfBytes, hD, liftErr,
    ExtractUntilInplace_mono D fE _ _ (fuel + 1) hE (by omega),
    ContainsStruct_mono D f _ _ (fuel + 1) hS (by omega), hdenc, if_true]
  unfold dynamicExtensionSpec ReorganizeDynamicArray
  congr 1
  funext i m'
  rw [Nat.add_comm i msg.PrevSlot, Nat.add_comm i msg.NewSlot]

set_option maxRecDepth 100000 in
/-- C12 witness: a static array of two dynamic arrays of `uint256` moved from slots 2, 3 to
slots 7, 8; the first array has three elements and the second is empty.  The run with byte
offsets 5 and 9 in the directive is also evaluated. -/
theorem C12_dynamic_extension_dominates_witness :
    ReorganizeInplace staticArrayTypes arrayImage toyKeccak 4 ⟨"t_static_arrays", 2, 7, 5, 9⟩ ∅
      = .ok (StorageMap.ofList [(8, zeroHash), (toyKeccak 7 + 2, BigToHash 13),
          (toyKeccak 7 + 1, BigToHash 12), (toyKeccak 7, BigToHash 11), (7, BigToHash 3)]) ∧
    ∃ f0, ∀ fuel, f0 ≤ fuel → ∀ po no : Nat,
      ReorganizeInplace staticArrayTypes arrayImage toyKeccak (fuel + 1)
          ⟨"t_static_arrays", 2, 7, po, no⟩ ∅
        = dynamicExtensionSpec staticArrayTypes arrayImage toyKeccak fuel "t_array_uint256" 2 7
            64 ∅ :=
  ⟨by decide,
    C12_dynamic_extension_dominates staticArrayTypes arrayImage toyKeccak
      ⟨"t_static_arrays", 2, 7, 0, 0⟩ ∅ ⟨"t_static_arrays", "t_array_uint256", "inplace", 64, 64, []⟩
      ⟨"t_array_uint256", "t_uint256", "dynamic_array", 32, 32, []⟩ 3 (false, "") (by decide)
      (ReachesThroughInplace.step _ ⟨"t_static_arrays", "t_array_uint256", "inplace", 64, 64, []⟩ _
        (by decide) (by decide) (by decide) (ReachesThroughInplace.here _ _ (by decide)))
      (by decide) (by decide) (by decide)⟩

/-- C12 counterexample: an inplace type whose base is a dynamic array type whose own base
is absent from the dictionary, over an empty head slot.  `ContainsStruct` walks past the
array type and fails, so `ReorganizeInplace` returns "Type not found" and writes nothing,
whereas `ReorganizeDynamicArray` on the one head slot returns `nil` and records the head. -/
theorem C12_counterexample :
    danglingTypes "t_static" = some ⟨"t_static", "t_array_dangling", "inplace", 32, 32, []⟩ ∧
    ReachesThroughInplace danglingTypes "t_static"
      ⟨"t_array_dangling", "t_missing", "dynamic_array", 32, 32, []⟩ ∧
    (∀ fuel, 3 ≤ fuel →
      ReorganizeInplace danglingTypes ∅ toyKeccak (fuel + 1) ⟨"t_static", 5, 6, 0, 0⟩ ∅
        = .err "Type not found" ∅) ∧
    (∀ fuel, dynamicExtensionSpec danglingTypes ∅ toyKeccak fuel "t_array_dangling" 5 6 32 ∅
        = .ok (StorageMap.ofList [(6, zeroHash)])) := by
  refine ⟨by decide, ?_, ?_, ?_⟩
  · exact ReachesThroughInplace.step _ ⟨"t_static", "t_array_dangling", "inplace", 32, 32, []⟩ _
      (by decide) (by decide) (by decide) (ReachesThroughInplace.here _ _ (by decide))
  · intro fuel hfuel
    have hD : danglingTypes "t_static"
        = some ⟨"t_static", "t_array_dangling", "inplace", 32, 32, []⟩ := by decide
    have hE : ExtractUntilInplace danglingTypes 3 "t_static"
        = some (.ok ("t_array_dangling", "dynamic_array", true)) := by decide
    have hS : ContainsStruct danglingTypes 3 "t_static" = some (.error "Type not found") := by
      decide
    rw [ReorganizeInplace]
    simp only [GetNumberOfBytes, hD, liftErr,
      ExtractUntilInplace_mono danglingTypes 3 _ _ (fuel + 1) hE (by omega),
      ContainsStruct_mono danglingTypes 3 _ _ (fuel + 1) hS (by omega)]
  · intro fuel
    have hD : danglingTypes "t_array_dangling"
        = some ⟨"t_array_dangling", "t_missing", "dynamic_array", 32, 32, []⟩ := by decide
    have hbig : zeroHash.Big = 0 := by decide
    have hz : GetCommitedState ∅ (5 % slotModulus) = zeroHash := rfl
    have e : (32 : Nat) / 32 = 1 := by decide
    unfold dynamicExtensionSpec
    rw [e, forLoop, Nat.add_zero, Nat.add_zero,
      ReorganizeDynamicArray_run danglingTypes ∅ toyKeccak fuel _ ∅ _ hD rfl]
    unfold dynamicArrayElements
    simp only [hz, hbig, if_true, forLoop]
    decide

/-- The head copy of a dynamic-array directive of prev_width at most 32 returns. -/
theorem headCopy_ok (D : Dict) (c : StorageMap) (msg : ReorgInfo) (m : StorageMap) (d : DataType)
    (hD : D msg.TypeName = some d) (hw : d.PrevNumberOfBytes ≤ 32) :
    ∃ h, headCopy D c msg m = .ok (SetModifiedState m msg.NewSlot h) := by
  obtain ⟨h, hh, _⟩ := copyHeadLoop_get (GetCommitedState c msg.PrevSlot) d.PrevNumberOfBytes 0
    (GetModifiedState m msg.NewSlot) (by omega)
  refine ⟨h, ?_⟩
  unfold headCopy copyHead
  simp only [GetNumberOfBytes, hD, liftErr, toInt64_toNat_small _ hw, hh]

/-- The dispatcher on a single directive of a dynamic-array type. -/
theorem Reorganize_single_array (D : Dict) (c : StorageMap) (keccak : Nat → Nat) (fuel : Nat)
    (msg : ReorgInfo) (m : StorageMap) (d : DataType) (hD : D msg.TypeName = some d)
    (henc : d.Encoding = "dynamic_array") :
    Reorganize D c keccak fuel [msg] m
      = match ReorganizeDynamicArray D c keccak fuel msg m with
        | .ok s' => .ok s'
        | r => r := by
  unfold Reorganize
  rw [forEach]
  simp only [IsEncodingInplace, IsEncodingDynamicArray, hD, henc, liftErr]
  simp only [show ("dynamic_array" : String) ≠ "inplace" by decide, if_false, if_true]
  cases ReorganizeDynamicArray D c keccak fuel msg m <;> rfl

/-- The dispatcher on a single directive of an inplace type. -/
theorem Reorganize_single_inplace (D : Dict) (c : StorageMap) (keccak : Nat → Nat) (fuel : Nat)
    (msg : ReorgInfo) (m : StorageMap) (d : DataType) (hD : D msg.TypeName = some d)
    (henc : d.Encoding = "inplace") :
    Reorganize D c keccak fuel [msg] m
      = match ReorganizeInplace D c keccak fuel msg m with
        | .ok s' => .ok s'
        | r => r := by
  unfold Reorganize
  rw [forEach]
  simp only [IsEncodingInplace, hD, henc, liftErr, if_true]
  cases ReorganizeInplace D c keccak fuel msg m <;> rfl

/-- C16 (amended): descriptors are not validated.  For a single dynamic-array directive of
prev_width at most 32 with committed element count `N > 0` whose base is inplace, without
base and members, of width `w`: when `1 ≤ w ≤ 32`, whether or not `w` divides 32,
`Reorganize` returns `nil`; when `w = 0` or `w > 32` the run panics on an integer division
by zero and returns nothing.  For a single inplace directive of prev_width `W < 2 ^ 63`,
in a dictionary keyed by type name, for which `ExtractUntilInplace` reports no dynamic
extension and `ContainsStruct` reports a struct of prev width `ps`, `1 ≤ ps < 2 ^ 63`, all
of whose members have inplace pure-primitive types, `Reorganize` returns `nil`, whether or
not `ps` divides `W`. -/
theorem C16_descriptors_not_validated (D : Dict) (c : StorageMap) (keccak : Nat → Nat)
    (fuel : Nat) (msg : ReorgInfo) (m : StorageMap) (d : DataType)
    (hD : D msg.TypeName = some d) :
    (∀ b, d.Encoding = "dynamic_array" → d.PrevNumberOfBytes ≤ 32 →
      0 < (GetCommitedState c msg.PrevSlot).Big → D d.Base = some b → b.Encoding = "inplace" →
      b.Base = "" → b.Members = [] → 1 ≤ fuel →
      (1 ≤ b.PrevNumberOfBytes → b.PrevNumberOfBytes ≤ 32 →
        ∃ m', Reorganize D c keccak fuel [msg] m = .ok m') ∧
      (b.PrevNumberOfBytes = 0 ∨ 32 < b.PrevNumberOfBytes →
        Reorganize D c keccak fuel [msg] m = .panic)) ∧
    (∀ sd f tn enc S, d.Encoding = "inplace" →
      (∀ t x, D t = some x → x.TypeName = t) →
      ExtractUntilInplace D f msg.TypeName = some (.ok (tn, enc, false)) →
      ContainsStruct D f msg.TypeName = some (.ok (true, S)) → D S = some sd → f + 1 ≤ fuel →
      d.PrevNumberOfBytes < 2 ^ 63 → 0 < sd.PrevNumberOfBytes → sd.PrevNumberOfBytes < 2 ^ 63 →
      (∀ member, member ∈ sd.Members →
        (D member.TypeName).map (fun md => md.Encoding) = some "inplace" ∧
        purePrimitive D f member.TypeName = true) →
      ∃ m', Reorganize D c keccak fuel [msg] m = .ok m') := by
  constructor
  · intro b henc hw hN hB hbenc hbbase hbmem hfuel
    obtain ⟨h, hh⟩ := headCopy_ok D c msg m d hD hw
    rw [Reorganize_single_array D c keccak fuel msg m d hD henc,
      ReorganizeDynamicArray_eq_headCopy, hh]
    simp only []
    constructor
    · intro h1 h32
      have hw0 : b.PrevNumberOfBytes ≠ 0 := by omega
      have hper : 32 / b.PrevNumberOfBytes ≠ 0 := by
        have := Nat.div_pos h32 (by omega : 0 < b.PrevNumberOfBytes)
        omega
      rw [dynamicArrayElements_flat D keccak _ msg _ _ d b hD hB hbenc hbbase hbmem (by omega)
        hw0 hper]
      obtain ⟨s', hrun, _⟩ := forLoop_ok
        (fun i m' =>
          forLoop (fun j m'' =>
            ReorganizeInplace D c keccak fuel
              { PrevSlot := (keccak msg.PrevSlot + i) % slotModulus
                NewSlot := (keccak msg.NewSlot + i) % slotModulus
                PrevOffset := j * b.PrevNumberOfBytes
                NewOffset := j * b.PrevNumberOfBytes
                TypeName := d.Base } m'')
            (32 / b.PrevNumberOfBytes) 0 m')
        (fun _ _ => True)
        ((GetCommitedState c msg.PrevSlot).Big / (32 / b.PrevNumberOfBytes) +
          (if (GetCommitedState c msg.PrevSlot).Big % (32 / b.PrevNumberOfBytes) > 0 then 1 else 0))
        0 (SetModifiedState m msg.NewSlot h) trivial
        (by
          intro i s _ _ _
          obtain ⟨s1, hin, _⟩ := forLoop_ok
            (fun j m'' =>
              ReorganizeInplace D c keccak fuel
                { PrevSlot := (keccak msg.PrevSlot + i) % slotModulus
                  NewSlot := (keccak msg.NewSlot + i) % slotModulus
                  PrevOffset := j * b.PrevNumberOfBytes
                  NewOffset := j * b.PrevNumberOfBytes
                  TypeName := d.Base } m'')
            (fun _ _ => True) (32 / b.PrevNumberOfBytes) 0 s trivial
            (fun j s2 _ _ _ =>
              ⟨_, ReorganizeInplace_leaf D c keccak fuel _ s2 b hB hbbase hbmem hfuel, trivial⟩)
          exact ⟨s1, hin, trivial⟩)
      exact ⟨s', by rw [hrun]⟩
    · intro hbad
      have hN0 : (GetCommitedState c msg.PrevSlot).Big ≠ 0 := by omega
      unfold dynamicArrayElements
      rcases hbad with h0 | hbig
      · simp [hD, hB, hbenc, hbbase, hbmem, hN0, h0, IsEncodingInplace, IsNested, IsFlat,
          GetNumberOfBytes, liftErr]
      · have hq : 32 / b.PrevNumberOfBytes = 0 := Nat.div_eq_of_lt hbig
        have hw0 : b.PrevNumberOfBytes ≠ 0 := by omega
        simp [hD, hB, hbenc, hbbase, hbmem, hN0, hq, hw0, IsEncodingInplace, IsNested, IsFlat,
          GetNumberOfBytes, liftErr]
  · intro sd f tn enc S henc hwf hE hS hDS hf hW hps hps' hmem
    obtain ⟨fuel', rfl⟩ : ∃ k, fuel = k + 1 := ⟨fuel - 1, by omega⟩
    rw [Reorganize_single_inplace D c keccak (fuel' + 1) msg m d hD henc,
      ReorganizeInplace_struct D c keccak f fuel' msg m d sd tn enc S hD hE hS hDS (by omega)
        hW hps hps']
    obtain ⟨s', hrun, _⟩ := forLoop_ok
      (fun i m' =>
        forEach (fun member m'' =>
          match D member.TypeName with
          | none => .err "Struct Member Not Found" m''
          | some memberDataType =>
            if memberDataType.Encoding = "inplace" then
              ReorganizeInplace D c keccak fuel'
                (memberDirective (msg.PrevSlot + i * (sd.PrevNumberOfBytes / 32))
                  (msg.NewSlot + i * (sd.NewNumberOfBytes / 32)) member
                  memberDataType.TypeName) m''
            else if memberDataType.Encoding = "dynamic_array" then
              ReorganizeDynamicArrayWith D c keccak (ReorganizeInplace D c keccak fuel')
                (memberDirective (msg.PrevSlot + i * (sd.PrevNumberOfBytes / 32))
                  (msg.NewSlot + i * (sd.NewNumberOfBytes / 32)) member
                  memberDataType.TypeName) m''
            else if memberDataType.Encoding = "bytes" then
              ReorganizeBytes D c keccak
                (memberDirective (msg.PrevSlot + i * (sd.PrevNumberOfBytes / 32))
                  (msg.NewSlot + i * (sd.NewNumberOfBytes / 32)) member
                  memberDataType.TypeName) m''
            else .err "Unknown Encoding" m'')
          sd.Members m')
      (fun _ _ => True) (d.PrevNumberOfBytes / sd.PrevNumberOfBytes) 0 m trivial
      (by
        intro i s _ _ _
        obtain ⟨s1, hin, _⟩ := forEach_ok
          (fun member m'' =>
            match D member.TypeName with
            | none => .err "Struct Member Not Found" m''
            | some memberDataType =>
              if memberDataType.Encoding = "inplace" then
                ReorganizeInplace D c keccak fuel'
                  (memberDirective (msg.PrevSlot + i * (sd.PrevNumberOfBytes / 32))
                    (msg.NewSlot + i * (sd.NewNumberOfBytes / 32)) member
                    memberDataType.TypeName) m''
              else if memberDataType.Encoding = "dynamic_array" then
                ReorganizeDynamicArrayWith D c keccak (ReorganizeInplace D c keccak fuel')
                  (memberDirective (msg.PrevSlot + i * (sd.PrevNumberOfBytes / 32))
                    (msg.NewSlot + i * (sd.NewNumberOfBytes / 32)) member
                    memberDataType.TypeName) m''
              else if memberDataType.Encoding = "bytes" then
                ReorganizeBytes D c keccak
                  (memberDirective (msg.PrevSlot + i * (sd.PrevNumberOfBytes / 32))
                    (msg.NewSlot + i * (sd.NewNumberOfBytes / 32)) member
                    memberDataType.TypeName) m''
              else .err "Unknown Encoding" m'')
          sd.Members (fun _ _ => True) s trivial
          (by
            intro a ha s2 _
            obtain ⟨henc', hpp⟩ := hmem _ (List.get_mem sd.Members a ha)
            obtain ⟨tn', enc', st', hE', hS'⟩ := purePrimitive_spec D f _ hpp
            cases hmd : D (sd.Members.get ⟨a, ha⟩).TypeName with
            | none => rw [hmd] at henc'; simp at henc'
            | some md =>
              rw [hmd] at henc'
              simp only [Option.map_some', Option.some.injEq] at henc'
              have htn := hwf _ _ hmd
              simp only [hmd, henc', if_true, htn]
              exact ⟨_, ReorganizeInplace_primitive D c keccak f fuel' _ s2 md tn' enc' st' hmd
                hE' hS' (by omega), trivial⟩)
        exact ⟨s1, hin, trivial⟩)
    have key : ∀ r : Res StorageMap, r = .ok s' →
        (match r with
          | .ok s'' => Res.ok s''
          | r' => r') = .ok s' := by
      intro r h
      rw [h]
    exact ⟨s', key _ hrun⟩

set_option maxRecDepth 100000 in
/-- C16 witness: an array of seven 5-byte elements returns `nil`, an array whose base has
width 0 panics, and a region of 96 bytes over a struct of 64 bytes returns `nil`. -/
theorem C16_descriptors_not_validated_witness :
    (∃ m', Reorganize malformedTypes malformedImage toyKeccak 1
        [⟨"t_array_uint40", 2, 7, 0, 0⟩] ∅ = .ok m') ∧
    Reorganize malformedTypes malformedImage toyKeccak 1 [⟨"t_array_zero", 2, 7, 0, 0⟩] ∅
      = .panic ∧
    (∃ m', Reorganize malformedTypes malformedImage toyKeccak 3
        [⟨"t_region", 10, 20, 0, 0⟩] ∅ = .ok m') :=
  ⟨((C16_descriptors_not_validated malformedTypes malformedImage toyKeccak 1
        ⟨"t_array_uint40", 2, 7, 0, 0⟩ ∅
        ⟨"t_array_uint40", "t_uint40", "dynamic_array", 32, 32, []⟩ (by decide)).1
      ⟨"t_uint40", "", "inplace", 5, 5, []⟩ (by decide) (by decide) (by decide) (by decide)
      (by decide) (by decide) (by decide) (by decide)).1 (by decide) (by decide),
    ((C16_descriptors_not_validated malformedTypes malformedImage toyKeccak 1
        ⟨"t_array_zero", 2, 7, 0, 0⟩ ∅
        ⟨"t_array_zero", "t_zero", "dynamic_array", 32, 32, []⟩ (by decide)).1
      ⟨"t_zero", "", "inplace", 0, 0, []⟩ (by decide) (by decide) (by decide) (by decide)
      (by decide) (by decide) (by decide) (by decide)).2 (Or.inl (by decide)),
    (C16_descriptors_not_validated malformedTypes malformedImage toyKeccak 3
        ⟨"t_region", 10, 20, 0, 0⟩ ∅ ⟨"t_region", "t_pair", "inplace", 96, 96, []⟩
        (by decide)).2
      ⟨"t_pair", "", "inplace", 64, 64, [⟨0, 0, 0, 0, "t_uint256"⟩, ⟨0, 0, 1, 1, "t_uint256"⟩]⟩
      2 "t_pair" "inplace" "t_pair" (by decide) (Init_TypeName _) (by decide) (by decide)
      (by decide) (by decide) (by decide) (by decide) (by decide) (by decide)⟩

set_option maxRecDepth 100000 in
/-- C16 counterexample: the array of seven 5-byte elements (5 does not divide 32) is
rewritten without error, six elements per slot, and the two high bytes of each data slot
are not copied; the region of 96 bytes over a struct of 64 bytes (64 does not divide 96) is
rewritten without error, one repetition, and slot 12 of the region is not copied. -/
theorem C16_counterexample :
    malformedTypes "t_array_uint40"
      = some ⟨"t_array_uint40", "t_uint40", "dynamic_array", 32, 32, []⟩ ∧
    malformedTypes "t_uint40" = some ⟨"t_uint40", "", "inplace", 5, 5, []⟩ ∧
    IsFlat malformedTypes "t_uint40" = .ok true ∧ ¬ (5 ∣ 32) ∧
    (GetCommitedState malformedImage 2).Big = 7 ∧
    Reorganize malformedTypes malformedImage toyKeccak 1 [⟨"t_array_uint40", 2, 7, 0, 0⟩] ∅
      = .ok (StorageMap.ofList [(toyKeccak 7 + 1, BigToHash 0x0102030405),
          (toyKeccak 7, BigToHash (2 ^ 240 - 1)), (7, BigToHash 7)]) ∧
    malformedTypes "t_region" = some ⟨"t_region", "t_pair", "inplace", 96, 96, []⟩ ∧
    ContainsStruct malformedTypes 2 "t_region" = some (.ok (true, "t_pair")) ∧
    GetNumberOfBytes malformedTypes "t_pair" = .ok (64, 64) ∧ ¬ (64 ∣ 96) ∧
    Reorganize malformedTypes malformedImage toyKeccak 3 [⟨"t_region", 10, 20, 0, 0⟩] ∅
      = .ok (StorageMap.ofList [(21, BigToHash 2), (20, BigToHash 1)]) := by
  decide

theorem get?_SetModifiedState (m : StorageMap) (k : Nat) (v : Hash) (k' : Nat) :
    (SetModifiedState m k v).get? k' = if k' = k then some v else m.get? k' := by
  unfold SetModifiedState StorageMap.get? StorageMap.set
  by_cases h : k' = k
  · subst h
    simp [AList.lookup_insert]
  · simp [AList.lookup_insert_ne h, h]

/-- A byte that the copy loop writes does not depend on the buffer the loop starts from. -/
theorem copyLoop_indep (c : StorageMap) (ps ns : Nat) :
    ∀ (count po no : Nat) (m m' : StorageMap) (key : Nat) (pos : Fin 32), no < u64 →
      (∃ j, j < count ∧ slotAt ns ((no + j) % u64) = key ∧ bytePos ((no + j) % u64) = pos) →
      (GetModifiedState (copyLoop c ps ns count po no m) key).get pos
        = (GetModifiedState (copyLoop c ps ns count po no m') key).get pos := by
  intro count
  induction count with
  | zero =>
    intro po no m m' key pos _ hw
    obtain ⟨j, hj, _⟩ := hw
    exact absurd hj (Nat.not_lt_zero _)
  | succ n ih =>
    intro po no m m' key pos hno hw
    rw [copyLoop, copyLoop]
    by_cases hrest : ∃ j, j < n ∧ slotAt ns (((no + 1) % u64 + j) % u64) = key ∧
        bytePos (((no + 1) % u64 + j) % u64) = pos
    · exact ih _ _ _ _ key pos (Nat.mod_lt _ (by decide)) hrest
    · have h0 : slotAt ns no = key ∧ bytePos no = pos := by
        obtain ⟨j, hj, hs, hp⟩ := hw
        cases j with
        | zero =>
          rw [Nat.add_zero, Nat.mod_eq_of_lt hno] at hs hp
          exact ⟨hs, hp⟩
        | succ j0 =>
          exact absurd ⟨j0, Nat.lt_of_succ_lt_succ hj, by rw [u64_shift]; exact hs,
            by rw [u64_shift]; exact hp⟩ hrest
      rw [copyLoop_frame c ps ns n _ _ _ key pos (Nat.mod_lt _ (by decide))
          (fun j hj h => hrest ⟨j, hj, h.1, h.2⟩),
        copyLoop_frame c ps ns n _ _ _ key pos (Nat.mod_lt _ (by decide))
          (fun j hj h => hrest ⟨j, hj, h.1, h.2⟩)]
      have hk : key = (no / 32 + ns) % slotModulus := h0.1.symm
      rw [GetModifiedState_set, GetModifiedState_set, if_pos hk, if_pos hk, ← h0.2,
        Mathlib.Vector.get_set_same, Mathlib.Vector.get_set_same]

/-- The keys of the buffer after the copy loop: those it had and the slots the loop wrote. -/
theorem copyLoop_isSome (c : StorageMap) (ps ns : Nat) :
    ∀ (count po no : Nat) (m : StorageMap) (key : Nat), no < u64 →
      (((copyLoop c ps ns count po no m).get? key).isSome = true ↔
        ((m.get? key).isSome = true ∨ ∃ j, j < count ∧ slotAt ns ((no + j) % u64) = key)) := by
  intro count
  induction count with
  | zero =>
    intro po no m key _
    rw [copyLoop]
    constructor
    · exact Or.inl
    · rintro (h | ⟨j, hj, _⟩)
      · exact h
      · exact absurd hj (Nat.not_lt_zero _)
  | succ n ih =>
    intro po no m key hno
    rw [copyLoop, ih _ _ _ key (Nat.mod_lt _ (by decide)), get?_SetModifiedState]
    constructor
    · rintro (h | ⟨j, hj, hs⟩)
      · by_cases hk : key = (no / 32 + ns) % slotModulus
        · refine Or.inr ⟨0, Nat.succ_pos _, ?_⟩
          rw [Nat.add_zero, Nat.mod_eq_of_lt hno]
          exact hk.symm
        · rw [if_neg hk] at h
          exact Or.inl h
      · rw [u64_shift] at hs
        exact Or.inr ⟨j + 1, Nat.succ_lt_succ hj, hs⟩
    · rintro (h | ⟨j, hj, hs⟩)
      · by_cases hk : key = (no / 32 + ns) % slotModulus
        · rw [if_pos hk]
          exact Or.inl rfl
        · rw [if_neg hk]
          exact Or.inl h
      · cases j with
        | zero =>
          rw [Nat.add_zero, Nat.mod_eq_of_lt hno] at hs
          have hk : key = (no / 32 + ns) % slotModulus := hs.symm
          rw [if_pos hk]
          exact Or.inl rfl
        | succ j0 =>
          refine Or.inr ⟨j0, Nat.lt_of_succ_lt_succ hj, ?_⟩
          rw [u64_shift]
          exact hs

/-- Two maps agree at a key when they agree on its presence and on the value read. -/
theorem get?_ext (a b : StorageMap) (key : Nat)
    (hp : ((a.get? key).isSome = true ↔ (b.get? key).isSome = true))
    (hv : GetModifiedState a key = GetModifiedState b key) : a.get? key = b.get? key := by
  unfold GetModifiedState at hv
  cases ha : a.get? key with
  | none =>
    cases hb : b.get? key with
    | none => rfl
    | some v =>
      rw [ha, hb] at hp
      exact absurd (hp.mpr rfl) (by simp)
  | some u =>
    cases hb : b.get? key with
    | none =>
      rw [ha, hb] at hp
      exact absurd (hp.mp rfl) (by simp)
    | some v =>
      rw [ha, hb] at hv
      simp only [] at hv
      rw [hv]

/-- Two copy loops whose written bytes are disjoint commute. -/
theorem copyLoop_comm (c : StorageMap) (ps1 ns1 ps2 ns2 n1 po1 no1 n2 po2 no2 : Nat)
    (m : StorageMap) (h1 : no1 < u64) (h2 : no2 < u64)
    (hdisj : ∀ j1, j1 < n1 → ∀ j2, j2 < n2 →
      ¬ (slotAt ns1 ((no1 + j1) % u64) = slotAt ns2 ((no2 + j2) % u64) ∧
         bytePos ((no1 + j1) % u64) = bytePos ((no2 + j2) % u64))) (key : Nat) :
    (copyLoop c ps2 ns2 n2 po2 no2 (copyLoop c ps1 ns1 n1 po1 no1 m)).get? key
      = (copyLoop c ps1 ns1 n1 po1 no1 (copyLoop c ps2 ns2 n2 po2 no2 m)).get? key := by
  apply get?_ext
  · rw [copyLoop_isSome c ps2 ns2 n2 po2 no2 _ key h2, copyLoop_isSome c ps1 ns1 n1 po1 no1 _ key h1,
      copyLoop_isSome c ps1 ns1 n1 po1 no1 _ key h1, copyLoop_isSome c ps2 ns2 n2 po2 no2 _ key h2]
    have e : ∀ (A B C : Prop), ((A ∨ B) ∨ C) ↔ ((A ∨ C) ∨ B) := by
      intro A B C
      tauto
    exact e _ _ _
  · apply Mathlib.Vector.ext
    intro pos
    by_cases w1 : ∃ j, j < n1 ∧ slotAt ns1 ((no1 + j) % u64) = key ∧ bytePos ((no1 + j) % u64) = pos
    · have w2 : ∀ j, j < n2 →
          ¬ (slotAt ns2 ((no2 + j) % u64) = key ∧ bytePos ((no2 + j) % u64) = pos) := by
        intro j2 hj2 h
        obtain ⟨j1, hj1, hs, hp⟩ := w1
        exact hdisj j1 hj1 j2 hj2 ⟨hs.trans h.1.symm, hp.trans h.2.symm⟩
      rw [copyLoop_frame c ps2 ns2 n2 po2 no2 _ key pos h2 w2]
      exact copyLoop_indep c ps1 ns1 n1 po1 no1 _ _ key pos h1 w1
    · have w1' : ∀ j, j < n1 →
          ¬ (slotAt ns1 ((no1 + j) % u64) = key ∧ bytePos ((no1 + j) % u64) = pos) :=
        fun j hj h => w1 ⟨j, hj, h.1, h.2⟩
      rw [copyLoop_frame c ps1 ns1 n1 po1 no1 _ key pos h1 w1']
      by_cases w2 : ∃ j, j < n2 ∧ slotAt ns2 ((no2 + j) % u64) = key ∧
          bytePos ((no2 + j) % u64) = pos
      · exact copyLoop_indep c ps2 ns2 n2 po2 no2 _ _ key pos h2 w2
      · have w2' : ∀ j, j < n2 →
            ¬ (slotAt ns2 ((no2 + j) % u64) = key ∧ bytePos ((no2 + j) % u64) = pos) :=
          fun j hj h => w2 ⟨j, hj, h.1, h.2⟩
        rw [copyLoop_frame c ps2 ns2 n2 po2 no2 _ key pos h2 w2',
          copyLoop_frame c ps2 ns2 n2 po2 no2 _ key pos h2 w2',
          copyLoop_frame c ps1 ns1 n1 po1 no1 _ key pos h1 w1']

/-- Two primitive copies whose destination byte ranges are disjoint and do not wrap
commute. -/
theorem copyPrimitive_comm (c : StorageMap) (w1 w2 : Nat) (d1 d2 : ReorgInfo) (m : StorageMap)
    (hno1 : d1.NewOffset + w1 ≤ u64) (hno2 : d2.NewOffset + w2 ≤ u64)
    (hdisj : ∀ k1, k1 < w1 → ∀ k2, k2 < w2 → destByte d1 k1 ≠ destByte d2 k2) (key : Nat) :
    (copyPrimitive c w2 d2 (copyPrimitive c w1 d1 m)).get? key
      = (copyPrimitive c w1 d1 (copyPrimitive c w2 d2 m)).get? key := by
  unfold copyPrimitive
  have hc1 : (w1 + d1.PrevOffset) % u64 - d1.PrevOffset ≤ w1 := by
    simp only [u64]
    omega
  have hc2 : (w2 + d2.PrevOffset) % u64 - d2.PrevOffset ≤ w2 := by
    simp only [u64]
    omega
  rcases Nat.eq_zero_or_pos ((w1 + d1.PrevOffset) % u64 - d1.PrevOffset) with h0 | h0
  · simp only [h0]
    rfl
  · rcases Nat.eq_zero_or_pos ((w2 + d2.PrevOffset) % u64 - d2.PrevOffset) with h0' | h0'
    · simp only [h0']
      rfl
    · apply copyLoop_comm c _ _ _ _ _ _ _ _ _ _ m (by omega) (by omega)
      intro j1 hj1 j2 hj2 h
      rw [Nat.mod_eq_of_lt (show d1.NewOffset + j1 < u64 by omega),
        Nat.mod_eq_of_lt (show d2.NewOffset + j2 < u64 by omega)] at h
      exact hdisj j1 (by omega) j2 (by omega) (Prod.ext h.1 h.2)

/-- The dispatcher on two directives of inplace pure-primitive types. -/
theorem Reorganize_pair_primitive (D : Dict) (c : StorageMap) (keccak : Nat → Nat)
    (f fuel : Nat) (d1 d2 : ReorgInfo) (m : StorageMap) (t1 t2 : DataType)
    (hD1 : D d1.TypeName = some t1) (hD2 : D d2.TypeName = some t2)
    (henc1 : t1.Encoding = "inplace") (henc2 : t2.Encoding = "inplace")
    (hp1 : purePrimitive D f d1.TypeName = true) (hp2 : purePrimitive D f d2.TypeName = true)
    (hf : f ≤ fuel) :
    Reorganize D c keccak fuel [d1, d2] m
      = .ok (copyPrimitive c t2.PrevNumberOfBytes d2 (copyPrimitive c t1.PrevNumberOfBytes d1 m)) := by
  obtain ⟨tn1, enc1, st1, hE1, hS1⟩ := purePrimitive_spec D f _ hp1
  obtain ⟨tn2, enc2, st2, hE2, hS2⟩ := purePrimitive_spec D f _ hp2
  unfold Reorganize
  rw [forEach]
  simp only [IsEncodingInplace, hD1, henc1, liftErr, if_true,
    ReorganizeInplace_primitive D c keccak f fuel d1 m t1 tn1 enc1 st1 hD1 hE1 hS1 hf]
  rw [forEach]
  simp only [IsEncodingInplace, hD2, henc2, liftErr, if_true,
    ReorganizeInplace_primitive D c keccak f fuel d2 _ t2 tn2 enc2 st2 hD2 hE2 hS2 hf]
  rfl

/-- C13 (amended): order independence.  For two directives of inplace pure-primitive types
of prev widths `w1`, `w2` whose `uint64` destination offsets do not wrap
(`NewOffset + w ≤ 2 ^ 64`) and whose destination bytes are pairwise distinct, and for every
committed image and initial modified buffer, `Reorganize` returns `nil` in both orders and
the two modified buffers hold the same keys with the same values. -/
theorem C13_order_independence (D : Dict) (c : StorageMap) (keccak : Nat → Nat) (f fuel : Nat)
    (d1 d2 : ReorgInfo) (m : StorageMap) (t1 t2 : DataType)
    (hD1 : D d1.TypeName = some t1) (hD2 : D d2.TypeName = some t2)
    (henc1 : t1.Encoding = "inplace") (henc2 : t2.Encoding = "inplace")
    (hp1 : purePrimitive D f d1.TypeName = true) (hp2 : purePrimitive D f d2.TypeName = true)
    (hf : f ≤ fuel)
    (hno1 : d1.NewOffset + t1.PrevNumberOfBytes ≤ u64)
    (hno2 : d2.NewOffset + t2.PrevNumberOfBytes ≤ u64)
    (hdisj : ∀ k1, k1 < t1.PrevNumberOfBytes → ∀ k2, k2 < t2.PrevNumberOfBytes →
      destByte d1 k1 ≠ destByte d2 k2) :
    ∃ m12 m21, Reorganize D c keccak fuel [d1, d2] m = .ok m12 ∧
      Reorganize D c keccak fuel [d2, d1] m = .ok m21 ∧
      ∀ key, m12.get? key = m21.get? key :=
  ⟨_, _, Reorganize_pair_primitive D c keccak f fuel d1 d2 m t1 t2 hD1 hD2 henc1 henc2 hp1 hp2 hf,
    Reorganize_pair_primitive D c keccak f fuel d2 d1 m t2 t1 hD2 hD1 henc2 henc1 hp2 hp1 hf,
    fun key => copyPrimitive_comm c _ _ d1 d2 m hno1 hno2 hdisj key⟩

set_option maxRecDepth 100000 in
/-- C13 witness: scenario S2, the two `uint128` directives that swap the halves of slot 0,
in either order; both runs are also evaluated. -/
theorem C13_order_independence_witness :
    Reorganize scenarioTypes (StorageMap.ofList [(0, BigToHash (2 ^ 128 + 2))]) toyKeccak 1
        [⟨"t_uint128", 0, 0, 0, 16⟩, ⟨"t_uint128", 0, 0, 16, 0⟩] ∅
      = .ok (StorageMap.ofList [(0, BigToHash (2 * 2 ^ 128 + 1))]) ∧
    Reorganize scenarioTypes (StorageMap.ofList [(0, BigToHash (2 ^ 128 + 2))]) toyKeccak 1
        [⟨"t_uint128", 0, 0, 16, 0⟩, ⟨"t_uint128", 0, 0, 0, 16⟩] ∅
      = .ok (StorageMap.ofList [(0, BigToHash (2 * 2 ^ 128 + 1))]) ∧
    ∃ m12 m21,
      Reorganize scenarioTypes (StorageMap.ofList [(0, BigToHash (2 ^ 128 + 2))]) toyKeccak 1
        [⟨"t_uint128", 0, 0, 0, 16⟩, ⟨"t_uint128", 0, 0, 16, 0⟩] ∅ = .ok m12 ∧
      Reorganize scenarioTypes (StorageMap.ofList [(0, BigToHash (2 ^ 128 + 2))]) toyKeccak 1
        [⟨"t_uint128", 0, 0, 16, 0⟩, ⟨"t_uint128", 0, 0, 0, 16⟩] ∅ = .ok m21 ∧
      ∀ key, m12.get? key = m21.get? key :=
  ⟨by decide, by decide,
    C13_order_independence scenarioTypes (StorageMap.ofList [(0, BigToHash (2 ^ 128 + 2))])
      toyKeccak 1 1 ⟨"t_uint128", 0, 0, 0, 16⟩ ⟨"t_uint128", 0, 0, 16, 0⟩ ∅
      ⟨"t_uint128", "", "inplace", 16, 16, []⟩ ⟨"t_uint128", "", "inplace", 16, 16, []⟩
      (by decide) (by decide) (by decide) (by decide) (by decide) (by decide) (by decide)
      (by decide) (by decide) (by decide)⟩

set_option maxRecDepth 100000 in
/-- C13 counterexample: two `uint128` directives, the first with new offset `2 ^ 64 - 8`
from slot 5, the second with new offset 0 in slot 5.  The destination ranges as the
directives state them are disjoint (the first lies in slots `5 + 2 ^ 59 - 1` and
`5 + 2 ^ 59`), but the `uint64` offset counter of the first wraps to 0 after eight bytes and
its last eight bytes land in slot 5.  The two orders leave different values in slot 5. -/
theorem C13_counterexample :
    scenarioTypes "t_uint128" = some ⟨"t_uint128", "", "inplace", 16, 16, []⟩ ∧
    purePrimitive scenarioTypes 1 "t_uint128" = true ∧
    (∀ k1, k1 < 16 → ∀ k2, k2 < 16 →
      destByte ⟨"t_uint128", 0, 5, 0, 2 ^ 64 - 8⟩ k1 ≠ destByte ⟨"t_uint128", 1, 5, 0, 0⟩ k2) ∧
    Reorganize scenarioTypes twoSlotImage toyKeccak 1
        [⟨"t_uint128", 0, 5, 0, 2 ^ 64 - 8⟩, ⟨"t_uint128", 1, 5, 0, 0⟩] ∅
      = .ok (StorageMap.ofList [(5, BigToHash 7), (2 ^ 59 + 4, BigToHash (0x2a * 256 ^ 24))]) ∧
    Reorganize scenarioTypes twoSlotImage toyKeccak 1
        [⟨"t_uint128", 1, 5, 0, 0⟩, ⟨"t_uint128", 0, 5, 0, 2 ^ 64 - 8⟩] ∅
      = .ok (StorageMap.ofList [(5, zeroHash), (2 ^ 59 + 4, BigToHash (0x2a * 256 ^ 24))]) ∧
    (StorageMap.ofList [(5, BigToHash 7), (2 ^ 59 + 4, BigToHash (0x2a * 256 ^ 24))]).get? 5
      ≠ (StorageMap.ofList [(5, zeroHash), (2 ^ 59 + 4, BigToHash (0x2a * 256 ^ 24))]).get? 5 := by
  decide

theorem ExtractUntilInplace_inverse (D : Dict) :
    ∀ (f : Nat) (t : String), ExtractUntilInplace D.inverse f t = ExtractUntilInplace D f t := by
  intro f
  induction f with
  | zero => intro t; rfl
  | succ n ih =>
    intro t
    rw [ExtractUntilInplace, ExtractUntilInplace]
    unfold Dict.inverse
    cases D t with
    | none => rfl
    | some d =>
      simp only [Option.map_some', DataType.inverse]
      rw [← ih d.Base]
      rfl

theorem ContainsStruct_inverse (D : Dict) :
    ∀ (f : Nat) (t : String), ContainsStruct D.inverse f t = ContainsStruct D f t := by
  intro f
  induction f with
  | zero => intro t; rfl
  | succ n ih =>
    intro t
    rw [ContainsStruct, ContainsStruct]
    unfold Dict.inverse
    cases D t with
    | none => rfl
    | some d =>
      simp only [Option.map_some', DataType.inverse, List.length_map]
      rw [← ih d.Base]
      rfl

/-- What a read of the store finds after `Commit` in the harness: the modified buffer. -/
theorem GetCommitedState_CommitShared (c m : StorageMap) (k : Nat) :
    GetCommitedState (CommitShared c m) k = GetModifiedState m k := by
  unfold GetCommitedState CommitShared
  rw [get?_Commit_self]
  by_cases h : GetModifiedState m k = zeroHash
  · simp [h]
  · simp [h]

theorem CommitShared_nonzero (c m : StorageMap) (k : Nat) :
    (CommitShared c m).get? k ≠ some zeroHash := by
  unfold CommitShared
  rw [get?_Commit_self]
  by_cases h : GetModifiedState m k = zeroHash
  · simp [h]
  · simp only [h, if_false, ne_eq, Option.some.injEq, not_false_eq_true]

/-- A map without all-zero entries is determined by what its reads return. -/
theorem get?_of_nonzero (a : StorageMap) (k : Nat) (h : a.get? k ≠ some zeroHash) :
    a.get? k = if GetCommitedState a k = zeroHash then none else some (GetCommitedState a k) := by
  unfold GetCommitedState
  cases ha : a.get? k with
  | none => simp
  | some v =>
    have hv : v ≠ zeroHash := by
      intro e
      rw [ha, e] at h
      exact h rfl
    simp [hv]

set_option maxRecDepth 100000 in
/-- C14 counterexample: the two-slot image with one directive that moves the `uint256` of
slot 0 to slot 5.  `Commit` deletes every committed key, so slot 1, which no directive
covers, is gone after the layout change; the inverse change brings back slot 0 only.
Further round trips that do not return the original image: two directives with one
destination (slots 0 and 1 both moved to slot 5); a primitive whose width changes from 32
to 16 bytes; and an array of one long byte string, whose payload the layout change does not
copy. -/
theorem C14_counterexample :
    scenarioTypes "t_uint256" = some ⟨"t_uint256", "", "inplace", 32, 32, []⟩ ∧
    Reorganize scenarioTypes twoSlotImage toyKeccak 1 [⟨"t_uint256", 0, 5, 0, 0⟩] ∅
      = .ok (StorageMap.ofList [(5, BigToHash 0x2a)]) ∧
    CommitShared twoSlotImage (StorageMap.ofList [(5, BigToHash 0x2a)])
      = StorageMap.ofList [(5, BigToHash 0x2a)] ∧
    roundTrip scenarioTypes twoSlotImage toyKeccak 1 [⟨"t_uint256", 0, 5, 0, 0⟩]
      = .ok (StorageMap.ofList [(0, BigToHash 0x2a)]) ∧
    (StorageMap.ofList [(0, BigToHash 0x2a)]).get? 1 = none ∧
    twoSlotImage.get? 1 = some (BigToHash 7) ∧
    roundTrip scenarioTypes twoSlotImage toyKeccak 1
        [⟨"t_uint256", 0, 5, 0, 0⟩, ⟨"t_uint256", 1, 5, 0, 0⟩]
      = .ok (StorageMap.ofList [(0, BigToHash 7), (1, BigToHash 7)]) ∧
    roundTrip (Init [⟨"t_u", "", "inplace", 32, 16, []⟩])
        (StorageMap.ofList [(0, BigToHash (2 ^ 255 + 7))]) toyKeccak 1 [⟨"t_u", 0, 5, 0, 0⟩]
      = .ok (StorageMap.ofList [(0, BigToHash 7)]) ∧
    roundTrip scenarioTypes bytesArrayImage toyKeccak 1 [⟨"t_array_bytes", 2, 7, 0, 0⟩]
      = .ok (StorageMap.ofList [(2, BigToHash 1), (toyKeccak 2, BigToHash 81)]) := by
  decide

/-- The walk of `ExtractUntilInplace` stops at the first descriptor without base and
reports nothing found, whatever the encoding of that descriptor. -/
theorem ExtractUntilInplace_of_reaches_flat (D : Dict) (t : String) (dd : DataType)
    (h : ReachesThroughInplace D t dd) (hbase : dd.Base = "") :
    ∃ f, ExtractUntilInplace D f t = some (.ok (dd.TypeName, dd.Encoding, false)) := by
  induction h with
  | here t dd h =>
    refine ⟨1, ?_⟩
    rw [ExtractUntilInplace]
    simp [h, hbase]
  | step t d dd h hdenc hdbase _ ih =>
    obtain ⟨f, hf⟩ := ih hbase
    refine ⟨f + 1, ?_⟩
    rw [ExtractUntilInplace]
    simp [h, hdbase, hdenc, hf]

/-- C21 (what the code does): `ExtractUntilInplace` walks the base chain through the
descriptors that are inplace and have a base.  When the walk arrives at a descriptor without
base it returns that descriptor and reports nothing found, whatever its encoding; when it
arrives at a descriptor with a base whose encoding is not inplace it returns that descriptor
and reports it found.  So for an inplace type without members whose base is a bytes type
without base and members, nothing is reported found, and `ReorganizeInplace` copies the
`W` bytes of the region as a primitive: the bytes rewriter is not invoked. -/
theorem C21_extract_until_inplace (D : Dict) (t : String) (dd : DataType)
    (hreach : ReachesThroughInplace D t dd) :
    (dd.Base = "" → ∃ f, ∀ fuel, f ≤ fuel →
      ExtractUntilInplace D fuel t = some (.ok (dd.TypeName, dd.Encoding, false))) ∧
    (dd.Base ≠ "" → dd.Encoding ≠ "inplace" → ∃ f, ∀ fuel, f ≤ fuel →
      ExtractUntilInplace D fuel t = some (.ok (dd.TypeName, dd.Encoding, true))) ∧
    (∀ (d : DataType) (c : StorageMap) (keccak : Nat → Nat) (msg : ReorgInfo) (m : StorageMap)
      (fuel : Nat), msg.TypeName = t → D t = some d → d.Encoding = "inplace" → d.Base ≠ "" →
      d.Members = [] → D d.Base = some dd → dd.Encoding = "bytes" → dd.Base = "" →
      dd.Members = [] → 2 ≤ fuel →
      ExtractUntilInplace D fuel t = some (.ok (dd.TypeName, "bytes", false)) ∧
      ReorganizeInplace D c keccak fuel msg m
        = .ok (copyPrimitive c d.PrevNumberOfBytes msg m)) := by
  refine ⟨?_, ?_, ?_⟩
  · intro hbase
    obtain ⟨f, hf⟩ := ExtractUntilInplace_of_reaches_flat D t dd hreach hbase
    exact ⟨f, fun fuel hfuel => ExtractUntilInplace_mono D f _ _ fuel hf hfuel⟩
  · intro hbase henc
    obtain ⟨f, hf⟩ := ExtractUntilInplace_of_reaches D t dd hreach henc hbase
    exact ⟨f, fun fuel hfuel => ExtractUntilInplace_mono D f _ _ fuel hf hfuel⟩
  · intro d c keccak msg m fuel hmsg hD henc hbase hmem hB hbenc hbbase hbmem hfuel
    have hE : ExtractUntilInplace D 2 t = some (.ok (dd.TypeName, "bytes", false)) := by
      simp [ExtractUntilInplace, hD, hbase, henc, hB, hbbase, hbenc]
    have hS : ContainsStruct D 2 t = some (.ok (false, "")) := by
      simp [ContainsStruct, hD, hbase, hmem, hB, hbbase, hbmem]
    refine ⟨ExtractUntilInplace_mono D 2 _ _ fuel hE hfuel, ?_⟩
    subst hmsg
    exact ReorganizeInplace_primitive D c keccak 2 fuel msg m d _ _ _ hD hE hS hfuel

set_option maxRecDepth 100000 in
/-- C21 failing input: a static array of two byte strings, the first one long, moved from
slots 5, 6 to slots 9, 10.  The bytes type is not reported found; the run copies the two
head slots and nothing else, whereas the bytes rewriter run on each head slot would also
copy the two payload slots of the long string to the slots after `toyKeccak 9`. -/
theorem C21_extract_until_inplace_witness :
    ReorganizeInplace staticBytesTypes staticBytesImage toyKeccak 2
        ⟨"t_static_bytes", 5, 9, 0, 0⟩ ∅
      = .ok (StorageMap.ofList [(10, BigToHash (0x68656c6c6f * 256 ^ 27 + 0x0a)),
          (9, BigToHash 81)]) ∧
    bytesExtensionSpec staticBytesTypes staticBytesImage toyKeccak "t_bytes" 5 9 64 ∅
      = .ok (StorageMap.ofList [(10, BigToHash (0x68656c6c6f * 256 ^ 27 + 0x0a)),
          (toyKeccak 9 + 1, BigToHash (2 ^ 200)), (toyKeccak 9, BigToHash (2 ^ 255 + 7)),
          (9, BigToHash 81)]) ∧
    (∃ f, ∀ fuel, f ≤ fuel →
      ExtractUntilInplace staticBytesTypes fuel "t_static_bytes"
        = some (.ok ("t_bytes", "bytes", false))) ∧
    ExtractUntilInplace staticBytesTypes 2 "t_static_bytes"
      = some (.ok ("t_bytes", "bytes", false)) ∧
    ReorganizeInplace staticBytesTypes staticBytesImage toyKeccak 2
        ⟨"t_static_bytes", 5, 9, 0, 0⟩ ∅
      = .ok (copyPrimitive staticBytesImage 64 ⟨"t_static_bytes", 5, 9, 0, 0⟩ ∅) :=
  ⟨by decide, by decide,
    (C21_extract_until_inplace staticBytesTypes "t_static_bytes"
      ⟨"t_bytes", "", "bytes", 32, 32, []⟩
      (ReachesThroughInplace.step _ ⟨"t_static_bytes", "t_bytes", "inplace", 64, 64, []⟩ _
        (by decide) (by decide) (by decide) (ReachesThroughInplace.here _ _ (by decide)))).1
      (by decide),
    (C21_extract_until_inplace staticBytesTypes "t_static_bytes"
      ⟨"t_bytes", "", "bytes", 32, 32, []⟩
      (ReachesThroughInplace.step _ ⟨"t_static_bytes", "t_bytes", "inplace", 64, 64, []⟩ _
        (by decide) (by decide) (by decide) (ReachesThroughInplace.here _ _ (by decide)))).2.2
      ⟨"t_static_bytes", "t_bytes", "inplace", 64, 64, []⟩ staticBytesImage toyKeccak
      ⟨"t_static_bytes", 5, 9, 0, 0⟩ ∅ 2 rfl (by decide) (by decide) (by decide) (by decide)
      (by decide) (by decide) (by decide) (by decide) (by decide)⟩

/-- C23: identity directives never invent data.  When every directive has new slot and
offset equal to the old ones, every type keeps its width and every struct member its
position, then in whatever state `Reorganize`, run from the empty buffer, returns (`nil` or
an error), every byte of every modified slot is zero or the committed byte at the same slot
and position; and when it returns `nil`, every non-zero byte of every slot read from the
store after `Commit` is the byte of the pre-transform image at the same slot and position,
and no slot of the store is all-zero. -/
theorem C23_identity_never_invents (D : Dict) (c : StorageMap) (keccak : Nat → Nat)
    (fuel : Nat) (reorgMessges : List ReorgInfo) (hD : D.isIdentity)
    (hmsgs : ∀ msg : ReorgInfo, msg ∈ reorgMessges → msg.isIdentity) :
    (Reorganize D c keccak fuel reorgMessges ∅).whenReturned (SubImage c) ∧
    (∀ m', Reorganize D c keccak fuel reorgMessges ∅ = .ok m' →
      (∀ (k : Nat) (pos : Fin 32), (GetCommitedState (CommitShared c m') k).get pos ≠ 0 →
        (GetCommitedState (CommitShared c m') k).get pos = (GetCommitedState c k).get pos) ∧
      (∀ k, (CommitShared c m').get? k ≠ some zeroHash)) := by
  have h := Reorganize_SubImage D c keccak fuel reorgMessges ∅ hD hmsgs (SubImage_empty c)
  refine ⟨h, ?_⟩
  intro m' hrun
  rw [hrun] at h
  refine ⟨?_, CommitShared_nonzero c m'⟩
  intro k pos hne
  rw [GetCommitedState_CommitShared] at hne ⊢
  rcases h k pos with h0 | h1
  · exact absurd h0 hne
  · exact h1

set_option maxRecDepth 100000 in
/-- C23 witness: the identity directive on an array of one long byte string.  The run
returns `nil` with the array head and the element head in the buffer; the payload slots of
the element are not covered and are dropped, and what is kept is as it was. -/
theorem C23_identity_never_invents_witness :
    Reorganize scenarioTypes bytesArrayImage toyKeccak 1 [⟨"t_array_bytes", 2, 2, 0, 0⟩] ∅
      = .ok (StorageMap.ofList [(toyKeccak 2, BigToHash 81), (2, BigToHash 1)]) ∧
    CommitShared bytesArrayImage (StorageMap.ofList [(toyKeccak 2, BigToHash 81), (2, BigToHash 1)])
      = StorageMap.ofList [(2, BigToHash 1), (toyKeccak 2, BigToHash 81)] ∧
    (Reorganize scenarioTypes bytesArrayImage toyKeccak 1
        [⟨"t_array_bytes", 2, 2, 0, 0⟩] ∅).whenReturned (SubImage bytesArrayImage) ∧
    (∀ m', Reorganize scenarioTypes bytesArrayImage toyKeccak 1
        [⟨"t_array_bytes", 2, 2, 0, 0⟩] ∅ = .ok m' →
      (∀ (k : Nat) (pos : Fin 32),
        (GetCommitedState (CommitShared bytesArrayImage m') k).get pos ≠ 0 →
        (GetCommitedState (CommitShared bytesArrayImage m') k).get pos
          = (GetCommitedState bytesArrayImage k).get pos) ∧
      (∀ k, (CommitShared bytesArrayImage m').get? k ≠ some zeroHash)) :=
  ⟨by decide, by decide,
    C23_identity_never_invents scenarioTypes bytesArrayImage toyKeccak 1
      [⟨"t_array_bytes", 2, 2, 0, 0⟩] scenarioTypes_isIdentity (by decide)⟩

theorem ExtractUntilInplace_withNewWidth (D : Dict) (t : String) (nw : Nat) :
    ∀ (f : Nat) (s : String),
      ExtractUntilInplace (D.withNewWidth t nw) f s = ExtractUntilInplace D f s := by
  intro f
  induction f with
  | zero => intro s; rfl
  | succ n ih =>
    intro s
    rw [ExtractUntilInplace, ExtractUntilInplace]
    unfold Dict.withNewWidth
    by_cases hs : s = t
    · simp only [hs, if_true]
      cases D t with
      | none => rfl
      | some d =>
        simp only [Option.map_some']
        rw [← ih d.Base]
        rfl
    · simp only [hs, if_false]
      cases D s with
      | none => rfl
      | some d =>
        simp only []
        rw [← ih d.Base]
        rfl

theorem ContainsStruct_withNewWidth (D : Dict) (t : String) (nw : Nat) :
    ∀ (f : Nat) (s : String),
      ContainsStruct (D.withNewWidth t nw) f s = ContainsStruct D f s := by
  intro f
  induction f with
  | zero => intro s; rfl
  | succ n ih =>
    intro s
    rw [ContainsStruct, ContainsStruct]
    unfold Dict.withNewWidth
    by_cases hs : s = t
    · simp only [hs, if_true]
      cases D t with
      | none => rfl
      | some d =>
        simp only [Option.map_some']
        rw [← ih d.Base]
        rfl
    · simp only [hs, if_false]
      cases D s with
      | none => rfl
      | some d =>
        simp only []
        rw [← ih d.Base]
        rfl

/-- C24 (amended): the new width of a primitive has no influence.  For a pure-primitive
directive of prev_width `W`, every committed image, every initial buffer and every value
`nw`, `ReorganizeInplace` over the dictionary whose new width for that type is `nw` returns
what it returns over the given dictionary.  When the `uint64` counters do not wrap
(`PrevOffset + W < 2 ^ 64`, `NewOffset + W ≤ 2 ^ 64`) it returns `nil`, each of the `W`
destination bytes has the source byte, and every other byte of the buffer is as before. -/
theorem C24_new_width_no_influence (D : Dict) (c : StorageMap) (keccak : Nat → Nat)
    (f fuel : Nat) (msg : ReorgInfo) (m : StorageMap) (d : DataType)
    (hD : D msg.TypeName = some d) (hp : purePrimitive D f msg.TypeName = true)
    (hf : f ≤ fuel) :
    (∀ nw, ReorganizeInplace (D.withNewWidth msg.TypeName nw) c keccak fuel msg m
      = ReorganizeInplace D c keccak fuel msg m) ∧
    (msg.PrevOffset + d.PrevNumberOfBytes < u64 → msg.NewOffset + d.PrevNumberOfBytes ≤ u64 →
      ∃ m', ReorganizeInplace D c keccak fuel msg m = .ok m' ∧
        (∀ k, k < d.PrevNumberOfBytes →
          regionByte (GetModifiedState m') msg.NewSlot msg.NewOffset k
            = regionByte (GetCommitedState c) msg.PrevSlot msg.PrevOffset k) ∧
        (∀ key pos, (∀ k, k < d.PrevNumberOfBytes → destByte msg k ≠ (key, pos)) →
          (GetModifiedState m' key).get pos = (GetModifiedState m key).get pos)) := by
  obtain ⟨tn, enc, st, hE, hS⟩ := purePrimitive_spec D f _ hp
  have hrun := ReorganizeInplace_primitive D c keccak f fuel msg m d tn enc st hD hE hS hf
  constructor
  · intro nw
    have hD' : (D.withNewWidth msg.TypeName nw) msg.TypeName
        = some { d with NewNumberOfBytes := nw } := by
      unfold Dict.withNewWidth
      simp only [if_true, hD, Option.map_some']
    rw [hrun, ReorganizeInplace_primitive (D.withNewWidth msg.TypeName nw) c keccak f fuel msg m
      { d with NewNumberOfBytes := nw } tn enc st hD'
      (by rw [ExtractUntilInplace_withNewWidth]; exact hE)
      (by rw [ContainsStruct_withNewWidth]; exact hS) hf]
  · intro hpo hno
    refine ⟨_, hrun, fun k hk => copyPrimitive_byte c _ msg m hpo hno k hk, ?_⟩
    intro key pos h
    exact copyPrimitive_frame c _ msg m hno key pos
      (fun k hk hd => h k hk (Prod.ext hd.1 hd.2))

set_option maxRecDepth 100000 in
/-- C24 witness: the low `uint128` of slot 0 copied to the low half of slot 1 of a buffer
whose slot 1 is all `0xff`, with the new width of `t_uint128` widened to 32 and narrowed to
8: in both cases 16 bytes are written and the high half of slot 1 stays. -/
theorem C24_new_width_no_influence_witness :
    ReorganizeInplace (scenarioTypes.withNewWidth "t_uint128" 32) packedImage toyKeccak 1
        ⟨"t_uint128", 0, 1, 0, 0⟩ (StorageMap.ofList [(1, BigToHash (2 ^ 256 - 1))])
      = .ok (StorageMap.ofList [(1, BigToHash ((2 ^ 128 - 1) * 2 ^ 128 + 2))]) ∧
    ReorganizeInplace (scenarioTypes.withNewWidth "t_uint128" 8) packedImage toyKeccak 1
        ⟨"t_uint128", 0, 1, 0, 0⟩ (StorageMap.ofList [(1, BigToHash (2 ^ 256 - 1))])
      = .ok (StorageMap.ofList [(1, BigToHash ((2 ^ 128 - 1) * 2 ^ 128 + 2))]) ∧
    (∀ nw, ReorganizeInplace (scenarioTypes.withNewWidth "t_uint128" nw) packedImage toyKeccak 1
        ⟨"t_uint128", 0, 1, 0, 0⟩ (StorageMap.ofList [(1, BigToHash (2 ^ 256 - 1))])
      = ReorganizeInplace scenarioTypes packedImage toyKeccak 1
        ⟨"t_uint128", 0, 1, 0, 0⟩ (StorageMap.ofList [(1, BigToHash (2 ^ 256 - 1))])) ∧
    (∃ m', ReorganizeInplace scenarioTypes packedImage toyKeccak 1
        ⟨"t_uint128", 0, 1, 0, 0⟩ (StorageMap.ofList [(1, BigToHash (2 ^ 256 - 1))]) = .ok m' ∧
      (∀ k, k < 16 →
        regionByte (GetModifiedState m') 1 0 k = regionByte (GetCommitedState packedImage) 0 0 k) ∧
      (∀ key pos, (∀ k, k < 16 → destByte ⟨"t_uint128", 0, 1, 0, 0⟩ k ≠ (key, pos)) →
        (GetModifiedState m' key).get pos
          = (GetModifiedState (StorageMap.ofList [(1, BigToHash (2 ^ 256 - 1))]) key).get pos)) :=
  ⟨by decide, by decide,
    (C24_new_width_no_influence scenarioTypes packedImage toyKeccak 1 1
      ⟨"t_uint128", 0, 1, 0, 0⟩ (StorageMap.ofList [(1, BigToHash (2 ^ 256 - 1))])
      ⟨"t_uint128", "", "inplace", 16, 16, []⟩ (by decide) (by decide) (by decide)).1,
    (C24_new_width_no_influence scenarioTypes packedImage toyKeccak 1 1
      ⟨"t_uint128", 0, 1, 0, 0⟩ (StorageMap.ofList [(1, BigToHash (2 ^ 256 - 1))])
      ⟨"t_uint128", "", "inplace", 16, 16, []⟩ (by decide) (by decide) (by decide)).2
      (by decide) (by decide)⟩

set_option maxRecDepth 100000 in
/-- C24 counterexample: a `uint128` directive with `PrevOffset = 2 ^ 64 - 16`.  The `uint64`
loop bound `16 + PrevOffset` wraps to 0, the loop body never runs, and no destination byte
is written: byte 0 of the destination stays zero while byte 0 of the source is 1. -/
theorem C24_counterexample :
    scenarioTypes "t_uint128" = some ⟨"t_uint128", "", "inplace", 16, 16, []⟩ ∧
    purePrimitive scenarioTypes 1 "t_uint128" = true ∧
    ReorganizeInplace scenarioTypes (StorageMap.ofList [(2 ^ 59 - 1, BigToHash (2 ^ 128))])
      toyKeccak 1 ⟨"t_uint128", 0, 1, 2 ^ 64 - 16, 0⟩ ∅ = .ok ∅ ∧
    regionByte (GetCommitedState (StorageMap.ofList [(2 ^ 59 - 1, BigToHash (2 ^ 128))]))
      0 (2 ^ 64 - 16) 0 = 1 ∧
    regionByte (GetModifiedState ∅) 1 0 0 = 0 := by
  decide

theorem forLoop_ne_panic {σ : Type} (body : Nat → σ → Res σ)
    (hbody : ∀ k s, body k s ≠ .panic) :
    ∀ (n i : Nat) (s : σ), forLoop body n i s ≠ .panic := by
  intro n
  induction n with
  | zero => intro i s; rw [forLoop]; exact fun h => Res.noConfusion h
  | succ k ih =>
    intro i s
    rw [forLoop]
    have hb := hbody i s
    cases hr : body i s with
    | ok s' => exact ih (i + 1) s'
    | err e s' => exact fun h => Res.noConfusion h
    | panic => exact absurd hr hb
    | outOfFuel => exact fun h => Res.noConfusion h

theorem forEach_ne_panic {α σ : Type} (body : α → σ → Res σ) :
    ∀ (l : List α), (∀ a, a ∈ l → ∀ s, body a s ≠ .panic) →
      ∀ s, forEach body l s ≠ .panic := by
  intro l
  induction l with
  | nil => intro _ s; rw [forEach]; exact fun h => Res.noConfusion h
  | cons x rest ih =>
    intro hbody s
    rw [forEach]
    have hb := hbody x (List.mem_cons_self _ _) s
    cases hr : body x s with
    | ok s' => exact ih (fun a ha => hbody a (List.mem_cons_of_mem _ ha)) s'
    | err e s' => exact fun h => Res.noConfusion h
    | panic => exact absurd hr hb
    | outOfFuel => exact fun h => Res.noConfusion h

theorem liftErr_ne_panic {α σ : Type} (e : Except String α) (s : σ) (k : α → Res σ)
    (hk : ∀ a, e = .ok a → k a ≠ .panic) : liftErr e s k ≠ .panic := by
  cases e with
  | ok a => exact hk a rfl
  | error msg => exact fun h => Res.noConfusion h

theorem copyHead_some (w : Nat) (p n : Hash) (hw : w ≤ 32) : ∃ v, copyHead w p n = some v := by
  obtain ⟨h, hh, _⟩ := copyHeadLoop_get p w 0 n (by omega)
  refine ⟨h, ?_⟩
  unfold copyHead
  rw [toInt64_toNat_small _ hw, hh]

theorem GetNumberOfBytes_ok (D : Dict) (t : String) (sz : Nat × Nat)
    (h : GetNumberOfBytes D t = .ok sz) :
    ∃ d, D t = some d ∧ sz = (d.PrevNumberOfBytes, d.NewNumberOfBytes) := by
  unfold GetNumberOfBytes at h
  cases hd : D t with
  | none => rw [hd] at h; simp at h
  | some d =>
    rw [hd] at h
    simp only [Except.ok.injEq] at h
    exact ⟨d, rfl, h.symm⟩

/-- The bytes rewriter does not panic on a type of prev_width at most 32. -/
theorem ReorganizeBytes_ne_panic (D : Dict) (c : StorageMap) (keccak : Nat → Nat)
    (msg : ReorgInfo) (m : StorageMap)
    (hw : ∀ d, D msg.TypeName = some d → d.PrevNumberOfBytes ≤ 32) :
    ReorganizeBytes D c keccak msg m ≠ .panic := by
  unfold ReorganizeBytes
  apply liftErr_ne_panic
  intro sizes hs
  obtain ⟨d, hD, rfl⟩ := GetNumberOfBytes_ok D _ _ hs
  obtain ⟨v, hv⟩ := copyHead_some d.PrevNumberOfBytes (GetCommitedState c msg.PrevSlot)
    (GetModifiedState m msg.NewSlot) (hw d hD)
  simp only [hv]
  split_ifs
  · apply forLoop_ne_panic
    intro k s
    simp only [copyHeadLoop_full]
    exact fun h => Res.noConfusion h
  · exact fun h => Res.noConfusion h

/-- The element loops of `ReorganizeDynamicArray` do not panic when the callee does not and
a base without base and members has a width from 1 to 32. -/
theorem dynamicArrayElements_ne_panic {σ : Type} (D : Dict) (keccak : Nat → Nat)
    (inplace : ReorgInfo → σ → Res σ) (msg : ReorgInfo) (prevSlot : Hash) (m1 : σ)
    (d : DataType) (hD : D msg.TypeName = some d)
    (hflat : ∀ b, D d.Base = some b → b.Encoding = "inplace" → b.Base = "" → b.Members = [] →
      1 ≤ b.PrevNumberOfBytes ∧ b.PrevNumberOfBytes ≤ 32)
    (hcb : ∀ sub s, inplace sub s ≠ .panic) :
    dynamicArrayElements D keccak inplace msg prevSlot m1 ≠ .panic := by
  unfold dynamicArrayElements
  simp only [hD, Option.getD]
  split_ifs with hN
  · exact fun h => Res.noConfusion h
  cases hB : D d.Base with
  | none =>
    simp only [IsEncodingInplace, hB, liftErr]
    exact fun h => Res.noConfusion h
  | some b =>
    by_cases henc : b.Encoding = "inplace"
    · simp only [IsEncodingInplace, hB, henc, if_true, liftErr]
      by_cases hbase : b.Base = ""
      · by_cases hmem : b.Members.length = 0
        · obtain ⟨h1, h32⟩ := hflat b hB henc hbase (List.length_eq_zero.mp hmem)
          have hw0 : b.PrevNumberOfBytes ≠ 0 := by omega
          have hper : 32 / b.PrevNumberOfBytes ≠ 0 := by
            have := Nat.div_pos h32 (by omega : 0 < b.PrevNumberOfBytes)
            omega
          simp only [IsNested, IsFlat, GetNumberOfBytes, hB, hbase, hmem, if_true, liftErr,
            hw0, hper, if_false, Bool.false_eq_true]
          exact forLoop_ne_panic _
            (fun _ _ => forLoop_ne_panic _ (fun _ _ => hcb _ _) _ _ _) _ _ _
        · simp only [IsNested, GetNumberOfBytes, hB, hbase, hmem, if_true, liftErr, if_false]
          exact forLoop_ne_panic _ (fun _ _ => hcb _ _) _ _ _
      · simp only [IsNested, GetNumberOfBytes, hB, hbase, if_true, liftErr, if_false]
        exact forLoop_ne_panic _ (fun _ _ => hcb _ _) _ _ _
    · simp only [IsEncodingInplace, IsEncodingDynamicArray, IsEncodingBytes, hB, henc, if_false,
        liftErr, Bool.false_eq_true]
      by_cases hdyn : b.Encoding = "dynamic_array"
      · simp only [hdyn, if_true, liftErr]
        exact forLoop_ne_panic _ (fun _ _ => hcb _ _) _ _ _
      · simp only [hdyn, if_false, liftErr, Bool.false_eq_true]
        by_cases hby : b.Encoding = "bytes"
        · simp only [hby, if_true, liftErr]
          exact forLoop_ne_panic _ (fun _ _ => hcb _ _) _ _ _
        · simp only [hby, if_false, liftErr, Bool.false_eq_true]
          exact fun h => Res.noConfusion h

/-- The dynamic-array rewriter does not panic on a type of prev_width at most 32 when the
callee does not. -/
theorem ReorganizeDynamicArrayWith_ne_panic (D : Dict) (c : StorageMap) (keccak : Nat → Nat)
    (inplace : ReorgInfo → StorageMap → Res StorageMap) (msg : ReorgInfo) (m : StorageMap)
    (hw : ∀ d, D msg.TypeName = some d → d.PrevNumberOfBytes ≤ 32)
    (hflat : ∀ d b, D msg.TypeName = some d → D d.Base = some b → b.Encoding = "inplace" →
      b.Base = "" → b.Members = [] → 1 ≤ b.PrevNumberOfBytes ∧ b.PrevNumberOfBytes ≤ 32)
    (hcb : ∀ sub s, inplace sub s ≠ .panic) :
    ReorganizeDynamicArrayWith D c keccak inplace msg m ≠ .panic := by
  unfold ReorganizeDynamicArrayWith
  apply liftErr_ne_panic
  intro sizes hs
  obtain ⟨d, hD, rfl⟩ := GetNumberOfBytes_ok D _ _ hs
  obtain ⟨v, hv⟩ := copyHead_some d.PrevNumberOfBytes (GetCommitedState c msg.PrevSlot)
    (GetModifiedState m msg.NewSlot) (hw d hD)
  simp only [hv]
  exact dynamicArrayElements_ne_panic D keccak inplace msg _ _ d hD (hflat d · hD) hcb

/-- What `ExtractUntilInplace` returns is the name and the encoding of a known descriptor. -/
theorem ExtractUntilInplace_known (D : Dict) :
    ∀ (f : Nat) (t tn enc : String) (found : Bool),
      ExtractUntilInplace D f t = some (.ok (tn, enc, found)) →
      ∃ s d, D s = some d ∧ d.TypeName = tn ∧ d.Encoding = enc := by
  intro f
  induction f with
  | zero => intro t tn enc found h; simp [ExtractUntilInplace] at h
  | succ n ih =>
    intro t tn enc found h
    rw [ExtractUntilInplace] at h
    cases hd : D t with
    | none => rw [hd] at h; simp at h
    | some d =>
      rw [hd] at h
      simp only [] at h
      split_ifs at h with hb he
      · simp only [Option.some.injEq, Except.ok.injEq, Prod.mk.injEq] at h
        exact ⟨t, d, hd, h.1, h.2.1⟩
      · simp only [Option.some.injEq, Except.ok.injEq, Prod.mk.injEq] at h
        exact ⟨t, d, hd, h.1, h.2.1⟩
      · exact ih _ _ _ _ h

/-- A struct reported by `ContainsStruct` is a known descriptor with members. -/
theorem ContainsStruct_known (D : Dict) :
    ∀ (f : Nat) (t S : String), ContainsStruct D f t = some (.ok (true, S)) →
      ∃ sd, D S = some sd ∧ sd.Members ≠ [] := by
  intro f
  induction f with
  | zero => intro t S h; simp [ContainsStruct] at h
  | succ n ih =>
    intro t S h
    rw [ContainsStruct] at h
    cases hd : D t with
    | none => rw [hd] at h; simp at h
    | some d =>
      rw [hd] at h
      simp only [] at h
      split_ifs at h with hm hb
      · simp only [Option.some.injEq, Except.ok.injEq, Prod.mk.injEq, true_and] at h
        subst h
        exact ⟨d, hd, fun e => hm (by rw [e]; rfl)⟩
      · simp at h
      · exact ih _ _ h

theorem toInt64_ne_zero (x : Nat) (h1 : 1 ≤ x) (h2 : x < u64) : toInt64 x ≠ 0 := by
  unfold toInt64
  rw [Nat.mod_eq_of_lt h2]
  simp only [u64] at h2 ⊢
  split_ifs <;> omega

/-- Under well-formed widths, in a dictionary keyed by type name whose widths are `uint64`
values, `ReorganizeInplace` does not panic, whatever the budget. -/
theorem ReorganizeInplace_ne_panic (D : Dict) (c : StorageMap) (keccak : Nat → Nat)
    (hkey : ∀ t d, D t = some d → d.TypeName = t)
    (htyp : ∀ t d, D t = some d → d.PrevNumberOfBytes < u64)
    (hwf : D.wellFormedWidths) :
    ∀ (fuel : Nat) (msg : ReorgInfo) (m : StorageMap),
      ReorganizeInplace D c keccak fuel msg m ≠ .panic := by
  obtain ⟨hA, hB, hC⟩ := hwf
  have hdyn : ∀ (inplace : ReorgInfo → StorageMap → Res StorageMap) (sub : ReorgInfo)
      (s : StorageMap), (∀ d, D sub.TypeName = some d → d.Encoding = "dynamic_array") →
      (∀ sub' s', inplace sub' s' ≠ .panic) →
      ReorganizeDynamicArrayWith D c keccak inplace sub s ≠ .panic :=
    fun inplace sub s henc hcb => ReorganizeDynamicArrayWith_ne_panic D c keccak inplace sub s
      (fun d hd => hA _ d hd (Or.inl (henc d hd)))
      (fun d b hd hb he hbb hbm => hB _ d b hd (henc d hd) hb he hbb hbm) hcb
  have hbytes : ∀ (sub : ReorgInfo) (s : StorageMap),
      (∀ d, D sub.TypeName = some d → d.Encoding = "bytes") →
      ReorganizeBytes D c keccak sub s ≠ .panic :=
    fun sub s henc => ReorganizeBytes_ne_panic D c keccak sub s
      (fun d hd => hA _ d hd (Or.inr (henc d hd)))
  intro fuel
  induction fuel with
  | zero => intro msg m; rw [ReorganizeInplace]; exact fun h => Res.noConfusion h
  | succ n ih =>
    intro msg m
    rw [ReorganizeInplace]
    apply liftErr_ne_panic
    intro sizes _
    simp only []
    cases hE : ExtractUntilInplace D (n + 1) msg.TypeName with
    | none => exact fun h => Res.noConfusion h
    | some rE =>
      cases rE with
      | error e => exact fun h => Res.noConfusion h
      | ok tE =>
        obtain ⟨typeName, encoding, found⟩ := tE
        have hfoundType : ∀ d, D typeName = some d → d.Encoding = encoding := by
          intro d hd
          obtain ⟨s0, d0, hd0, htn, henc0⟩ := ExtractUntilInplace_known D _ _ _ _ _ hE
          have hs0 : s0 = typeName := by rw [← hkey s0 d0 hd0, htn]
          rw [hs0, hd] at hd0
          rw [Option.some.injEq] at hd0
          rw [hd0]
          exact henc0
        cases hS : ContainsStruct D (n + 1) msg.TypeName with
        | none => exact fun h => Res.noConfusion h
        | some rS =>
          cases rS with
          | error e => exact fun h => Res.noConfusion h
          | ok tS =>
            obtain ⟨structFound, structTypeName⟩ := tS
            simp only []
            split_ifs with hfound hde hbe hsf
            · apply forLoop_ne_panic
              intro i s
              exact hdyn _ _ s (fun d hd => by rw [hfoundType d hd, hde]) ih
            · apply forLoop_ne_panic
              intro i s
              exact hbytes _ s (fun d hd => by rw [hfoundType d hd, hbe])
            · exact fun h => Res.noConfusion h
            · apply liftErr_ne_panic
              intro ss hss
              obtain ⟨sd, hsd, rfl⟩ := GetNumberOfBytes_ok D _ _ hss
              subst hsf
              obtain ⟨sd', hsd', hmem'⟩ := ContainsStruct_known D _ _ _ hS
              rw [hsd, Option.some.injEq] at hsd'
              subst hsd'
              have hne : toInt64 sd.PrevNumberOfBytes ≠ 0 :=
                toInt64_ne_zero _ (hC _ sd hsd hmem') (htyp _ sd hsd)
              simp only [hne, if_false]
              apply forLoop_ne_panic
              intro i s
              apply forEach_ne_panic
              intro member _ s'
              cases hmd : D member.TypeName with
              | none => exact fun h => Res.noConfusion h
              | some md =>
                have hsub : ∀ (p q : Nat) (d : DataType),
                    D (memberDirective p q member md.TypeName).TypeName = some d → d = md := by
                  intro p q d hd
                  have e : (memberDirective p q member md.TypeName).TypeName = member.TypeName :=
                    hkey _ md hmd
                  rw [e, hmd, Option.some.injEq] at hd
                  exact hd.symm
                simp only []
                split_ifs with h1 h2 h3
                · exact ih _ s'
                · exact hdyn _ _ s' (fun d hd => by rw [hsub _ _ d hd]; exact h2) ih
                · exact hbytes _ s' (fun d hd => by rw [hsub _ _ d hd]; exact h3)
                · exact fun h => Res.noConfusion h
            · exact fun h => Res.noConfusion h

/-- Under well-formed widths, in a dictionary keyed by type name whose widths are `uint64`
values, `Reorganize` does not panic, whatever the budget. -/
theorem Reorganize_ne_panic (D : Dict) (c : StorageMap) (keccak : Nat → Nat) (fuel : Nat)
    (reorgMessges : List ReorgInfo) (m : StorageMap)
    (hkey : ∀ t d, D t = some d → d.TypeName = t)
    (htyp : ∀ t d, D t = some d → d.PrevNumberOfBytes < u64)
    (hwf : D.wellFormedWidths) :
    Reorganize D c keccak fuel reorgMessges m ≠ .panic := by
  have hin := ReorganizeInplace_ne_panic D c keccak hkey htyp hwf
  obtain ⟨hA, hB, _⟩ := hwf
  unfold Reorganize
  apply forEach_ne_panic
  intro msg _ s
  cases hd : D msg.TypeName with
  | none =>
    simp only [IsEncodingInplace, hd, liftErr]
    exact fun h => Res.noConfusion h
  | some d =>
    by_cases h1 : d.Encoding = "inplace"
    · simp only [IsEncodingInplace, hd, h1, if_true, liftErr]
      exact hin fuel msg s
    · simp only [IsEncodingInplace, IsEncodingDynamicArray, IsEncodingBytes, hd, h1, if_false,
        liftErr, Bool.false_eq_true]
      by_cases h2 : d.Encoding = "dynamic_array"
      · simp only [h2, if_true, liftErr]
        exact ReorganizeDynamicArrayWith_ne_panic D c keccak _ msg s
          (fun d' hd' => hA _ d' hd' (Or.inl (by
            rw [hd, Option.some.injEq] at hd'
            rw [← hd']
            exact h2)))
          (fun d' b hd' hb he hbb hbm => hB _ d' b hd' (by
            rw [hd, Option.some.injEq] at hd'
            rw [← hd']
            exact h2) hb he hbb hbm)
          (hin fuel)
      · simp only [h2, if_false, liftErr, Bool.false_eq_true]
        by_cases h3 : d.Encoding = "bytes"
        · simp only [h3, if_true, liftErr]
          exact ReorganizeBytes_ne_panic D c keccak msg s
            (fun d' hd' => hA _ d' hd' (Or.inr (by
              rw [hd, Option.some.injEq] at hd'
              rw [← hd']
              exact h3)))
        · simp only [h3, if_false, liftErr, Bool.false_eq_true]
          exact fun h => Res.noConfusion h

theorem Init_mem (l : List DataType) :
    ∀ (t : String) (x : DataType), Init l t = some x → x ∈ l := by
  unfold Init
  have h : ∀ (l : List DataType) (D0 : Dict) (P : DataType → Prop),
      (∀ t x, D0 t = some x → P x) → (∀ x, x ∈ l → P x) →
      ∀ t x, l.foldl (fun D d => fun t => if t = d.TypeName then some d else D t) D0 t = some x →
        P x := by
    intro l
    induction l with
    | nil => intro D0 P h0 _ t x hx; exact h0 t x hx
    | cons d rest ih =>
      intro D0 P h0 hl t x hx
      rw [List.foldl_cons] at hx
      refine ih _ P ?_ (fun y hy => hl y (List.mem_cons_of_mem _ hy)) t x hx
      intro t' x' hx'
      by_cases ht : t' = d.TypeName
      · simp only [ht, if_true, Option.some.injEq] at hx'
        rw [← hx']
        exact hl d (List.mem_cons_self _ _)
      · simp only [ht, if_false] at hx'
        exact h0 t' x' hx'
  intro t x hx
  exact h l _ (fun y => y ∈ l) (fun t x hx => by simp at hx) (fun _ hy => hy) t x hx

/-- C22: no out-of-range index and no division by zero under well-formed widths.  For a
dictionary built by `Init` from descriptors whose widths are `uint64` values, in which every
`dynamic_array` and `bytes` type has prev_width at most 32, every inplace type without base
and members that is the base of a dynamic array has a prev_width from 1 to 32, and every
struct type has prev_width at least 1: for every committed image, directive list, initial
buffer and budget, the run of `Reorganize` does not end in a panic, that is, no head copy
indexes a slot outside positions 0..31 and no division has a zero divisor. -/
theorem C22_no_panic (dataTypes : List DataType) (c : StorageMap) (keccak : Nat → Nat)
    (fuel : Nat) (reorgMessges : List ReorgInfo) (m : StorageMap)
    (htyp : ∀ d, d ∈ dataTypes → d.PrevNumberOfBytes < u64)
    (hwf : (Init dataTypes).wellFormedWidths) :
    Reorganize (Init dataTypes) c keccak fuel reorgMessges m ≠ .panic :=
  Reorganize_ne_panic (Init dataTypes) c keccak fuel reorgMessges m (Init_TypeName dataTypes)
    (fun t d hd => htyp d (Init_mem dataTypes t d hd)) hwf

theorem recordTypes_wellFormed : (Init recordTypesList).wellFormedWidths := by
  refine ⟨?_, ?_, ?_⟩
  · intro t d hD henc
    exact (by decide : ∀ d, d ∈ recordTypesList →
      d.Encoding = "dynamic_array" ∨ d.Encoding = "bytes" → d.PrevNumberOfBytes ≤ 32)
      d (Init_mem _ t d hD) henc
  · intro t d b _ _ hB he hb hm
    exact (by decide : ∀ b, b ∈ recordTypesList → b.Encoding = "inplace" → b.Base = "" →
      b.Members = [] → 1 ≤ b.PrevNumberOfBytes ∧ b.PrevNumberOfBytes ≤ 32)
      b (Init_mem _ _ b hB) he hb hm
  · intro t d hD hm
    exact (by decide : ∀ d, d ∈ recordTypesList → d.Members ≠ [] → 1 ≤ d.PrevNumberOfBytes)
      d (Init_mem _ t d hD) hm

set_option maxRecDepth 100000 in
/-- C22 witness: the dictionary of a record with a primitive, a byte string and a packed
dynamic array.  The move of the record from slot 0 to slot 10 is evaluated and returns
`nil`; no run over this dictionary panics. -/
theorem C22_no_panic_witness :
    Reorganize (Init recordTypesList) recordImage toyKeccak 2 [⟨"t_record", 0, 10, 0, 0⟩] ∅
      = .ok (StorageMap.ofList [(toyKeccak 12 + 1, BigToHash 13),
          (toyKeccak 12, BigToHash (12 * 2 ^ 128 + 11)), (12, BigToHash 3),
          (11, BigToHash (0x68656c6c6f * 256 ^ 27 + 0x0a)), (10, BigToHash 5)]) ∧
    ∀ (c : StorageMap) (fuel : Nat) (reorgMessges : List ReorgInfo) (m : StorageMap),
      Reorganize (Init recordTypesList) c toyKeccak fuel reorgMessges m ≠ .panic :=
  ⟨by decide,
    fun c fuel reorgMessges m =>
      C22_no_panic recordTypesList c toyKeccak fuel reorgMessges m (by decide)
        recordTypes_wellFormed⟩

set_option maxRecDepth 100000 in
/-- C9 counterexample: an image with a `uint256` in slot 0 and the short string "hello" in
slot 5.  After the directive that moves the `uint256` to slot 5, the modified buffer holds
`0x2a` at slot 5; the bytes directive from slot 5 to slot 9 then returns `nil`, and after
`Commit` the slot `prev_slot = 5` is present, holding `0x2a`. -/
theorem C9_counterexample :
    scenarioTypes "t_bytes" = some ⟨"t_bytes", "", "bytes", 32, 32, []⟩ ∧
    ((GetCommitedState (StorageMap.ofList [(0, BigToHash 0x2a),
        (5, BigToHash (0x68656c6c6f * 256 ^ 27 + 0x0a))]) 5).get 31).val &&& 1 = 0 ∧
    Reorganize scenarioTypes (StorageMap.ofList [(0, BigToHash 0x2a),
        (5, BigToHash (0x68656c6c6f * 256 ^ 27 + 0x0a))]) toyKeccak 1
        [⟨"t_uint256", 0, 5, 0, 0⟩] ∅
      = .ok (StorageMap.ofList [(5, BigToHash 0x2a)]) ∧
    ReorganizeBytes scenarioTypes (StorageMap.ofList [(0, BigToHash 0x2a),
        (5, BigToHash (0x68656c6c6f * 256 ^ 27 + 0x0a))]) toyKeccak
        ⟨"t_bytes", 5, 9, 0, 0⟩ (StorageMap.ofList [(5, BigToHash 0x2a)])
      = .ok (StorageMap.ofList [(9, BigToHash (0x68656c6c6f * 256 ^ 27 + 0x0a)),
          (5, BigToHash 0x2a)]) ∧
    (5 : Nat) ≠ 9 ∧
    (Commit (StorageMap.ofList [(0, BigToHash 0x2a),
        (5, BigToHash (0x68656c6c6f * 256 ^ 27 + 0x0a))])
      (StorageMap.ofList [(0, BigToHash 0x2a), (5, BigToHash (0x68656c6c6f * 256 ^ 27 + 0x0a))])
      (StorageMap.ofList [(9, BigToHash (0x68656c6c6f * 256 ^ 27 + 0x0a)),
        (5, BigToHash 0x2a)])).get? 5 = some (BigToHash 0x2a) := by
  decide

theorem forLoop_ne_outOfFuel {σ : Type} (body : Nat → σ → Res σ)
    (hbody : ∀ k s, body k s ≠ .outOfFuel) :
    ∀ (n i : Nat) (s : σ), forLoop body n i s ≠ .outOfFuel := by
  intro n
  induction n with
  | zero => intro i s; rw [forLoop]; exact fun h => Res.noConfusion h
  | succ k ih =>
    intro i s
    rw [forLoop]
    have hb := hbody i s
    cases hr : body i s with
    | ok s' => exact ih (i + 1) s'
    | err e s' => exact fun h => Res.noConfusion h
    | panic => exact fun h => Res.noConfusion h
    | outOfFuel => exact absurd hr hb

theorem forEach_ne_outOfFuel {α σ : Type} (body : α → σ → Res σ) :
    ∀ (l : List α), (∀ a, a ∈ l → ∀ s, body a s ≠ .outOfFuel) →
      ∀ s, forEach body l s ≠ .outOfFuel := by
  intro l
  induction l with
  | nil => intro _ s; rw [forEach]; exact fun h => Res.noConfusion h
  | cons x rest ih =>
    intro hbody s
    rw [forEach]
    have hb := hbody x (List.mem_cons_self _ _) s
    cases hr : body x s with
    | ok s' => exact ih (fun a ha => hbody a (List.mem_cons_of_mem _ ha)) s'
    | err e s' => exact fun h => Res.noConfusion h
    | panic => exact fun h => Res.noConfusion h
    | outOfFuel => exact absurd hr hb

theorem liftErr_ne_outOfFuel {α σ : Type} (e : Except String α) (s : σ) (k : α → Res σ)
    (hk : ∀ a, e = .ok a → k a ≠ .outOfFuel) : liftErr e s k ≠ .outOfFuel := by
  cases e with
  | ok a => exact hk a rfl
  | error msg => exact fun h => Res.noConfusion h

/-- In a dictionary without cycles the walk of `ExtractUntilInplace` ends within the rank
of the type it starts from. -/
theorem ExtractUntilInplace_ends (D : Dict) (rank : String → Nat) (hr : D.ranked rank) :
    ∀ (f : Nat) (t : String), rank t < f → ExtractUntilInplace D f t ≠ none := by
  intro f
  induction f with
  | zero => intro t h; exact absurd h (Nat.not_lt_zero _)
  | succ n ih =>
    intro t h
    rw [ExtractUntilInplace]
    cases hd : D t with
    | none => simp
    | some d =>
      simp only []
      split_ifs
      · simp
      · simp
      · exact ih d.Base (by have := (hr t d hd).1; omega)

theorem ContainsStruct_ends (D : Dict) (rank : String → Nat) (hr : D.ranked rank) :
    ∀ (f : Nat) (t : String), rank t < f → ContainsStruct D f t ≠ none := by
  intro f
  induction f with
  | zero => intro t h; exact absurd h (Nat.not_lt_zero _)
  | succ n ih =>
    intro t h
    rw [ContainsStruct]
    cases hd : D t with
    | none => simp
    | some d =>
      simp only []
      split_ifs
      · simp
      · simp
      · exact ih d.Base (by have := (hr t d hd).1; omega)

/-- The type returned by `ExtractUntilInplace` lies on the base chain: its rank is at most
the rank of the start. -/
theorem ExtractUntilInplace_rank (D : Dict) (rank : String → Nat) (hr : D.ranked rank)
    (hkey : ∀ t d, D t = some d → d.TypeName = t) :
    ∀ (f : Nat) (t tn enc : String) (found : Bool),
      ExtractUntilInplace D f t = some (.ok (tn, enc, found)) → rank tn ≤ rank t := by
  intro f
  induction f with
  | zero => intro t tn enc found h; simp [ExtractUntilInplace] at h
  | succ n ih =>
    intro t tn enc found h
    rw [ExtractUntilInplace] at h
    cases hd : D t with
    | none => rw [hd] at h; simp at h
    | some d =>
      rw [hd] at h
      simp only [] at h
      split_ifs at h with hb he
      · simp only [Option.some.injEq, Except.ok.injEq, Prod.mk.injEq] at h
        rw [← h.1, hkey t d hd]
      · simp only [Option.some.injEq, Except.ok.injEq, Prod.mk.injEq] at h
        rw [← h.1, hkey t d hd]
      · have := ih _ _ _ _ h
        have := (hr t d hd).1
        omega

theorem ContainsStruct_rank (D : Dict) (rank : String → Nat) (hr : D.ranked rank) :
    ∀ (f : Nat) (t S : String), ContainsStruct D f t = some (.ok (true, S)) →
      rank S ≤ rank t := by
  intro f
  induction f with
  | zero => intro t S h; simp [ContainsStruct] at h
  | succ n ih =>
    intro t S h
    rw [ContainsStruct] at h
    cases hd : D t with
    | none => rw [hd] at h; simp at h
    | some d =>
      rw [hd] at h
      simp only [] at h
      split_ifs at h with hm hb
      · simp only [Option.some.injEq, Except.ok.injEq, Prod.mk.injEq, true_and] at h
        rw [h]
      · simp at h
      · have := ih _ _ h
        have := (hr t d hd).1
        omega

/-- The bytes rewriter has no nested call: its run never exhausts a budget. -/
theorem ReorganizeBytes_ne_outOfFuel (D : Dict) (c : StorageMap) (keccak : Nat → Nat)
    (msg : ReorgInfo) (m : StorageMap) : ReorganizeBytes D c keccak msg m ≠ .outOfFuel := by
  unfold ReorganizeBytes
  apply liftErr_ne_outOfFuel
  intro sizes _
  simp only []
  cases copyHead sizes.1 (GetCommitedState c msg.PrevSlot) (GetModifiedState m msg.NewSlot) with
  | none => exact fun h => Res.noConfusion h
  | some v =>
    simp only []
    split_ifs
    · apply forLoop_ne_outOfFuel
      intro k s
      simp only [copyHeadLoop_full]
      exact fun h => Res.noConfusion h
    · exact fun h => Res.noConfusion h

/-- The element loops of `ReorganizeDynamicArray` exhaust no budget when the calls for the
base type do not. -/
theorem dynamicArrayElements_ne_outOfFuel {σ : Type} (D : Dict) (keccak : Nat → Nat)
    (inplace : ReorgInfo → σ → Res σ) (msg : ReorgInfo) (prevSlot : Hash) (m1 : σ)
    (d : DataType) (hD : D msg.TypeName = some d)
    (hcb : ∀ sub s, sub.TypeName = d.Base → inplace sub s ≠ .outOfFuel) :
    dynamicArrayElements D keccak inplace msg prevSlot m1 ≠ .outOfFuel := by
  unfold dynamicArrayElements
  simp only [hD, Option.getD]
  split_ifs with hN
  · exact fun h => Res.noConfusion h
  apply liftErr_ne_outOfFuel
  intro isInplace _
  split_ifs
  · apply liftErr_ne_outOfFuel
    intro isNested _
    split_ifs
    · apply liftErr_ne_outOfFuel
      intro sz _
      exact forLoop_ne_outOfFuel _ (fun _ _ => hcb _ _ rfl) _ _ _
    · apply liftErr_ne_outOfFuel
      intro isFlat _
      split_ifs
      · apply liftErr_ne_outOfFuel
        intro sz _
        split_ifs
        all_goals first
          | exact fun h => Res.noConfusion h
          | exact forLoop_ne_outOfFuel _
              (fun _ _ => forLoop_ne_outOfFuel _ (fun _ _ => hcb _ _ rfl) _ _ _) _ _ _
      · exact fun h => Res.noConfusion h
  · apply liftErr_ne_outOfFuel
    intro isDyn _
    split_ifs
    · exact forLoop_ne_outOfFuel _ (fun _ _ => hcb _ _ rfl) _ _ _
    · apply liftErr_ne_outOfFuel
      intro isBytes _
      split_ifs
      · exact forLoop_ne_outOfFuel _ (fun _ _ => hcb _ _ rfl) _ _ _
      · exact fun h => Res.noConfusion h

theorem ReorganizeDynamicArrayWith_ne_outOfFuel (D : Dict) (c : StorageMap)
    (keccak : Nat → Nat) (inplace : ReorgInfo → StorageMap → Res StorageMap) (msg : ReorgInfo)
    (m : StorageMap)
    (hcb : ∀ d sub s, D msg.TypeName = some d → sub.TypeName = d.Base →
      inplace sub s ≠ .outOfFuel) :
    ReorganizeDynamicArrayWith D c keccak inplace msg m ≠ .outOfFuel := by
  unfold ReorganizeDynamicArrayWith
  apply liftErr_ne_outOfFuel
  intro sizes hs
  obtain ⟨d, hD, rfl⟩ := GetNumberOfBytes_ok D _ _ hs
  simp only []
  cases copyHead d.PrevNumberOfBytes (GetCommitedState c msg.PrevSlot)
      (GetModifiedState m msg.NewSlot) with
  | none => exact fun h => Res.noConfusion h
  | some v =>
    simp only []
    exact dynamicArrayElements_ne_outOfFuel D keccak inplace msg _ _ d hD
      (fun sub s hs' => hcb d sub s hD hs')

/-- In a dictionary without cycles, keyed by type name, `ReorganizeInplace` does not exhaust
a budget larger than the rank of the directive's type. -/
theorem ReorganizeInplace_ne_outOfFuel (D : Dict) (c : StorageMap) (keccak : Nat → Nat)
    (rank : String → Nat) (hkey : ∀ t d, D t = some d → d.TypeName = t) (hr : D.ranked rank) :
    ∀ (fuel : Nat) (msg : ReorgInfo) (m : StorageMap), rank msg.TypeName < fuel →
      ReorganizeInplace D c keccak fuel msg m ≠ .outOfFuel := by
  intro fuel
  induction fuel with
  | zero => intro msg m h; exact absurd h (Nat.not_lt_zero _)
  | succ n ih =>
    intro msg m hrk
    rw [ReorganizeInplace]
    apply liftErr_ne_outOfFuel
    intro sizes _
    simp only []
    cases hE : ExtractUntilInplace D (n + 1) msg.TypeName with
    | none => exact absurd hE (ExtractUntilInplace_ends D rank hr _ _ hrk)
    | some rE =>
      cases rE with
      | error e => exact fun h => Res.noConfusion h
      | ok tE =>
        obtain ⟨typeName, encoding, found⟩ := tE
        have hrt : rank typeName ≤ rank msg.TypeName :=
          ExtractUntilInplace_rank D rank hr hkey _ _ _ _ _ hE
        cases hS : ContainsStruct D (n + 1) msg.TypeName with
        | none => exact absurd hS (ContainsStruct_ends D rank hr _ _ hrk)
        | some rS =>
          cases rS with
          | error e => exact fun h => Res.noConfusion h
          | ok tS =>
            obtain ⟨structFound, structTypeName⟩ := tS
            simp only []
            split_ifs with hfound hde hbe hsf
            · apply forLoop_ne_outOfFuel
              intro i s
              apply ReorganizeDynamicArrayWith_ne_outOfFuel
              intro d' sub s' hd' hsub
              apply ih
              rw [hsub]
              have := (hr _ d' hd').1
              simp only [] at this
              omega
            · apply forLoop_ne_outOfFuel
              intro i s
              exact ReorganizeBytes_ne_outOfFuel D c keccak _ s
            · exact fun h => Res.noConfusion h
            · apply liftErr_ne_outOfFuel
              intro ss hss
              obtain ⟨sd, hsd, rfl⟩ := GetNumberOfBytes_ok D _ _ hss
              subst hsf
              have hrS : rank structTypeName ≤ rank msg.TypeName :=
                ContainsStruct_rank D rank hr _ _ _ hS
              simp only [hsd, Option.getD]
              split_ifs
              · exact fun h => Res.noConfusion h
              · apply forLoop_ne_outOfFuel
                intro i s
                apply forEach_ne_outOfFuel
                intro member hmem s'
                have hrm : rank member.TypeName < rank structTypeName := (hr _ sd hsd).2 member hmem
                cases hmd : D member.TypeName with
                | none => exact fun h => Res.noConfusion h
                | some md =>
                  have hmk : md.TypeName = member.TypeName := hkey _ md hmd
                  simp only []
                  split_ifs with h1 h2 h3
                  · apply ih
                    show rank md.TypeName < n
                    rw [hmk]
                    omega
                  · apply ReorganizeDynamicArrayWith_ne_outOfFuel
                    intro d' sub s'' hd' hsub
                    apply ih
                    rw [hsub]
                    have e : (memberDirective (msg.PrevSlot + i * (sd.PrevNumberOfBytes / 32))
                        (msg.NewSlot + i * (sd.NewNumberOfBytes / 32)) member
                        md.TypeName).TypeName = member.TypeName := hmk
                    rw [e, hmd, Option.some.injEq] at hd'
                    have := (hr _ md hmd).1
                    rw [← hd']
                    omega
                  · exact ReorganizeBytes_ne_outOfFuel D c keccak _ s'
                  · exact fun h => Res.noConfusion h
            · exact fun h => Res.noConfusion h

/-- In a dictionary without cycles, keyed by type name, `ReorganizeDynamicArray` does not
exhaust a budget of at least the rank of the directive's type. -/
theorem ReorganizeDynamicArray_ne_outOfFuel (D : Dict) (c : StorageMap) (keccak : Nat → Nat)
    (rank : String → Nat) (hkey : ∀ t d, D t = some d → d.TypeName = t) (hr : D.ranked rank)
    (fuel : Nat) (msg : ReorgInfo) (m : StorageMap) (hrk : rank msg.TypeName ≤ fuel) :
    ReorganizeDynamicArray D c keccak fuel msg m ≠ .outOfFuel := by
  unfold ReorganizeDynamicArray
  apply ReorganizeDynamicArrayWith_ne_outOfFuel
  intro d sub s hd hsub
  apply ReorganizeInplace_ne_outOfFuel D c keccak rank hkey hr
  rw [hsub]
  have := (hr _ d hd).1
  omega

/-- An array with no element: `ReorganizeDynamicArray` returns `nil` after the head copy. -/
theorem emptyArray_run (D : Dict) (c : StorageMap) (keccak : Nat → Nat) (fuel : Nat)
    (msg : ReorgInfo) (m : StorageMap) (d : DataType) (hD : D msg.TypeName = some d)
    (hw : d.PrevNumberOfBytes = 32) (hN : (GetCommitedState c msg.PrevSlot).Big = 0) :
    ReorganizeDynamicArray D c keccak fuel msg m
      = .ok (SetModifiedState m msg.NewSlot (GetCommitedState c msg.PrevSlot)) := by
  rw [ReorganizeDynamicArray_run D c keccak fuel msg m d hD hw]
  unfold dynamicArrayElements
  simp only [hN, if_true]

theorem forLoop_map {σ τ : Type} (f : σ → τ) (bH : Nat → τ → Res τ) (bV : Nat → σ → Res σ)
    (hb : ∀ i m, bH i (f m) = (bV i m).map f) :
    ∀ (n i : Nat) (m : σ), forLoop bH n i (f m) = (forLoop bV n i m).map f := by
  intro n
  induction n with
  | zero => intro i m; rfl
  | succ k ih =>
    intro i m
    rw [forLoop, forLoop, hb i m]
    cases hr : bV i m with
    | ok m' => exact ih (i + 1) m'
    | err e m' => rfl
    | panic => rfl
    | outOfFuel => rfl

theorem forEach_map {α σ τ : Type} (f : σ → τ) (bH : α → τ → Res τ) (bV : α → σ → Res σ)
    (l : List α) (hb : ∀ a, a ∈ l → ∀ m, bH a (f m) = (bV a m).map f) :
    ∀ (m : σ), forEach bH l (f m) = (forEach bV l m).map f := by
  induction l with
  | nil => intro m; rfl
  | cons a rest ih =>
    intro m
    rw [forEach, forEach, hb a (List.mem_cons_self _ _) m]
    cases hr : bV a m with
    | ok m' => exact ih (fun x hx => hb x (List.mem_cons_of_mem _ hx)) m'
    | err e m' => rfl
    | panic => rfl
    | outOfFuel => rfl

theorem liftErr_map {α σ τ : Type} (f : σ → τ) (e : Except String α) (m : σ)
    (kH : α → Res τ) (kV : α → Res σ) (hk : ∀ a, e = .ok a → kH a = (kV a).map f) :
    liftErr e (f m) kH = (liftErr e m kV).map f := by
  cases e with
  | error msg => rfl
  | ok a => exact hk a rfl

theorem withModified_GetCommitedState (s : StorageReorganizer)
    (hm : s.modifiedStorage ≠ s.commitedStorage) (m : StorageMap) (key : Nat) :
    (s.withModified m).GetCommitedState key
      = GetCommitedState (s.heap.maps s.commitedStorage) key := by
  unfold StorageReorganizer.GetCommitedState StorageReorganizer.withModified
  simp only [Function.update_noteq (Ne.symm hm)]

theorem withModified_GetModifiedState (s : StorageReorganizer) (m : StorageMap) (key : Nat) :
    (s.withModified m).GetModifiedState key = GetModifiedState m key := by
  unfold StorageReorganizer.GetModifiedState StorageReorganizer.withModified
  simp only [Function.update_same]

theorem withModified_SetModifiedState (s : StorageReorganizer) (m : StorageMap) (key : Nat)
    (val : Hash) :
    (s.withModified m).SetModifiedState key val = s.withModified (SetModifiedState m key val) := by
  unfold StorageReorganizer.SetModifiedState StorageReorganizer.withModified
  simp only [Function.update_same, Function.update_idem]

theorem withModified_dataTypes (s : StorageReorganizer) (m : StorageMap) :
    (s.withModified m).dataTypes = s.dataTypes := rfl

theorem withModified_self (s : StorageReorganizer) :
    s.withModified (s.heap.maps s.modifiedStorage) = s := by
  unfold StorageReorganizer.withModified
  simp only [Function.update_eq_self]

/-- The copy loop on the program state agrees with the copy loop on the modified buffer
when the buffer is a map of its own. -/
theorem copyLoop_sim (s : StorageReorganizer) (hm : s.modifiedStorage ≠ s.commitedStorage)
    (ps ns : Nat) :
    ∀ (count po no : Nat) (m : StorageMap),
      StorageReorganizer.copyLoop ps ns count po no (s.withModified m)
        = s.withModified (copyLoop (s.heap.maps s.commitedStorage) ps ns count po no m) := by
  intro count
  induction count with
  | zero => intro po no m; rfl
  | succ k ih =>
    intro po no m
    rw [StorageReorganizer.copyLoop, copyLoop]
    simp only [withModified_GetCommitedState s hm, withModified_GetModifiedState,
      withModified_SetModifiedState]
    exact ih _ _ _

theorem ReorganizeBytes_sim (s : StorageReorganizer)
    (hm : s.modifiedStorage ≠ s.commitedStorage) (keccak : Nat → Nat) (msg : ReorgInfo)
    (m : StorageMap) :
    StorageReorganizer.ReorganizeBytes keccak msg (s.withModified m)
      = (ReorganizeBytes s.dataTypes (s.heap.maps s.commitedStorage) keccak msg m).map
          s.withModified := by
  unfold StorageReorganizer.ReorganizeBytes ReorganizeBytes
  rw [withModified_dataTypes]
  apply liftErr_map
  intro sizes _
  simp only [withModified_GetCommitedState s hm, withModified_GetModifiedState,
    withModified_SetModifiedState]
  cases copyHead sizes.1 (GetCommitedState (s.heap.maps s.commitedStorage) msg.PrevSlot)
      (GetModifiedState m msg.NewSlot) with
  | none => rfl
  | some v =>
    simp only []
    split_ifs
    · apply forLoop_map
      intro i m'
      simp only [withModified_GetCommitedState s hm, withModified_GetModifiedState,
        withModified_SetModifiedState]
      cases copyHeadLoop (GetCommitedState (s.heap.maps s.commitedStorage)
          ((keccak msg.PrevSlot + i) % slotModulus)) 32 0
          (GetModifiedState m' ((keccak msg.NewSlot + i) % slotModulus)) with
      | none => rfl
      | some v' => rfl
    · rfl

/-- The element loops commute with a map of the state that the callee commutes with. -/
theorem dynamicArrayElements_map {σ τ : Type} (f : σ → τ) (D : Dict) (keccak : Nat → Nat)
    (inplH : ReorgInfo → τ → Res τ) (inplV : ReorgInfo → σ → Res σ)
    (hin : ∀ sub m, inplH sub (f m) = (inplV sub m).map f) (msg : ReorgInfo) (prevSlot : Hash)
    (m1 : σ) :
    dynamicArrayElements D keccak inplH msg prevSlot (f m1)
      = (dynamicArrayElements D keccak inplV msg prevSlot m1).map f := by
  unfold dynamicArrayElements
  simp only []
  split_ifs with hN
  · rfl
  · apply liftErr_map
    intro isInplace _
    split_ifs
    · apply liftErr_map
      intro isNested _
      split_ifs
      · apply liftErr_map
        intro sz _
        exact forLoop_map f _ _ (fun i m => hin _ m) _ _ _
      · apply liftErr_map
        intro isFlat _
        split_ifs
        · apply liftErr_map
          intro sz _
          split_ifs
          all_goals first
            | rfl
            | exact forLoop_map f _ _
                (fun i m => forLoop_map f _ _ (fun j m' => hin _ m') _ _ _) _ _ _
        · rfl
    · apply liftErr_map
      intro isDyn _
      split_ifs
      · exact forLoop_map f _ _ (fun i m => hin _ m) _ _ _
      · apply liftErr_map
        intro isBytes _
        split_ifs
        · exact forLoop_map f _ _ (fun i m => hin _ m) _ _ _
        · rfl

theorem ReorganizeDynamicArrayWith_sim (s : StorageReorganizer)
    (hm : s.modifiedStorage ≠ s.commitedStorage) (keccak : Nat → Nat)
    (inplH : ReorgInfo → StorageReorganizer → Res StorageReorganizer)
    (inplV : ReorgInfo → StorageMap → Res StorageMap)
    (hin : ∀ sub m, inplH sub (s.withModified m) = (inplV sub m).map s.withModified)
    (msg : ReorgInfo) (m : StorageMap) :
    StorageReorganizer.ReorganizeDynamicArrayWith keccak inplH msg (s.withModified m)
      = (ReorganizeDynamicArrayWith s.dataTypes (s.heap.maps s.commitedStorage) keccak inplV msg
          m).map s.withModified := by
  unfold StorageReorganizer.ReorganizeDynamicArrayWith ReorganizeDynamicArrayWith
  rw [withModified_dataTypes]
  apply liftErr_map
  intro sizes _
  simp only [withModified_GetCommitedState s hm, withModified_GetModifiedState,
    withModified_SetModifiedState]
  cases copyHead sizes.1 (GetCommitedState (s.heap.maps s.commitedStorage) msg.PrevSlot)
      (GetModifiedState m msg.NewSlot) with
  | none => rfl
  | some v => exact dynamicArrayElements_map s.withModified _ keccak inplH inplV hin msg _ _

/-- The method `ReorganizeInplace` on the program state agrees with the method on the
modified buffer when the buffer is a map of its own: same outcome, same writes. -/
theorem ReorganizeInplace_sim (s : StorageReorganizer)
    (hm : s.modifiedStorage ≠ s.commitedStorage) (keccak : Nat → Nat) :
    ∀ (fuel : Nat) (msg : ReorgInfo) (m : StorageMap),
      StorageReorganizer.ReorganizeInplace keccak fuel msg (s.withModified m)
        = (ReorganizeInplace s.dataTypes (s.heap.maps s.commitedStorage) keccak fuel msg m).map
            s.withModified := by
  intro fuel
  induction fuel with
  | zero => intro msg m; rfl
  | succ n ih =>
    intro msg m
    rw [StorageReorganizer.ReorganizeInplace, ReorganizeInplace, withModified_dataTypes]
    apply liftErr_map
    intro sizes _
    simp only []
    cases hE : ExtractUntilInplace s.dataTypes (n + 1) msg.TypeName with
    | none => rfl
    | some rE =>
      cases rE with
      | error e => rfl
      | ok tE =>
        obtain ⟨typeName, encoding, found⟩ := tE
        cases hS : ContainsStruct s.dataTypes (n + 1) msg.TypeName with
        | none => rfl
        | some rS =>
          cases rS with
          | error e => rfl
          | ok tS =>
            obtain ⟨structFound, structTypeName⟩ := tS
            simp only []
            split_ifs with hfound hde hbe hsf
            · exact forLoop_map s.withModified _ _
                (fun i m' => ReorganizeDynamicArrayWith_sim s hm keccak _ _ (ih · ·) _ m') _ _ _
            · exact forLoop_map s.withModified _ _
                (fun i m' => ReorganizeBytes_sim s hm keccak _ m') _ _ _
            · rfl
            · apply liftErr_map
              intro ss _
              split_ifs
              · rfl
              · apply forLoop_map
                intro i m'
                apply forEach_map
                intro member _ m''
                rw [withModified_dataTypes]
                cases hmd : s.dataTypes member.TypeName with
                | none => rfl
                | some md =>
                  simp only []
                  split_ifs
                  · exact ih _ m''
                  · exact ReorganizeDynamicArrayWith_sim s hm keccak _ _ (ih · ·) _ m''
                  · exact ReorganizeBytes_sim s hm keccak _ m''
                  · rfl
            · show Res.ok _ = Res.ok _
              unfold StorageReorganizer.copyPrimitive copyPrimitive
              rw [copyLoop_sim s hm]

/-- The method `Reorganize` on the program state agrees with the method on the modified
buffer when the buffer is a map of its own. -/
theorem Reorganize_sim (s : StorageReorganizer) (hm : s.modifiedStorage ≠ s.commitedStorage)
    (keccak : Nat → Nat) (fuel : Nat) :
    s.Reorganize keccak fuel
      = (Reorganize s.dataTypes (s.heap.maps s.commitedStorage) keccak fuel s.reorgMessges
          (s.heap.maps s.modifiedStorage)).map s.withModified := by
  unfold StorageReorganizer.Reorganize Reorganize
  have h := forEach_map s.withModified
    (fun reorgMessage (s' : StorageReorganizer) =>
      liftErr (IsEncodingInplace s'.dataTypes reorgMessage.TypeName) s' fun isInplace =>
      if isInplace then StorageReorganizer.ReorganizeInplace keccak fuel reorgMessage s'
      else
        liftErr (IsEncodingDynamicArray s'.dataTypes reorgMessage.TypeName) s'
          fun isDynamicArray =>
        if isDynamicArray then
          StorageReorganizer.ReorganizeDynamicArray keccak fuel reorgMessage s'
        else
          liftErr (IsEncodingBytes s'.dataTypes reorgMessage.TypeName) s' fun isBytes =>
          if isBytes then StorageReorganizer.ReorganizeBytes keccak reorgMessage s'
          else .err "Not implemented yet" s')
    (fun reorgMessage m' =>
      liftErr (IsEncodingInplace s.dataTypes reorgMessage.TypeName) m' fun isInplace =>
      if isInplace then
        ReorganizeInplace s.dataTypes (s.heap.maps s.commitedStorage) keccak fuel reorgMessage m'
      else
        liftErr (IsEncodingDynamicArray s.dataTypes reorgMessage.TypeName) m'
          fun isDynamicArray =>
        if isDynamicArray then
          ReorganizeDynamicArray s.dataTypes (s.heap.maps s.commitedStorage) keccak fuel
            reorgMessage m'
        else
          liftErr (IsEncodingBytes s.dataTypes reorgMessage.TypeName) m' fun isBytes =>
          if isBytes then
            ReorganizeBytes s.dataTypes (s.heap.maps s.commitedStorage) keccak reorgMessage m'
          else .err "Not implemented yet" m')
    s.reorgMessges
    (by
      intro msg _ m
      simp only [withModified_dataTypes]
      apply liftErr_map
      intro isInplace _
      split_ifs
      · exact ReorganizeInplace_sim s hm keccak fuel msg m
      · apply liftErr_map
        intro isDyn _
        split_ifs
        · exact ReorganizeDynamicArrayWith_sim s hm keccak _ _
            (ReorganizeInplace_sim s hm keccak fuel) msg m
        · apply liftErr_map
          intro isBytes _
          split_ifs
          · exact ReorganizeBytes_sim s hm keccak msg m
          · rfl)
    (s.heap.maps s.modifiedStorage)
  rw [withModified_self] at h
  exact h

/-- In a dictionary without cycles, keyed by type name, `Reorganize` does not exhaust a
budget larger than the rank of the type of every directive. -/
theorem Reorganize_ne_outOfFuel (D : Dict) (c : StorageMap) (keccak : Nat → Nat)
    (rank : String → Nat) (hkey : ∀ t d, D t = some d → d.TypeName = t) (hr : D.ranked rank)
    (fuel : Nat) (reorgMessges : List ReorgInfo) (m : StorageMap)
    (hrk : ∀ msg, msg ∈ reorgMessges → rank msg.TypeName < fuel) :
    Reorganize D c keccak fuel reorgMessges m ≠ .outOfFuel := by
  unfold Reorganize
  apply forEach_ne_outOfFuel
  intro msg hmsg s
  apply liftErr_ne_outOfFuel
  intro isInplace _
  split_ifs
  · exact ReorganizeInplace_ne_outOfFuel D c keccak rank hkey hr fuel msg s (hrk msg hmsg)
  · apply liftErr_ne_outOfFuel
    intro isDyn _
    split_ifs
    · exact ReorganizeDynamicArray_ne_outOfFuel D c keccak rank hkey hr fuel msg s
        (Nat.le_of_lt (hrk msg hmsg))
    · apply liftErr_ne_outOfFuel
      intro isBytes _
      split_ifs
      · exact ReorganizeBytes_ne_outOfFuel D c keccak msg s
      · exact fun h => Res.noConfusion h

/-- When two fields name one map, a write to the modified buffer is seen by the next read of
the committed map. -/
theorem aliased_read_observes_write (s : StorageReorganizer)
    (ha : s.modifiedStorage = s.commitedStorage) (key : Nat) (val : Hash) :
    (s.SetModifiedState key val).GetCommitedState key = val := by
  unfold StorageReorganizer.SetModifiedState StorageReorganizer.GetCommitedState
  simp only []
  rw [← ha, Function.update_same]
  unfold SetModifiedState GetCommitedState StorageMap.set StorageMap.get?
  rw [AList.lookup_insert]

/-- The reorganizer that `runTest` builds, `NewStorageReorganizer` followed by `Init` with a
map that exists already, has a modified buffer of its own. -/
theorem NewStorageReorganizer_fresh (h : Heap) (state currentState : Ref)
    (reorganizationMessages : List ReorgInfo) (dataTypes : List DataType)
    (hstate : state < h.next) (hcur : currentState < h.next) :
    ((NewStorageReorganizer h state).Init currentState reorganizationMessages
        dataTypes).modifiedStorage
      ≠ ((NewStorageReorganizer h state).Init currentState reorganizationMessages
        dataTypes).commitedStorage ∧
    ((NewStorageReorganizer h state).Init currentState reorganizationMessages
        dataTypes).modifiedStorage
      ≠ ((NewStorageReorganizer h state).Init currentState reorganizationMessages
        dataTypes).state := by
  unfold NewStorageReorganizer StorageReorganizer.Init Heap.make
  constructor
  · show h.next + 1 ≠ currentState
    exact Nat.ne_of_gt (Nat.lt_succ_of_lt hcur)
  · show h.next + 1 ≠ state
    exact Nat.ne_of_gt (Nat.lt_succ_of_lt hstate)

/-- C17: committed immutability, on the program state in which maps are held by reference
and a write through one reference is seen through every other reference to the same map.
When `modifiedStorage` is a map of its own, other than the committed map and the map of the
target store (as `NewStorageReorganizer` makes it):
whether `Reorganize` returns `nil` or an error, in the state it leaves the committed map and
the target store are as before, as is the map behind every reference other than
`modifiedStorage`, and the fields of the reorganizer are as before;
the run has the outcome and makes the writes of the run that reads a fixed copy of the
committed map, so no read of committed observes a write to modified;
a single write to the modified buffer is not seen by a read of the committed map;
and in a dictionary keyed by type name, without cycles, with `uint64` and well-formed
widths, run with a budget larger than the rank of every directive's type, `Reorganize` does
return, with `nil` or an error, and leaves the committed map and the target store as
before. -/
theorem C17_committed_immutability (s : StorageReorganizer) (keccak : Nat → Nat) (fuel : Nat)
    (hm : s.modifiedStorage ≠ s.commitedStorage) (hs : s.modifiedStorage ≠ s.state) :
    (s.Reorganize keccak fuel).whenReturned (fun s' =>
      s'.heap.maps s'.commitedStorage = s.heap.maps s.commitedStorage ∧
      s'.heap.maps s'.state = s.heap.maps s.state ∧
      (∀ r, r ≠ s.modifiedStorage → s'.heap.maps r = s.heap.maps r) ∧
      s'.commitedStorage = s.commitedStorage ∧ s'.state = s.state ∧
      s'.modifiedStorage = s.modifiedStorage ∧ s'.reorgMessges = s.reorgMessges ∧
      s'.dataTypes = s.dataTypes ∧ s'.heap.next = s.heap.next) ∧
    s.Reorganize keccak fuel
      = (Reorganize s.dataTypes (s.heap.maps s.commitedStorage) keccak fuel s.reorgMessges
          (s.heap.maps s.modifiedStorage)).map s.withModified ∧
    (∀ key val k, (s.SetModifiedState key val).GetCommitedState k = s.GetCommitedState k) ∧
    (∀ rank : String → Nat, (∀ t d, s.dataTypes t = some d → d.TypeName = t) →
      (∀ t d, s.dataTypes t = some d → d.PrevNumberOfBytes < u64) →
      s.dataTypes.wellFormedWidths → s.dataTypes.ranked rank →
      (∀ msg, msg ∈ s.reorgMessges → rank msg.TypeName < fuel) →
      ∃ s', (s.Reorganize keccak fuel = .ok s' ∨ ∃ e, s.Reorganize keccak fuel = .err e s') ∧
        s'.heap.maps s'.commitedStorage = s.heap.maps s.commitedStorage ∧
        s'.heap.maps s'.state = s.heap.maps s.state) := by
  have hsim := Reorganize_sim s hm keccak fuel
  have hframe : ∀ m, (s.withModified m).heap.maps (s.withModified m).commitedStorage
        = s.heap.maps s.commitedStorage ∧
      (s.withModified m).heap.maps (s.withModified m).state = s.heap.maps s.state ∧
      (∀ r, r ≠ s.modifiedStorage → (s.withModified m).heap.maps r = s.heap.maps r) ∧
      (s.withModified m).commitedStorage = s.commitedStorage ∧
      (s.withModified m).state = s.state ∧
      (s.withModified m).modifiedStorage = s.modifiedStorage ∧
      (s.withModified m).reorgMessges = s.reorgMessges ∧
      (s.withModified m).dataTypes = s.dataTypes ∧
      (s.withModified m).heap.next = s.heap.next := by
    intro m
    unfold StorageReorganizer.withModified
    refine ⟨?_, ?_, ?_, rfl, rfl, rfl, rfl, rfl, rfl⟩
    · simp only [Function.update_noteq (Ne.symm hm)]
    · simp only [Function.update_noteq (Ne.symm hs)]
    · intro r hr
      simp only [Function.update_noteq hr]
  refine ⟨?_, hsim, ?_, ?_⟩
  · rw [hsim]
    cases Reorganize s.dataTypes (s.heap.maps s.commitedStorage) keccak fuel s.reorgMessges
        (s.heap.maps s.modifiedStorage) with
    | ok m => exact hframe m
    | err e m => exact hframe m
    | panic => trivial
    | outOfFuel => trivial
  · intro key val k
    unfold StorageReorganizer.SetModifiedState StorageReorganizer.GetCommitedState
    simp only [Function.update_noteq (Ne.symm hm)]
  · intro rank hkey htyp hwf hr hrk
    have hnp := Reorganize_ne_panic s.dataTypes (s.heap.maps s.commitedStorage) keccak fuel
      s.reorgMessges (s.heap.maps s.modifiedStorage) hkey htyp hwf
    have hnf := Reorganize_ne_outOfFuel s.dataTypes (s.heap.maps s.commitedStorage) keccak rank
      hkey hr fuel s.reorgMessges (s.heap.maps s.modifiedStorage) hrk
    rw [hsim]
    cases hrun : Reorganize s.dataTypes (s.heap.maps s.commitedStorage) keccak fuel
        s.reorgMessges (s.heap.maps s.modifiedStorage) with
    | ok m => exact ⟨s.withModified m, Or.inl rfl, (hframe m).1, (hframe m).2.1⟩
    | err e m => exact ⟨s.withModified m, Or.inr ⟨e, rfl⟩, (hframe m).1, (hframe m).2.1⟩
    | panic => exact absurd hrun hnp
    | outOfFuel => exact absurd hrun hnf

theorem runTestReorganizer_wellFormed : runTestReorganizer.dataTypes.wellFormedWidths := by
  refine ⟨?_, ?_, ?_⟩
  · intro t d hD henc
    exact (by decide : ∀ d, d ∈ [(⟨"t_uint256", "", "inplace", 32, 32, []⟩ : DataType)] →
      d.Encoding = "dynamic_array" ∨ d.Encoding = "bytes" → d.PrevNumberOfBytes ≤ 32)
      d (Init_mem _ t d hD) henc
  · intro t d b _ _ hB he hb hmem
    exact (by decide : ∀ b, b ∈ [(⟨"t_uint256", "", "inplace", 32, 32, []⟩ : DataType)] →
      b.Encoding = "inplace" → b.Base = "" →
      b.Members = [] → 1 ≤ b.PrevNumberOfBytes ∧ b.PrevNumberOfBytes ≤ 32)
      b (Init_mem _ _ b hB) he hb hmem
  · intro t d hD hmem
    exact (by decide : ∀ d, d ∈ [(⟨"t_uint256", "", "inplace", 32, 32, []⟩ : DataType)] →
      d.Members ≠ [] → 1 ≤ d.PrevNumberOfBytes)
      d (Init_mem _ t d hD) hmem

theorem runTestReorganizer_ranked :
    runTestReorganizer.dataTypes.ranked (fun t => if t = "" then 0 else 1) := by
  intro t d hD
  have hk := Init_TypeName [(⟨"t_uint256", "", "inplace", 32, 32, []⟩ : DataType)] t d hD
  rw [← hk]
  exact (by decide : ∀ d, d ∈ [(⟨"t_uint256", "", "inplace", 32, 32, []⟩ : DataType)] →
      (fun t => if t = "" then 0 else 1) d.Base
        < (fun t => if t = "" then 0 else 1) d.TypeName ∧
      ∀ member, member ∈ d.Members →
        (fun t => if t = "" then 0 else 1) member.TypeName
        < (fun t => if t = "" then 0 else 1) d.TypeName)
      d (Init_mem _ t d hD)

set_option maxRecDepth 20000 in
/-- C17 witness: the reorganizer of `runTest` over the two-slot image, whose committed map
is the target's map (reference 0) and whose modified buffer is the map made for it
(reference 2).  `Reorganize` returns the error after the first write; the write is in the
map behind reference 2, and the map behind reference 0 is the two-slot image as before. -/
theorem C17_committed_immutability_witness :
    (runTestReorganizer.modifiedStorage ≠ runTestReorganizer.commitedStorage ∧
      runTestReorganizer.modifiedStorage ≠ runTestReorganizer.state) ∧
    runTestReorganizer.Reorganize toyKeccak 1
      = .err "Type not found"
          (runTestReorganizer.withModified (StorageMap.ofList [(5, BigToHash 0x2a)])) ∧
    (runTestReorganizer.Reorganize toyKeccak 1).whenReturned (fun s' =>
      s'.heap.maps s'.commitedStorage = twoSlotImage ∧ s'.heap.maps s'.state = twoSlotImage) ∧
    ∃ s', (runTestReorganizer.Reorganize toyKeccak 2 = .ok s' ∨
        ∃ e, runTestReorganizer.Reorganize toyKeccak 2 = .err e s') ∧
      s'.heap.maps s'.commitedStorage = twoSlotImage ∧ s'.heap.maps s'.state = twoSlotImage :=
  ⟨⟨by decide, by decide⟩,
    (C17_committed_immutability runTestReorganizer toyKeccak 1 (by decide) (by decide)).2.1.trans
      (congrArg (Res.map runTestReorganizer.withModified)
        (by decide : Reorganize runTestReorganizer.dataTypes
            (runTestReorganizer.heap.maps runTestReorganizer.commitedStorage) toyKeccak 1
            runTestReorganizer.reorgMessges
            (runTestReorganizer.heap.maps runTestReorganizer.modifiedStorage)
          = .err "Type not found" (StorageMap.ofList [(5, BigToHash 0x2a)]))),
    whenReturned_mono _ _ _ (fun _ h => ⟨h.1, h.2.1⟩)
      (C17_committed_immutability runTestReorganizer toyKeccak 1 (by decide) (by decide)).1,
    (C17_committed_immutability runTestReorganizer toyKeccak 2 (by decide) (by decide)).2.2.2
      (fun t => if t = "" then 0 else 1)
      (Init_TypeName [(⟨"t_uint256", "", "inplace", 32, 32, []⟩ : DataType)])
      (fun t d hD => (by decide : ∀ d,
        d ∈ [(⟨"t_uint256", "", "inplace", 32, 32, []⟩ : DataType)] → d.PrevNumberOfBytes < u64)
        d (Init_mem _ t d hD))
      runTestReorganizer_wellFormed runTestReorganizer_ranked (by decide)⟩

theorem Realizes_refl (c : StorageMap) (m : StorageMap) :
    Realizes c (fun _ _ => False) m m :=
  ⟨fun _ _ h => absurd h id, fun _ _ => rfl⟩

theorem Realizes_congr (c : StorageMap) (J J' : Moves) (m m' : StorageMap)
    (h : ∀ d s, J d s ↔ J' d s) (hr : Realizes c J m m') : Realizes c J' m m' :=
  ⟨fun d s hj => hr.1 d s ((h d s).mpr hj),
    fun d hn => hr.2 d (fun s hj => hn s ((h d s).mp hj))⟩

/-- Moves made one after the other: the later ones win where both write, so the union is
realized when colliding moves carry equal bytes. -/
theorem Realizes_seq (c : StorageMap) (J1 J2 : Moves) (m m1 m2 : StorageMap)
    (h1 : Realizes c J1 m m1) (h2 : Realizes c J2 m1 m2)
    (hcompat : ∀ d s s', J1 d s → J2 d s' →
      byteAt (GetCommitedState c) s = byteAt (GetCommitedState c) s') :
    Realizes c (fun d s => J1 d s ∨ J2 d s) m m2 := by
  constructor
  · intro d s hj
    rcases hj with hj | hj
    · by_cases hex : ∃ s', J2 d s'
      · obtain ⟨s', hs'⟩ := hex
        rw [h2.1 d s' hs', hcompat d s s' hj hs']
      · rw [h2.2 d (fun s' hs' => hex ⟨s', hs'⟩)]
        exact h1.1 d s hj
    · exact h2.1 d s hj
  · intro d hn
    rw [h2.2 d (fun s hs => hn s (Or.inr hs)), h1.2 d (fun s hs => hn s (Or.inl hs))]

/-- A counted loop whose step `k` realizes the moves `Jk k`. -/
theorem forLoop_realizes (c : StorageMap) (body : Nat → StorageMap → Res StorageMap)
    (Jk : Nat → Moves) (n : Nat)
    (hbody : ∀ k, k < n → ∀ s, ∃ s', body k s = .ok s' ∧ Realizes c (Jk k) s s')
    (hcompat : ∀ k k' d s s', k < n → k' < n → Jk k d s → Jk k' d s' →
      byteAt (GetCommitedState c) s = byteAt (GetCommitedState c) s')
    (m : StorageMap) :
    ∃ m', forLoop body n 0 m = .ok m' ∧ Realizes c (fun d s => ∃ k, k < n ∧ Jk k d s) m m' := by
  have h := forLoop_ok body
    (fun k s' => k ≤ n ∧ Realizes c (fun d s => ∃ k', k' < k ∧ Jk k' d s) m s') n 0 m
    ⟨Nat.zero_le _, Realizes_congr c _ _ m m
      (fun d s => ⟨fun h => absurd h id, fun ⟨k', hk', _⟩ => absurd hk' (Nat.not_lt_zero _)⟩)
      (Realizes_refl c m)⟩
    (by
      intro k s0 _ hk hI
      rw [Nat.zero_add] at hk
      obtain ⟨s1, hb, hr⟩ := hbody k hk s0
      refine ⟨s1, hb, hk, ?_⟩
      have hs := Realizes_seq c _ _ m s0 s1 hI.2 hr
        (fun d s s' ⟨k', hk', hj⟩ hj' => hcompat k' k d s s' (by omega) hk hj hj')
      refine Realizes_congr c _ _ m s1 ?_ hs
      intro d s
      constructor
      · rintro (⟨k', hk', hj⟩ | hj)
        · exact ⟨k', by omega, hj⟩
        · exact ⟨k, by omega, hj⟩
      · rintro ⟨k', hk', hj⟩
        by_cases e : k' = k
        · subst e
          exact Or.inr hj
        · exact Or.inl ⟨k', by omega, hj⟩)
  obtain ⟨m', hrun, _, hr⟩ := h
  rw [Nat.zero_add] at hr
  exact ⟨m', hrun, hr⟩

/-- A loop over a list whose step for `x` realizes the moves `Jx x`. -/
theorem forEach_realizes {α : Type} (c : StorageMap) (body : α → StorageMap → Res StorageMap)
    (Jx : α → Moves) :
    ∀ (l : List α),
      (∀ x, x ∈ l → ∀ s, ∃ s', body x s = .ok s' ∧ Realizes c (Jx x) s s') →
      (∀ x x' d s s', x ∈ l → x' ∈ l → Jx x d s → Jx x' d s' →
        byteAt (GetCommitedState c) s = byteAt (GetCommitedState c) s') →
      ∀ m, ∃ m', forEach body l m = .ok m' ∧
        Realizes c (fun d s => ∃ x, x ∈ l ∧ Jx x d s) m m' := by
  intro l
  induction l with
  | nil =>
    intro _ _ m
    exact ⟨m, rfl, Realizes_congr c _ _ m m
      (fun d s => ⟨fun h => absurd h id, fun ⟨x, hx, _⟩ => absurd hx (List.not_mem_nil x)⟩)
      (Realizes_refl c m)⟩
  | cons a rest ih =>
    intro hbody hcompat m
    obtain ⟨m1, hb, hr1⟩ := hbody a (List.mem_cons_self _ _) m
    obtain ⟨m2, hl, hr2⟩ := ih (fun x hx => hbody x (List.mem_cons_of_mem _ hx))
      (fun x x' d s s' hx hx' => hcompat x x' d s s' (List.mem_cons_of_mem _ hx)
        (List.mem_cons_of_mem _ hx')) m1
    refine ⟨m2, ?_, ?_⟩
    · rw [forEach, hb]
      exact hl
    · have hs := Realizes_seq c _ _ m m1 m2 hr1 hr2
        (fun d s s' hj ⟨x, hx, hj'⟩ => hcompat a x d s s' (List.mem_cons_self _ _)
          (List.mem_cons_of_mem _ hx) hj hj')
      refine Realizes_congr c _ _ m m2 ?_ hs
      intro d s
      constructor
      · rintro (hj | ⟨x, hx, hj⟩)
        · exact ⟨a, List.mem_cons_self _ _, hj⟩
        · exact ⟨x, List.mem_cons_of_mem _ hx, hj⟩
      · rintro ⟨x, hx, hj⟩
        rcases List.mem_cons.mp hx with e | hx'
        · subst e
          exact Or.inl hj
        · exact Or.inr ⟨x, hx', hj⟩

/-- The primitive copy realizes the moves of its region. -/
theorem copyPrimitive_realizes (c : StorageMap) (w : Nat) (msg : ReorgInfo) (m : StorageMap)
    (hpo : msg.PrevOffset + w < u64) (hno : msg.NewOffset + w ≤ u64) :
    Realizes c (primitiveMoves msg w) m (copyPrimitive c w msg m) := by
  constructor
  · rintro d s ⟨k, hk, rfl, rfl⟩
    exact copyPrimitive_byte c w msg m hpo hno k hk
  · intro d hn
    obtain ⟨key, pos⟩ := d
    exact copyPrimitive_frame c w msg m hno key pos
      (fun k hk h => hn (srcByte msg k) ⟨k, hk, by
        unfold destByte
        rw [h.1, h.2], rfl⟩)

/-- Storing a committed slot whole realizes the moves of that slot. -/
theorem setSlot_realizes (c : StorageMap) (dst src : Nat) (m : StorageMap) :
    Realizes c (slotMoves dst src) m (SetModifiedState m dst (GetCommitedState c src)) := by
  constructor
  · rintro ⟨dk, dp⟩ ⟨sk, sp⟩ ⟨h1, h2, h3⟩
    simp only [] at h1 h2 h3
    subst h1 h2 h3
    unfold byteAt
    rw [GetModifiedState_set, if_pos rfl]
  · rintro ⟨dk, dp⟩ hn
    unfold byteAt
    rw [GetModifiedState_set]
    split_ifs with h
    · exact absurd (show slotMoves dst src (dk, dp) (src, dp) from ⟨h, rfl, rfl⟩) (hn _)
    · rfl

/-- Unfolding of `ReorganizeInplace` on a type for which a dynamic array is reported as the
dynamic extension: one call of `ReorganizeDynamicArray` per slot of the region. -/
theorem ReorganizeInplace_extension (D : Dict) (c : StorageMap) (keccak : Nat → Nat)
    (f fuel : Nat) (msg : ReorgInfo) (m : StorageMap) (d : DataType) (tn st : String)
    (sf : Bool) (hD : D msg.TypeName = some d)
    (hE : ExtractUntilInplace D f msg.TypeName = some (.ok (tn, "dynamic_array", true)))
    (hS : ContainsStruct D f msg.TypeName = some (.ok (sf, st)))
    (hf : f ≤ fuel + 1) :
    ReorganizeInplace D c keccak (fuel + 1) msg m
      = forLoop (fun i m' =>
          ReorganizeDynamicArray D c keccak fuel
            ⟨tn, (i + msg.PrevSlot) % slotModulus, (i + msg.NewSlot) % slotModulus, 0, 0⟩ m')
          (d.PrevNumberOfBytes / 32) 0 m := by
  rw [ReorganizeInplace]
  simp only [GetNumberOfBytes, hD, liftErr, ExtractUntilInplace_mono D f _ _ _ hE hf,
    ContainsStruct_mono D f _ _ _ hS hf, if_true]
  rfl

theorem dynamicArrayElements_nested {σ : Type} (D : Dict) (keccak : Nat → Nat)
    (inplace : ReorgInfo → σ → Res σ) (msg : ReorgInfo) (prevSlot : Hash) (m1 : σ)
    (d b : DataType) (hD : D msg.TypeName = some d) (hB : D d.Base = some b)
    (hbenc : b.Encoding = "inplace") (hnest : b.Base ≠ "" ∨ b.Members ≠ [])
    (hN : prevSlot.Big ≠ 0) :
    dynamicArrayElements D keccak inplace msg prevSlot m1
      = forLoop (fun i m' =>
          inplace
            { PrevSlot := (keccak msg.PrevSlot + b.PrevNumberOfBytes / 32 * i) % slotModulus
              NewSlot := (keccak msg.NewSlot + b.NewNumberOfBytes / 32 * i) % slotModulus
              PrevOffset := 0
              NewOffset := 0
              TypeName := d.Base } m')
          prevSlot.Big 0 m1 := by
  unfold dynamicArrayElements
  have hn : IsNested D d.Base = .ok true := by
    unfold IsNested
    rw [hB]
    rcases hnest with h | h
    · simp [h]
    · by_cases hb : b.Base = ""
      · have : b.Members.length ≠ 0 := fun e => h (List.length_eq_zero.mp e)
        simp [hb, this]
      · simp [hb]
  simp [hD, hB, hbenc, hN, IsEncodingInplace, hn, GetNumberOfBytes, liftErr]

theorem dynamicArrayElements_arrays {σ : Type} (D : Dict) (keccak : Nat → Nat)
    (inplace : ReorgInfo → σ → Res σ) (msg : ReorgInfo) (prevSlot : Hash) (m1 : σ)
    (d b : DataType) (hD : D msg.TypeName = some d) (hB : D d.Base = some b)
    (hbenc : b.Encoding = "dynamic_array") (hN : prevSlot.Big ≠ 0) :
    dynamicArrayElements D keccak inplace msg prevSlot m1
      = forLoop (fun i m' =>
          inplace
            { PrevSlot := (keccak msg.PrevSlot + i) % slotModulus
              NewSlot := (keccak msg.NewSlot + i) % slotModulus
              PrevOffset := 0
              NewOffset := 0
              TypeName := d.Base } m')
          prevSlot.Big 0 m1 := by
  unfold dynamicArrayElements
  simp [hD, hB, hbenc, hN, IsEncodingInplace, IsEncodingDynamicArray, liftErr]

/-- What `ReorganizeBytes` does, as moves. -/
theorem ReorganizeBytes_realizes (D : Dict) (c : StorageMap) (keccak : Nat → Nat)
    (msg : ReorgInfo) (m : StorageMap) (d : DataType) (hD : D msg.TypeName = some d)
    (hw : d.PrevNumberOfBytes = 32)
    (hcompat : ∀ dst s s',
      (fun dst src => slotMoves msg.NewSlot msg.PrevSlot dst src ∨
          (((GetCommitedState c msg.PrevSlot).get 31).val &&& 1 ≠ 0 ∧
            ∃ i, i < (bytesNumberOfSlots (GetCommitedState c msg.PrevSlot)).toNat ∧
              slotMoves ((keccak msg.NewSlot + i) % slotModulus)
                ((keccak msg.PrevSlot + i) % slotModulus) dst src)) dst s →
      (fun dst src => slotMoves msg.NewSlot msg.PrevSlot dst src ∨
          (((GetCommitedState c msg.PrevSlot).get 31).val &&& 1 ≠ 0 ∧
            ∃ i, i < (bytesNumberOfSlots (GetCommitedState c msg.PrevSlot)).toNat ∧
              slotMoves ((keccak msg.NewSlot + i) % slotModulus)
                ((keccak msg.PrevSlot + i) % slotModulus) dst src)) dst s' →
      byteAt (GetCommitedState c) s = byteAt (GetCommitedState c) s') :
    ∃ m', ReorganizeBytes D c keccak msg m = .ok m' ∧
      Realizes c
        (fun dst src => slotMoves msg.NewSlot msg.PrevSlot dst src ∨
          (((GetCommitedState c msg.PrevSlot).get 31).val &&& 1 ≠ 0 ∧
            ∃ i, i < (bytesNumberOfSlots (GetCommitedState c msg.PrevSlot)).toNat ∧
              slotMoves ((keccak msg.NewSlot + i) % slotModulus)
                ((keccak msg.PrevSlot + i) % slotModulus) dst src)) m m' := by
  obtain ⟨m', hrun, h1, h2⟩ := ReorganizeBytes_run D c keccak msg m d hD hw
  refine ⟨m', hrun, ?_, ?_⟩
  · rintro ⟨dk, dp⟩ ⟨sk, sp⟩ hj
    have hpay : ∀ i, ((GetCommitedState c msg.PrevSlot).get 31).val &&& 1 ≠ 0 →
        i < (bytesNumberOfSlots (GetCommitedState c msg.PrevSlot)).toNat →
        dk = (keccak msg.NewSlot + i) % slotModulus →
        byteAt (GetModifiedState m') (dk, dp)
          = byteAt (GetCommitedState c) ((keccak msg.PrevSlot + i) % slotModulus, dp) := by
      intro i hflag hi e
      unfold byteAt
      simp only []
      rw [e, h1 i hflag hi]
    rcases hj with ⟨e1, e2, e3⟩ | ⟨hflag, i, hi, e1, e2, e3⟩
    · simp only [] at e1 e2 e3
      subst e1 e2 e3
      by_cases hex : ((GetCommitedState c msg.PrevSlot).get 31).val &&& 1 ≠ 0 ∧
          ∃ i, i < (bytesNumberOfSlots (GetCommitedState c msg.PrevSlot)).toNat ∧
            msg.NewSlot = (keccak msg.NewSlot + i) % slotModulus
      · obtain ⟨hflag, i, hi, e⟩ := hex
        rw [hpay i hflag hi e]
        exact hcompat (msg.NewSlot, dp) _ _ (Or.inr ⟨hflag, i, hi, e, rfl, rfl⟩)
          (Or.inl ⟨rfl, rfl, rfl⟩)
      · unfold byteAt
        simp only []
        rw [h2 msg.NewSlot (fun hflag i hi e => hex ⟨hflag, i, hi, e⟩), GetModifiedState_set,
          if_pos rfl]
    · simp only [] at e1 e2 e3
      subst e2 e3
      exact hpay i hflag hi e1
  · rintro ⟨dk, dp⟩ hn
    unfold byteAt
    simp only []
    rw [h2 dk (fun hflag i hi e => hn ((keccak msg.PrevSlot + i) % slotModulus, dp)
      (Or.inr ⟨hflag, i, hi, e, rfl, rfl⟩)), GetModifiedState_set]
    split_ifs with h
    · exact absurd (Or.inl ⟨h, rfl, rfl⟩) (hn (msg.PrevSlot, dp))
    · rfl

/-- The call that the struct branch of `ReorganizeInplace` makes for a member is the call of
the rewriter chosen by the encoding of the member's type. -/
theorem memberCall_eq (D : Dict) (c : StorageMap) (keccak : Nat → Nat) (n : Nat)
    (hkey : ∀ t d, D t = some d → d.TypeName = t) (member : Member) (e : Entry)
    (he : entryOf D member.TypeName = some e) (p q : Nat) (m : StorageMap) :
    (match D member.TypeName with
      | none => Res.err "Struct Member Not Found" m
      | some memberDataType =>
        if memberDataType.Encoding = "inplace" then
          ReorganizeInplace D c keccak n
            (memberDirective p q member memberDataType.TypeName) m
        else if memberDataType.Encoding = "dynamic_array" then
          ReorganizeDynamicArrayWith D c keccak (ReorganizeInplace D c keccak n)
            (memberDirective p q member memberDataType.TypeName) m
        else if memberDataType.Encoding = "bytes" then
          ReorganizeBytes D c keccak (memberDirective p q member memberDataType.TypeName) m
        else .err "Unknown Encoding" m)
      = runEntry D c keccak n e (memberDirective p q member member.TypeName) m := by
  unfold entryOf at he
  cases hmd : D member.TypeName with
  | none => rw [hmd] at he; exact absurd he (by simp)
  | some md =>
    rw [hmd] at he
    simp only [] at he ⊢
    rw [hkey _ md hmd]
    split_ifs at he ⊢ with h1 h2 h3
    · rw [Option.some.injEq] at he
      subst he
      rfl
    · rw [Option.some.injEq] at he
      subst he
      rfl
    · rw [Option.some.injEq] at he
      subst he
      rfl

/-- Soundness of the layout rules: a directive that stands for the moves `J`, colliding
moves of which carry equal bytes, is rewritten with result `nil`, and the rewriter makes
the moves `J` and no other change. -/
theorem Layout_sound (D : Dict) (c : StorageMap) (keccak : Nat → Nat)
    (hkey : ∀ t d, D t = some d → d.TypeName = t) :
    ∀ (n : Nat) (e : Entry) (msg : ReorgInfo) (J : Moves), Layout D keccak c n e msg J →
      (∀ d s s', J d s → J d s' →
        byteAt (GetCommitedState c) s = byteAt (GetCommitedState c) s') →
      ∀ m, ∃ m', runEntry D c keccak n e msg m = .ok m' ∧ Realizes c J m m' := by
  intro n e msg J h
  induction h with
  | primitive n f msg d tn st hD hE hS hf hw hpo hno =>
    intro _ m
    exact ⟨_, ReorganizeInplace_primitive D c keccak f n msg m d tn "inplace" st hD hE hS hf,
      copyPrimitive_realizes c _ msg m hpo (Nat.le_of_lt hno)⟩
  | struct n f msg d sd tn enc S ent sub hD hE hS hDS hf hW hps hps' hW' hns hns' hcount hent
      hsub ih =>
    intro hcompat m
    show ∃ m', ReorganizeInplace D c keccak (n + 1) msg m = .ok m' ∧ _
    rw [ReorganizeInplace_struct D c keccak f n msg m d sd tn enc S hD hE hS hDS hf hW hps hps']
    apply forLoop_realizes c _
      (fun i => fun dst src => ∃ member, member ∈ sd.Members ∧ sub i member dst src)
    · intro i hi s
      apply forEach_realizes c _ (fun member => sub i member) sd.Members
      · intro member hmem s'
        obtain ⟨m', h1, h2⟩ := ih i member hi hmem
          (fun d s1 s2 h1 h2 => hcompat d s1 s2 ⟨i, hi, member, hmem, h1⟩
            ⟨i, hi, member, hmem, h2⟩) s'
        exact ⟨m', Eq.trans (memberCall_eq D c keccak n hkey member (ent member)
          (hent member hmem) _ _ s') h1, h2⟩
      · intro x x' d s1 s2 hx hx' h1 h2
        exact hcompat d s1 s2 ⟨i, hi, x, hx, h1⟩ ⟨i, hi, x', hx', h2⟩
    · intro k k' d s1 s2 hk hk' ⟨x, hx, h1⟩ ⟨x', hx', h2⟩
      exact hcompat d s1 s2 ⟨k, hk, x, hx, h1⟩ ⟨k', hk', x', hx', h2⟩
  | extension n f msg d tn st sf sub hD hE hS hf hcount hsub ih =>
    intro hcompat m
    show ∃ m', ReorganizeInplace D c keccak (n + 1) msg m = .ok m' ∧ _
    rw [ReorganizeInplace_extension D c keccak f n msg m d tn st sf hD hE hS hf]
    apply forLoop_realizes c _ sub
    · intro i hi s
      exact ih i hi (fun d s1 s2 h1 h2 => hcompat d s1 s2 ⟨i, hi, h1⟩ ⟨i, hi, h2⟩) s
    · intro k k' d s1 s2 hk hk' h1 h2
      exact hcompat d s1 s2 ⟨k, hk, h1⟩ ⟨k', hk', h2⟩
  | arrayEmpty n msg d hD hw hw' hN =>
    intro _ m
    exact ⟨_, emptyArray_run D c keccak n msg m d hD hw hN, setSlot_realizes c _ _ m⟩
  | arrayFlat n msg d b sub hD hw hw' hN hB hbenc hbbase hbmem hb1 hb32 hbw hsub ih =>
    intro hcompat m
    have hw0 : b.PrevNumberOfBytes ≠ 0 := by omega
    have hper : 32 / b.PrevNumberOfBytes ≠ 0 := by
      have := Nat.div_pos hb32 (by omega : 0 < b.PrevNumberOfBytes)
      omega
    show ∃ m', ReorganizeDynamicArray D c keccak n msg m = .ok m' ∧ _
    rw [ReorganizeDynamicArray_run D c keccak n msg m d hD hw,
      dynamicArrayElements_flat D keccak _ msg _ _ d b hD hB hbenc hbbase hbmem hN hw0 hper]
    obtain ⟨m', hrun, hr⟩ := forLoop_realizes c
      (fun i m' =>
        forLoop (fun j m'' =>
          ReorganizeInplace D c keccak n
            { PrevSlot := (keccak msg.PrevSlot + i) % slotModulus
              NewSlot := (keccak msg.NewSlot + i) % slotModulus
              PrevOffset := j * b.PrevNumberOfBytes
              NewOffset := j * b.PrevNumberOfBytes
              TypeName := d.Base } m'')
          (32 / b.PrevNumberOfBytes) 0 m')
      (fun i => fun dst src => ∃ j, j < 32 / b.PrevNumberOfBytes ∧ sub i j dst src)
      ((GetCommitedState c msg.PrevSlot).Big / (32 / b.PrevNumberOfBytes) +
        (if (GetCommitedState c msg.PrevSlot).Big % (32 / b.PrevNumberOfBytes) > 0 then 1
          else 0))
      (by
        intro i hi s
        apply forLoop_realizes c _ (fun j => sub i j)
        · intro j hj s'
          exact ih i j hi hj
            (fun d s1 s2 h1 h2 => hcompat d s1 s2 (Or.inr ⟨i, hi, j, hj, h1⟩)
              (Or.inr ⟨i, hi, j, hj, h2⟩)) s'
        · intro k k' d s1 s2 hk hk' h1 h2
          exact hcompat d s1 s2 (Or.inr ⟨i, hi, k, hk, h1⟩) (Or.inr ⟨i, hi, k', hk', h2⟩))
      (by
        intro k k' d s1 s2 hk hk' ⟨j, hj, h1⟩ ⟨j', hj', h2⟩
        exact hcompat d s1 s2 (Or.inr ⟨k, hk, j, hj, h1⟩) (Or.inr ⟨k', hk', j', hj', h2⟩))
      (SetModifiedState m msg.NewSlot (GetCommitedState c msg.PrevSlot))
    exact ⟨m', hrun, Realizes_seq c _ _ m _ m' (setSlot_realizes c _ _ m) hr
      (fun d s1 s2 h1 h2 => hcompat d s1 s2 (Or.inl h1) (Or.inr h2))⟩
  | arrayNested n msg d b sub hD hw hw' hN hB hbenc hnest hsub ih =>
    intro hcompat m
    show ∃ m', ReorganizeDynamicArray D c keccak n msg m = .ok m' ∧ _
    rw [ReorganizeDynamicArray_run D c keccak n msg m d hD hw,
      dynamicArrayElements_nested D keccak _ msg _ _ d b hD hB hbenc hnest hN]
    obtain ⟨m', hrun, hr⟩ := forLoop_realizes c
      (fun i m' =>
        ReorganizeInplace D c keccak n
          { PrevSlot := (keccak msg.PrevSlot + b.PrevNumberOfBytes / 32 * i) % slotModulus
            NewSlot := (keccak msg.NewSlot + b.NewNumberOfBytes / 32 * i) % slotModulus
            PrevOffset := 0
            NewOffset := 0
            TypeName := d.Base } m')
      sub (GetCommitedState c msg.PrevSlot).Big
      (fun i hi s => ih i hi
        (fun d s1 s2 h1 h2 => hcompat d s1 s2 (Or.inr ⟨i, hi, h1⟩) (Or.inr ⟨i, hi, h2⟩)) s)
      (fun k k' d s1 s2 hk hk' h1 h2 =>
        hcompat d s1 s2 (Or.inr ⟨k, hk, h1⟩) (Or.inr ⟨k', hk', h2⟩))
      (SetModifiedState m msg.NewSlot (GetCommitedState c msg.PrevSlot))
    exact ⟨m', hrun, Realizes_seq c _ _ m _ m' (setSlot_realizes c _ _ m) hr
      (fun d s1 s2 h1 h2 => hcompat d s1 s2 (Or.inl h1) (Or.inr h2))⟩
  | arrayOfArrays n msg d b sub hD hw hw' hN hB hbenc hsub ih =>
    intro hcompat m
    show ∃ m', ReorganizeDynamicArray D c keccak n msg m = .ok m' ∧ _
    rw [ReorganizeDynamicArray_run D c keccak n msg m d hD hw,
      dynamicArrayElements_arrays D keccak _ msg _ _ d b hD hB hbenc hN]
    obtain ⟨m', hrun, hr⟩ := forLoop_realizes c
      (fun i m' =>
        ReorganizeInplace D c keccak n
          { PrevSlot := (keccak msg.PrevSlot + i) % slotModulus
            NewSlot := (keccak msg.NewSlot + i) % slotModulus
            PrevOffset := 0
            NewOffset := 0
            TypeName := d.Base } m')
      sub (GetCommitedState c msg.PrevSlot).Big
      (fun i hi s => ih i hi
        (fun d s1 s2 h1 h2 => hcompat d s1 s2 (Or.inr ⟨i, hi, h1⟩) (Or.inr ⟨i, hi, h2⟩)) s)
      (fun k k' d s1 s2 hk hk' h1 h2 =>
        hcompat d s1 s2 (Or.inr ⟨k, hk, h1⟩) (Or.inr ⟨k', hk', h2⟩))
      (SetModifiedState m msg.NewSlot (GetCommitedState c msg.PrevSlot))
    exact ⟨m', hrun, Realizes_seq c _ _ m _ m' (setSlot_realizes c _ _ m) hr
      (fun d s1 s2 h1 h2 => hcompat d s1 s2 (Or.inl h1) (Or.inr h2))⟩
  | bytes n msg d hD hw hw' =>
    intro hcompat m
    exact ReorganizeBytes_realizes D c keccak msg m d hD hw hcompat

/-- The body of the loop of `Reorganize` is the call of the rewriter chosen by the encoding
of the directive's type. -/
theorem dispatch_eq (D : Dict) (c : StorageMap) (keccak : Nat → Nat) (n : Nat)
    (msg : ReorgInfo) (e : Entry) (he : entryOf D msg.TypeName = some e) (m : StorageMap) :
    (liftErr (IsEncodingInplace D msg.TypeName) m fun isInplace =>
      if isInplace then ReorganizeInplace D c keccak n msg m
      else
        liftErr (IsEncodingDynamicArray D msg.TypeName) m fun isDynamicArray =>
        if isDynamicArray then ReorganizeDynamicArray D c keccak n msg m
        else
          liftErr (IsEncodingBytes D msg.TypeName) m fun isBytes =>
          if isBytes then ReorganizeBytes D c keccak msg m
          else .err "Not implemented yet" m)
      = runEntry D c keccak n e msg m := by
  unfold entryOf at he
  cases hd : D msg.TypeName with
  | none => rw [hd] at he; exact absurd he (by simp)
  | some d =>
    rw [hd] at he
    simp only [] at he
    split_ifs at he with h1 h2 h3
    · rw [Option.some.injEq] at he
      subst he
      simp [IsEncodingInplace, hd, h1, liftErr, runEntry]
    · rw [Option.some.injEq] at he
      subst he
      simp [IsEncodingInplace, IsEncodingDynamicArray, hd, h1, h2, liftErr, runEntry]
    · rw [Option.some.injEq] at he
      subst he
      simp [IsEncodingInplace, IsEncodingDynamicArray, IsEncodingBytes, hd, h1, h2, h3, liftErr,
        runEntry]

/-- A list of directives that stand for moves, colliding moves of which carry equal bytes:
`Reorganize` returns `nil` and makes these moves and no other change. -/
theorem Reorganize_realizes (D : Dict) (c : StorageMap) (keccak : Nat → Nat)
    (hkey : ∀ t d, D t = some d → d.TypeName = t) (n : Nat) (msgs : List ReorgInfo)
    (Jm : ReorgInfo → Moves)
    (hlay : ∀ msg, msg ∈ msgs →
      ∃ e, entryOf D msg.TypeName = some e ∧ Layout D keccak c n e msg (Jm msg))
    (hcompat : ∀ msg msg' d s s', msg ∈ msgs → msg' ∈ msgs → Jm msg d s → Jm msg' d s' →
      byteAt (GetCommitedState c) s = byteAt (GetCommitedState c) s')
    (m : StorageMap) :
    ∃ m', Reorganize D c keccak n msgs m = .ok m' ∧
      Realizes c (fun d s => ∃ msg, msg ∈ msgs ∧ Jm msg d s) m m' := by
  unfold Reorganize
  apply forEach_realizes c _ Jm msgs
  · intro msg hmsg s
    obtain ⟨e, he, hl⟩ := hlay msg hmsg
    obtain ⟨m', h1, h2⟩ := Layout_sound D c keccak hkey n e msg (Jm msg) hl
      (fun d s1 s2 h1 h2 => hcompat msg msg d s1 s2 hmsg hmsg h1 h2) s
    exact ⟨m', Eq.trans (dispatch_eq D c keccak n msg e he s) h1, h2⟩
  · exact hcompat

theorem Layout_congr (D : Dict) (keccak : Nat → Nat) (c : StorageMap) (n : Nat) (e : Entry)
    (msg : ReorgInfo) (J J' : Moves) (h : ∀ d s, J d s ↔ J' d s)
    (hl : Layout D keccak c n e msg J) : Layout D keccak c n e msg J' := by
  have : J = J' := funext fun d => funext fun s => propext (h d s)
  rw [← this]
  exact hl

theorem Dict.inverse_some (D : Dict) (t : String) (d : DataType) (h : D t = some d) :
    D.inverse t = some d.inverse := by
  unfold Dict.inverse
  rw [h]
  rfl

theorem entryOf_inverse (D : Dict) (t : String) : entryOf D.inverse t = entryOf D t := by
  unfold entryOf Dict.inverse
  cases D t with
  | none => rfl
  | some d => rfl

theorem Member.inverse_inverse (member : Member) : member.inverse.inverse = member := rfl

theorem mem_inverse_members (sd : DataType) (member : Member)
    (h : member ∈ sd.inverse.Members) : member.inverse ∈ sd.Members := by
  unfold DataType.inverse at h
  simp only [List.mem_map] at h
  obtain ⟨x, hx, rfl⟩ := h
  exact hx

theorem inverse_mem_members (sd : DataType) (member : Member) (h : member ∈ sd.Members) :
    member.inverse ∈ sd.inverse.Members := by
  unfold DataType.inverse
  simp only [List.mem_map]
  exact ⟨member, h, rfl⟩

theorem primitiveMoves_inverse (msg : ReorgInfo) (w : Nat) (d s : Loc) :
    primitiveMoves msg.inverse w d s ↔ primitiveMoves msg w s d := by
  unfold primitiveMoves
  constructor
  · rintro ⟨k, hk, h1, h2⟩
    exact ⟨k, hk, h2, h1⟩
  · rintro ⟨k, hk, h1, h2⟩
    exact ⟨k, hk, h2, h1⟩

theorem slotMoves_inverse (a b : Nat) (d s : Loc) : slotMoves a b d s ↔ slotMoves b a s d := by
  unfold slotMoves
  constructor
  · rintro ⟨h1, h2, h3⟩
    exact ⟨h2, h1, h3.symm⟩
  · rintro ⟨h1, h2, h3⟩
    exact ⟨h2, h1, h3.symm⟩

/-- When the moves of a head slot have been made, the new head slot of the new image reads
as the old head slot of the old image. -/
theorem head_moved (c c' : StorageMap) (J : Moves) (ns ps : Nat)
    (hsub : ∀ d s, slotMoves ns ps d s → J d s)
    (hJ : ∀ d s, J d s → byteAt (GetCommitedState c') d = byteAt (GetCommitedState c) s) :
    GetCommitedState c' ns = GetCommitedState c ps := by
  apply Mathlib.Vector.ext
  intro pos
  exact hJ (ns, pos) (ps, pos) (hsub _ _ ⟨rfl, rfl, rfl⟩)

/-- The layout rules are symmetric: over an image `c'` in which the moves `J` have been
made, the inverse directive over the inverse dictionary stands for the moves `J` reversed. -/
theorem Layout_inverse (D : Dict) (keccak : Nat → Nat) (c c' : StorageMap) :
    ∀ (n : Nat) (e : Entry) (msg : ReorgInfo) (J : Moves), Layout D keccak c n e msg J →
      (∀ d s, J d s → byteAt (GetCommitedState c') d = byteAt (GetCommitedState c) s) →
      Layout D.inverse keccak c' n e msg.inverse (fun d s => J s d) := by
  intro n e msg J h
  induction h with
  | primitive n f msg d tn st hD hE hS hf hw hpo hno =>
    intro _
    have hl := @Layout.primitive D.inverse keccak c' n f msg.inverse
      d.inverse tn st (D.inverse_some _ d hD)
      (by rw [ExtractUntilInplace_inverse]; exact hE)
      (by rw [ContainsStruct_inverse]; exact hS) hf hw.symm
      (by
        show msg.NewOffset + d.NewNumberOfBytes < u64
        rw [hw]
        exact hno)
      (by
        show msg.PrevOffset + d.NewNumberOfBytes < u64
        rw [hw]
        exact hpo)
    refine Layout_congr _ _ _ _ _ _ _ _ ?_ hl
    intro x y
    show primitiveMoves msg.inverse d.NewNumberOfBytes x y ↔ _
    rw [hw]
    exact primitiveMoves_inverse msg _ x y
  | struct n f msg d sd tn enc S ent sub hD hE hS hDS hf hW hps hps' hW' hns hns' hcount hent
      hsub ih =>
    intro hJ
    have hl := @Layout.struct D.inverse keccak c' n f msg.inverse
      d.inverse sd.inverse tn enc S (fun member => ent member.inverse)
      (fun i member => fun dst src => sub i member.inverse src dst)
      (D.inverse_some _ d hD)
      (by rw [ExtractUntilInplace_inverse]; exact hE)
      (by rw [ContainsStruct_inverse]; exact hS)
      (D.inverse_some _ sd hDS) hf hW' hns hns' hW hps hps' hcount.symm
      (by
        intro member hmem
        rw [entryOf_inverse]
        exact hent member.inverse (mem_inverse_members sd member hmem))
      (by
        intro i member hi hmem
        have hi' : i < d.PrevNumberOfBytes / sd.PrevNumberOfBytes := by
          rw [← hcount]
          exact hi
        exact ih i member.inverse hi' (mem_inverse_members sd member hmem)
          (fun x y hxy => hJ x y ⟨i, hi', member.inverse, mem_inverse_members sd member hmem,
            hxy⟩))
    refine Layout_congr _ _ _ _ _ _ _ _ ?_ hl
    intro x y
    show (∃ i, i < d.NewNumberOfBytes / sd.NewNumberOfBytes ∧
        ∃ member, member ∈ sd.inverse.Members ∧ sub i member.inverse y x) ↔ _
    rw [hcount]
    constructor
    · rintro ⟨i, hi, member, hmem, hs⟩
      exact ⟨i, hi, member.inverse, mem_inverse_members sd member hmem, hs⟩
    · rintro ⟨i, hi, member, hmem, hs⟩
      exact ⟨i, hi, member.inverse, inverse_mem_members sd member hmem, hs⟩
  | extension n f msg d tn st sf sub hD hE hS hf hcount hsub ih =>
    intro hJ
    have hl := @Layout.extension D.inverse keccak c' n f msg.inverse
      d.inverse tn st sf (fun i => fun dst src => sub i src dst)
      (D.inverse_some _ d hD)
      (by rw [ExtractUntilInplace_inverse]; exact hE)
      (by rw [ContainsStruct_inverse]; exact hS) hf hcount.symm
      (by
        intro i hi
        have hi' : i < d.PrevNumberOfBytes / 32 := by
          rw [← hcount]
          exact hi
        exact ih i hi' (fun x y hxy => hJ x y ⟨i, hi', hxy⟩))
    refine Layout_congr _ _ _ _ _ _ _ _ ?_ hl
    intro x y
    show (∃ i, i < d.NewNumberOfBytes / 32 ∧ sub i y x) ↔ _
    rw [hcount]
  | arrayEmpty n msg d hD hw hw' hN =>
    intro hJ
    have hhead := head_moved c c' _ msg.NewSlot msg.PrevSlot (fun _ _ h => h) hJ
    have hl := @Layout.arrayEmpty D.inverse keccak c' n msg.inverse
      d.inverse (D.inverse_some _ d hD) hw' hw
      (by
        show (GetCommitedState c' msg.NewSlot).Big = 0
        rw [hhead]
        exact hN)
    refine Layout_congr _ _ _ _ _ _ _ _ ?_ hl
    intro x y
    exact slotMoves_inverse _ _ x y
  | arrayFlat n msg d b sub hD hw hw' hN hB hbenc hbbase hbmem hb1 hb32 hbw hsub ih =>
    intro hJ
    have hhead : GetCommitedState c' msg.inverse.PrevSlot = GetCommitedState c msg.PrevSlot :=
      head_moved c c' _ msg.NewSlot msg.PrevSlot (fun _ _ h => Or.inl h) hJ
    have hbp : b.inverse.PrevNumberOfBytes = b.PrevNumberOfBytes := hbw
    have hl := @Layout.arrayFlat D.inverse keccak c' n msg.inverse
      d.inverse b.inverse (fun i j => fun dst src => sub i j src dst)
      (D.inverse_some _ d hD) hw' hw
      (by rw [hhead]; exact hN)
      (D.inverse_some _ b hB) hbenc hbbase
      (by
        show b.Members.map Member.inverse = []
        rw [hbmem]
        rfl)
      (by rw [hbp]; exact hb1) (by rw [hbp]; exact hb32) hbw.symm
      (by
        intro i j hi hj
        rw [hhead, hbp] at hi
        rw [hbp] at hj ⊢
        exact ih i j hi hj (fun x y hxy => hJ x y (Or.inr ⟨i, hi, j, hj, hxy⟩)))
    refine Layout_congr _ _ _ _ _ _ _ _ ?_ hl
    intro x y
    rw [hhead, hbp]
    constructor
    · rintro (h | h)
      · exact Or.inl ((slotMoves_inverse _ _ x y).mp h)
      · exact Or.inr h
    · rintro (h | h)
      · exact Or.inl ((slotMoves_inverse _ _ x y).mpr h)
      · exact Or.inr h
  | arrayNested n msg d b sub hD hw hw' hN hB hbenc hnest hsub ih =>
    intro hJ
    have hhead : GetCommitedState c' msg.inverse.PrevSlot = GetCommitedState c msg.PrevSlot :=
      head_moved c c' _ msg.NewSlot msg.PrevSlot (fun _ _ h => Or.inl h) hJ
    have hl := @Layout.arrayNested D.inverse keccak c' n msg.inverse
      d.inverse b.inverse (fun i => fun dst src => sub i src dst)
      (D.inverse_some _ d hD) hw' hw
      (by rw [hhead]; exact hN)
      (D.inverse_some _ b hB) hbenc
      (by
        rcases hnest with h | h
        · exact Or.inl h
        · refine Or.inr ?_
          show b.Members.map Member.inverse ≠ []
          intro e
          exact h (List.map_eq_nil_iff.mp e))
      (by
        intro i hi
        rw [hhead] at hi
        exact ih i hi (fun x y hxy => hJ x y (Or.inr ⟨i, hi, hxy⟩)))
    refine Layout_congr _ _ _ _ _ _ _ _ ?_ hl
    intro x y
    rw [hhead]
    constructor
    · rintro (h | h)
      · exact Or.inl ((slotMoves_inverse _ _ x y).mp h)
      · exact Or.inr h
    · rintro (h | h)
      · exact Or.inl ((slotMoves_inverse _ _ x y).mpr h)
      · exact Or.inr h
  | arrayOfArrays n msg d b sub hD hw hw' hN hB hbenc hsub ih =>
    intro hJ
    have hhead : GetCommitedState c' msg.inverse.PrevSlot = GetCommitedState c msg.PrevSlot :=
      head_moved c c' _ msg.NewSlot msg.PrevSlot (fun _ _ h => Or.inl h) hJ
    have hl := @Layout.arrayOfArrays D.inverse keccak c' n msg.inverse
      d.inverse b.inverse (fun i => fun dst src => sub i src dst)
      (D.inverse_some _ d hD) hw' hw
      (by rw [hhead]; exact hN)
      (D.inverse_some _ b hB) hbenc
      (by
        intro i hi
        rw [hhead] at hi
        exact ih i hi (fun x y hxy => hJ x y (Or.inr ⟨i, hi, hxy⟩)))
    refine Layout_congr _ _ _ _ _ _ _ _ ?_ hl
    intro x y
    rw [hhead]
    constructor
    · rintro (h | h)
      · exact Or.inl ((slotMoves_inverse _ _ x y).mp h)
      · exact Or.inr h
    · rintro (h | h)
      · exact Or.inl ((slotMoves_inverse _ _ x y).mpr h)
      · exact Or.inr h
  | bytes n msg d hD hw hw' =>
    intro hJ
    have hhead : GetCommitedState c' msg.inverse.PrevSlot = GetCommitedState c msg.PrevSlot :=
      head_moved c c' _ msg.NewSlot msg.PrevSlot (fun _ _ h => Or.inl h) hJ
    have hl := @Layout.bytes D.inverse keccak c' n msg.inverse
      d.inverse (D.inverse_some _ d hD) hw' hw
    refine Layout_congr _ _ _ _ _ _ _ _ ?_ hl
    intro x y
    rw [hhead]
    constructor
    · rintro (h | ⟨hflag, i, hi, h⟩)
      · exact Or.inl ((slotMoves_inverse _ _ x y).mp h)
      · exact Or.inr ⟨hflag, i, hi, (slotMoves_inverse _ _ x y).mp h⟩
    · rintro (h | ⟨hflag, i, hi, h⟩)
      · exact Or.inl ((slotMoves_inverse _ _ x y).mpr h)
      · exact Or.inr ⟨hflag, i, hi, (slotMoves_inverse _ _ x y).mpr h⟩

theorem byteAt_empty (x : Loc) : byteAt (GetModifiedState ∅) x = 0 := by
  unfold byteAt
  exact zeroHash_get _

theorem byteAt_CommitShared (c m : StorageMap) (x : Loc) :
    byteAt (GetCommitedState (CommitShared c m)) x = byteAt (GetModifiedState m) x := by
  unfold byteAt
  rw [GetCommitedState_CommitShared]

/-- In an identity dictionary the moves of an identity directive leave every byte where it
is. -/
theorem Layout_identity (D : Dict) (keccak : Nat → Nat) (c : StorageMap) (hD : D.isIdentity) :
    ∀ (n : Nat) (e : Entry) (msg : ReorgInfo) (J : Moves), Layout D keccak c n e msg J →
      msg.isIdentity → ∀ d s, J d s → d = s := by
  intro n e msg J h
  induction h with
  | primitive n f msg d tn st hD' hE hS hf hw hpo hno =>
    rintro ⟨h1, h2⟩ x y ⟨k, _, rfl, rfl⟩
    unfold destByte srcByte
    rw [h1, h2]
  | struct n f msg d sd tn enc S ent sub hD' hE hS hDS hf hW hps hps' hW' hns hns' hcount hent
      hsub ih =>
    rintro ⟨h1, h2⟩ x y ⟨i, hi, member, hmem, hs⟩
    refine ih i member hi hmem ?_ x y hs
    obtain ⟨hsw, hsm⟩ := hD S sd hDS
    obtain ⟨hm1, hm2⟩ := hsm member hmem
    unfold ReorgInfo.isIdentity memberDirective
    simp only []
    rw [h1, hsw, hm1, hm2]
    exact ⟨rfl, rfl⟩
  | extension n f msg d tn st sf sub hD' hE hS hf hcount hsub ih =>
    rintro ⟨h1, h2⟩ x y ⟨i, hi, hs⟩
    refine ih i hi ?_ x y hs
    unfold ReorgInfo.isIdentity
    simp only []
    rw [h1]
    constructor <;> first | rfl | trivial
  | arrayEmpty n msg d hD' hw hw' hN =>
    rintro ⟨h1, h2⟩ ⟨xk, xp⟩ ⟨yk, yp⟩ ⟨e1, e2, e3⟩
    simp only [] at e1 e2 e3
    rw [e1, e2, e3, h1]
  | arrayFlat n msg d b sub hD' hw hw' hN hB hbenc hbbase hbmem hb1 hb32 hbw hsub ih =>
    rintro ⟨h1, h2⟩ ⟨xk, xp⟩ ⟨yk, yp⟩ (⟨e1, e2, e3⟩ | ⟨i, hi, j, hj, hs⟩)
    · simp only [] at e1 e2 e3
      rw [e1, e2, e3, h1]
    · refine ih i j hi hj ?_ _ _ hs
      unfold ReorgInfo.isIdentity
      simp only []
      rw [h1]
      constructor <;> first | rfl | trivial
  | arrayNested n msg d b sub hD' hw hw' hN hB hbenc hnest hsub ih =>
    rintro ⟨h1, h2⟩ ⟨xk, xp⟩ ⟨yk, yp⟩ (⟨e1, e2, e3⟩ | ⟨i, hi, hs⟩)
    · simp only [] at e1 e2 e3
      rw [e1, e2, e3, h1]
    · refine ih i hi ?_ _ _ hs
      unfold ReorgInfo.isIdentity
      simp only []
      rw [h1, (hD _ b hB).1]
      constructor <;> first | rfl | trivial
  | arrayOfArrays n msg d b sub hD' hw hw' hN hB hbenc hsub ih =>
    rintro ⟨h1, h2⟩ ⟨xk, xp⟩ ⟨yk, yp⟩ (⟨e1, e2, e3⟩ | ⟨i, hi, hs⟩)
    · simp only [] at e1 e2 e3
      rw [e1, e2, e3, h1]
    · refine ih i hi ?_ _ _ hs
      unfold ReorgInfo.isIdentity
      simp only []
      rw [h1]
      constructor <;> first | rfl | trivial
  | bytes n msg d hD' hw hw' =>
    rintro ⟨h1, h2⟩ ⟨xk, xp⟩ ⟨yk, yp⟩ (⟨e1, e2, e3⟩ | ⟨_, i, _, e1, e2, e3⟩)
    · simp only [] at e1 e2 e3
      rw [e1, e2, e3, h1]
    · simp only [] at e1 e2 e3
      rw [e1, e2, e3, h1]

/-- A store whose bytes are those of `c` where `c` is not zero, and zero elsewhere, reads as
`c`; it has the entries of `c` when neither has an all-zero entry. -/
theorem image_eq_of_bytes (c c2 : StorageMap) (cov : Loc → Prop)
    (h1 : ∀ x, cov x → byteAt (GetCommitedState c2) x = byteAt (GetCommitedState c) x)
    (h0 : ∀ x, ¬ cov x → byteAt (GetCommitedState c2) x = 0)
    (hz : ∀ k, c2.get? k ≠ some zeroHash)
    (hcov : ∀ x, byteAt (GetCommitedState c) x ≠ 0 → cov x) :
    (∀ k, GetCommitedState c2 k = GetCommitedState c k) ∧
    ((∀ k, c.get? k ≠ some zeroHash) → ∀ k, c2.get? k = c.get? k) := by
  have hread : ∀ k, GetCommitedState c2 k = GetCommitedState c k := by
    intro k
    apply Mathlib.Vector.ext
    intro pos
    by_cases hc : cov (k, pos)
    · exact h1 (k, pos) hc
    · have hzero : byteAt (GetCommitedState c) (k, pos) = 0 := by
        by_contra hne
        exact hc (hcov _ hne)
      exact (h0 (k, pos) hc).trans hzero.symm
  refine ⟨hread, ?_⟩
  intro hcz k
  rw [get?_of_nonzero c2 k (hz k), get?_of_nonzero c k (hcz k), hread]

theorem Dict.inverse_key (D : Dict) (hkey : ∀ t d, D t = some d → d.TypeName = t) :
    ∀ t d, D.inverse t = some d → d.TypeName = t := by
  intro t d h
  unfold Dict.inverse at h
  cases hd : D t with
  | none => rw [hd] at h; exact absurd h (by simp)
  | some d0 =>
    rw [hd, Option.map_some', Option.some.injEq] at h
    rw [← h]
    exact hkey t d0 hd

/-- C5 (amended): identity transform.  In a dictionary keyed by type name in which every
type keeps its width and every struct member its slot and offset, let every directive keep
its slot and offset and have a layout: passed to the rewriter that the encoding of its type
selects, it stands for a set of byte moves under the rules of `Layout` (regions of
primitives without `uint64` wrap, regions of structs, dynamic arrays and byte strings with
head slots of width 32, nested freely, but no array whose elements are byte strings).  Then
`Reorganize`, run from the empty buffer with the budget of the layouts, returns `nil`, and
after `Commit` into the store the image was taken from every byte that a directive covers is
the byte of the pre-transform image and every byte that no directive covers is zero.  When
every non-zero byte of the image is covered, every slot of the target reads as in the
pre-transform image, and the target has the entries of the pre-transform image when that has
no all-zero entry. -/
theorem C5_identity_transform (D : Dict) (c : StorageMap) (keccak : Nat → Nat) (n : Nat)
    (reorgMessges : List ReorgInfo) (Jm : ReorgInfo → Moves)
    (hkey : ∀ t d, D t = some d → d.TypeName = t) (hD : D.isIdentity)
    (hmsgs : ∀ msg : ReorgInfo, msg ∈ reorgMessges → msg.isIdentity)
    (hlay : ∀ msg, msg ∈ reorgMessges →
      ∃ e, entryOf D msg.TypeName = some e ∧ Layout D keccak c n e msg (Jm msg)) :
    ∃ m', Reorganize D c keccak n reorgMessges ∅ = .ok m' ∧
      (∀ x, (∃ msg, msg ∈ reorgMessges ∧ Jm msg x x) →
        byteAt (GetCommitedState (Commit c c m')) x = byteAt (GetCommitedState c) x) ∧
      (∀ x, (¬ ∃ msg, msg ∈ reorgMessges ∧ Jm msg x x) →
        byteAt (GetCommitedState (Commit c c m')) x = 0) ∧
      ((∀ x, byteAt (GetCommitedState c) x ≠ 0 → ∃ msg, msg ∈ reorgMessges ∧ Jm msg x x) →
        (∀ k, GetCommitedState (Commit c c m') k = GetCommitedState c k) ∧
        ((∀ k, c.get? k ≠ some zeroHash) → ∀ k, (Commit c c m').get? k = c.get? k)) := by
  have hdiag : ∀ msg, msg ∈ reorgMessges → ∀ d s, Jm msg d s → d = s := by
    intro msg hmsg d s hj
    obtain ⟨e, _, hl⟩ := hlay msg hmsg
    exact Layout_identity D keccak c hD n e msg (Jm msg) hl (hmsgs msg hmsg) d s hj
  obtain ⟨m', hrun, hr1, hr2⟩ := Reorganize_realizes D c keccak hkey n reorgMessges Jm hlay
    (by
      intro msg msg' d s s' hmsg hmsg' h1 h2
      rw [← hdiag msg hmsg d s h1, ← hdiag msg' hmsg' d s' h2]) ∅
  have hcov : ∀ x, (∃ msg, msg ∈ reorgMessges ∧ Jm msg x x) →
      byteAt (GetCommitedState (Commit c c m')) x = byteAt (GetCommitedState c) x := by
    rintro x ⟨msg, hmsg, hj⟩
    exact (byteAt_CommitShared c m' x).trans (hr1 x x ⟨msg, hmsg, hj⟩)
  have hunc : ∀ x, (¬ ∃ msg, msg ∈ reorgMessges ∧ Jm msg x x) →
      byteAt (GetCommitedState (Commit c c m')) x = 0 := by
    intro x hx
    refine (byteAt_CommitShared c m' x).trans ?_
    rw [hr2 x (fun s ⟨msg, hmsg, hj⟩ => hx ⟨msg, hmsg, by
      have := hdiag msg hmsg x s hj
      rw [← this] at hj
      exact hj⟩)]
    exact byteAt_empty x
  exact ⟨m', hrun, hcov, hunc, fun hall =>
    image_eq_of_bytes c (Commit c c m') _ hcov hunc (CommitShared_nonzero c m') hall⟩

/-- C14 (amended): round trip.  In a dictionary keyed by type name, let every directive
have a layout: passed to the rewriter that the encoding of its type selects, it stands for
a set of byte moves under the rules of `Layout` (regions of primitives of unchanged width
without `uint64` wrap; regions of structs with as many repetitions on the old side as on
the new one, whatever the widths and the member offsets; dynamic arrays and byte strings
with head slots of width 32; nested freely, but no array whose elements are byte strings),
and let moves that have one destination carry equal bytes.  Then the layout change followed
by the inverse change returns `nil` and leaves an image without all-zero entries in which
every byte that is the source of a move is the byte of the original image and every other
byte is zero.  When every non-zero byte of the original image is the source of a move,
every slot of the result reads as in the original image, and the result has the entries of
the original image when that has no all-zero entry. -/
theorem C14_round_trip (D : Dict) (c : StorageMap) (keccak : Nat → Nat) (n : Nat)
    (msgs : List ReorgInfo) (Jm : ReorgInfo → Moves)
    (hkey : ∀ t d, D t = some d → d.TypeName = t)
    (hlay : ∀ msg, msg ∈ msgs →
      ∃ e, entryOf D msg.TypeName = some e ∧ Layout D keccak c n e msg (Jm msg))
    (hcompat : ∀ msg msg' d s s', msg ∈ msgs → msg' ∈ msgs → Jm msg d s → Jm msg' d s' →
      byteAt (GetCommitedState c) s = byteAt (GetCommitedState c) s') :
    ∃ c2, roundTrip D c keccak n msgs = .ok c2 ∧
      (∀ x, (∃ msg, msg ∈ msgs ∧ ∃ d, Jm msg d x) →
        byteAt (GetCommitedState c2) x = byteAt (GetCommitedState c) x) ∧
      (∀ x, (¬ ∃ msg, msg ∈ msgs ∧ ∃ d, Jm msg d x) → byteAt (GetCommitedState c2) x = 0) ∧
      (∀ k, c2.get? k ≠ some zeroHash) ∧
      ((∀ x, byteAt (GetCommitedState c) x ≠ 0 → ∃ msg, msg ∈ msgs ∧ ∃ d, Jm msg d x) →
        (∀ k, GetCommitedState c2 k = GetCommitedState c k) ∧
        ((∀ k, c.get? k ≠ some zeroHash) → ∀ k, c2.get? k = c.get? k)) := by
  obtain ⟨m1, hrun1, hf1, hf2⟩ := Reorganize_realizes D c keccak hkey n msgs Jm hlay hcompat ∅
  have hmoved : ∀ msg, msg ∈ msgs → ∀ d s, Jm msg d s →
      byteAt (GetCommitedState (CommitShared c m1)) d = byteAt (GetCommitedState c) s := by
    intro msg hmsg d s hj
    exact (byteAt_CommitShared c m1 d).trans (hf1 d s ⟨msg, hmsg, hj⟩)
  obtain ⟨m2, hrun2, hb1, hb2⟩ := Reorganize_realizes D.inverse (CommitShared c m1) keccak
    (D.inverse_key hkey) n (msgs.map ReorgInfo.inverse)
    (fun msg' => fun d s => Jm msg'.inverse s d)
    (by
      intro msg' hmsg'
      obtain ⟨msg, hmsg, rfl⟩ := List.mem_map.mp hmsg'
      obtain ⟨e, he, hl⟩ := hlay msg hmsg
      exact ⟨e, by rw [entryOf_inverse]; exact he,
        Layout_inverse D keccak c (CommitShared c m1) n e msg (Jm msg) hl (hmoved msg hmsg)⟩)
    (by
      intro a b d s s' ha hb h1 h2
      obtain ⟨msga, hmsga, rfl⟩ := List.mem_map.mp ha
      obtain ⟨msgb, hmsgb, rfl⟩ := List.mem_map.mp hb
      rw [hmoved msga hmsga s d h1, hmoved msgb hmsgb s' d h2]) ∅
  have hrt : roundTrip D c keccak n msgs = .ok (CommitShared (CommitShared c m1) m2) := by
    unfold roundTrip
    rw [hrun1]
    simp only []
    rw [hrun2]
  have hsrc : ∀ x, (∃ msg, msg ∈ msgs ∧ ∃ d, Jm msg d x) →
      byteAt (GetCommitedState (CommitShared (CommitShared c m1) m2)) x
        = byteAt (GetCommitedState c) x := by
    rintro x ⟨msg, hmsg, d, hj⟩
    refine (byteAt_CommitShared _ m2 x).trans ?_
    rw [hb1 x d ⟨msg.inverse, List.mem_map.mpr ⟨msg, hmsg, rfl⟩, hj⟩]
    exact hmoved msg hmsg d x hj
  have hoth : ∀ x, (¬ ∃ msg, msg ∈ msgs ∧ ∃ d, Jm msg d x) →
      byteAt (GetCommitedState (CommitShared (CommitShared c m1) m2)) x = 0 := by
    intro x hx
    refine (byteAt_CommitShared _ m2 x).trans ?_
    rw [hb2 x (by
      rintro d ⟨msg', hmsg', hj⟩
      obtain ⟨msg, hmsg, rfl⟩ := List.mem_map.mp hmsg'
      exact hx ⟨msg, hmsg, d, hj⟩)]
    exact byteAt_empty x
  exact ⟨_, hrt, hsrc, hoth, CommitShared_nonzero _ m2, fun hall =>
    image_eq_of_bytes c _ _ hsrc hoth (CommitShared_nonzero _ m2) hall⟩

theorem get?_ofList (l : List (Nat × Hash)) (k : Nat) :
    (StorageMap.ofList l).get? k
      = (l.map (fun p => (⟨p.1, p.2⟩ : Sigma (fun _ : Nat => Hash)))).dlookup k := by
  unfold StorageMap.get? StorageMap.ofList
  exact AList.lookup_to_alist _

/-- A key that is not in the list reads as zero. -/
theorem GetCommitedState_ofList_zero (l : List (Nat × Hash)) (k : Nat)
    (h : ∀ p, p ∈ l → p.1 ≠ k) : GetCommitedState (StorageMap.ofList l) k = zeroHash := by
  unfold GetCommitedState
  rw [get?_ofList]
  have : (l.map (fun p => (⟨p.1, p.2⟩ : Sigma (fun _ : Nat => Hash)))).dlookup k = none := by
    rw [List.dlookup_eq_none]
    unfold List.keys
    simp only [List.mem_map, not_exists, not_and]
    rintro ⟨a, b⟩ ⟨p, hp, hx⟩ e
    have h1 : p.1 = a := congrArg Sigma.fst hx
    exact h p hp (h1.trans e)
  rw [this]

/-- A map built from a list without all-zero values has no all-zero entry. -/
theorem ofList_nonzero (l : List (Nat × Hash)) (h : ∀ p, p ∈ l → p.2 ≠ zeroHash) (k : Nat) :
    (StorageMap.ofList l).get? k ≠ some zeroHash := by
  rw [get?_ofList]
  intro e
  have hmem := List.of_mem_dlookup (Option.mem_def.mpr e)
  simp only [List.mem_map] at hmem
  obtain ⟨p, hp, hx⟩ := hmem
  have h2 : p.2 = zeroHash := by
    have := congrArg (fun s : Sigma (fun _ : Nat => Hash) => s.2) hx
    exact this
  exact h p hp h2

/-- The moves of a region of primitives have one source for each destination. -/
theorem primitiveMoves_functional (msg : ReorgInfo) (w : Nat) (hno : msg.NewOffset + w ≤ u64)
    (d s s' : Loc) (h1 : primitiveMoves msg w d s) (h2 : primitiveMoves msg w d s') :
    s = s' := by
  obtain ⟨k, hk, e1, rfl⟩ := h1
  obtain ⟨k', hk', e2, rfl⟩ := h2
  rw [e1] at e2
  unfold destByte at e2
  have e := slotAt_inj msg.NewSlot _ _ (by omega) (by omega) (congrArg Prod.fst e2)
    (congrArg Prod.snd e2)
  have : k = k' := by omega
  rw [this]

/-- Source byte `k` of a directive that stays within its first slot. -/
theorem srcByte_first (sub : ReorgInfo) (k : Nat) (hs : sub.PrevSlot < slotModulus)
    (hk : sub.PrevOffset + k < 32) (pos : Fin 32) (hp : pos.val = 31 - (sub.PrevOffset + k)) :
    srcByte sub k = (sub.PrevSlot, pos) := by
  unfold srcByte
  rw [slotAt_small _ _ hs hk]
  congr 1
  unfold bytePos
  apply Fin.ext
  simp only []
  rw [hp, Nat.mod_eq_of_lt hk]

theorem structImage_read (k : Nat) (hk : k ≠ 0) : GetCommitedState structImage k = zeroHash :=
  GetCommitedState_ofList_zero _ k (by
    intro p hp
    simp only [List.mem_singleton] at hp
    rw [hp]
    exact fun e => hk e.symm)

/-- The layout of the struct of S5. -/
theorem s5_layout :
    Layout structTypes toyKeccak structImage 2 .inplace ⟨"t_struct", 0, 0, 0, 0⟩ s5Moves := by
  refine Layout.struct 1 1 ⟨"t_struct", 0, 0, 0, 0⟩ s5Struct s5Struct "t_struct" "inplace"
    "t_struct" (fun _ => .inplace)
    (fun i member => primitiveMoves
      (memberDirective (0 + i * (s5Struct.PrevNumberOfBytes / 32))
        (0 + i * (s5Struct.NewNumberOfBytes / 32)) member member.TypeName) 16)
    (by decide) (by decide) (by decide) (by decide) (by decide) (by decide) (by decide)
    (by decide) (by decide) (by decide) (by decide) (by decide) (by decide) ?_
  intro i member hi hmem
  have hi0 : i = 0 := by
    have : s5Struct.PrevNumberOfBytes / s5Struct.PrevNumberOfBytes = 1 := by decide
    omega
  subst hi0
  simp only [s5Struct, List.mem_cons, List.mem_singleton, List.not_mem_nil, or_false] at hmem
  rcases hmem with rfl | rfl
  · exact Layout.primitive 1 1 _ ⟨"t_uint128", "", "inplace", 16, 16, []⟩ "t_uint128" ""
      (by decide) (by decide) (by decide) (by decide) (by decide) (by decide) (by decide)
  · exact Layout.primitive 1 1 _ ⟨"t_uint128", "", "inplace", 16, 16, []⟩ "t_uint128" ""
      (by decide) (by decide) (by decide) (by decide) (by decide) (by decide) (by decide)

/-- The moves of S5 have one source for each destination. -/
theorem s5_functional (d s s' : Loc) (h1 : s5Moves d s) (h2 : s5Moves d s') : s = s' := by
  obtain ⟨i, hi, member, hmem, h1⟩ := h1
  obtain ⟨i', hi', member', hmem', h2⟩ := h2
  have hc : s5Struct.PrevNumberOfBytes / s5Struct.PrevNumberOfBytes = 1 := by decide
  have hi0 : i = 0 := by omega
  have hi0' : i' = 0 := by omega
  subst hi0 hi0'
  simp only [s5Struct, List.mem_cons, List.mem_singleton, List.not_mem_nil, or_false]
    at hmem hmem'
  rcases hmem with rfl | rfl <;> rcases hmem' with rfl | rfl
  · exact primitiveMoves_functional _ 16 (by decide) d s s' h1 h2
  · obtain ⟨k, hk, e1, _⟩ := h1
    obtain ⟨k', hk', e2, _⟩ := h2
    rw [e1] at e2
    have e := congrArg Prod.fst e2
    simp [destByte, memberDirective, slotAt] at e
    simp only [slotModulus] at e
    omega
  · obtain ⟨k, hk, e1, _⟩ := h1
    obtain ⟨k', hk', e2, _⟩ := h2
    rw [e1] at e2
    have e := congrArg Prod.fst e2
    simp [destByte, memberDirective, slotAt] at e
    simp only [slotModulus] at e
    omega
  · exact primitiveMoves_functional _ 16 (by decide) d s s' h1 h2

/-- Every non-zero byte of the image of S5 is the source of a move. -/
theorem s5_covered (x : Loc) (hx : byteAt (GetCommitedState structImage) x ≠ 0) :
    ∃ d, s5Moves d x := by
  obtain ⟨key, pos⟩ := x
  have hkey : key = 0 := by
    by_contra hne
    apply hx
    unfold byteAt
    simp only []
    rw [structImage_read key hne]
    exact zeroHash_get pos
  subst hkey
  have hpos := pos.isLt
  by_cases hlow : 31 - pos.val < 16
  · refine ⟨destByte (memberDirective 0 0 ⟨0, 16, 0, 0, "t_uint128"⟩ "t_uint128")
      (31 - pos.val), 0, by decide, ⟨0, 16, 0, 0, "t_uint128"⟩, by decide, 31 - pos.val, hlow,
      rfl, ?_⟩
    exact (srcByte_first (memberDirective 0 0 ⟨0, 16, 0, 0, "t_uint128"⟩ "t_uint128")
      (31 - pos.val) (by decide) (by
      show 0 + (31 - pos.val) < 32
      omega) pos (by
      show pos.val = 31 - (0 + (31 - pos.val))
      omega)).symm
  · refine ⟨destByte (memberDirective 0 0 ⟨16, 0, 0, 1, "t_uint128"⟩ "t_uint128")
      (31 - pos.val - 16), 0, by decide, ⟨16, 0, 0, 1, "t_uint128"⟩, by decide,
      31 - pos.val - 16, by omega, rfl, ?_⟩
    exact (srcByte_first (memberDirective 0 0 ⟨16, 0, 0, 1, "t_uint128"⟩ "t_uint128")
      (31 - pos.val - 16) (by decide) (by
      show 16 + (31 - pos.val - 16) < 32
      omega) pos (by
      show pos.val = 31 - (16 + (31 - pos.val - 16))
      omega)).symm

theorem arrayImage_count : (GetCommitedState arrayImage 2).Big / (32 / 32) +
    (if (GetCommitedState arrayImage 2).Big % (32 / 32) > 0 then 1 else 0) = 3 := by
  decide

/-- The layout of the array of S4 with its head moved from slot 2 to slot `ns`. -/
theorem s4_layout (ns : Nat) :
    Layout scenarioTypes toyKeccak arrayImage 1 .dynamicArray ⟨"t_array_uint256", 2, ns, 0, 0⟩
      (s4Moves ns) := by
  refine Layout.arrayFlat 1 ⟨"t_array_uint256", 2, ns, 0, 0⟩
    ⟨"t_array_uint256", "t_uint256", "dynamic_array", 32, 32, []⟩
    ⟨"t_uint256", "", "inplace", 32, 32, []⟩
    (fun i j => primitiveMoves
      ⟨"t_uint256", (toyKeccak 2 + i) % slotModulus, (toyKeccak ns + i) % slotModulus,
        j * 32, j * 32⟩ 32)
    (by show scenarioTypes "t_array_uint256" = _; decide) (by decide) (by decide)
    (by show (GetCommitedState arrayImage 2).Big ≠ 0; decide)
    (by decide) (by decide) (by decide) (by decide) (by decide) (by decide) (by decide) ?_
  intro i j _ hj
  have hj0 : j = 0 := Nat.lt_one_iff.mp hj
  subst hj0
  exact Layout.primitive 1 1 _ ⟨"t_uint256", "", "inplace", 32, 32, []⟩ "t_uint256" ""
    (by show scenarioTypes "t_uint256" = _; decide)
    (by show ExtractUntilInplace scenarioTypes 1 "t_uint256" = _; decide)
    (by show ContainsStruct scenarioTypes 1 "t_uint256" = _; decide)
    (by decide) (by decide) (by show 0 * 32 + 32 < u64; decide)
    (by show 0 * 32 + 32 < u64; decide)

/-- A whole-slot element: byte `k` of the element at offset 0 of slot `p`. -/
theorem wholeSlot_byte (p k : Nat) (hp : p < slotModulus) (hk : k < 32) :
    (slotAt p (0 * 32 + k), bytePos (0 * 32 + k)) = ((p, ⟨31 - k, by omega⟩) : Loc) := by
  rw [Nat.zero_mul, Nat.zero_add, slotAt_small p k hp hk]
  congr 1
  unfold bytePos
  apply Fin.ext
  simp only []
  rw [Nat.mod_eq_of_lt hk]

/-- The moves of S4 to head slot 7 have one source for each destination. -/
theorem s4_functional (d s s' : Loc) (h1 : s4Moves 7 d s) (h2 : s4Moves 7 d s') : s = s' := by
  have hdata : ∀ i k, i < 3 → k < 32 →
      (slotAt ((toyKeccak 7 + i) % slotModulus) (0 * 32 + k)) = toyKeccak 7 + i := by
    intro i k hi hk
    rw [Nat.zero_mul, Nat.zero_add, slotAt_small _ k (Nat.mod_lt _ (by decide)) hk]
    have : toyKeccak 7 = 7004117 := by decide
    rw [this]
    exact Nat.mod_eq_of_lt (by simp only [slotModulus]; omega)
  have htk : toyKeccak 7 = 7004117 := by decide
  rcases h1 with ⟨a1, a2, a3⟩ | ⟨i, hi, j, hj, k, hk, e1, e1'⟩
  · rcases h2 with ⟨b1, b2, b3⟩ | ⟨i', hi', j', hj', k', hk', e2, _⟩
    · exact Prod.ext (a2.trans b2.symm) (a3.symm.trans b3)
    · rw [arrayImage_count] at hi'
      have hj0 : j' = 0 := Nat.lt_one_iff.mp hj'
      subst hj0
      have e := congrArg Prod.fst e2
      unfold destByte at e
      simp only [] at e
      rw [hdata i' k' hi' hk', a1, htk] at e
      omega
  · rw [arrayImage_count] at hi
    have hj0 : j = 0 := Nat.lt_one_iff.mp hj
    subst hj0
    rcases h2 with ⟨b1, b2, b3⟩ | ⟨i', hi', j', hj', k', hk', e2, e2'⟩
    · have e := congrArg Prod.fst e1
      unfold destByte at e
      simp only [] at e
      rw [hdata i k hi hk, b1, htk] at e
      omega
    · rw [arrayImage_count] at hi'
      have hj0 : j' = 0 := Nat.lt_one_iff.mp hj'
      subst hj0
      have e := e1.symm.trans e2
      have ea := congrArg Prod.fst e
      unfold destByte at ea
      simp only [] at ea
      rw [hdata i k hi hk, hdata i' k' hi' hk'] at ea
      have hii : i = i' := by omega
      subst hii
      have := primitiveMoves_functional
        ⟨"t_uint256", (toyKeccak 2 + i) % slotModulus, (toyKeccak 7 + i) % slotModulus,
          0 * 32, 0 * 32⟩ 32 (by show 0 * 32 + 32 ≤ u64; decide) d s s'
        ⟨k, hk, e1, e1'⟩ ⟨k', hk', e2, e2'⟩
      exact this

theorem arrayImage_read (k : Nat) (h0 : k ≠ 2) (h1 : k ≠ toyKeccak 2)
    (h2 : k ≠ toyKeccak 2 + 1) (h3 : k ≠ toyKeccak 2 + 2) :
    GetCommitedState arrayImage k = zeroHash :=
  GetCommitedState_ofList_zero _ k (by
    intro p hp
    simp only [List.mem_cons, List.mem_singleton, List.not_mem_nil, or_false] at hp
    rcases hp with rfl | rfl | rfl | rfl
    · exact fun e => h0 e.symm
    · exact fun e => h1 e.symm
    · exact fun e => h2 e.symm
    · exact fun e => h3 e.symm)

/-- Every non-zero byte of the image of S4 is the source of a move, whatever the new head
slot. -/
theorem s4_covered (ns : Nat) (x : Loc) (hx : byteAt (GetCommitedState arrayImage) x ≠ 0) :
    ∃ d, s4Moves ns d x := by
  obtain ⟨key, pos⟩ := x
  have hpos := pos.isLt
  have hsrc : ∀ i, i < 3 → key = toyKeccak 2 + i → ∃ d, s4Moves ns d (key, pos) := by
    intro i hi hkey
    refine ⟨destByte ⟨"t_uint256", (toyKeccak 2 + i) % slotModulus,
      (toyKeccak ns + i) % slotModulus, 0 * 32, 0 * 32⟩ (31 - pos.val), Or.inr ⟨i, ?_, 0,
        by decide, 31 - pos.val, by omega, rfl, ?_⟩⟩
    · rw [arrayImage_count]
      exact hi
    · unfold srcByte
      simp only []
      rw [wholeSlot_byte _ _ (Nat.mod_lt _ (by decide)) (by omega)]
      have htk : toyKeccak 2 = 2004102 := by decide
      have hm : (toyKeccak 2 + i) % slotModulus = toyKeccak 2 + i := by
        rw [htk]
        exact Nat.mod_eq_of_lt (by simp only [slotModulus]; omega)
      rw [hm, hkey]
      congr 1
      apply Fin.ext
      simp only []
      omega
  by_cases h0 : key = 2
  · subst h0
    exact ⟨(ns, pos), Or.inl ⟨rfl, rfl, rfl⟩⟩
  by_cases h1 : key = toyKeccak 2
  · exact hsrc 0 (by decide) h1
  by_cases h2 : key = toyKeccak 2 + 1
  · exact hsrc 1 (by decide) h2
  by_cases h3 : key = toyKeccak 2 + 2
  · exact hsrc 2 (by decide) h3
  exfalso
  apply hx
  unfold byteAt
  simp only []
  rw [arrayImage_read key h0 h1 h2 h3]
  exact zeroHash_get pos

theorem longBytes_slots : (bytesNumberOfSlots (GetCommitedState longBytesImage 5)).toNat = 2 := by
  decide

theorem longBytes_flag : ((GetCommitedState longBytesImage 5).get 31).val &&& 1 ≠ 0 := by
  decide

/-- The layout of the long byte string with its head moved from slot 5 to slot 9. -/
theorem longBytes_layout :
    Layout scenarioTypes toyKeccak longBytesImage 1 .bytes ⟨"t_bytes", 5, 9, 0, 0⟩
      longBytesMoves :=
  Layout.bytes 1 ⟨"t_bytes", 5, 9, 0, 0⟩ ⟨"t_bytes", "", "bytes", 32, 32, []⟩ (by decide)
    (by decide) (by decide)

/-- The moves of the long byte string have one source for each destination. -/
theorem longBytes_functional (d s s' : Loc) (h1 : longBytesMoves d s)
    (h2 : longBytesMoves d s') : s = s' := by
  have htk : toyKeccak 9 = 9004123 := by decide
  have hm : ∀ i, i < 2 → (toyKeccak 9 + i) % slotModulus = 9004123 + i := by
    intro i hi
    rw [htk]
    exact Nat.mod_eq_of_lt (by simp only [slotModulus]; omega)
  rcases h1 with ⟨a1, a2, a3⟩ | ⟨_, i, hi, a1, a2, a3⟩
  · rcases h2 with ⟨b1, b2, b3⟩ | ⟨_, i', hi', b1, b2, b3⟩
    · exact Prod.ext (a2.trans b2.symm) (a3.symm.trans b3)
    · rw [longBytes_slots] at hi'
      rw [hm i' hi', a1] at b1
      omega
  · rw [longBytes_slots] at hi
    rcases h2 with ⟨b1, b2, b3⟩ | ⟨_, i', hi', b1, b2, b3⟩
    · rw [hm i hi, b1] at a1
      omega
    · rw [longBytes_slots] at hi'
      rw [hm i hi, b1, hm i' hi'] at a1
      have hii : i' = i := by omega
      subst hii
      exact Prod.ext (a2.trans b2.symm) (a3.symm.trans b3)

theorem longBytesImage_read (k : Nat) (h0 : k ≠ 5) (h1 : k ≠ toyKeccak 5)
    (h2 : k ≠ toyKeccak 5 + 1) : GetCommitedState longBytesImage k = zeroHash :=
  GetCommitedState_ofList_zero _ k (by
    intro p hp
    simp only [List.mem_cons, List.mem_singleton, List.not_mem_nil, or_false] at hp
    rcases hp with rfl | rfl | rfl
    · exact fun e => h0 e.symm
    · exact fun e => h1 e.symm
    · exact fun e => h2 e.symm)

/-- Every non-zero byte of the image of the long byte string is the source of a move. -/
theorem longBytes_covered (x : Loc) (hx : byteAt (GetCommitedState longBytesImage) x ≠ 0) :
    ∃ d, longBytesMoves d x := by
  obtain ⟨key, pos⟩ := x
  have htk : toyKeccak 5 = 5004111 := by decide
  have hsrc : ∀ i, i < 2 → key = toyKeccak 5 + i → ∃ d, longBytesMoves d (key, pos) := by
    intro i hi hkey
    refine ⟨((toyKeccak 9 + i) % slotModulus, pos), Or.inr ⟨longBytes_flag, i, ?_, rfl, ?_,
      rfl⟩⟩
    · rw [longBytes_slots]
      exact hi
    · show key = (toyKeccak 5 + i) % slotModulus
      rw [hkey, htk]
      exact (Nat.mod_eq_of_lt (by simp only [slotModulus]; omega)).symm
  by_cases h0 : key = 5
  · subst h0
    exact ⟨(9, pos), Or.inl ⟨rfl, rfl, rfl⟩⟩
  by_cases h1 : key = toyKeccak 5
  · exact hsrc 0 (by decide) h1
  by_cases h2 : key = toyKeccak 5 + 1
  · exact hsrc 1 (by decide) h2
  exfalso
  apply hx
  unfold byteAt
  simp only []
  rw [longBytesImage_read key h0 h1 h2]
  exact zeroHash_get pos

set_option maxRecDepth 100000 in
/-- C14 witness: three round trips, each evaluated and each obtained from the theorem with
its layout: the struct of S5, whose width changes from 32 to 64 bytes and whose members
change slot and offset; the dynamic array of S4, moved from head slot 2 to head slot 7; and
a long byte string, moved from head slot 5 to head slot 9.  Each returns the original
image. -/
theorem C14_round_trip_witness :
    (roundTrip structTypes structImage toyKeccak 2 [⟨"t_struct", 0, 0, 0, 0⟩] = .ok structImage ∧
      ∃ c2, roundTrip structTypes structImage toyKeccak 2 [⟨"t_struct", 0, 0, 0, 0⟩] = .ok c2 ∧
        ∀ k, c2.get? k = structImage.get? k) ∧
    (roundTrip scenarioTypes arrayImage toyKeccak 1 [⟨"t_array_uint256", 2, 7, 0, 0⟩]
        = .ok arrayImage ∧
      ∃ c2, roundTrip scenarioTypes arrayImage toyKeccak 1 [⟨"t_array_uint256", 2, 7, 0, 0⟩]
          = .ok c2 ∧
        ∀ k, c2.get? k = arrayImage.get? k) ∧
    (roundTrip scenarioTypes longBytesImage toyKeccak 1 [⟨"t_bytes", 5, 9, 0, 0⟩]
        = .ok longBytesImage ∧
      ∃ c2, roundTrip scenarioTypes longBytesImage toyKeccak 1 [⟨"t_bytes", 5, 9, 0, 0⟩]
          = .ok c2 ∧
        ∀ k, c2.get? k = longBytesImage.get? k) :=
  ⟨⟨by decide,
      (C14_round_trip structTypes structImage toyKeccak 2 [⟨"t_struct", 0, 0, 0, 0⟩]
        (fun _ => s5Moves) (Init_TypeName _)
        (fun msg hmsg => ⟨.inplace, by rw [List.mem_singleton.mp hmsg]; decide,
          by rw [List.mem_singleton.mp hmsg]; exact s5_layout⟩)
        (fun _ _ d s s' _ _ h1 h2 => by rw [s5_functional d s s' h1 h2])).imp
        (fun _ h => ⟨h.1, (h.2.2.2.2 (fun x hx =>
          ⟨_, List.mem_singleton.mpr rfl, s5_covered x hx⟩)).2
          (ofList_nonzero _ (by decide))⟩)⟩,
    ⟨by decide,
      (C14_round_trip scenarioTypes arrayImage toyKeccak 1 [⟨"t_array_uint256", 2, 7, 0, 0⟩]
        (fun _ => s4Moves 7) (Init_TypeName _)
        (fun msg hmsg => ⟨.dynamicArray, by rw [List.mem_singleton.mp hmsg]; decide,
          by rw [List.mem_singleton.mp hmsg]; exact s4_layout 7⟩)
        (fun _ _ d s s' _ _ h1 h2 => by rw [s4_functional d s s' h1 h2])).imp
        (fun _ h => ⟨h.1, (h.2.2.2.2 (fun x hx =>
          ⟨_, List.mem_singleton.mpr rfl, s4_covered 7 x hx⟩)).2
          (ofList_nonzero _ (by decide))⟩)⟩,
    ⟨by decide,
      (C14_round_trip scenarioTypes longBytesImage toyKeccak 1 [⟨"t_bytes", 5, 9, 0, 0⟩]
        (fun _ => longBytesMoves) (Init_TypeName _)
        (fun msg hmsg => ⟨.bytes, by rw [List.mem_singleton.mp hmsg]; decide,
          by rw [List.mem_singleton.mp hmsg]; exact longBytes_layout⟩)
        (fun _ _ d s s' _ _ h1 h2 => by rw [longBytes_functional d s s' h1 h2])).imp
        (fun _ h => ⟨h.1, (h.2.2.2.2 (fun x hx =>
          ⟨_, List.mem_singleton.mpr rfl, longBytes_covered x hx⟩)).2
          (ofList_nonzero _ (by decide))⟩)⟩⟩

set_option maxRecDepth 100000 in
/-- C5 witness: the identity directive on the dynamic array of S4, which covers the whole
image.  The run is evaluated, and by the theorem the target has the entries of the
pre-transform image after `Commit`. -/
theorem C5_identity_transform_witness :
    Reorganize scenarioTypes arrayImage toyKeccak 1 [⟨"t_array_uint256", 2, 2, 0, 0⟩] ∅
      = .ok (StorageMap.ofList [(toyKeccak 2 + 2, BigToHash 13), (toyKeccak 2 + 1, BigToHash 12),
          (toyKeccak 2, BigToHash 11), (2, BigToHash 3)]) ∧
    ∃ m', Reorganize scenarioTypes arrayImage toyKeccak 1 [⟨"t_array_uint256", 2, 2, 0, 0⟩] ∅
        = .ok m' ∧
      (∀ k, GetCommitedState (Commit arrayImage arrayImage m') k = GetCommitedState arrayImage k) ∧
      ∀ k, (Commit arrayImage arrayImage m').get? k = arrayImage.get? k :=
  ⟨by decide,
    (C5_identity_transform scenarioTypes arrayImage toyKeccak 1
      [⟨"t_array_uint256", 2, 2, 0, 0⟩] (fun _ => s4Moves 2) (Init_TypeName _)
      scenarioTypes_isIdentity (by decide)
      (fun msg hmsg => ⟨.dynamicArray, by rw [List.mem_singleton.mp hmsg]; decide,
        by rw [List.mem_singleton.mp hmsg]; exact s4_layout 2⟩)).imp
      (fun _ h =>
        have hcov := h.2.2.2 (fun x hx => by
          obtain ⟨d, hd⟩ := s4_covered 2 x hx
          have e := Layout_identity scenarioTypes toyKeccak arrayImage scenarioTypes_isIdentity
            1 .dynamicArray ⟨"t_array_uint256", 2, 2, 0, 0⟩ (s4Moves 2) (s4_layout 2)
            ⟨rfl, rfl⟩ d x hd
          rw [e] at hd
          exact ⟨_, List.mem_singleton.mpr rfl, hd⟩)
        ⟨h.1, hcov.1, hcov.2 (ofList_nonzero _ (by decide))⟩)⟩

end StorageReorg
